import Mathlib

/-!
# The `mini` front end: parser with inline scope and type checking

A shallow embedding of `src/parse.c` (with the type table of `src/types.c`).
The parser's file-level statics (`current_scope`, `stream`, `stream_pos`,
`stack_top`) and the heap of scopes they point into become one explicit
state record, `Parser`, threaded through every function.  `fatal(...)`
becomes an `Except.error` carrying the diagnostic category; dereferencing a
null pointer or reading outside the token vector is the error `Crash`.
Recursive descent and the `for (;;)` / `while` loops are driven by a fuel
argument; running out of it is the error `OutOfFuel`.

The `next` link of a node is not a field of the embedding: a statement list
or parameter list is a Lean `List Node`, and the expression stack (which the
C code threads through the same link) is the list `stack_top`.
-/

namespace Mini

/-! ## Tokens (`lex.h`, as far as `parse.c` uses it) -/

/-- Token kinds named in `parse.c`; `TOKEN_UNKNOWN` stands for every kind
the parser never names. -/
inductive TokenKind where
  | TOKEN_UNKNOWN | TOKEN_EOF
  | TOKEN_IDENTIFIER | TOKEN_NUMBER | TOKEN_TRUE | TOKEN_FALSE
  | TOKEN_FUNC | TOKEN_CONST | TOKEN_IF | TOKEN_ELIF | TOKEN_ELSE | TOKEN_RETURN
  | TOKEN_PLUS | TOKEN_MINUS | TOKEN_STAR | TOKEN_SLASH | TOKEN_BANG
  | TOKEN_DOUBLE_EQUAL | TOKEN_NOT_EQUAL | TOKEN_LANGLE | TOKEN_RANGLE
  | TOKEN_LESS_THAN_EQUAL | TOKEN_GREATER_THAN_EQUAL
  | TOKEN_WALRUS | TOKEN_COLON | TOKEN_EQUAL | TOKEN_SEMICOLON | TOKEN_COMMA
  | TOKEN_ARROW | TOKEN_LPAREN | TOKEN_RPAREN | TOKEN_LBRACE | TOKEN_RBRACE
  deriving DecidableEq, Repr

/-- One token: kind, position, and the payloads `str.data`, `i_val`, `b_val`. -/
structure Token where
  kind : TokenKind
  line : Nat
  col : Nat
  str : String
  i_val : Int
  b_val : Bool
  deriving DecidableEq, Repr

/-! ## Types (`types.c`) -/

/-- The C struct `Type`. -/
structure Ty where
  kind : Nat
  id : Nat
  name : String
  align : Nat
  size : Nat
  is_pointer : Bool
  deriving DecidableEq, Repr

/-- Modelled from the spec: the enumerators of `types.h` (not under `src/`)
that index `primitive_types`; "primitive types use reserved low values", here
in the order in which `types.c` lists them. -/
def TYPE_VOID : Nat := 0
/-- Modelled from the spec: see `TYPE_VOID`. -/
def TYPE_INT : Nat := 1
/-- Modelled from the spec: see `TYPE_VOID`. -/
def TYPE_UINT : Nat := 2
/-- Modelled from the spec: see `TYPE_VOID`. -/
def TYPE_FLOAT : Nat := 3
/-- Modelled from the spec: see `TYPE_VOID`. -/
def TYPE_DOUBLE : Nat := 4
/-- Modelled from the spec: see `TYPE_VOID`. -/
def TYPE_CHAR : Nat := 5
/-- Modelled from the spec: see `TYPE_VOID`. -/
def TYPE_BOOL : Nat := 6

/-- The table `primitive_types[]` of `types.c` (sizes for an LP64 target). -/
def primitive_types (k : Nat) : Ty :=
  if k = TYPE_VOID then ⟨TYPE_VOID, TYPE_VOID, "void", 0, 0, false⟩
  else if k = TYPE_INT then ⟨TYPE_INT, TYPE_INT, "int", 0, 8, false⟩
  else if k = TYPE_UINT then ⟨TYPE_UINT, TYPE_UINT, "uint", 0, 8, false⟩
  else if k = TYPE_FLOAT then ⟨TYPE_FLOAT, TYPE_FLOAT, "float", 0, 4, false⟩
  else if k = TYPE_DOUBLE then ⟨TYPE_DOUBLE, TYPE_DOUBLE, "double", 0, 8, false⟩
  else if k = TYPE_CHAR then ⟨TYPE_CHAR, TYPE_CHAR, "char", 0, 1, false⟩
  else if k = TYPE_BOOL then ⟨TYPE_BOOL, TYPE_BOOL, "bool", 0, 1, false⟩
  else ⟨0, 0, "", 0, 0, false⟩

/-! ## AST nodes (`parse.h`) -/

inductive NodeKind where
  | NODE_UNKNOWN | NODE_NOOP | NODE_FUNC_DECL | NODE_VAR_DECL | NODE_RET_STMT
  | NODE_COND_STMT | NODE_FUNC_CALL_EXPR | NODE_ASSIGN_STMT | NODE_UNARY_EXPR
  | NODE_BINARY_EXPR | NODE_LITERAL_EXPR | NODE_REF_EXPR
  deriving DecidableEq, Repr

inductive UnaryOp where
  | UN_UNKNOWN | UN_NEG | UN_NOT | UN_DEREF | UN_ADDR
  deriving DecidableEq, Repr

inductive BinaryOp where
  | BIN_UNKNOWN | BIN_ADD | BIN_SUB | BIN_MUL | BIN_DIV | BIN_CMP | BIN_CMP_NOT
  | BIN_CMP_LT | BIN_CMP_GT | BIN_CMP_LT_EQ | BIN_CMP_GT_EQ
  deriving DecidableEq, Repr

inductive ValueKind where
  | VAL_INT | VAL_UINT | VAL_FLOAT | VAL_DOUBLE | VAL_CHAR | VAL_BOOL
  | VAL_STRING | VAL_SIZE
  deriving DecidableEq, Repr

/-- The C struct `Value`, with the two union members the parser writes. -/
structure Value where
  kind : ValueKind
  i_val : Int
  b_val : Bool
  deriving DecidableEq, Repr

/-- The anonymous union of `struct Node`.  `zeroed` is the all-zero union
left by `calloc` in `make_node`.  Pointers to nodes are `Option`s (`NULL` is
`none`) and `next`-linked lists are `List`s. -/
inductive NodeData (α : Type) where
  | zeroed
  | func_decl (name : String) (return_type : Ty) (params : List α) (body : List α)
  | var_decl (name : String) (type : Ty) (init : Option α)
  | ret_stmt (value : Option α)
  | cond_stmt (expr : Option α) (body : List α)
  | assign (name : String) (value : Option α)
  | unary (un_op : UnaryOp) (expr : Option α)
  | binary (bin_op : BinaryOp) (lhs : Option α) (rhs : Option α)
  | literal (value : Value)
  | ref (name : String)

/-- The C struct `Node` without its `next` link. -/
inductive Node where
  | mk (kind : NodeKind) (type : Ty) (visited : Bool) (line : Nat) (col : Nat)
      (data : NodeData Node)

namespace Node

def kind : Node → NodeKind
  | mk k _ _ _ _ _ => k

def type : Node → Ty
  | mk _ t _ _ _ _ => t

def visited : Node → Bool
  | mk _ _ v _ _ _ => v

def line : Node → Nat
  | mk _ _ _ l _ _ => l

def col : Node → Nat
  | mk _ _ _ _ c _ => c

def data : Node → NodeData Node
  | mk _ _ _ _ _ d => d

def setKind (n : Node) (k : NodeKind) : Node :=
  mk k n.type n.visited n.line n.col n.data

def setType (n : Node) (t : Ty) : Node :=
  mk n.kind t n.visited n.line n.col n.data

def setPos (n : Node) (l c : Nat) : Node :=
  mk n.kind n.type n.visited l c n.data

def setData (n : Node) (d : NodeData Node) : Node :=
  mk n.kind n.type n.visited n.line n.col d

end Node

/-! ## Symbols and scopes (`symbols.h`, not under `src/`) -/

/-- Modelled from the spec: the symbol kinds of `symbols.h` (not under
`src/`); "`kind` ∈ {Variable, Function}". -/
inductive SymbolKind where
  | SYMBOL_VARIABLE | SYMBOL_FUNCTION
  deriving DecidableEq, Repr

/-- Modelled from the spec: the struct `Symbol` of `symbols.h` (not under
`src/`); "Symbols record kind (variable/function), type, constancy,
initialization state, and a reference to the declaring AST node." -/
structure Symbol where
  name : String
  kind : SymbolKind
  type : Ty
  is_constant : Bool
  is_initialized : Bool
  node : Option Node

/-- Modelled from the spec: the struct `SymbolTable` of `symbols.h` (not under
`src/`); a scope owns "a mapping from name to symbol", a `parent`
back-reference and a list of child scopes.  Pointers to scopes are indices
into the heap of scopes `Parser.scopes`. -/
structure SymbolTable where
  name : String
  symbols : List Symbol
  parent : Option Nat
  children : List Nat

/-- The symbol bound to `name` directly in one scope's mapping. -/
def SymbolTable.find (t : SymbolTable) (name : String) : Option Symbol :=
  t.symbols.find? (fun sym => decide (sym.name = name))

/-- Modelled from the spec: `symbol_table_create` of `symbols.c` (not under
`src/`); "allocates a new, empty scope". -/
def symbol_table_create (name : String) : SymbolTable :=
  ⟨name, [], none, []⟩

/-- Modelled from the spec: the symbol a successful `symbol_table_insert`
returns; the parser fills in `type`, `is_constant`, `is_initialized` and
`node` afterwards, until then they are zero ("the default is the `void` type
until assigned otherwise"). -/
def Symbol.fresh (name : String) (kind : SymbolKind) : Symbol :=
  ⟨name, kind, primitive_types TYPE_VOID, false, false, none⟩

/-- Modelled from the spec: `symbol_table_insert` of `symbols.c` (not under
`src/`), on one scope; "fails if `name` already exists *directly* in `scope`
(not in ancestors)", and `none` is that failure (the C `NULL`). -/
def SymbolTable.insert (t : SymbolTable) (name : String) (kind : SymbolKind) :
    Option SymbolTable :=
  match t.find name with
  | some _ => none
  | none => some { t with symbols := t.symbols ++ [Symbol.fresh name kind] }

/-- A write through a `Symbol *` that points at the symbol `name` of a scope. -/
def SymbolTable.update (t : SymbolTable) (name : String) (f : Symbol → Symbol) :
    SymbolTable :=
  { t with symbols := t.symbols.map (fun sym => if sym.name = name then f sym else sym) }

/-- Modelled from the spec: `symbol_table_lookup` of `symbols.c` (not under
`src/`), with the number of scopes still to visit as fuel; "searches
`scope`, then its parent, recursively, stopping at the root. Returns the
innermost (most recently shadowing) match." -/
def symbol_table_lookup_from (scopes : List SymbolTable) :
    Nat → Option Nat → String → Option Symbol
  | 0, _, _ => none
  | _ + 1, none, _ => none
  | fuel + 1, some i, name =>
    match scopes[i]? with
    | none => none
    | some t =>
      match t.find name with
      | some sym => some sym
      | none => symbol_table_lookup_from scopes fuel t.parent name

/-- Modelled from the spec: `symbol_table_lookup` of `symbols.c` (not under
`src/`); a parent chain without a cycle visits at most every scope once. -/
def symbol_table_lookup (scopes : List SymbolTable) (scope : Option Nat)
    (name : String) : Option Symbol :=
  symbol_table_lookup_from scopes scopes.length scope name

/-- Modelled from the spec: `symbol_table_add_child` of `symbols.c` (not under
`src/`); "records a child link for the scope tree", and the child's `parent`
back-reference, which `exit_scope` follows ("active-scope pointer restored to
the enclosing scope"). -/
def symbol_table_add_child (scopes : List SymbolTable) (parent child : Nat) :
    List SymbolTable :=
  (scopes.modify (fun t => { t with children := t.children ++ [child] }) parent).modify
    (fun t => { t with parent := some parent }) child

/-! ## Parser state and diagnostics -/

/-- The diagnostic categories of `fatal(...)` calls, plus the two ways the
embedding itself can stop: undefined behaviour of the C code (`Crash`) and
exhausted fuel. -/
inductive Fatal where
  | SyntaxError | UnknownSymbol | UnknownType | Redeclaration | TypeMismatch
  | MissingEntryPoint | Crash | OutOfFuel
  deriving DecidableEq, Repr

/-- The statics of `parse.c`, the heap of scopes, `ctx->global_scope`, and
the warnings logged so far. -/
structure Parser where
  current_scope : Option Nat
  stream : List Token
  stream_pos : Nat
  stack_top : List Node
  scopes : List SymbolTable
  global_scope : Nat
  warnings : List String

/-- The statement `stream_pos++`. -/
def Parser.advance (s : Parser) : Parser :=
  { s with stream_pos := s.stream_pos + 1 }

/-- An assignment to `stack_top`. -/
def Parser.setStack (s : Parser) (stack : List Node) : Parser :=
  { s with stack_top := stack }

/-- A write into the heap of scopes. -/
def Parser.setScopes (s : Parser) (scopes : List SymbolTable) : Parser :=
  { s with scopes := scopes }

/-- An assignment to `current_scope`. -/
def Parser.setCurrent (s : Parser) (scope : Option Nat) : Parser :=
  { s with current_scope := scope }

/-- The effect of `LOG_WARN` for the variable `name`. -/
def Parser.warn (s : Parser) (name : String) : Parser :=
  { s with warnings := s.warnings ++ [name] }

/-- The first two statements of `parse`: the active scope is the global
scope and `stream` the token vector. -/
def Parser.load (s : Parser) (tokens : List Token) : Parser :=
  { s with current_scope := some s.global_scope, stream := tokens }

def enter_scope (new_scope : Nat) (s : Parser) : Parser :=
  s.setCurrent (some new_scope)

def exit_scope (s : Parser) : Except Fatal Parser :=
  match s.current_scope with
  | none => .error .Crash
  | some i =>
    match s.scopes[i]? with
    | none => .error .Crash
    | some t => .ok (s.setCurrent t.parent)

def tok (s : Parser) : Except Fatal Token :=
  match s.stream[s.stream_pos]? with
  | some t => .ok t
  | none => .error .Crash

def consume (s : Parser) : Except Fatal (Token × Parser) :=
  match tok s with
  | .error e => .error e
  | .ok token => .ok (token, s.advance)

/-- The C function `match`. -/
def match_ (want : TokenKind) (s : Parser) : Except Fatal (Bool × Parser) :=
  match tok s with
  | .error e => .error e
  | .ok t =>
    if t.kind = want then
      match consume s with
      | .error e => .error e
      | .ok (_, s1) => .ok (true, s1)
    else .ok (false, s)

def expect (expected : TokenKind) (s : Parser) : Except Fatal (Token × Parser) :=
  match consume s with
  | .error e => .error e
  | .ok (got, s1) =>
    if got.kind ≠ expected then .error .SyntaxError else .ok (got, s1)

def make_node (kind : NodeKind) : Node :=
  Node.mk kind (primitive_types TYPE_VOID) false 0 0 .zeroed

def push_expr_node (expr : Node) (s : Parser) : Parser :=
  s.setStack (expr :: s.stack_top)

def pop_expr_node (s : Parser) : Except Fatal (Node × Parser) :=
  match s.stack_top with
  | [] => .error .Crash
  | ret :: [] => .ok (ret, s.setStack [])
  | ret :: top :: rest =>
    -- Propagate inner-most expression type to outer expressions
    .ok (ret, s.setStack (top.setType ret.type :: rest))

/-! ## Expressions -/

def parse_unary_expr (un_op : UnaryOp) (line col : Nat) (s : Parser) :
    Except Fatal (Node × Parser) :=
  let node := (make_node .NODE_UNARY_EXPR).setPos line col
  match pop_expr_node s with
  | .error e => .error e
  | .ok (expr, s1) =>
    .ok ((node.setData (.unary un_op (some expr))).setType expr.type, s1)

def parse_factor (s : Parser) : Except Fatal Parser :=
  let node := make_node .NODE_LITERAL_EXPR
  match consume s with
  | .error e => .error e
  | .ok (token, s1) =>
    match token.kind with
    | .TOKEN_IDENTIFIER =>
      -- Check to see if the variable we are referencing is valid
      let var_name := token.str
      match symbol_table_lookup s1.scopes s1.current_scope var_name with
      | none => .error .UnknownSymbol
      | some var_sym =>
        .ok (push_expr_node
          (((node.setKind .NODE_REF_EXPR).setType var_sym.type).setData (.ref var_name)) s1)
    | .TOKEN_NUMBER =>
      .ok (push_expr_node
        ((node.setType (primitive_types TYPE_INT)).setData
          (.literal ⟨.VAL_INT, token.i_val, false⟩)) s1)
    | .TOKEN_TRUE | .TOKEN_FALSE =>
      .ok (push_expr_node
        ((node.setType (primitive_types TYPE_BOOL)).setData
          (.literal ⟨.VAL_BOOL, 0, token.b_val⟩)) s1)
    | _ => .error .SyntaxError

/-- The `switch` of `parse_term`: the operator the current token stands for. -/
def term_op (k : TokenKind) : BinaryOp :=
  match k with
  | .TOKEN_STAR => .BIN_MUL
  | .TOKEN_SLASH => .BIN_DIV
  | _ => .BIN_UNKNOWN

mutual

def parse_binary_expr : Nat → BinaryOp → Nat → Nat → Parser → Except Fatal (Node × Parser)
  | 0, _, _, _, _ => .error .OutOfFuel
  | fuel + 1, bin_op, line, col, s =>
    let node := (make_node .NODE_BINARY_EXPR).setPos line col
    match pop_expr_node s with
    | .error e => .error e
    | .ok (lhs, s1) =>
      match parse_term fuel s1 with
      | .error e => .error e
      | .ok s2 =>
        match pop_expr_node s2 with
        | .error e => .error e
        | .ok (rhs, s3) =>
          if lhs.type.id ≠ rhs.type.id then .error .TypeMismatch
          else
            .ok ((node.setData (.binary bin_op (some lhs) (some rhs))).setType lhs.type, s3)

def parse_term : Nat → Parser → Except Fatal Parser
  | 0, _ => .error .OutOfFuel
  | fuel + 1, s =>
    match parse_factor s with
    | .error e => .error e
    | .ok s1 => parse_term_loop fuel s1

/-- The `for (;;)` loop of `parse_term`. -/
def parse_term_loop : Nat → Parser → Except Fatal Parser
  | 0, _ => .error .OutOfFuel
  | fuel + 1, s =>
    match tok s with
    | .error e => .error e
    | .ok t =>
      let bin_op := term_op t.kind
      if bin_op = .BIN_UNKNOWN then .ok s
      else
        match consume s with
        | .error e => .error e
        | .ok (_, s1) =>
          match parse_binary_expr fuel bin_op t.line t.col s1 with
          | .error e => .error e
          | .ok (node, s2) => parse_term_loop fuel (push_expr_node node s2)

end

/-- The first `switch` of `parse_expression`: the prefix operator the current
token stands for. -/
def unary_op (k : TokenKind) : UnaryOp :=
  match k with
  | .TOKEN_MINUS => .UN_NEG
  | .TOKEN_BANG => .UN_NOT
  | .TOKEN_STAR => .UN_DEREF
  | _ => .UN_UNKNOWN

/-- The second `switch` of `parse_expression`: the loose binary operator the
current token stands for. -/
def expr_op (k : TokenKind) : BinaryOp :=
  match k with
  | .TOKEN_PLUS => .BIN_ADD
  | .TOKEN_MINUS => .BIN_SUB
  | .TOKEN_DOUBLE_EQUAL => .BIN_CMP
  | .TOKEN_NOT_EQUAL => .BIN_CMP_NOT
  | .TOKEN_LANGLE => .BIN_CMP_LT
  | .TOKEN_RANGLE => .BIN_CMP_GT
  | .TOKEN_LESS_THAN_EQUAL => .BIN_CMP_LT_EQ
  | .TOKEN_GREATER_THAN_EQUAL => .BIN_CMP_GT_EQ
  | _ => .BIN_UNKNOWN

/-- The `for (;;)` loop of `parse_expression`. -/
def parse_expression_loop : Nat → Parser → Except Fatal Parser
  | 0, _ => .error .OutOfFuel
  | fuel + 1, s =>
    match tok s with
    | .error e => .error e
    | .ok t =>
      let bin_op := expr_op t.kind
      if bin_op = .BIN_UNKNOWN then .ok s
      else
        match consume s with
        | .error e => .error e
        | .ok (_, s1) =>
          match parse_binary_expr fuel bin_op t.line t.col s1 with
          | .error e => .error e
          | .ok (node, s2) => parse_expression_loop fuel (push_expr_node node s2)

def parse_expression (fuel : Nat) (s : Parser) : Except Fatal (Node × Parser) := do
  let t ← tok s
  let line := t.line
  let col := t.col
  let un_op := unary_op t.kind
  let s ← (if un_op = .UN_UNKNOWN then .ok s else (consume s).map Prod.snd : Except Fatal Parser)
  let s ← parse_term fuel s
  let s ← (if un_op ≠ .UN_UNKNOWN then
      (parse_unary_expr un_op line col s).map (fun r => push_expr_node r.1 r.2)
    else .ok s : Except Fatal Parser)
  let s ← parse_expression_loop fuel s
  pop_expr_node s

/-! ## Declarations and statements -/

def parse_type (s : Parser) : Except Fatal (Ty × Parser) :=
  match expect .TOKEN_IDENTIFIER s with
  | .error e => .error e
  | .ok (token, s1) =>
    let type_name := token.str
    -- Search for type Symbol in current scope
    match symbol_table_lookup s1.scopes s1.current_scope type_name with
    | none => .error .UnknownType
    | some type_sym => .ok (type_sym.type, s1)

/-- The call `symbol_table_insert(scope, name, kind)` on the heap of scopes:
`none` is the C `NULL` (already declared), a dangling `scope` is a crash. -/
def scope_insert (scopes : List SymbolTable) (scope : Option Nat) (name : String)
    (kind : SymbolKind) : Except Fatal (Option (List SymbolTable)) :=
  match scope with
  | none => .error .Crash
  | some i =>
    match scopes[i]? with
    | none => .error .Crash
    | some t =>
      match t.insert name kind with
      | none => .ok none
      | some t1 => .ok (some (scopes.set i t1))

/-- A write `sym->field = ...` through the pointer that `symbol_table_insert`
returned for `name` in scope `scope`. -/
def write_symbol (scope : Nat) (name : String) (f : Symbol → Symbol) (s : Parser) : Parser :=
  s.setScopes (s.scopes.modify (fun t => t.update name f) scope)

def parse_variable_declaration (fuel : Nat) (var_name : Option String) (s : Parser) :
    Except Fatal (Node × Parser) := do
  let t ← tok s
  let line := t.line
  let col := t.col
  -- Check if the variable is a constant and parse identifier if not yet parsed
  let (is_constant, var_name, s) ←
    (match var_name with
      | some n => (.ok (false, n, s) : Except Fatal (Bool × String × Parser))
      | none => do
        let (_, s) ← expect .TOKEN_CONST s
        let (ident, s) ← expect .TOKEN_IDENTIFIER s
        pure (true, ident.str, s))
  let node := (make_node .NODE_VAR_DECL).setPos line col
  -- Insert variable into current scope
  match ← scope_insert s.scopes s.current_scope var_name .SYMBOL_VARIABLE with
  | none => .error .Redeclaration
  | some scopes =>
    let cur := s.current_scope.getD 0
    let s := write_symbol cur var_name (fun sym => { sym with is_constant := is_constant })
      (s.setScopes scopes)
    -- Parse assignment and/or type declaration of variable
    let (walrus, s) ← match_ .TOKEN_WALRUS s
    let (node, s) ←
      (if walrus then do
        let (init, s) ← parse_expression fuel s
        -- Infer type from expression
        let node := node.setData (.var_decl var_name init.type (some init))
        let s := write_symbol cur var_name
          (fun sym => { sym with type := init.type, is_initialized := true }) s
        pure (node, s)
      else do
        let (_, s) ← expect .TOKEN_COLON s
        let (decl_type, s) ← parse_type s
        let (eq, s) ← match_ .TOKEN_EQUAL s
        if eq then do
          let (init, s) ← parse_expression fuel s
          let assign_type := init.type
          if decl_type.id ≠ assign_type.id then .error .TypeMismatch
          else
            let node := node.setData (.var_decl var_name decl_type (some init))
            let s := write_symbol cur var_name
              (fun sym => { sym with type := init.type, is_initialized := true }) s
            pure (node, s)
        else
          let node := node.setData (.var_decl var_name decl_type none)
          pure (node, s.warn var_name)
        : Except Fatal (Node × Parser))
    let (_, s) ← expect .TOKEN_SEMICOLON s
    -- Set the pointer to the Node for the symbol
    let s := write_symbol cur var_name (fun sym => { sym with node := some node }) s
    pure (node, s)

def parse_variable_assignment (fuel : Nat) (var_name : String) (s : Parser) :
    Except Fatal (Option Node × Parser) := do
  let t ← tok s
  let line := t.line
  let col := t.col
  let (_, s) ← consume s -- consume `=`
  match symbol_table_lookup s.scopes s.current_scope var_name with
  | none => .error .UnknownSymbol
  | some _ =>
    let node := (make_node .NODE_ASSIGN_STMT).setPos line col
    let (value, s) ← parse_expression fuel s
    let node := node.setData (.assign var_name (some value))
    let (_, s) ← expect .TOKEN_SEMICOLON s
    pure (some node, s)

def parse_function_call (_func_name : String) (s : Parser) :
    Except Fatal (Option Node × Parser) := do
  let (_, s) ← expect .TOKEN_SEMICOLON s
  pure (none, s)

/-- The statement `return e;` inside `parse_block`. -/
def parse_return (fuel : Nat) (s : Parser) : Except Fatal (Option Node × Parser) := do
  let (_, s) ← consume s
  let stmt := make_node .NODE_RET_STMT
  let (value, s) ← parse_expression fuel s
  let stmt := stmt.setData (.ret_stmt (some value))
  let (_, s) ← expect .TOKEN_SEMICOLON s
  pure (some stmt, s)

/-- The statement that starts with an identifier inside `parse_block`. -/
def parse_identifier_stmt (fuel : Nat) (s : Parser) : Except Fatal (Option Node × Parser) := do
  let (ident, s) ← consume s
  let identifier := ident.str
  let t ← tok s
  match t.kind with
  | .TOKEN_LPAREN => parse_function_call identifier s
  | .TOKEN_WALRUS | .TOKEN_COLON =>
    (parse_variable_declaration fuel (some identifier) s).map (fun r => (some r.1, r.2))
  | .TOKEN_EQUAL => parse_variable_assignment fuel identifier s
  | _ => .error .SyntaxError

/-- The node `parse_block` appends to a function body that does not end in a
`return`. -/
def implicit_return : Node :=
  (make_node .NODE_RET_STMT).setData (.ret_stmt none)

mutual

def parse_conditional : Nat → Parser → Except Fatal (Option Node × Parser)
  | 0, _ => .error .OutOfFuel
  | fuel + 1, s => do
    let (conditional, s) ← consume s
    let node := make_node .NODE_COND_STMT
    let (expr, s) ←
      (match conditional.kind with
        | .TOKEN_IF | .TOKEN_ELIF =>
          (parse_expression fuel s).map (fun r => (some r.1, r.2))
        | .TOKEN_ELSE => .ok (none, s)
        | _ => .error .SyntaxError : Except Fatal (Option Node × Parser))
    let (body, s) ← parse_block fuel false s
    pure (some (node.setData (.cond_stmt expr body)), s)

/-- The `while` loop of `parse_block`: `body` is the list built so far and
`stmt` the variable of that name. -/
def parse_block_loop : Nat → Parser → List Node → Option Node →
    Except Fatal (List Node × Option Node × Parser)
  | 0, _, _, _ => .error .OutOfFuel
  | fuel + 1, s, body, stmt => do
    let t ← tok s
    if t.kind = .TOKEN_RBRACE then pure (body, stmt, s)
    else
      let (stmt, s) ←
        (match t.kind with
          | .TOKEN_CONST =>
            (parse_variable_declaration fuel none s).map (fun r => (some r.1, r.2))
          | .TOKEN_IDENTIFIER => parse_identifier_stmt fuel s
          | .TOKEN_IF | .TOKEN_ELIF | .TOKEN_ELSE => parse_conditional fuel s
          | .TOKEN_RETURN => parse_return fuel s
          | _ => .error .SyntaxError : Except Fatal (Option Node × Parser))
      match stmt with
      | none => pure (body, none, s)
      | some n => parse_block_loop fuel s (body ++ [n]) (some n)

def parse_block : Nat → Bool → Parser → Except Fatal (List Node × Parser)
  | 0, _, _ => .error .OutOfFuel
  | fuel + 1, in_func_toplevel, s => do
    let (_, s) ← expect .TOKEN_LBRACE s
    let (body, stmt, s) ← parse_block_loop fuel s [] none
    let (_, s) ← expect .TOKEN_RBRACE s
    if in_func_toplevel && (match stmt with
        | none => true
        | some n => decide (n.kind ≠ .NODE_RET_STMT)) then
      pure (body ++ [implicit_return], s)
    else pure (body, s)

end

/-- The `while` loop over the parameters in `parse_function_declaration`;
`params` is the list built so far. -/
def parse_params_loop : Nat → Nat → Parser → List Node → Except Fatal (List Node × Parser)
  | 0, _, _, _ => .error .OutOfFuel
  | fuel + 1, func_scope, s, params => do
    let t ← tok s
    if t.kind = .TOKEN_RPAREN then pure (params, s)
    else
      let (param, s) ← expect .TOKEN_IDENTIFIER s
      let param_name := param.str
      let node := make_node .NODE_VAR_DECL
      -- Add paramter to function scope as a variable
      match ← scope_insert s.scopes (some func_scope) param_name .SYMBOL_VARIABLE with
      | none =>
        let _ ← tok s
        .error .Redeclaration
      | some scopes =>
        let s := s.setScopes scopes
        -- Parse type
        let (_, s) ← expect .TOKEN_COLON s
        let (type, s) ← parse_type s
        let node := node.setData (.var_decl param_name type none)
        -- If there is no comma after this parameter, we are done with parsing parameters
        let t ← tok s
        if t.kind ≠ .TOKEN_COMMA then pure (params ++ [node], s)
        else
          -- Otherwise, consume the comma Token and keep going
          let (_, s) ← consume s
          parse_params_loop fuel func_scope s (params ++ [node])

def parse_function_declaration (fuel : Nat) (s : Parser) : Except Fatal (Node × Parser) := do
  let t ← tok s
  let line := t.line
  let col := t.col
  let (_, s) ← consume s -- consume keyword `func`
  let (ident, s) ← expect .TOKEN_IDENTIFIER s
  let func_name := ident.str
  let node := (make_node .NODE_FUNC_DECL).setPos line col
  -- Insert function into current scope
  match ← scope_insert s.scopes s.current_scope func_name .SYMBOL_FUNCTION with
  | none => .error .Redeclaration
  | some scopes =>
    let enclosing := s.current_scope.getD 0
    -- Create function scope
    let func_scope := scopes.length
    let scopes := scopes ++ [symbol_table_create func_name]
    -- Insert function into its own scope for recursion
    let scopes := match scope_insert scopes (some func_scope) func_name .SYMBOL_FUNCTION with
      | .ok (some scopes1) => scopes1
      | _ => scopes
    -- Add function scope as child of current scope
    let scopes := symbol_table_add_child scopes enclosing func_scope
    -- Enter the function's scope
    let s := enter_scope func_scope (s.setScopes scopes)
    -- Parse parameters
    let (_, s) ← expect .TOKEN_LPAREN s
    let (params, s) ← parse_params_loop fuel func_scope s []
    let (_, s) ← expect .TOKEN_RPAREN s
    -- Parse function return type (if no arrow, it's TYPE_VOID)
    let (arrow, s) ← match_ .TOKEN_ARROW s
    let (return_type, s) ←
      (if arrow then parse_type s
        else .ok (primitive_types TYPE_VOID, s) : Except Fatal (Ty × Parser))
    -- Parse function body
    let (body, s) ← parse_block fuel true s
    let node := node.setData (.func_decl func_name return_type params body)
    -- Exit the function's scope
    let s ← exit_scope s
    let s := write_symbol enclosing func_name (fun sym => { sym with node := some node }) s
    pure (node, s)

/-- The `while` loop of `parse`; `ast` is the list of declarations so far. -/
def parse_loop : Nat → Parser → List Node → Except Fatal (List Node × Parser)
  | 0, _, _ => .error .OutOfFuel
  | fuel + 1, s, ast => do
    let t ← tok s
    if t.kind = .TOKEN_EOF then pure (ast, s)
    else
      let (decl, s) ←
        (match t.kind with
          | .TOKEN_FUNC => parse_function_declaration fuel s
          | .TOKEN_CONST => parse_variable_declaration fuel none s
          | .TOKEN_IDENTIFIER => do
            let (ident, s) ← consume s
            parse_variable_declaration fuel (some ident.str) s
          | _ => .error .SyntaxError : Except Fatal (Node × Parser))
      parse_loop fuel s (ast ++ [decl])

/-- The check `parse` makes after its loop: a symbol `main` of kind Function
is found from the global scope. -/
def has_entry_point (s : Parser) : Bool :=
  match symbol_table_lookup s.scopes (some s.global_scope) "main" with
  | none => false
  | some entry_point => decide (entry_point.kind = .SYMBOL_FUNCTION)

def parse (fuel : Nat) (tokens : List Token) (s : Parser) : Except Fatal (List Node × Parser) := do
  let s := s.load tokens
  let (ast, s) ← parse_loop fuel s []
  -- Do some checks here
  if !has_entry_point s then .error .MissingEntryPoint
  else pure (ast, s)

/-- The list `parse_block(true)` returns for a block whose written statements
are `written`: unchanged when the last one is a `return`, with one
`implicit_return` appended otherwise. -/
def return_terminated (written : List Node) : List Node :=
  match written.getLast? with
  | none => written ++ [implicit_return]
  | some n => if n.kind = .NODE_RET_STMT then written else written ++ [implicit_return]

/-! ## Concrete inputs -/

/-- A token that carries no payload. -/
def tk (k : TokenKind) : Token := ⟨k, 1, 1, "", 0, false⟩

/-- An identifier token. -/
def ident (name : String) : Token := ⟨.TOKEN_IDENTIFIER, 1, 1, name, 0, false⟩

/-- A number token. -/
def num (i : Int) : Token := ⟨.TOKEN_NUMBER, 1, 1, "", i, false⟩

/-- The token `true`. -/
def tk_true : Token := ⟨.TOKEN_TRUE, 1, 1, "", 0, true⟩

/-- The symbol that binds the name of a primitive type to it. `parse_type`
resolves a type name with `symbol_table_lookup`, so such symbols are in the
global scope before `parse` runs (by code that is not under `src/`). -/
def type_symbol (k : Nat) : Symbol :=
  ⟨(primitive_types k).name, .SYMBOL_VARIABLE, primitive_types k, false, true, none⟩

/-- A global scope that binds the seven primitive type names and nothing else. -/
def global_types : SymbolTable :=
  ⟨"global", [type_symbol TYPE_VOID, type_symbol TYPE_INT, type_symbol TYPE_UINT,
    type_symbol TYPE_FLOAT, type_symbol TYPE_DOUBLE, type_symbol TYPE_CHAR,
    type_symbol TYPE_BOOL], none, []⟩

/-- The parser state at process start over `global_types`. -/
def start : Parser := ⟨some 0, [], 0, [], [global_types], 0, []⟩

/-- The program `x := 1; x := 1;`. -/
def prog_x_twice : List Token :=
  [ident "x", tk .TOKEN_WALRUS, num 1, tk .TOKEN_SEMICOLON,
    ident "x", tk .TOKEN_WALRUS, num 1, tk .TOKEN_SEMICOLON, tk .TOKEN_EOF]

/-- A state whose active scope binds `x`, with the cursor on `:= 1;`. -/
def state_x_declared : Parser :=
  ⟨some 0, [tk .TOKEN_WALRUS, num 1, tk .TOKEN_SEMICOLON, tk .TOKEN_EOF], 0, [],
    [⟨"global", [Symbol.fresh "x" .SYMBOL_VARIABLE], none, []⟩], 0, []⟩

/-- A state whose active scope binds `x`, with the cursor on `const x := 1;`. -/
def state_x_declared_const : Parser :=
  ⟨some 0, [tk .TOKEN_CONST, ident "x", tk .TOKEN_WALRUS, num 1, tk .TOKEN_SEMICOLON,
    tk .TOKEN_EOF], 0, [],
    [⟨"global", [Symbol.fresh "x" .SYMBOL_VARIABLE], none, []⟩], 0, []⟩

/-- What parsing an expression can change in the state: the cursor and the
expression stack, nothing else. -/
structure SameScopes (s s' : Parser) : Prop where
  current_scope : s'.current_scope = s.current_scope
  stream : s'.stream = s.stream
  scopes : s'.scopes = s.scopes
  global_scope : s'.global_scope = s.global_scope
  warnings : s'.warnings = s.warnings

/-- The scope `t` with one more symbol. -/
def SymbolTable.extend (t : SymbolTable) (sym : Symbol) : SymbolTable :=
  { t with symbols := t.symbols ++ [sym] }

/-- The symbol the active scope binds directly to `name`, if any. -/
def local_symbol (s : Parser) (name : String) : Option Symbol :=
  match s.current_scope with
  | none => none
  | some cur =>
    match s.scopes[cur]? with
    | none => none
    | some t => t.find name

/-- The symbol a variable declaration of `x` leaves in the active scope: its
type is the initializer's, and `void` without one. -/
def declared_symbol (x : String) (is_constant : Bool) (init : Option Node) (node : Node) :
    Symbol :=
  ⟨x, .SYMBOL_VARIABLE,
    match init with
    | some i => i.type
    | none => primitive_types TYPE_VOID,
    is_constant, init.isSome, some node⟩

/-- The state of `parse_variable_declaration` once the symbol for `x` is in
scope `cur` (whose table was `tbl`) and its `is_constant` flag is written. -/
def declaring (s : Parser) (cur : Nat) (tbl : SymbolTable) (x : String) (is_constant : Bool) :
    Parser :=
  s.setScopes (s.scopes.set cur
    (tbl.extend ⟨x, .SYMBOL_VARIABLE, primitive_types TYPE_VOID, is_constant, false, none⟩))

/-- The tokens `:= 5;` (what follows the name in `x := 5;`). -/
def decl_walrus_5 : List Token :=
  [tk .TOKEN_WALRUS, num 5, tk .TOKEN_SEMICOLON, tk .TOKEN_EOF]

/-- The tokens `: int = 5;` (what follows the name in `x : int = 5;`). -/
def decl_int_5 : List Token :=
  [tk .TOKEN_COLON, ident "int", tk .TOKEN_EQUAL, num 5, tk .TOKEN_SEMICOLON, tk .TOKEN_EOF]

/-- The tokens `: int = true;` (what follows the name in `x : int = true;`). -/
def decl_int_true : List Token :=
  [tk .TOKEN_COLON, ident "int", tk .TOKEN_EQUAL, tk_true, tk .TOKEN_SEMICOLON, tk .TOKEN_EOF]

/-- The tokens `: int;` (what follows the name in `x : int;`). -/
def decl_int_uninitialized : List Token :=
  [tk .TOKEN_COLON, ident "int", tk .TOKEN_SEMICOLON, tk .TOKEN_EOF]

/-- The literal node `parse_factor` builds for the number `i`. -/
def int_literal (i : Int) : Node :=
  ((make_node .NODE_LITERAL_EXPR).setType (primitive_types TYPE_INT)).setData
    (.literal ⟨.VAL_INT, i, false⟩)

/-- The parser state at process start over a global scope that also binds a
variable `b` of type `bool`. -/
def start_with_b : Parser :=
  ⟨some 0, [], 0, [],
    [global_types.extend ⟨"b", .SYMBOL_VARIABLE, primitive_types TYPE_BOOL, false, true, none⟩],
    0, []⟩

/-- The state in which `parse_binary_expr` runs for the `+` of `1 + 2;`: the
left operand is on the stack and the cursor on `2`. -/
def state_after_lhs : Parser :=
  push_expr_node (int_literal 1) (start.load [num 2, tk .TOKEN_SEMICOLON, tk .TOKEN_EOF])

/-- What parsing statements inside one scope can change in the heap of scopes:
the table of the active scope, but not its parent link, and no other scope. -/
structure Frame (s s' : Parser) : Prop where
  current_scope : s'.current_scope = s.current_scope
  stream : s'.stream = s.stream
  global_scope : s'.global_scope = s.global_scope
  length : s'.scopes.length = s.scopes.length
  other : ∀ i : Nat, s.current_scope ≠ some i → s'.scopes[i]? = s.scopes[i]?
  parent : ∀ i : Nat, (s'.scopes[i]?).map SymbolTable.parent = (s.scopes[i]?).map SymbolTable.parent

/-- The heap of scopes when `parse_function_declaration` enters the scope of
the function `f`: the enclosing scope `cur` (whose table was `tbl`) binds `f`,
and the new scope, at the end of the heap, binds `f` too and is linked to `cur`
as its child. -/
def function_entry_scopes (scopes : List SymbolTable) (cur : Nat) (tbl : SymbolTable)
    (f : String) : List SymbolTable :=
  symbol_table_add_child
    (scopes.set cur (tbl.extend (Symbol.fresh f .SYMBOL_FUNCTION)) ++
      [(symbol_table_create f).extend (Symbol.fresh f .SYMBOL_FUNCTION)])
    cur scopes.length

/-- What a top-level declaration can change in the heap of scopes: tables of
scopes, and new scopes at the end; never the parent link of a scope that was
there, nor the active scope. -/
structure TopFrame (s s' : Parser) : Prop where
  current_scope : s'.current_scope = s.current_scope
  stream : s'.stream = s.stream
  global_scope : s'.global_scope = s.global_scope
  length : s.scopes.length ≤ s'.scopes.length
  parent : ∀ i : Nat, i < s.scopes.length →
    (s'.scopes[i]?).map SymbolTable.parent = (s.scopes[i]?).map SymbolTable.parent

/-- The program `x := 1; func f() { x := true; y : bool = x; } z : int = x;`. -/
def prog_shadowing : List Token :=
  [ident "x", tk .TOKEN_WALRUS, num 1, tk .TOKEN_SEMICOLON,
    tk .TOKEN_FUNC, ident "f", tk .TOKEN_LPAREN, tk .TOKEN_RPAREN, tk .TOKEN_LBRACE,
    ident "x", tk .TOKEN_WALRUS, tk_true, tk .TOKEN_SEMICOLON,
    ident "y", tk .TOKEN_COLON, ident "bool", tk .TOKEN_EQUAL, ident "x", tk .TOKEN_SEMICOLON,
    tk .TOKEN_RBRACE,
    ident "z", tk .TOKEN_COLON, ident "int", tk .TOKEN_EQUAL, ident "x", tk .TOKEN_SEMICOLON,
    tk .TOKEN_EOF]

/-- The state of the parser on `prog_shadowing` after the global declaration
`x := 1;`, with the cursor on `func`. -/
def state_global_x : Parser :=
  match parse_variable_declaration 8 (some "x") (start.load prog_shadowing).advance with
  | .ok (_, s) => s
  | .error _ => start

/-- The program `main := 1;`. -/
def prog_main_variable : List Token :=
  [ident "main", tk .TOKEN_WALRUS, num 1, tk .TOKEN_SEMICOLON, tk .TOKEN_EOF]

/-- The program `func main() { }`. -/
def prog_main_empty : List Token :=
  [tk .TOKEN_FUNC, ident "main", tk .TOKEN_LPAREN, tk .TOKEN_RPAREN, tk .TOKEN_LBRACE,
    tk .TOKEN_RBRACE, tk .TOKEN_EOF]

/-- The program `func f() { f(); }`. -/
def prog_recursive (f : String) : List Token :=
  [tk .TOKEN_FUNC, ident f, tk .TOKEN_LPAREN, tk .TOKEN_RPAREN, tk .TOKEN_LBRACE,
    ident f, tk .TOKEN_LPAREN, tk .TOKEN_RPAREN, tk .TOKEN_SEMICOLON,
    tk .TOKEN_RBRACE, tk .TOKEN_EOF]

/-- The diagnostic a run ended with, if it failed (an observation with
decidable equality, whatever the result type). -/
def failure {α : Type} (x : Except Fatal α) : Option Fatal :=
  match x with
  | .ok _ => none
  | .error e => some e

/-- The tokens `func f() { x := 2; }`. -/
def func_with_local (f x : String) : List Token :=
  [tk .TOKEN_FUNC, ident f, tk .TOKEN_LPAREN, tk .TOKEN_RPAREN, tk .TOKEN_LBRACE,
    ident x, tk .TOKEN_WALRUS, num 2, tk .TOKEN_SEMICOLON, tk .TOKEN_RBRACE]

/-- The program `func main() { x := 1; if x { x := 2; } }`. -/
def prog_if_shadow : List Token :=
  [tk .TOKEN_FUNC, ident "main", tk .TOKEN_LPAREN, tk .TOKEN_RPAREN, tk .TOKEN_LBRACE,
    ident "x", tk .TOKEN_WALRUS, num 1, tk .TOKEN_SEMICOLON,
    tk .TOKEN_IF, ident "x", tk .TOKEN_LBRACE,
    ident "x", tk .TOKEN_WALRUS, num 2, tk .TOKEN_SEMICOLON, tk .TOKEN_RBRACE,
    tk .TOKEN_RBRACE, tk .TOKEN_EOF]

/-- The program `x := 1; func main() { x := 2; }`. -/
def prog_function_shadow : List Token :=
  [ident "x", tk .TOKEN_WALRUS, num 1, tk .TOKEN_SEMICOLON] ++
    func_with_local "main" "x" ++ [tk .TOKEN_EOF]

/-- A state whose active scope binds `x`, with the cursor on
`func main() { x := 2; }`. -/
def state_x_before_function : Parser :=
  ⟨some 0, func_with_local "main" "x" ++ [tk .TOKEN_EOF], 0, [],
    [⟨"global", [Symbol.fresh "x" .SYMBOL_VARIABLE], none, []⟩], 0, []⟩

/-- A state whose active scope binds `x`, with the cursor on `else { x := 2; }`. -/
def state_x_before_else : Parser :=
  ⟨some 0, [tk .TOKEN_ELSE, tk .TOKEN_LBRACE, ident "x", tk .TOKEN_WALRUS, num 2,
    tk .TOKEN_SEMICOLON, tk .TOKEN_RBRACE, tk .TOKEN_EOF], 0, [],
    [⟨"f", [Symbol.fresh "x" .SYMBOL_VARIABLE], none, []⟩], 0, []⟩

/-- The program `func main() { x : int = 1; x = true; }`. -/
def prog_assign_bool_to_int : List Token :=
  [tk .TOKEN_FUNC, ident "main", tk .TOKEN_LPAREN, tk .TOKEN_RPAREN, tk .TOKEN_LBRACE,
    ident "x", tk .TOKEN_COLON, ident "int", tk .TOKEN_EQUAL, num 1, tk .TOKEN_SEMICOLON,
    ident "x", tk .TOKEN_EQUAL, tk_true, tk .TOKEN_SEMICOLON,
    tk .TOKEN_RBRACE, tk .TOKEN_EOF]

/-- The program `func main() { y = 1; }`. -/
def prog_assign_unknown : List Token :=
  [tk .TOKEN_FUNC, ident "main", tk .TOKEN_LPAREN, tk .TOKEN_RPAREN, tk .TOKEN_LBRACE,
    ident "y", tk .TOKEN_EQUAL, num 1, tk .TOKEN_SEMICOLON,
    tk .TOKEN_RBRACE, tk .TOKEN_EOF]

/-- A state that binds `b` (of type `bool`), with the cursor on `= 1;`. -/
def state_assign_b : Parser :=
  start_with_b.load [tk .TOKEN_EQUAL, num 1, tk .TOKEN_SEMICOLON, tk .TOKEN_EOF]

/-- The program `x := 5; y : x = 3;`. -/
def prog_variable_as_type : List Token :=
  [ident "x", tk .TOKEN_WALRUS, num 5, tk .TOKEN_SEMICOLON,
    ident "y", tk .TOKEN_COLON, ident "x", tk .TOKEN_EQUAL, num 3, tk .TOKEN_SEMICOLON,
    tk .TOKEN_EOF]

/-- A parser state whose global scope binds nothing, not even the names of
the primitive types. -/
def start_empty : Parser := ⟨some 0, [], 0, [], [⟨"global", [], none, []⟩], 0, []⟩

/-- The program `func main() { x := 1; main(); y := 2; }`. -/
def prog_call_between : List Token :=
  [tk .TOKEN_FUNC, ident "main", tk .TOKEN_LPAREN, tk .TOKEN_RPAREN, tk .TOKEN_LBRACE,
    ident "x", tk .TOKEN_WALRUS, num 1, tk .TOKEN_SEMICOLON,
    ident "main", tk .TOKEN_LPAREN, tk .TOKEN_RPAREN, tk .TOKEN_SEMICOLON,
    ident "y", tk .TOKEN_WALRUS, num 2, tk .TOKEN_SEMICOLON,
    tk .TOKEN_RBRACE, tk .TOKEN_EOF]

/-- The program `func main() { x := 1; y := 2; }`. -/
def prog_without_call : List Token :=
  [tk .TOKEN_FUNC, ident "main", tk .TOKEN_LPAREN, tk .TOKEN_RPAREN, tk .TOKEN_LBRACE,
    ident "x", tk .TOKEN_WALRUS, num 1, tk .TOKEN_SEMICOLON,
    ident "y", tk .TOKEN_WALRUS, num 2, tk .TOKEN_SEMICOLON,
    tk .TOKEN_RBRACE, tk .TOKEN_EOF]

/-- The program `func f(a: int) -> int { return a + 1; }`. -/
def prog_param_add : List Token :=
  [tk .TOKEN_FUNC, ident "f", tk .TOKEN_LPAREN, ident "a", tk .TOKEN_COLON, ident "int",
    tk .TOKEN_RPAREN, tk .TOKEN_ARROW, ident "int", tk .TOKEN_LBRACE,
    tk .TOKEN_RETURN, ident "a", tk .TOKEN_PLUS, num 1, tk .TOKEN_SEMICOLON,
    tk .TOKEN_RBRACE, tk .TOKEN_EOF]

/-- The program `func f(a: int) -> int { return a; }`. -/
def prog_param_return : List Token :=
  [tk .TOKEN_FUNC, ident "f", tk .TOKEN_LPAREN, ident "a", tk .TOKEN_COLON, ident "int",
    tk .TOKEN_RPAREN, tk .TOKEN_ARROW, ident "int", tk .TOKEN_LBRACE,
    tk .TOKEN_RETURN, ident "a", tk .TOKEN_SEMICOLON,
    tk .TOKEN_RBRACE, tk .TOKEN_EOF]

/-- The names and declared types of the parameter nodes of a function
declaration node. -/
def param_types (node : Node) : List (Option (String × Ty)) :=
  match node.data with
  | .func_decl _ _ params _ =>
    params.map (fun p =>
      match p.data with
      | .var_decl name type _ => some (name, type)
      | _ => none)
  | _ => []

/-- The program `x : int; y : int = x;`. -/
def prog_uninitialized_then_used : List Token :=
  [ident "x", tk .TOKEN_COLON, ident "int", tk .TOKEN_SEMICOLON,
    ident "y", tk .TOKEN_COLON, ident "int", tk .TOKEN_EQUAL, ident "x", tk .TOKEN_SEMICOLON,
    tk .TOKEN_EOF]

/-- The program `x : int;`. -/
def prog_uninitialized : List Token :=
  [ident "x", tk .TOKEN_COLON, ident "int", tk .TOKEN_SEMICOLON, tk .TOKEN_EOF]

/-! ## The expression stack as a single slot

The expression rules once more, with every push guarded by "the stack is
empty" and every pop by "the stack holds exactly one node": a run of these
that does not end in `Fatal.Crash` never held two nodes at once, never took
the type-propagating branch of `pop_expr_node`, and never linked a pushed node
to another one. -/

/-- A push that is only defined on the empty stack (the pushed node keeps its
empty `next` link). -/
def push_on_empty (expr : Node) (s : Parser) : Except Fatal Parser :=
  match s.stack_top with
  | [] => .ok (s.setStack [expr])
  | _ :: _ => .error .Crash

/-- A pop that is only defined on a stack of exactly one node (no type is
propagated to a node below). -/
def pop_only (s : Parser) : Except Fatal (Node × Parser) :=
  match s.stack_top with
  | [ret] => .ok (ret, s.setStack [])
  | _ => .error .Crash

/-- The function `parse_unary_expr`, whose one pop must find one node. -/
def unary_expr_single (un_op : UnaryOp) (line col : Nat) (s : Parser) :
    Except Fatal (Node × Parser) :=
  let node := (make_node .NODE_UNARY_EXPR).setPos line col
  match pop_only s with
  | .error e => .error e
  | .ok (expr, s1) =>
    .ok ((node.setData (.unary un_op (some expr))).setType expr.type, s1)

/-- The function `parse_factor`, whose one push must find the stack empty. -/
def factor_single (s : Parser) : Except Fatal Parser :=
  match s.stack_top with
  | [] => parse_factor s
  | _ :: _ => .error .Crash

mutual

def binary_expr_single : Nat → BinaryOp → Nat → Nat → Parser → Except Fatal (Node × Parser)
  | 0, _, _, _, _ => .error .OutOfFuel
  | fuel + 1, bin_op, line, col, s =>
    let node := (make_node .NODE_BINARY_EXPR).setPos line col
    match pop_only s with
    | .error e => .error e
    | .ok (lhs, s1) =>
      match term_single fuel s1 with
      | .error e => .error e
      | .ok s2 =>
        match pop_only s2 with
        | .error e => .error e
        | .ok (rhs, s3) =>
          if lhs.type.id ≠ rhs.type.id then .error .TypeMismatch
          else
            .ok ((node.setData (.binary bin_op (some lhs) (some rhs))).setType lhs.type, s3)

def term_single : Nat → Parser → Except Fatal Parser
  | 0, _ => .error .OutOfFuel
  | fuel + 1, s =>
    match factor_single s with
    | .error e => .error e
    | .ok s1 => term_loop_single fuel s1

def term_loop_single : Nat → Parser → Except Fatal Parser
  | 0, _ => .error .OutOfFuel
  | fuel + 1, s =>
    match tok s with
    | .error e => .error e
    | .ok t =>
      let bin_op := term_op t.kind
      if bin_op = .BIN_UNKNOWN then .ok s
      else
        match consume s with
        | .error e => .error e
        | .ok (_, s1) =>
          match binary_expr_single fuel bin_op t.line t.col s1 with
          | .error e => .error e
          | .ok (node, s2) =>
            match push_on_empty node s2 with
            | .error e => .error e
            | .ok s3 => term_loop_single fuel s3

end

def expression_loop_single : Nat → Parser → Except Fatal Parser
  | 0, _ => .error .OutOfFuel
  | fuel + 1, s =>
    match tok s with
    | .error e => .error e
    | .ok t =>
      let bin_op := expr_op t.kind
      if bin_op = .BIN_UNKNOWN then .ok s
      else
        match consume s with
        | .error e => .error e
        | .ok (_, s1) =>
          match binary_expr_single fuel bin_op t.line t.col s1 with
          | .error e => .error e
          | .ok (node, s2) =>
            match push_on_empty node s2 with
            | .error e => .error e
            | .ok s3 => expression_loop_single fuel s3

def expression_single (fuel : Nat) (s : Parser) : Except Fatal (Node × Parser) := do
  let t ← tok s
  let line := t.line
  let col := t.col
  let un_op := unary_op t.kind
  let s ← (if un_op = .UN_UNKNOWN then .ok s else (consume s).map Prod.snd : Except Fatal Parser)
  let s ← term_single fuel s
  let s ← (if un_op ≠ .UN_UNKNOWN then do
      let r ← unary_expr_single un_op line col s
      push_on_empty r.1 r.2
    else .ok s : Except Fatal Parser)
  let s ← expression_loop_single fuel s
  pop_only s
/-- The tokens `1 + 2 * 3 ;`. -/
def expr_add_mul : List Token :=
  [num 1, tk .TOKEN_PLUS, num 2, tk .TOKEN_STAR, num 3, tk .TOKEN_SEMICOLON, tk .TOKEN_EOF]

/-- The node `parse_conditional` returns for the condition `expr` (absent for
`else`) and the statements `body`. -/
def cond_node (expr : Option Node) (body : List Node) : Node :=
  (make_node .NODE_COND_STMT).setData (.cond_stmt expr body)

/-- The tokens `if true { } elif true { } else { } }`: a chain and the brace
that closes the block around it. -/
def prog_chain : List Token :=
  [tk .TOKEN_IF, tk_true, tk .TOKEN_LBRACE, tk .TOKEN_RBRACE,
    tk .TOKEN_ELIF, tk_true, tk .TOKEN_LBRACE, tk .TOKEN_RBRACE,
    tk .TOKEN_ELSE, tk .TOKEN_LBRACE, tk .TOKEN_RBRACE, tk .TOKEN_RBRACE, tk .TOKEN_EOF]

/-- The state over `prog_chain` with the cursor on token `pos`. -/
def chain_at (pos : Nat) : Parser :=
  ⟨some 0, prog_chain, pos, [], [global_types], 0, []⟩

/-- The literal `true`. -/
def true_literal : Node :=
  ((make_node .NODE_LITERAL_EXPR).setType (primitive_types TYPE_BOOL)).setData
    (.literal ⟨.VAL_BOOL, 0, true⟩)

/-- The block `{ elif true { } }`. -/
def prog_lone_elif : List Token :=
  [tk .TOKEN_LBRACE, tk .TOKEN_ELIF, tk_true, tk .TOKEN_LBRACE, tk .TOKEN_RBRACE,
    tk .TOKEN_RBRACE, tk .TOKEN_EOF]

/-- The block `{ else { } }`. -/
def prog_lone_else : List Token :=
  [tk .TOKEN_LBRACE, tk .TOKEN_ELSE, tk .TOKEN_LBRACE, tk .TOKEN_RBRACE,
    tk .TOKEN_RBRACE, tk .TOKEN_EOF]

/-- What is observed of a statement list: the kind of each node and, for a
conditional, whether it has a condition and how many statements its body has. -/
def stmt_shapes (body : List Node) : List (NodeKind × Option (Bool × Nat)) :=
  body.map (fun n =>
    (n.kind, match n.data with
      | .cond_stmt e b => some (e.isSome, b.length)
      | _ => none))

/-! ## Loose operators as a left fold -/

/-- The node `parse_binary_expr` returns for an operator at `line`, `col` over
the operands `lhs` and `rhs`. -/
def binary_node (bin_op : BinaryOp) (line col : Nat) (lhs rhs : Node) : Node :=
  (((make_node .NODE_BINARY_EXPR).setPos line col).setData
    (.binary bin_op (some lhs) (some rhs))).setType lhs.type

/-- The operand sequence `op1 t1 ... opn tn` at the cursor: each loose operator
token with the term parsed after it (on an empty stack), up to the first token
that is no loose operator. -/
def loose_terms : Nat → Parser → Except Fatal (List (Token × Node) × Parser)
  | 0, _ => .error .OutOfFuel
  | fuel + 1, s =>
    match tok s with
    | .error e => .error e
    | .ok t =>
      if expr_op t.kind = .BIN_UNKNOWN then .ok ([], s)
      else
        match parse_term (fuel - 1) s.advance with
        | .error e => .error e
        | .ok s2 =>
          match pop_expr_node s2 with
          | .error e => .error e
          | .ok (rhs, s3) =>
            match loose_terms fuel s3 with
            | .error e => .error e
            | .ok (l, s4) => .ok ((t, rhs) :: l, s4)

/-- The left fold `((t0 op1 t1) op2 t2) ... opn tn`. -/
def left_fold (t0 : Node) (l : List (Token × Node)) : Node :=
  l.foldl (fun acc p => binary_node (expr_op p.1.kind) p.1.line p.1.col acc p.2) t0

/-- The state over `tokens` after `pos` of them, with an empty stack. -/
def expr_at (tokens : List Token) (pos : Nat) : Parser :=
  ⟨some 0, tokens, pos, [], [global_types], 0, []⟩

/-- The tokens `1 * 2 + 3 ;`. -/
def expr_mul_add : List Token :=
  [num 1, tk .TOKEN_STAR, num 2, tk .TOKEN_PLUS, num 3, tk .TOKEN_SEMICOLON, tk .TOKEN_EOF]

/-- The tokens `1 - 2 - 3 ;`. -/
def expr_sub_sub : List Token :=
  [num 1, tk .TOKEN_MINUS, num 2, tk .TOKEN_MINUS, num 3, tk .TOKEN_SEMICOLON, tk .TOKEN_EOF]

/-- The tokens `1 < 2 + 3 ;`. -/
def expr_lt_add : List Token :=
  [num 1, tk .TOKEN_LANGLE, num 2, tk .TOKEN_PLUS, num 3, tk .TOKEN_SEMICOLON, tk .TOKEN_EOF]

/-- The node `parse_unary_expr` returns for a prefix operator at `line`, `col`
over the operand `expr`. -/
def unary_node (un_op : UnaryOp) (line col : Nat) (expr : Node) : Node :=
  (((make_node .NODE_UNARY_EXPR).setPos line col).setData
    (.unary un_op (some expr))).setType expr.type

/-- The tokens `! 5 ;`. -/
def expr_not_5 : List Token :=
  [tk .TOKEN_BANG, num 5, tk .TOKEN_SEMICOLON, tk .TOKEN_EOF]

/-- The tokens `- true ;`. -/
def expr_neg_true : List Token :=
  [tk .TOKEN_MINUS, tk_true, tk .TOKEN_SEMICOLON, tk .TOKEN_EOF]

/-- The tokens `- 1 * 2 ;`. -/
def expr_neg_mul : List Token :=
  [tk .TOKEN_MINUS, num 1, tk .TOKEN_STAR, num 2, tk .TOKEN_SEMICOLON, tk .TOKEN_EOF]

/-- The tokens `- 1 + 2 ;`. -/
def expr_neg_add : List Token :=
  [tk .TOKEN_MINUS, num 1, tk .TOKEN_PLUS, num 2, tk .TOKEN_SEMICOLON, tk .TOKEN_EOF]
/-! ## Products as a right fold -/

/-- The factor sequence `op1 f1 ... opn fn` at the cursor: each `*` or `/`
token with the factor parsed after it (on an empty stack), up to the first
token that is neither. -/
def tight_factors : Nat → Parser → Except Fatal (List (Token × Node) × Parser)
  | 0, _ => .error .OutOfFuel
  | fuel + 1, s =>
    match tok s with
    | .error e => .error e
    | .ok t =>
      if term_op t.kind = .BIN_UNKNOWN then .ok ([], s)
      else
        match parse_factor s.advance with
        | .error e => .error e
        | .ok s2 =>
          match pop_expr_node s2 with
          | .error e => .error e
          | .ok (rhs, s3) =>
            match tight_factors fuel s3 with
            | .error e => .error e
            | .ok (l, s4) => .ok ((t, rhs) :: l, s4)

/-- The right fold `f0 op1 (f1 op2 (... opn fn))`. -/
def right_fold : Node → List (Token × Node) → Node
  | f0, [] => f0
  | f0, (t, f1) :: rest => binary_node (term_op t.kind) t.line t.col f0 (right_fold f1 rest)

/-- The tokens `8 / 4 / 2 ;`. -/
def expr_div_div : List Token :=
  [num 8, tk .TOKEN_SLASH, num 4, tk .TOKEN_SLASH, num 2, tk .TOKEN_SEMICOLON, tk .TOKEN_EOF]

/-- The tokens `8 * 4 / 2 ;`. -/
def expr_mul_div : List Token :=
  [num 8, tk .TOKEN_STAR, num 4, tk .TOKEN_SLASH, num 2, tk .TOKEN_SEMICOLON, tk .TOKEN_EOF]

/-- The program `func main() { const x := 1; x = 2; }`. -/
def prog_assign_const : List Token :=
  [tk .TOKEN_FUNC, ident "main", tk .TOKEN_LPAREN, tk .TOKEN_RPAREN, tk .TOKEN_LBRACE,
    tk .TOKEN_CONST, ident "x", tk .TOKEN_WALRUS, num 1, tk .TOKEN_SEMICOLON,
    ident "x", tk .TOKEN_EQUAL, num 2, tk .TOKEN_SEMICOLON,
    tk .TOKEN_RBRACE, tk .TOKEN_EOF]

/-- The program `func main() { x : int; x = 2; }`. -/
def prog_assign_uninitialized : List Token :=
  [tk .TOKEN_FUNC, ident "main", tk .TOKEN_LPAREN, tk .TOKEN_RPAREN, tk .TOKEN_LBRACE,
    ident "x", tk .TOKEN_COLON, ident "int", tk .TOKEN_SEMICOLON,
    ident "x", tk .TOKEN_EQUAL, num 2, tk .TOKEN_SEMICOLON,
    tk .TOKEN_RBRACE, tk .TOKEN_EOF]

/-- What is observed of the symbol `name` of scope `scope` after a run: its
`is_constant` and `is_initialized` flags. -/
def symbol_flags (scope : Nat) (name : String) (x : Except Fatal (List Node × Parser)) :
    Option (Option (Bool × Bool)) :=
  x.toOption.map (fun r =>
    (symbol_table_lookup r.2.scopes (some scope) name).map
      (fun sym => (sym.is_constant, sym.is_initialized)))
/-- The tokens `func f(p: int) { }`. -/
def func_with_param (f p : String) : List Token :=
  [tk .TOKEN_FUNC, ident f, tk .TOKEN_LPAREN, ident p, tk .TOKEN_COLON, ident "int",
    tk .TOKEN_RPAREN, tk .TOKEN_LBRACE, tk .TOKEN_RBRACE]

/-! ## Termination and the token cursor -/

/-- The token vector ends with the end-of-stream token. -/
def eof_terminated (tokens : List Token) : Prop :=
  ∃ t, tokens.getLast? = some t ∧ t.kind = .TOKEN_EOF

/-- The cursor is on a token of an end-of-stream terminated vector. -/
structure InStream (s : Parser) : Prop where
  eof : eof_terminated s.stream
  inside : s.stream_pos < s.stream.length

/-- From `s` to `s'` the cursor moved forward over at least `k` tokens of the
same vector and is still on one of its tokens. -/
structure Step (k : Nat) (s s' : Parser) : Prop where
  stream : s'.stream = s.stream
  pos : s.stream_pos + k ≤ s'.stream_pos
  inside : s'.stream_pos < s'.stream.length

/-- The active scope is a scope of the heap. -/
def ScopeOK (s : Parser) : Prop :=
  ∃ i, s.current_scope = some i ∧ i < s.scopes.length

/-- A call that came back: with a result that satisfies `P`, or with one of
the diagnostics of `fatal(...)`; not with undefined behaviour and not for
lack of fuel. -/
def Outcome {α : Type} (P : α → Prop) (x : Except Fatal α) : Prop :=
  match x with
  | .ok a => P a
  | .error e => e ≠ .Crash ∧ e ≠ .OutOfFuel

/-! ## Scopes of functions and typed references -/

/-- The name a declaration node (of a variable or a parameter) declares. -/
def decl_name (n : Node) : Option String :=
  match n.data with
  | .var_decl name _ _ => some name
  | _ => none

/-- The program `x := 1; func main(x: int) { x := 2; }`. -/
def prog_param_shadow : List Token :=
  [ident "x", tk .TOKEN_WALRUS, num 1, tk .TOKEN_SEMICOLON,
    tk .TOKEN_FUNC, ident "main", tk .TOKEN_LPAREN, ident "x", tk .TOKEN_COLON, ident "int",
    tk .TOKEN_RPAREN, tk .TOKEN_LBRACE,
    ident "x", tk .TOKEN_WALRUS, num 2, tk .TOKEN_SEMICOLON, tk .TOKEN_RBRACE, tk .TOKEN_EOF]

/-- The program `x := 1; func main(a: int) { x := 2; }`. -/
def prog_param_other : List Token :=
  [ident "x", tk .TOKEN_WALRUS, num 1, tk .TOKEN_SEMICOLON,
    tk .TOKEN_FUNC, ident "main", tk .TOKEN_LPAREN, ident "a", tk .TOKEN_COLON, ident "int",
    tk .TOKEN_RPAREN, tk .TOKEN_LBRACE,
    ident "x", tk .TOKEN_WALRUS, num 2, tk .TOKEN_SEMICOLON, tk .TOKEN_RBRACE, tk .TOKEN_EOF]

/-- The steps of a run of `parse_function_declaration` from `s` that returns
`node` and `s'`: the name `f` was not bound in the active scope `cur` (whose
table was `tbl`); from the state that `enter_scope` makes, in which the new
scope is active, the parameter list and the return type are parsed, up to the
state `s1`; the body is parsed from `s1` to `s2`; `exit_scope` goes back to
`cur`, and the symbol of the function gets the node. -/
structure FunctionRun (fuel : Nat) (s : Parser) (node : Node) (s' : Parser) (cur : Nat)
    (tbl : SymbolTable) (f : String) (rt : Ty) (params body : List Node) (s1 s2 : Parser) :
    Prop where
  current : s.current_scope = some cur
  table : s.scopes[cur]? = some tbl
  fresh : tbl.find f = none
  name : ∃ tf, tok s.advance = .ok tf ∧ tf.kind = .TOKEN_IDENTIFIER ∧ tf.str = f
  data : node.data = .func_decl f rt params body
  header : ∃ (tl tr : Token) (arrow : Bool) (sa sb sc sd : Parser),
    expect .TOKEN_LPAREN (enter_scope s.scopes.length
      (s.advance.advance.setScopes (function_entry_scopes s.scopes cur tbl f))) =
        .ok (tl, sa) ∧
    parse_params_loop fuel s.scopes.length sa [] = .ok (params, sb) ∧
    expect .TOKEN_RPAREN sb = .ok (tr, sc) ∧
    match_ .TOKEN_ARROW sc = .ok (arrow, sd) ∧
    (if arrow then parse_type sd
      else .ok (primitive_types TYPE_VOID, sd) : Except Fatal (Ty × Parser)) = .ok (rt, s1)
  body_run : parse_block fuel true s1 = .ok (body, s2)
  leave : exit_scope s2 = .ok (s2.setCurrent (some cur))
  result : s' = write_symbol cur f (fun sym => { sym with node := some node })
    (s2.setCurrent (some cur))

/-- The node `n` contains a reference expression to the variable `x` whose
type is `T`: `n` is that reference, or one of the nodes `n` points to contains
it. -/
@[mk_iff] inductive HasRef (x : String) (T : Ty) : Node → Prop where
  | here (n : Node) : n.data = .ref x → n.type = T → HasRef x T n
  | operand (n : Node) (op : UnaryOp) (e : Node) :
      n.data = .unary op (some e) → HasRef x T e → HasRef x T n
  | lhs (n : Node) (op : BinaryOp) (l : Node) (r : Option Node) :
      n.data = .binary op (some l) r → HasRef x T l → HasRef x T n
  | rhs (n : Node) (op : BinaryOp) (l : Option Node) (r : Node) :
      n.data = .binary op l (some r) → HasRef x T r → HasRef x T n
  | initializer (n : Node) (name : String) (ty : Ty) (i : Node) :
      n.data = .var_decl name ty (some i) → HasRef x T i → HasRef x T n
  | assigned (n : Node) (name : String) (v : Node) :
      n.data = .assign name (some v) → HasRef x T v → HasRef x T n
  | returned (n : Node) (v : Node) :
      n.data = .ret_stmt (some v) → HasRef x T v → HasRef x T n
  | condition (n : Node) (e : Node) (body : List Node) :
      n.data = .cond_stmt (some e) body → HasRef x T e → HasRef x T n
  | branch (n : Node) (e : Option Node) (body : List Node) (m : Node) :
      n.data = .cond_stmt e body → m ∈ body → HasRef x T m → HasRef x T n
  | parameter (n : Node) (f : String) (rt : Ty) (params body : List Node) (m : Node) :
      n.data = .func_decl f rt params body → m ∈ params → HasRef x T m → HasRef x T n
  | statement (n : Node) (f : String) (rt : Ty) (params body : List Node) (m : Node) :
      n.data = .func_decl f rt params body → m ∈ body → HasRef x T m → HasRef x T n

/-- Every reference to `x` inside the node `n` has the type `T`. -/
def RefsTyped (x : String) (T : Ty) (n : Node) : Prop :=
  ∀ T', HasRef x T' n → T' = T

/-- The top of the expression stack, if there is one, has its references to
`x` typed `T`. -/
def TopTyped (x : String) (T : Ty) (s : Parser) : Prop :=
  ∀ a rest, s.stack_top = a :: rest → RefsTyped x T a

/-- The reference that is the whole initializer of a declaration node: the
name it refers to and the type the parser gave it. -/
def initializer_ref (n : Node) : Option (String × Ty) :=
  match n.data with
  | .var_decl _ _ (some i) =>
    match i.data with
    | .ref name => some (name, i.type)
    | _ => none
  | _ => none

/-- The references that initialize the declarations of a top-level node: of the
statements of the body for a function, of the node itself otherwise. -/
def declaration_refs (n : Node) : List (Option (String × Ty)) :=
  match n.data with
  | .func_decl _ _ _ body => body.map initializer_ref
  | _ => [initializer_ref n]

/-- The statement `d` is the node `n` itself, or a statement of a body of the
conditional `n`, at any depth. -/
inductive StatementOf (d : Node) : Node → Prop where
  | self : StatementOf d d
  | nested (n : Node) (e : Option Node) (B : List Node) (m : Node) :
      n.data = .cond_stmt e B → m ∈ B → StatementOf d m → StatementOf d n

/-- The list `B` is a block of the list of statements `body`: `body` itself,
or a block of the body of a conditional among the statements of `body`. -/
inductive BlockOf : List Node → List Node → Prop where
  | whole (body : List Node) : BlockOf body body
  | inside (body : List Node) (n : Node) (e : Option Node) (B1 B : List Node) :
      n ∈ body → n.data = .cond_stmt e B1 → BlockOf B1 B → BlockOf body B

/-- In every block of `body`, the references to a variable in the statements
after the statement that declares it have the type of the declared symbol. -/
def Shadowing (body : List Node) : Prop :=
  ∀ (B pre : List Node) (m : Node) (post : List Node) (d : Node) (y : String) (T : Ty)
    (init : Option Node),
    BlockOf body B → B = pre ++ m :: post → StatementOf d m → d.data = .var_decl y T init →
    ∀ c, ∀ n ∈ post, RefsTyped y (declared_symbol y c init d).type n

/-! ## Basic facts -/

@[simp] theorem Parser.current_scope_advance (s : Parser) : (s.advance).current_scope = s.current_scope := rfl
@[simp] theorem Parser.stream_advance (s : Parser) : (s.advance).stream = s.stream := rfl
@[simp] theorem Parser.stream_pos_advance (s : Parser) : (s.advance).stream_pos = s.stream_pos + 1 := rfl
@[simp] theorem Parser.stack_top_advance (s : Parser) : (s.advance).stack_top = s.stack_top := rfl
@[simp] theorem Parser.scopes_advance (s : Parser) : (s.advance).scopes = s.scopes := rfl
@[simp] theorem Parser.global_scope_advance (s : Parser) : (s.advance).global_scope = s.global_scope := rfl
@[simp] theorem Parser.warnings_advance (s : Parser) : (s.advance).warnings = s.warnings := rfl

@[simp] theorem Parser.current_scope_setStack (s : Parser) (st : List Node) : (s.setStack st).current_scope = s.current_scope := rfl
@[simp] theorem Parser.stream_setStack (s : Parser) (st : List Node) : (s.setStack st).stream = s.stream := rfl
@[simp] theorem Parser.stream_pos_setStack (s : Parser) (st : List Node) : (s.setStack st).stream_pos = s.stream_pos := rfl
@[simp] theorem Parser.stack_top_setStack (s : Parser) (st : List Node) : (s.setStack st).stack_top = st := rfl
@[simp] theorem Parser.scopes_setStack (s : Parser) (st : List Node) : (s.setStack st).scopes = s.scopes := rfl
@[simp] theorem Parser.global_scope_setStack (s : Parser) (st : List Node) : (s.setStack st).global_scope = s.global_scope := rfl
@[simp] theorem Parser.warnings_setStack (s : Parser) (st : List Node) : (s.setStack st).warnings = s.warnings := rfl

@[simp] theorem Parser.current_scope_setScopes (s : Parser) (sc : List SymbolTable) : (s.setScopes sc).current_scope = s.current_scope := rfl
@[simp] theorem Parser.stream_setScopes (s : Parser) (sc : List SymbolTable) : (s.setScopes sc).stream = s.stream := rfl
@[simp] theorem Parser.stream_pos_setScopes (s : Parser) (sc : List SymbolTable) : (s.setScopes sc).stream_pos = s.stream_pos := rfl
@[simp] theorem Parser.stack_top_setScopes (s : Parser) (sc : List SymbolTable) : (s.setScopes sc).stack_top = s.stack_top := rfl
@[simp] theorem Parser.scopes_setScopes (s : Parser) (sc : List SymbolTable) : (s.setScopes sc).scopes = sc := rfl
@[simp] theorem Parser.global_scope_setScopes (s : Parser) (sc : List SymbolTable) : (s.setScopes sc).global_scope = s.global_scope := rfl
@[simp] theorem Parser.warnings_setScopes (s : Parser) (sc : List SymbolTable) : (s.setScopes sc).warnings = s.warnings := rfl

@[simp] theorem Parser.current_scope_setCurrent (s : Parser) (c : Option Nat) : (s.setCurrent c).current_scope = c := rfl
@[simp] theorem Parser.stream_setCurrent (s : Parser) (c : Option Nat) : (s.setCurrent c).stream = s.stream := rfl
@[simp] theorem Parser.stream_pos_setCurrent (s : Parser) (c : Option Nat) : (s.setCurrent c).stream_pos = s.stream_pos := rfl
@[simp] theorem Parser.stack_top_setCurrent (s : Parser) (c : Option Nat) : (s.setCurrent c).stack_top = s.stack_top := rfl
@[simp] theorem Parser.scopes_setCurrent (s : Parser) (c : Option Nat) : (s.setCurrent c).scopes = s.scopes := rfl
@[simp] theorem Parser.global_scope_setCurrent (s : Parser) (c : Option Nat) : (s.setCurrent c).global_scope = s.global_scope := rfl
@[simp] theorem Parser.warnings_setCurrent (s : Parser) (c : Option Nat) : (s.setCurrent c).warnings = s.warnings := rfl

@[simp] theorem Parser.current_scope_warn (s : Parser) (n : String) : (s.warn n).current_scope = s.current_scope := rfl
@[simp] theorem Parser.stream_warn (s : Parser) (n : String) : (s.warn n).stream = s.stream := rfl
@[simp] theorem Parser.stream_pos_warn (s : Parser) (n : String) : (s.warn n).stream_pos = s.stream_pos := rfl
@[simp] theorem Parser.stack_top_warn (s : Parser) (n : String) : (s.warn n).stack_top = s.stack_top := rfl
@[simp] theorem Parser.scopes_warn (s : Parser) (n : String) : (s.warn n).scopes = s.scopes := rfl
@[simp] theorem Parser.global_scope_warn (s : Parser) (n : String) : (s.warn n).global_scope = s.global_scope := rfl
@[simp] theorem Parser.warnings_warn (s : Parser) (n : String) : (s.warn n).warnings = s.warnings ++ [n] := rfl

@[simp] theorem Parser.current_scope_load (s : Parser) (ts : List Token) : (s.load ts).current_scope = some s.global_scope := rfl
@[simp] theorem Parser.stream_load (s : Parser) (ts : List Token) : (s.load ts).stream = ts := rfl
@[simp] theorem Parser.stream_pos_load (s : Parser) (ts : List Token) : (s.load ts).stream_pos = s.stream_pos := rfl
@[simp] theorem Parser.stack_top_load (s : Parser) (ts : List Token) : (s.load ts).stack_top = s.stack_top := rfl
@[simp] theorem Parser.scopes_load (s : Parser) (ts : List Token) : (s.load ts).scopes = s.scopes := rfl
@[simp] theorem Parser.global_scope_load (s : Parser) (ts : List Token) : (s.load ts).global_scope = s.global_scope := rfl
@[simp] theorem Parser.warnings_load (s : Parser) (ts : List Token) : (s.load ts).warnings = s.warnings := rfl

@[simp] theorem Node.kind_setData (n : Node) (d : NodeData Node) :
    (n.setData d).kind = n.kind := by cases n; rfl
@[simp] theorem Node.data_setData (n : Node) (d : NodeData Node) :
    (n.setData d).data = d := by cases n; rfl
@[simp] theorem Node.type_setData (n : Node) (d : NodeData Node) :
    (n.setData d).type = n.type := by cases n; rfl
@[simp] theorem Node.kind_setType (n : Node) (t : Ty) :
    (n.setType t).kind = n.kind := by cases n; rfl
@[simp] theorem Node.data_setType (n : Node) (t : Ty) :
    (n.setType t).data = n.data := by cases n; rfl
@[simp] theorem Node.type_setType (n : Node) (t : Ty) :
    (n.setType t).type = t := by cases n; rfl
@[simp] theorem Node.kind_setPos (n : Node) (l c : Nat) :
    (n.setPos l c).kind = n.kind := by cases n; rfl
@[simp] theorem Node.data_setPos (n : Node) (l c : Nat) :
    (n.setPos l c).data = n.data := by cases n; rfl
@[simp] theorem Node.type_setPos (n : Node) (l c : Nat) :
    (n.setPos l c).type = n.type := by cases n; rfl
@[simp] theorem Node.kind_setKind (n : Node) (k : NodeKind) :
    (n.setKind k).kind = k := by cases n; rfl
@[simp] theorem Node.data_setKind (n : Node) (k : NodeKind) :
    (n.setKind k).data = n.data := by cases n; rfl
@[simp] theorem Node.type_setKind (n : Node) (k : NodeKind) :
    (n.setKind k).type = n.type := by cases n; rfl
@[simp] theorem kind_make_node (k : NodeKind) : (make_node k).kind = k := rfl
@[simp] theorem type_make_node (k : NodeKind) :
    (make_node k).type = primitive_types TYPE_VOID := rfl
@[simp] theorem data_make_node (k : NodeKind) : (make_node k).data = .zeroed := rfl

/-! ### Inversion of the `Except` monad -/

theorem bind_ok {ε α β : Type} {x : Except ε α} {f : α → Except ε β} {b : β} :
    (x >>= f) = .ok b ↔ ∃ a, x = .ok a ∧ f a = .ok b := by
  cases x <;> simp [bind, Except.bind]

theorem map_ok {ε α β : Type} {x : Except ε α} {f : α → β} {b : β} :
    x.map f = .ok b ↔ ∃ a, x = .ok a ∧ f a = b := by
  cases x <;> simp [Except.map]

theorem pure_ok {ε α : Type} {a b : α} : (pure a : Except ε α) = .ok b ↔ a = b := by
  simp [pure, Except.pure]

/-! ### The token cursor -/

theorem tok_of_get {s : Parser} {t : Token} (h : s.stream[s.stream_pos]? = some t) :
    tok s = .ok t := by
  simp [tok, h]

theorem consume_of_tok {s : Parser} {t : Token} (h : tok s = .ok t) :
    consume s = .ok (t, s.advance) := by
  simp [consume, h]

theorem expect_of_tok {s : Parser} {t : Token} {k : TokenKind} (h : tok s = .ok t)
    (hk : t.kind = k) : expect k s = .ok (t, s.advance) := by
  simp [expect, consume, h, hk]

theorem expect_of_tok_ne {s : Parser} {t : Token} {k : TokenKind}
    (ht : tok s = .ok t) (hk : t.kind ≠ k) : expect k s = .error .SyntaxError := by
  simp [expect, consume, ht, hk]

theorem match_of_tok {s : Parser} {t : Token} {k : TokenKind} (h : tok s = .ok t)
    (hk : t.kind = k) : match_ k s = .ok (true, s.advance) := by
  simp [match_, consume, h, hk]

theorem match_of_tok_ne {s : Parser} {t : Token} {k : TokenKind} (h : tok s = .ok t)
    (hk : t.kind ≠ k) : match_ k s = .ok (false, s) := by
  simp [match_, h, hk]

/-! ### Statements are never null -/

theorem parse_function_call_fails {s : Parser} {t : Token} (name : String)
    (ht : tok s = .ok t) (hk : t.kind = .TOKEN_LPAREN) :
    parse_function_call name s = .error .SyntaxError := by
  have : t.kind ≠ .TOKEN_SEMICOLON := by rw [hk]; decide
  simp [parse_function_call, expect_of_tok_ne ht this, bind, Except.bind]

theorem parse_variable_assignment_some {fuel : Nat} {name : String} {s s' : Parser}
    {r : Option Node} (h : parse_variable_assignment fuel name s = .ok (r, s')) :
    ∃ n, r = some n := by
  simp only [parse_variable_assignment, bind_ok, pure_ok] at h
  obtain ⟨t, -, ⟨_, s1⟩, -, h⟩ := h
  split at h
  · simp at h
  · simp only [bind_ok, pure_ok] at h
    obtain ⟨⟨v, s2⟩, -, ⟨_, s3⟩, -, h⟩ := h
    simp only [Prod.mk.injEq] at h
    exact ⟨_, h.1.symm⟩

theorem parse_identifier_stmt_some {fuel : Nat} {s s' : Parser} {r : Option Node}
    (h : parse_identifier_stmt fuel s = .ok (r, s')) : ∃ n, r = some n := by
  simp only [parse_identifier_stmt, bind_ok] at h
  obtain ⟨⟨ident, s1⟩, -, t, ht, h⟩ := h
  split at h
  · rename_i hk
    rw [parse_function_call_fails _ ht hk] at h
    simp at h
  · simp only [map_ok, Prod.mk.injEq] at h
    obtain ⟨_, -, h, -⟩ := h
    exact ⟨_, h.symm⟩
  · simp only [map_ok, Prod.mk.injEq] at h
    obtain ⟨_, -, h, -⟩ := h
    exact ⟨_, h.symm⟩
  · exact parse_variable_assignment_some h
  · simp at h

theorem parse_conditional_some {fuel : Nat} {s s' : Parser} {r : Option Node}
    (h : parse_conditional fuel s = .ok (r, s')) : ∃ n, r = some n := by
  cases fuel with
  | zero => simp [parse_conditional] at h
  | succ fuel =>
    simp only [parse_conditional, bind_ok, pure_ok, Prod.mk.injEq] at h
    obtain ⟨_, -, _, -, _, -, h, -⟩ := h
    exact ⟨_, h.symm⟩

theorem parse_return_some {fuel : Nat} {s s' : Parser} {r : Option Node}
    (h : parse_return fuel s = .ok (r, s')) : ∃ n, r = some n := by
  simp only [parse_return, bind_ok, pure_ok, Prod.mk.injEq] at h
  obtain ⟨_, -, _, -, _, -, h, -⟩ := h
  exact ⟨_, h.symm⟩

/-- The variable `stmt` of `parse_block` is the last statement appended. -/
theorem parse_block_loop_last (fuel : Nat) :
    ∀ (s : Parser) (body : List Node) (stmt : Option Node)
      (body' : List Node) (stmt' : Option Node) (s' : Parser),
    parse_block_loop fuel s body stmt = .ok (body', stmt', s') →
    stmt = body.getLast? → stmt' = body'.getLast? := by
  induction fuel with
  | zero => intro s body stmt body' stmt' s' h; simp [parse_block_loop] at h
  | succ fuel ih =>
    intro s body stmt body' stmt' s' h hl
    simp only [parse_block_loop, bind_ok] at h
    obtain ⟨t, ht, h⟩ := h
    split at h
    · simp only [pure_ok, Prod.mk.injEq] at h
      obtain ⟨rfl, rfl, -⟩ := h
      exact hl
    · simp only [bind_ok] at h
      obtain ⟨⟨r, s1⟩, hr, h⟩ := h
      have hsome : ∃ n, r = some n := by
        split at hr
        · simp only [map_ok, Prod.mk.injEq] at hr
          obtain ⟨_, -, hr, -⟩ := hr
          exact ⟨_, hr.symm⟩
        · exact parse_identifier_stmt_some hr
        · exact parse_conditional_some hr
        · exact parse_conditional_some hr
        · exact parse_conditional_some hr
        · exact parse_return_some hr
        · simp at hr
      obtain ⟨n, rfl⟩ := hsome
      exact ih _ _ _ _ _ _ h (by simp)

/-- The flag `in_func_toplevel` changes the result of `parse_block` by
`return_terminated` and nothing else. -/
theorem parse_block_true (fuel : Nat) (s : Parser) :
    parse_block fuel true s =
      (parse_block fuel false s).map (fun r => (return_terminated r.1, r.2)) := by
  cases fuel with
  | zero => rfl
  | succ fuel =>
    simp only [parse_block]
    cases h1 : expect .TOKEN_LBRACE s with
    | error e => rfl
    | ok r1 =>
      obtain ⟨_, s1⟩ := r1
      simp only [bind, Except.bind]
      cases h2 : parse_block_loop fuel s1 [] none with
      | error e => rfl
      | ok r2 =>
        obtain ⟨body, stmt, s2⟩ := r2
        have hl := parse_block_loop_last fuel _ _ _ _ _ _ h2 rfl
        subst hl
        simp only []
        cases h3 : expect .TOKEN_RBRACE s2 with
        | error e => rfl
        | ok r3 =>
          cases hg : body.getLast? with
          | none => simp [Except.map, return_terminated, pure, Except.pure, hg]
          | some n =>
            by_cases hk : n.kind = .NODE_RET_STMT <;>
              simp [Except.map, return_terminated, pure, Except.pure, hg, hk]

theorem find_isSome_of_mem {t : SymbolTable} {sym : Symbol} {n : String}
    (hmem : sym ∈ t.symbols) (hn : sym.name = n) : ∃ found, t.find n = some found := by
  cases hf : t.find n with
  | some f => exact ⟨f, rfl⟩
  | none =>
    simp only [SymbolTable.find, List.find?_eq_none] at hf
    have := hf sym hmem
    simp [hn] at this

theorem scope_insert_declared {scopes : List SymbolTable} {cur : Nat} {scope : SymbolTable}
    {sym : Symbol} {n : String} (k : SymbolKind) (hscope : scopes[cur]? = some scope)
    (hmem : sym ∈ scope.symbols) (hn : sym.name = n) :
    scope_insert scopes (some cur) n k = .ok none := by
  obtain ⟨f, hf⟩ := find_isSome_of_mem hmem hn
  simp [scope_insert, hscope, SymbolTable.insert, hf]

/-! ### Expressions leave the scopes alone -/

theorem SameScopes.same_refl (s : Parser) : SameScopes s s := ⟨rfl, rfl, rfl, rfl, rfl⟩

theorem SameScopes.seq {a b c : Parser} (h1 : SameScopes a b) (h2 : SameScopes b c) :
    SameScopes a c :=
  ⟨h2.1.trans h1.1, h2.2.trans h1.2, h2.3.trans h1.3, h2.4.trans h1.4, h2.5.trans h1.5⟩

theorem SameScopes.advance (s : Parser) : SameScopes s s.advance := ⟨rfl, rfl, rfl, rfl, rfl⟩

theorem SameScopes.setStack (s : Parser) (st : List Node) : SameScopes s (s.setStack st) :=
  ⟨rfl, rfl, rfl, rfl, rfl⟩

theorem consume_inv {s s' : Parser} {t : Token} (h : consume s = .ok (t, s')) :
    tok s = .ok t ∧ s' = s.advance := by
  unfold consume at h
  split at h
  · simp at h
  · rename_i tk htk
    simp only [Except.ok.injEq, Prod.mk.injEq] at h
    exact ⟨by rw [htk, h.1], h.2.symm⟩

theorem expect_inv {s s' : Parser} {t : Token} {k : TokenKind}
    (h : expect k s = .ok (t, s')) : tok s = .ok t ∧ t.kind = k ∧ s' = s.advance := by
  unfold expect at h
  split at h
  · simp at h
  · rename_i got s1 hc
    obtain ⟨h1, h2⟩ := consume_inv hc
    split at h
    · simp at h
    · rename_i hk
      simp only [Except.ok.injEq, Prod.mk.injEq] at h
      obtain ⟨rfl, rfl⟩ := h
      exact ⟨h1, by simpa using hk, h2⟩

theorem match_inv {s s' : Parser} {b : Bool} {k : TokenKind}
    (h : match_ k s = .ok (b, s')) :
    ∃ t, tok s = .ok t ∧
      ((b = true ∧ t.kind = k ∧ s' = s.advance) ∨ (b = false ∧ t.kind ≠ k ∧ s' = s)) := by
  unfold match_ at h
  split at h
  · simp at h
  · rename_i t ht
    refine ⟨t, ht, ?_⟩
    split at h
    · rename_i hk
      rw [consume_of_tok ht] at h
      simp only [Except.ok.injEq, Prod.mk.injEq] at h
      exact Or.inl ⟨h.1.symm, hk, h.2.symm⟩
    · rename_i hk
      simp only [Except.ok.injEq, Prod.mk.injEq] at h
      exact Or.inr ⟨h.1.symm, hk, h.2.symm⟩

theorem consume_same {s s' : Parser} {t : Token} (h : consume s = .ok (t, s')) :
    SameScopes s s' := by
  rw [(consume_inv h).2]; exact SameScopes.advance s

theorem expect_same {s s' : Parser} {t : Token} {k : TokenKind}
    (h : expect k s = .ok (t, s')) : SameScopes s s' := by
  rw [(expect_inv h).2.2]; exact SameScopes.advance s

theorem match_same {s s' : Parser} {b : Bool} {k : TokenKind}
    (h : match_ k s = .ok (b, s')) : SameScopes s s' := by
  obtain ⟨t, -, h | h⟩ := match_inv h
  · rw [h.2.2]; exact SameScopes.advance s
  · rw [h.2.2]; exact SameScopes.same_refl s

theorem pop_same {s s' : Parser} {n : Node} (h : pop_expr_node s = .ok (n, s')) :
    SameScopes s s' := by
  unfold pop_expr_node at h
  split at h
  · simp at h
  · simp only [Except.ok.injEq, Prod.mk.injEq] at h
    rw [← h.2]; exact SameScopes.setStack _ _
  · simp only [Except.ok.injEq, Prod.mk.injEq] at h
    rw [← h.2]; exact SameScopes.setStack _ _

theorem push_same (n : Node) (s : Parser) : SameScopes s (push_expr_node n s) :=
  SameScopes.setStack _ _

theorem parse_unary_expr_same {op : UnaryOp} {l c : Nat} {s s' : Parser} {n : Node}
    (h : parse_unary_expr op l c s = .ok (n, s')) : SameScopes s s' := by
  unfold parse_unary_expr at h
  split at h
  · simp at h
  · rename_i e s1 hp
    simp only [Except.ok.injEq, Prod.mk.injEq] at h
    rw [← h.2]; exact pop_same hp

theorem parse_factor_same {s s' : Parser} (h : parse_factor s = .ok s') : SameScopes s s' := by
  unfold parse_factor at h
  split at h
  · simp at h
  · rename_i token s1 hc
    have h1 := consume_same hc
    split at h
    · dsimp only at h
      split at h
      · simp at h
      · simp only [Except.ok.injEq] at h
        rw [← h]; exact h1.seq (push_same _ _)
    · simp only [Except.ok.injEq] at h
      rw [← h]; exact h1.seq (push_same _ _)
    · simp only [Except.ok.injEq] at h
      rw [← h]; exact h1.seq (push_same _ _)
    · simp only [Except.ok.injEq] at h
      rw [← h]; exact h1.seq (push_same _ _)
    · simp at h

theorem parse_term_group_same (fuel : Nat) :
    (∀ op l c s n s', parse_binary_expr fuel op l c s = .ok (n, s') → SameScopes s s') ∧
    (∀ s s', parse_term fuel s = .ok s' → SameScopes s s') ∧
    (∀ s s', parse_term_loop fuel s = .ok s' → SameScopes s s') := by
  induction fuel with
  | zero =>
    refine ⟨?_, ?_, ?_⟩
    · intro op l c s n s' h; simp [parse_binary_expr] at h
    · intro s s' h; simp [parse_term] at h
    · intro s s' h; simp [parse_term_loop] at h
  | succ fuel ih =>
    obtain ⟨ihb, iht, ihl⟩ := ih
    refine ⟨?_, ?_, ?_⟩
    · intro op l c s n s' h
      simp only [parse_binary_expr] at h
      split at h
      · simp at h
      · rename_i lhs s1 h1
        split at h
        · simp at h
        · rename_i s2 h2
          split at h
          · simp at h
          · rename_i rhs s3 h3
            split at h
            · simp at h
            · simp only [Except.ok.injEq, Prod.mk.injEq] at h
              rw [← h.2]
              exact ((pop_same h1).seq (iht _ _ h2)).seq (pop_same h3)
    · intro s s' h
      simp only [parse_term] at h
      split at h
      · simp at h
      · rename_i s1 h1
        exact (parse_factor_same h1).seq (ihl _ _ h)
    · intro s s' h
      simp only [parse_term_loop] at h
      split at h
      · simp at h
      · rename_i t ht
        split at h
        · simp only [Except.ok.injEq] at h
          rw [← h]; exact SameScopes.same_refl s
        · split at h
          · simp at h
          · rename_i tk s1 hc
            split at h
            · simp at h
            · rename_i node s2 hb
              exact ((consume_same hc).seq (ihb _ _ _ _ _ _ hb)).seq
                ((push_same _ _).seq (ihl _ _ h))

theorem parse_term_same {fuel : Nat} {s s' : Parser} (h : parse_term fuel s = .ok s') :
    SameScopes s s' :=
  (parse_term_group_same fuel).2.1 s s' h

theorem parse_binary_expr_same {fuel : Nat} {op : BinaryOp} {l c : Nat} {s s' : Parser}
    {n : Node} (h : parse_binary_expr fuel op l c s = .ok (n, s')) : SameScopes s s' :=
  (parse_term_group_same fuel).1 op l c s n s' h

theorem parse_expression_loop_same (fuel : Nat) :
    ∀ s s', parse_expression_loop fuel s = .ok s' → SameScopes s s' := by
  induction fuel with
  | zero => intro s s' h; simp [parse_expression_loop] at h
  | succ fuel ih =>
    intro s s' h
    simp only [parse_expression_loop] at h
    split at h
    · simp at h
    · rename_i t ht
      split at h
      · simp only [Except.ok.injEq] at h
        rw [← h]; exact SameScopes.same_refl s
      · split at h
        · simp at h
        · rename_i tk s1 hc
          split at h
          · simp at h
          · rename_i node s2 hb
            exact ((consume_same hc).seq (parse_binary_expr_same hb)).seq
              ((push_same _ _).seq (ih _ _ h))

theorem parse_expression_same {fuel : Nat} {s s' : Parser} {n : Node}
    (h : parse_expression fuel s = .ok (n, s')) : SameScopes s s' := by
  simp only [parse_expression, bind_ok] at h
  obtain ⟨t, -, s1, h1, s2, h2, s3, h3, s4, h4, h⟩ := h
  have e1 : SameScopes s s1 := by
    split at h1
    · simp only [Except.ok.injEq] at h1
      rw [← h1]; exact SameScopes.same_refl s
    · rw [map_ok] at h1
      obtain ⟨⟨tk, sa⟩, hc, rfl⟩ := h1
      exact consume_same hc
  have e3 : SameScopes s2 s3 := by
    split at h3
    · rw [map_ok] at h3
      obtain ⟨⟨nd, sa⟩, hu, rfl⟩ := h3
      exact (parse_unary_expr_same hu).seq (push_same _ _)
    · simp only [Except.ok.injEq] at h3
      rw [← h3]; exact SameScopes.same_refl s2
  exact (((e1.seq (parse_term_same h2)).seq e3).seq
    (parse_expression_loop_same fuel _ _ h4)).seq (pop_same h)

/-! ### The heap of scopes -/

theorem modify_set_same {α : Type} (f : α → α) (a : α) :
    ∀ (l : List α) (i : Nat), (l.set i a).modify f i = l.set i (f a)
  | [], _ => by simp
  | _ :: _, 0 => by simp
  | b :: l, i + 1 => by simp [modify_set_same f a l i]

theorem find_extend_self {t : SymbolTable} {sym : Symbol} (h : t.find sym.name = none) :
    (t.extend sym).find sym.name = some sym := by
  simp only [SymbolTable.find] at h
  simp [SymbolTable.find, SymbolTable.extend, List.find?_append, h]

theorem find_extend_ne {t : SymbolTable} {sym : Symbol} {n : String} (h : sym.name ≠ n) :
    (t.extend sym).find n = t.find n := by
  simp only [SymbolTable.find, SymbolTable.extend, List.find?_append]
  cases t.symbols.find? (fun sym => decide (sym.name = n)) <;> simp [h]

theorem update_extend {t : SymbolTable} {sym : Symbol} (f : Symbol → Symbol)
    (h : t.find sym.name = none) : (t.extend sym).update sym.name f = t.extend (f sym) := by
  simp only [SymbolTable.find, List.find?_eq_none] at h
  simp only [SymbolTable.update, SymbolTable.extend, List.map_append, List.map_cons,
    List.map_nil, if_true]
  congr 2
  conv => rhs; rw [← List.map_id t.symbols]
  apply List.map_congr_left
  intro a ha
  have := h a ha
  simp only [decide_eq_true_eq] at this
  simp [this]

theorem insert_eq_extend {t t1 : SymbolTable} {n : String} {k : SymbolKind}
    (h : t.insert n k = some t1) : t.find n = none ∧ t1 = t.extend (Symbol.fresh n k) := by
  unfold SymbolTable.insert at h
  split at h
  · simp at h
  · rename_i hf
    simp only [Option.some.injEq] at h
    exact ⟨hf, h.symm⟩

theorem scope_insert_inv {scopes scopes1 : List SymbolTable} {scope : Option Nat} {n : String}
    {k : SymbolKind} (h : scope_insert scopes scope n k = .ok (some scopes1)) :
    ∃ cur tbl, scope = some cur ∧ scopes[cur]? = some tbl ∧ tbl.find n = none ∧
      scopes1 = scopes.set cur (tbl.extend (Symbol.fresh n k)) := by
  unfold scope_insert at h
  split at h
  · simp at h
  · rename_i cur
    split at h
    · simp at h
    · rename_i tbl htbl
      split at h
      · simp at h
      · rename_i t1 hins
        obtain ⟨hf, rfl⟩ := insert_eq_extend hins
        simp only [Except.ok.injEq, Option.some.injEq] at h
        exact ⟨cur, tbl, rfl, htbl, hf, h.symm⟩

@[simp] theorem current_scope_write_symbol (c : Nat) (n : String) (f : Symbol → Symbol)
    (s : Parser) : (write_symbol c n f s).current_scope = s.current_scope := rfl
@[simp] theorem stream_write_symbol (c : Nat) (n : String) (f : Symbol → Symbol)
    (s : Parser) : (write_symbol c n f s).stream = s.stream := rfl
@[simp] theorem stream_pos_write_symbol (c : Nat) (n : String) (f : Symbol → Symbol)
    (s : Parser) : (write_symbol c n f s).stream_pos = s.stream_pos := rfl
@[simp] theorem stack_top_write_symbol (c : Nat) (n : String) (f : Symbol → Symbol)
    (s : Parser) : (write_symbol c n f s).stack_top = s.stack_top := rfl
@[simp] theorem global_scope_write_symbol (c : Nat) (n : String) (f : Symbol → Symbol)
    (s : Parser) : (write_symbol c n f s).global_scope = s.global_scope := rfl
@[simp] theorem warnings_write_symbol (c : Nat) (n : String) (f : Symbol → Symbol)
    (s : Parser) : (write_symbol c n f s).warnings = s.warnings := rfl
@[simp] theorem tok_write_symbol (c : Nat) (n : String) (f : Symbol → Symbol)
    (s : Parser) : tok (write_symbol c n f s) = tok s := rfl
@[simp] theorem tok_warn (s : Parser) (n : String) : tok (s.warn n) = tok s := rfl
@[simp] theorem tok_setScopes (s : Parser) (sc : List SymbolTable) :
    tok (s.setScopes sc) = tok s := rfl
@[simp] theorem tok_setStack (s : Parser) (st : List Node) : tok (s.setStack st) = tok s := rfl

/-- A write through the symbol pointer of a declaration in progress. -/
theorem write_symbol_set {s : Parser} {cur : Nat} {tbl : SymbolTable} {sym : Symbol}
    {l : List SymbolTable} {x : String} (f : Symbol → Symbol)
    (hs : s.scopes = l.set cur (tbl.extend sym)) (hx : sym.name = x)
    (h : tbl.find x = none) :
    (write_symbol cur x f s).scopes = l.set cur (tbl.extend (f sym)) := by
  subst hx
  simp [write_symbol, hs, modify_set_same, update_extend f h]

/-! ### Variable declarations, step by step -/

/-- Every successful run of `parse_variable_declaration`: the name `x` was not
bound in the active scope `cur`; the declaration had one of its three forms;
the final scopes are the initial ones with `declared_symbol` added to `cur`. -/
theorem parse_variable_declaration_inv {fuel : Nat} {var_name : Option String}
    {s s' : Parser} {node : Node}
    (h : parse_variable_declaration fuel var_name s = .ok (node, s')) :
    ∃ (t : Token) (x : String) (is_constant : Bool) (s0 : Parser) (cur : Nat)
      (tbl : SymbolTable) (ty : Ty) (init : Option Node) (s5 : Parser) (tw : Token),
      tok s = .ok t ∧
      ((var_name = some x ∧ is_constant = false ∧ s0 = s) ∨
        (var_name = none ∧ is_constant = true ∧ t.kind = .TOKEN_CONST ∧
          ∃ ti, tok s.advance = .ok ti ∧ ti.kind = .TOKEN_IDENTIFIER ∧ ti.str = x ∧
            s0 = s.advance.advance)) ∧
      s.current_scope = some cur ∧ s.scopes[cur]? = some tbl ∧ tbl.find x = none ∧
      node = ((make_node .NODE_VAR_DECL).setPos t.line t.col).setData (.var_decl x ty init) ∧
      tok (declaring s0 cur tbl x is_constant) = .ok tw ∧
      ((tw.kind = .TOKEN_WALRUS ∧ ∃ i s4,
          parse_expression fuel (declaring s0 cur tbl x is_constant).advance = .ok (i, s4) ∧
          init = some i ∧ ty = i.type ∧ s5 = s4) ∨
        (tw.kind = .TOKEN_COLON ∧ ∃ s2 te,
          parse_type (declaring s0 cur tbl x is_constant).advance = .ok (ty, s2) ∧
          tok s2 = .ok te ∧
          ((te.kind = .TOKEN_EQUAL ∧ ∃ i s4,
              parse_expression fuel s2.advance = .ok (i, s4) ∧
              init = some i ∧ ty.id = i.type.id ∧ s5 = s4) ∨
            (te.kind ≠ .TOKEN_EQUAL ∧ init = none ∧ s5 = s2.warn x)))) ∧
      (∃ ts, tok s5 = .ok ts ∧ ts.kind = .TOKEN_SEMICOLON) ∧
      s'.scopes = s.scopes.set cur (tbl.extend (declared_symbol x is_constant init node)) ∧
      s'.current_scope = s.current_scope ∧ s'.stream = s.stream ∧
      s'.global_scope = s.global_scope ∧ s'.stream_pos = s5.stream_pos + 1 ∧
      s'.stack_top = s5.stack_top ∧ s'.warnings = s5.warnings := by
  simp only [parse_variable_declaration, bind_ok] at h
  obtain ⟨t, ht, ⟨is_constant, x, s0⟩, h0, ins, hins, h⟩ := h
  -- the optional `const` and name
  have hs0 : SameScopes s s0 ∧
      ((var_name = some x ∧ is_constant = false ∧ s0 = s) ∨
        (var_name = none ∧ is_constant = true ∧ t.kind = .TOKEN_CONST ∧
          ∃ ti, tok s.advance = .ok ti ∧ ti.kind = .TOKEN_IDENTIFIER ∧ ti.str = x ∧
            s0 = s.advance.advance)) := by
    cases var_name with
    | some n =>
      simp only [Except.ok.injEq, Prod.mk.injEq] at h0
      obtain ⟨rfl, rfl, rfl⟩ := h0
      exact ⟨SameScopes.same_refl _, Or.inl ⟨rfl, rfl, rfl⟩⟩
    | none =>
      simp only [bind_ok, pure_ok, Prod.mk.injEq] at h0
      obtain ⟨⟨tc, sa⟩, hc, ⟨ti, sb⟩, hi, rfl, rfl, rfl⟩ := h0
      obtain ⟨hc1, hc2, rfl⟩ := expect_inv hc
      obtain ⟨hi1, hi2, rfl⟩ := expect_inv hi
      rw [ht] at hc1
      simp only [Except.ok.injEq] at hc1
      subst hc1
      exact ⟨(SameScopes.advance _).seq (SameScopes.advance _),
        Or.inr ⟨rfl, rfl, hc2, ti, hi1, hi2, rfl, rfl⟩⟩
  obtain ⟨hsame, hform⟩ := hs0
  split at h
  · simp at h
  · rename_i scopes1
    dsimp only at hins
    obtain ⟨cur, tbl, hcur, htbl, hfind, rfl⟩ := scope_insert_inv hins
    simp only [hcur, Option.getD_some] at h
    -- the state once the symbol is inserted
    have hA : write_symbol cur x (fun sym => { sym with is_constant := is_constant })
        (s0.setScopes (s0.scopes.set cur (tbl.extend (Symbol.fresh x .SYMBOL_VARIABLE)))) =
        declaring s0 cur tbl x is_constant := by
      simp only [write_symbol, declaring, Parser.scopes_setScopes, modify_set_same]
      have := @update_extend tbl (Symbol.fresh x .SYMBOL_VARIABLE)
        (fun sym => { sym with is_constant := is_constant }) hfind
      simp only [Symbol.fresh] at this
      simp [this, Parser.setScopes, Symbol.fresh]
    rw [hA] at h
    simp only [bind_ok, pure_ok] at h
    obtain ⟨⟨walrus, s3⟩, hw, ⟨node1, s5⟩, hbody, ⟨ts, s6⟩, hsemi, h⟩ := h
    simp only [Prod.mk.injEq] at h
    obtain ⟨rfl, rfl⟩ := h
    obtain ⟨hts1, hts2, rfl⟩ := expect_inv hsemi
    obtain ⟨tw, htw, hwc⟩ := match_inv hw
    have hscA : (declaring s0 cur tbl x is_constant).scopes = s.scopes.set cur
        (tbl.extend ⟨x, .SYMBOL_VARIABLE, primitive_types TYPE_VOID, is_constant, false, none⟩) := by
      simp [declaring, hsame.scopes]
    have hcurA : (declaring s0 cur tbl x is_constant).current_scope = s.current_scope := by
      simp [declaring, hsame.current_scope]
    have hstrA : (declaring s0 cur tbl x is_constant).stream = s.stream := by
      simp [declaring, hsame.stream]
    have hglA : (declaring s0 cur tbl x is_constant).global_scope = s.global_scope := by
      simp [declaring, hsame.global_scope]
    rw [hsame.current_scope] at hcur
    rw [hsame.scopes] at htbl
    rcases hwc with ⟨rfl, hk, rfl⟩ | ⟨rfl, hk, rfl⟩
    · -- `x := e;`
      simp only [if_true, bind_ok, pure_ok, Prod.mk.injEq] at hbody
      obtain ⟨⟨i, s4⟩, he, rfl, rfl⟩ := hbody
      have e4 := parse_expression_same he
      have hsc4 : s4.scopes = s.scopes.set cur
          (tbl.extend ⟨x, .SYMBOL_VARIABLE, primitive_types TYPE_VOID, is_constant, false, none⟩) := by
        rw [e4.scopes]; exact hscA
      have w1 := write_symbol_set (s := s4)
        (fun sym => { sym with type := i.type, is_initialized := true }) hsc4 rfl hfind
      refine ⟨t, x, is_constant, s0, cur, tbl, i.type, some i, s4, tw, ht, hform, hcur, htbl,
        hfind, rfl, htw, Or.inl ⟨hk, i, s4, he, rfl, rfl, rfl⟩, ⟨ts, by simpa using hts1, hts2⟩,
        ?_, ?_, ?_, ?_, rfl, rfl, rfl⟩
      · exact write_symbol_set (s := (write_symbol cur x _ s4).advance) _ w1 rfl hfind
      · simp [e4.current_scope, hcurA]
      · simp [e4.stream, hstrA]
      · simp [e4.global_scope, hglA]
    · -- `x : T ...`
      simp only [Bool.false_eq_true, if_false, bind_ok] at hbody
      obtain ⟨⟨tcol, s1⟩, hcol, ⟨ty, s2⟩, hty, ⟨eq, s3⟩, heq, hbody⟩ := hbody
      obtain ⟨hc1, hc2, rfl⟩ := expect_inv hcol
      rw [htw] at hc1
      simp only [Except.ok.injEq] at hc1
      subst hc1
      have e2 : SameScopes (declaring s0 cur tbl x is_constant).advance s2 := by
        simp only [parse_type, bind_ok] at hty
        split at hty
        · simp at hty
        · rename_i tn sn hn
          split at hty
          · simp at hty
          · simp only [Except.ok.injEq, Prod.mk.injEq] at hty
            rw [← hty.2]; exact expect_same hn
      obtain ⟨te, hte, hec⟩ := match_inv heq
      have hsc2 : s2.scopes = s.scopes.set cur
          (tbl.extend ⟨x, .SYMBOL_VARIABLE, primitive_types TYPE_VOID, is_constant, false, none⟩) := by
        rw [e2.scopes]; exact hscA
      rcases hec with ⟨rfl, hek, rfl⟩ | ⟨rfl, hek, rfl⟩
      · simp only [if_true, bind_ok] at hbody
        obtain ⟨⟨i, s4⟩, he, hbody⟩ := hbody
        split at hbody
        · simp at hbody
        · rename_i hid
          simp only [pure_ok, Prod.mk.injEq] at hbody
          obtain ⟨rfl, rfl⟩ := hbody
          have e4 := parse_expression_same he
          have hsc4 : s4.scopes = s.scopes.set cur (tbl.extend
              ⟨x, .SYMBOL_VARIABLE, primitive_types TYPE_VOID, is_constant, false, none⟩) := by
            rw [e4.scopes]; exact hsc2
          have w1 := write_symbol_set (s := s4)
            (fun sym => { sym with type := i.type, is_initialized := true }) hsc4 rfl hfind
          refine ⟨t, x, is_constant, s0, cur, tbl, ty, some i, s4, tw, ht, hform, hcur, htbl,
            hfind, rfl, htw, Or.inr ⟨hc2, s2, te, hty, hte, Or.inl ⟨hek, i, s4, he, rfl,
              by simpa using hid, rfl⟩⟩, ⟨ts, by simpa using hts1, hts2⟩,
            ?_, ?_, ?_, ?_, rfl, rfl, rfl⟩
          · exact write_symbol_set (s := (write_symbol cur x _ s4).advance) _ w1 rfl hfind
          · simp [e4.current_scope, e2.current_scope, hcurA]
          · simp [e4.stream, e2.stream, hstrA]
          · simp [e4.global_scope, e2.global_scope, hglA]
      · simp only [Bool.false_eq_true, if_false, pure_ok, Prod.mk.injEq] at hbody
        obtain ⟨rfl, rfl⟩ := hbody
        refine ⟨t, x, is_constant, s0, cur, tbl, ty, none, s3.warn x, tw, ht, hform, hcur, htbl,
          hfind, rfl, htw, Or.inr ⟨hc2, s3, te, hty, hte, Or.inr ⟨hek, rfl, rfl⟩⟩,
          ⟨ts, hts1, hts2⟩, ?_, ?_, ?_, ?_, rfl, rfl, rfl⟩
        · exact write_symbol_set (s := (s3.warn x).advance) _ hsc2 rfl hfind
        · simp [e2.current_scope, hcurA]
        · simp [e2.stream, hstrA]
        · simp [e2.global_scope, hglA]

theorem getElem?_set_self_of_some {α : Type} {l : List α} {i : Nat} {a b : α}
    (h : l[i]? = some a) : (l.set i b)[i]? = some b := by
  have hi : i < l.length := by
    by_contra hc
    rw [List.getElem?_eq_none (by omega)] at h
    simp at h
  simp [List.getElem?_set, hi]

/-- After a declaration of `x` the active scope binds `x` to `declared_symbol`. -/
theorem local_symbol_declared {s s' : Parser} {cur : Nat} {tbl : SymbolTable} {sym : Symbol}
    {x : String} (hcur : s.current_scope = some cur) (htbl : s.scopes[cur]? = some tbl)
    (hfind : tbl.find x = none) (hx : sym.name = x)
    (hsc : s'.scopes = s.scopes.set cur (tbl.extend sym))
    (hc : s'.current_scope = s.current_scope) : local_symbol s' x = some sym := by
  subst hx
  simp only [local_symbol, hc, hcur, hsc, getElem?_set_self_of_some htbl]
  exact find_extend_self hfind

theorem scope_insert_fresh {scopes : List SymbolTable} {cur : Nat} {tbl : SymbolTable}
    {x : String} (k : SymbolKind) (htbl : scopes[cur]? = some tbl) (hfind : tbl.find x = none) :
    scope_insert scopes (some cur) x k =
      .ok (some (scopes.set cur (tbl.extend (Symbol.fresh x k)))) := by
  simp [scope_insert, htbl, SymbolTable.insert, hfind, SymbolTable.extend]

theorem write_constant_declaring (s : Parser) (cur : Nat) (tbl : SymbolTable) (x : String)
    (is_constant : Bool) (hfind : tbl.find x = none) :
    write_symbol cur x (fun sym => { sym with is_constant := is_constant })
      (s.setScopes (s.scopes.set cur (tbl.extend (Symbol.fresh x .SYMBOL_VARIABLE)))) =
    declaring s cur tbl x is_constant := by
  simp only [write_symbol, declaring, Parser.scopes_setScopes, modify_set_same]
  have := @update_extend tbl (Symbol.fresh x .SYMBOL_VARIABLE)
    (fun sym => { sym with is_constant := is_constant }) hfind
  simp only [Symbol.fresh] at this
  simp [this, Parser.setScopes, Symbol.fresh]

@[simp] theorem tok_declaring (s : Parser) (cur : Nat) (tbl : SymbolTable) (x : String)
    (c : Bool) : tok (declaring s cur tbl x c) = tok s := rfl

theorem expect_error {k : TokenKind} {s : Parser} {e : Fatal} (h : expect k s = .error e) :
    e = .SyntaxError ∨ e = .Crash := by
  cases ht : tok s with
  | error e' =>
    have : e' = .Crash := by
      unfold tok at ht
      split at ht
      · simp at ht
      · simp only [Except.error.injEq] at ht
        exact ht.symm
    simp only [expect, consume, ht, Except.error.injEq] at h
    right; rw [← h, this]
  | ok t =>
    by_cases hk : t.kind = k
    · rw [expect_of_tok ht hk] at h
      simp at h
    · rw [expect_of_tok_ne ht hk] at h
      simp only [Except.error.injEq] at h
      left; exact h.symm

/-- The run of `parse_variable_declaration` on `x : T = e;` up to the type
check, given that `T` resolves and `e` parses. -/
theorem parse_variable_declaration_explicit {fuel : Nat} {x : String} {s s2 s4 : Parser}
    {cur : Nat} {tbl : SymbolTable} {t te : Token} {T : Ty} {e : Node}
    (ht : tok s = .ok t) (hk : t.kind = .TOKEN_COLON)
    (hcur : s.current_scope = some cur) (htbl : s.scopes[cur]? = some tbl)
    (hfresh : tbl.find x = none)
    (hT : parse_type (declaring s cur tbl x false).advance = .ok (T, s2))
    (hte : tok s2 = .ok te) (hek : te.kind = .TOKEN_EQUAL)
    (he : parse_expression fuel s2.advance = .ok (e, s4)) :
    parse_variable_declaration fuel (some x) s =
      if T.id ≠ e.type.id then .error .TypeMismatch
      else
        (expect .TOKEN_SEMICOLON (write_symbol cur x
            (fun sym => { sym with type := e.type, is_initialized := true }) s4)).bind
          (fun r =>
            let node := ((make_node .NODE_VAR_DECL).setPos t.line t.col).setData
              (.var_decl x T (some e))
            .ok (node, write_symbol cur x (fun sym => { sym with node := some node }) r.2)) := by
  have hw : t.kind ≠ .TOKEN_WALRUS := by rw [hk]; decide
  have hm : match_ .TOKEN_WALRUS (declaring s cur tbl x false) =
      .ok (false, declaring s cur tbl x false) := match_of_tok_ne (by simpa using ht) hw
  have hc : expect .TOKEN_COLON (declaring s cur tbl x false) =
      .ok (t, (declaring s cur tbl x false).advance) := expect_of_tok (by simpa using ht) hk
  have hq : match_ .TOKEN_EQUAL s2 = .ok (true, s2.advance) := match_of_tok hte hek
  simp only [parse_variable_declaration, ht, hcur, scope_insert_fresh _ htbl hfresh, bind,
    Except.bind, Option.getD_some, write_constant_declaring _ _ _ _ _ hfresh, hm, hc, hT, hq, he,
    Bool.false_eq_true, if_false, if_true]
  by_cases hid : T.id = e.type.id
  · simp only [hid, ne_eq, not_true_eq_false, if_false, pure, Except.pure]
  · simp [hid]

/-! ### Statements change the active scope only -/

theorem Frame.frame_refl (s : Parser) : Frame s s :=
  ⟨rfl, rfl, rfl, rfl, fun _ _ => rfl, fun _ => rfl⟩

theorem Frame.step {a b c : Parser} (h1 : Frame a b) (h2 : Frame b c) : Frame a c :=
  ⟨h2.current_scope.trans h1.current_scope, h2.stream.trans h1.stream,
    h2.global_scope.trans h1.global_scope, h2.length.trans h1.length,
    fun i hi => (h2.other i (by rw [h1.current_scope]; exact hi)).trans (h1.other i hi),
    fun i => (h2.parent i).trans (h1.parent i)⟩

theorem SameScopes.frame {s s' : Parser} (h : SameScopes s s') : Frame s s' :=
  ⟨h.current_scope, h.stream, h.global_scope, by rw [h.scopes],
    fun _ _ => by rw [h.scopes], fun _ => by rw [h.scopes]⟩

/-- Replacing the table of the active scope by one with the same parent. -/
theorem Frame.of_set {s s' : Parser} {cur : Nat} {tbl tbl' : SymbolTable}
    (hcur : s.current_scope = some cur) (htbl : s.scopes[cur]? = some tbl)
    (hp : tbl'.parent = tbl.parent) (hsc : s'.scopes = s.scopes.set cur tbl')
    (hc : s'.current_scope = s.current_scope) (hst : s'.stream = s.stream)
    (hg : s'.global_scope = s.global_scope) : Frame s s' := by
  refine ⟨hc, hst, hg, by simp [hsc], ?_, ?_⟩
  · intro i hi
    have : cur ≠ i := fun h => hi (by rw [hcur, h])
    simp [hsc, List.getElem?_set_ne this]
  · intro i
    by_cases h : cur = i
    · subst h
      simp [hsc, getElem?_set_self_of_some htbl, htbl, hp]
    · simp [hsc, List.getElem?_set_ne h]

theorem parse_variable_declaration_frame {fuel : Nat} {var_name : Option String}
    {s s' : Parser} {node : Node}
    (h : parse_variable_declaration fuel var_name s = .ok (node, s')) : Frame s s' := by
  obtain ⟨t, x, c, s0, cur, tbl, ty, init, s5, tw, -, -, hcur, htbl, -, -, -, -, -, hsc, hc,
    hst, hg, -⟩ := parse_variable_declaration_inv h
  exact @Frame.of_set _ _ _ _ (tbl.extend _) hcur htbl rfl hsc hc hst hg

theorem parse_variable_assignment_same {fuel : Nat} {name : String} {s s' : Parser}
    {r : Option Node} (h : parse_variable_assignment fuel name s = .ok (r, s')) :
    SameScopes s s' := by
  simp only [parse_variable_assignment, bind_ok] at h
  obtain ⟨t, -, ⟨_, s1⟩, hc, h⟩ := h
  split at h
  · simp at h
  · simp only [bind_ok, pure_ok, Prod.mk.injEq] at h
    obtain ⟨⟨v, s2⟩, he, ⟨_, s3⟩, hx, -, rfl⟩ := h
    exact ((consume_same hc).seq (parse_expression_same he)).seq (expect_same hx)

theorem parse_return_same {fuel : Nat} {s s' : Parser} {r : Option Node}
    (h : parse_return fuel s = .ok (r, s')) : SameScopes s s' := by
  simp only [parse_return, bind_ok, pure_ok, Prod.mk.injEq] at h
  obtain ⟨⟨_, s1⟩, hc, ⟨v, s2⟩, he, ⟨_, s3⟩, hx, -, rfl⟩ := h
  exact ((consume_same hc).seq (parse_expression_same he)).seq (expect_same hx)

theorem parse_identifier_stmt_frame {fuel : Nat} {s s' : Parser} {r : Option Node}
    (h : parse_identifier_stmt fuel s = .ok (r, s')) : Frame s s' := by
  simp only [parse_identifier_stmt, bind_ok] at h
  obtain ⟨⟨ident, s1⟩, hc, t, ht, h⟩ := h
  have h1 := (consume_same hc).frame
  split at h
  · rename_i hk
    rw [parse_function_call_fails _ ht hk] at h
    simp at h
  · simp only [map_ok, Prod.mk.injEq] at h
    obtain ⟨⟨n, s2⟩, hd, -, rfl⟩ := h
    exact h1.step (parse_variable_declaration_frame hd)
  · simp only [map_ok, Prod.mk.injEq] at h
    obtain ⟨⟨n, s2⟩, hd, -, rfl⟩ := h
    exact h1.step (parse_variable_declaration_frame hd)
  · exact h1.step (parse_variable_assignment_same h).frame
  · simp at h

theorem parse_block_group_frame (fuel : Nat) :
    (∀ s r s', parse_conditional fuel s = .ok (r, s') → Frame s s') ∧
    (∀ s body stmt body' stmt' s',
      parse_block_loop fuel s body stmt = .ok (body', stmt', s') → Frame s s') ∧
    (∀ b s body s', parse_block fuel b s = .ok (body, s') → Frame s s') := by
  induction fuel with
  | zero =>
    refine ⟨?_, ?_, ?_⟩
    · intro s r s' h; simp [parse_conditional] at h
    · intro s body stmt body' stmt' s' h; simp [parse_block_loop] at h
    · intro b s body s' h; simp [parse_block] at h
  | succ fuel ih =>
    obtain ⟨ihc, ihl, ihb⟩ := ih
    refine ⟨?_, ?_, ?_⟩
    · intro s r s' h
      simp only [parse_conditional, bind_ok, pure_ok, Prod.mk.injEq] at h
      obtain ⟨⟨c, s1⟩, hc, ⟨e, s2⟩, he, ⟨body, s3⟩, hb, -, rfl⟩ := h
      have h1 := (consume_same hc).frame
      have h2 : Frame s1 s2 := by
        split at he
        · simp only [map_ok, Prod.mk.injEq] at he
          obtain ⟨⟨n, sa⟩, hx, -, rfl⟩ := he
          exact (parse_expression_same hx).frame
        · simp only [map_ok, Prod.mk.injEq] at he
          obtain ⟨⟨n, sa⟩, hx, -, rfl⟩ := he
          exact (parse_expression_same hx).frame
        · simp only [Except.ok.injEq, Prod.mk.injEq] at he
          rw [← he.2]; exact Frame.frame_refl _
        · simp at he
      exact (h1.step h2).step (ihb _ _ _ _ hb)
    · intro s body stmt body' stmt' s' h
      simp only [parse_block_loop, bind_ok] at h
      obtain ⟨t, ht, h⟩ := h
      split at h
      · simp only [pure_ok, Prod.mk.injEq] at h
        rw [← h.2.2]; exact Frame.frame_refl _
      · simp only [bind_ok] at h
        obtain ⟨⟨r, s1⟩, hr, h⟩ := h
        have h1 : Frame s s1 := by
          split at hr
          · simp only [map_ok, Prod.mk.injEq] at hr
            obtain ⟨⟨n, sa⟩, hd, -, rfl⟩ := hr
            exact parse_variable_declaration_frame hd
          · exact parse_identifier_stmt_frame hr
          · exact ihc _ _ _ hr
          · exact ihc _ _ _ hr
          · exact ihc _ _ _ hr
          · exact (parse_return_same hr).frame
          · simp at hr
        cases r with
        | none =>
          simp only [pure_ok, Prod.mk.injEq] at h
          rw [← h.2.2]; exact h1
        | some n => exact h1.step (ihl _ _ _ _ _ _ h)
    · intro b s body s' h
      simp only [parse_block, bind_ok] at h
      obtain ⟨⟨_, s1⟩, h1, ⟨body1, stmt1, s2⟩, h2, ⟨_, s3⟩, h3, h⟩ := h
      have : s' = s3 := by
        split at h <;> simp only [pure_ok, Prod.mk.injEq] at h <;> exact h.2.symm
      rw [this]
      exact ((expect_same h1).frame.step (ihl _ _ _ _ _ _ h2)).step (expect_same h3).frame

theorem parse_block_frame {fuel : Nat} {b : Bool} {s s' : Parser} {body : List Node}
    (h : parse_block fuel b s = .ok (body, s')) : Frame s s' :=
  (parse_block_group_frame fuel).2.2 b s body s' h

theorem parse_type_same {s s' : Parser} {T : Ty} (h : parse_type s = .ok (T, s')) :
    SameScopes s s' := by
  simp only [parse_type] at h
  split at h
  · simp at h
  · rename_i tn sn hn
    split at h
    · simp at h
    · simp only [Except.ok.injEq, Prod.mk.injEq] at h
      rw [← h.2]; exact expect_same hn

/-! ### Function declarations, step by step -/

theorem lt_length_of_getElem? {α : Type} {l : List α} {i : Nat} {a : α}
    (h : l[i]? = some a) : i < l.length := by
  by_contra hc
  rw [List.getElem?_eq_none (by omega)] at h
  simp at h

theorem parse_params_loop_frame (fuel : Nat) :
    ∀ (fs : Nat) (s : Parser) (params : List Node) (params' : List Node) (s' : Parser),
    parse_params_loop fuel fs s params = .ok (params', s') →
    s.current_scope = some fs → Frame s s' := by
  induction fuel with
  | zero => intro fs s params params' s' h; simp [parse_params_loop] at h
  | succ fuel ih =>
    intro fs s params params' s' h hcur
    simp only [parse_params_loop, bind_ok] at h
    obtain ⟨t, ht, h⟩ := h
    split at h
    · simp only [pure_ok, Prod.mk.injEq] at h
      rw [← h.2]; exact Frame.frame_refl _
    · simp only [bind_ok] at h
      obtain ⟨⟨p, s1⟩, hp, ins, hins, h⟩ := h
      have e1 := expect_same hp
      split at h
      · simp only [bind_ok] at h
        obtain ⟨_, -, h⟩ := h
        simp at h
      · rename_i scopes1
        dsimp only at hins
        obtain ⟨cur, tbl, hc, htbl, hfind, rfl⟩ := scope_insert_inv hins
        simp only [Option.some.injEq] at hc
        subst hc
        have f2 : Frame s1 (s1.setScopes (s1.scopes.set fs
            (tbl.extend (Symbol.fresh p.str .SYMBOL_VARIABLE)))) :=
          @Frame.of_set _ _ _ _ (tbl.extend _) (by rw [e1.current_scope]; exact hcur) htbl rfl
            rfl rfl rfl rfl
        simp only [bind_ok] at h
        obtain ⟨⟨_, s2⟩, hcol, ⟨ty, s3⟩, hty, t2, ht2, h⟩ := h
        have f3 : Frame s s3 :=
          (e1.frame.step f2).step ((expect_same hcol).seq (parse_type_same hty)).frame
        split at h
        · simp only [pure_ok, Prod.mk.injEq] at h
          rw [← h.2]; exact f3
        · simp only [bind_ok] at h
          obtain ⟨⟨_, s4⟩, hcm, h⟩ := h
          have f4 := f3.step (consume_same hcm).frame
          exact f4.step (ih _ _ _ _ _ h (by rw [f4.current_scope]; exact hcur))

theorem function_entry_scopes_length (scopes : List SymbolTable) (cur : Nat)
    (tbl : SymbolTable) (f : String) :
    (function_entry_scopes scopes cur tbl f).length = scopes.length + 1 := by
  simp [function_entry_scopes, symbol_table_add_child]

theorem function_entry_scopes_new {scopes : List SymbolTable} {cur : Nat}
    {tbl : SymbolTable} (f : String) (hcur : cur < scopes.length) :
    (function_entry_scopes scopes cur tbl f)[scopes.length]? =
      some ⟨f, [Symbol.fresh f .SYMBOL_FUNCTION], some cur, []⟩ := by
  have hne : cur ≠ scopes.length := by omega
  unfold function_entry_scopes symbol_table_add_child
  rw [List.getElem?_modify_eq, List.getElem?_modify_ne _ _ hne,
    List.getElem?_append_right (by simp)]
  simp [symbol_table_create, SymbolTable.extend]

theorem function_entry_scopes_enclosing {scopes : List SymbolTable} {cur : Nat}
    {tbl : SymbolTable} (f : String) (htbl : scopes[cur]? = some tbl) :
    (function_entry_scopes scopes cur tbl f)[cur]? =
      some { tbl.extend (Symbol.fresh f .SYMBOL_FUNCTION) with
        children := tbl.children ++ [scopes.length] } := by
  have hcur := lt_length_of_getElem? htbl
  have hne : scopes.length ≠ cur := by omega
  unfold function_entry_scopes symbol_table_add_child
  rw [List.getElem?_modify_ne _ _ hne, List.getElem?_modify_eq,
    List.getElem?_append_left (by simpa using hcur), getElem?_set_self_of_some htbl]
  rfl

theorem function_entry_scopes_other {scopes : List SymbolTable} {cur : Nat}
    {tbl : SymbolTable} (f : String) {i : Nat} (h1 : i ≠ cur) (h2 : i < scopes.length) :
    (function_entry_scopes scopes cur tbl f)[i]? = scopes[i]? := by
  have hne : scopes.length ≠ i := by omega
  unfold function_entry_scopes symbol_table_add_child
  rw [List.getElem?_modify_ne _ _ hne, List.getElem?_modify_ne _ _ (Ne.symm h1),
    List.getElem?_append_left (by simpa using h2), List.getElem?_set_ne (Ne.symm h1)]

theorem own_scope_insert (l : List SymbolTable) (f : String) :
    scope_insert (l ++ [symbol_table_create f]) (some l.length) f .SYMBOL_FUNCTION =
      .ok (some (l ++ [(symbol_table_create f).extend (Symbol.fresh f .SYMBOL_FUNCTION)])) := by
  have h : (l ++ [symbol_table_create f])[l.length]? = some (symbol_table_create f) := by
    rw [List.getElem?_append_right (by simp)]; simp
  rw [scope_insert_fresh _ h (by simp [SymbolTable.find, symbol_table_create])]
  simp

/-- Every successful run of `parse_function_declaration`: the name was not
bound in the enclosing scope `cur`; the parameters and the body are parsed in
the new scope, entered from `function_entry_scopes`; afterwards the active
scope is `cur` again and the symbol of the function points to the node. -/
theorem parse_function_declaration_inv {fuel : Nat} {s s' : Parser} {node : Node}
    (h : parse_function_declaration fuel s = .ok (node, s')) :
    ∃ (t tf : Token) (cur : Nat) (tbl : SymbolTable) (params : List Node) (rt : Ty)
      (body : List Node) (s1 s2 : Parser),
      tok s = .ok t ∧ tok s.advance = .ok tf ∧ tf.kind = .TOKEN_IDENTIFIER ∧
      s.current_scope = some cur ∧ s.scopes[cur]? = some tbl ∧ tbl.find tf.str = none ∧
      node = ((make_node .NODE_FUNC_DECL).setPos t.line t.col).setData
        (.func_decl tf.str rt params body) ∧
      Frame (enter_scope s.scopes.length
        (s.advance.advance.setScopes (function_entry_scopes s.scopes cur tbl tf.str))) s1 ∧
      parse_block fuel true s1 = .ok (body, s2) ∧
      s' = write_symbol cur tf.str (fun sym => { sym with node := some node })
        (s2.setCurrent (some cur)) := by
  simp only [parse_function_declaration, bind_ok] at h
  obtain ⟨t, ht, ⟨_, sa⟩, hc, ⟨tf, sb⟩, hi, ins, hins, h⟩ := h
  obtain ⟨-, rfl⟩ := consume_inv hc
  obtain ⟨htf, hkf, rfl⟩ := expect_inv hi
  split at h
  · simp at h
  · rename_i scopes1
    dsimp only at hins
    simp only [Parser.scopes_advance, Parser.current_scope_advance] at hins
    obtain ⟨cur, tbl, hcur, htbl, hfind, rfl⟩ := scope_insert_inv hins
    have hlen : (s.scopes.set cur (tbl.extend (Symbol.fresh tf.str .SYMBOL_FUNCTION))).length =
        s.scopes.length := by simp
    have hown := own_scope_insert
      (s.scopes.set cur (tbl.extend (Symbol.fresh tf.str .SYMBOL_FUNCTION))) tf.str
    rw [hlen] at hown
    simp only [Parser.current_scope_advance, hcur, Option.getD_some, hlen, hown, bind_ok,
      pure_ok, Prod.mk.injEq] at h
    obtain ⟨⟨_, sc⟩, hlp, ⟨params, sd⟩, hps, ⟨_, se⟩, hrp, ⟨arrow, sf⟩, har, ⟨rt, s1⟩, hrt,
      ⟨body, s2⟩, hb, sg, hexit, rfl, rfl⟩ := h
    have fE := (expect_same hlp).frame
    have fP := parse_params_loop_frame fuel _ _ _ _ _ hps
      (by rw [fE.current_scope]; rfl)
    have fR := (expect_same hrp).frame
    have fA := (match_same har).frame
    have fT : Frame sf s1 := by
      split at hrt
      · exact (parse_type_same hrt).frame
      · simp only [Except.ok.injEq, Prod.mk.injEq] at hrt
        rw [← hrt.2]; exact Frame.frame_refl _
    have f1 := (((fE.step fP).step fR).step fA).step fT
    have f2 := f1.step (parse_block_frame hb)
    have hlt := lt_length_of_getElem? htbl
    -- leaving the scope of the function
    have hexit' : sg = s2.setCurrent (some cur) := by
      have hc2 : s2.current_scope = some s.scopes.length := by rw [f2.current_scope]; rfl
      have hp2 := f2.parent s.scopes.length
      simp only [enter_scope, Parser.scopes_setCurrent, Parser.scopes_setScopes] at hp2
      have hnew := @function_entry_scopes_new _ _ tbl tf.str hlt
      unfold function_entry_scopes at hnew
      rw [hnew] at hp2
      cases hn : s2.scopes[s.scopes.length]? with
      | none => simp [hn] at hp2
      | some tn =>
        simp only [hn, Option.map_some', Option.some.injEq] at hp2
        simp only [exit_scope, hc2, hn, hp2, Except.ok.injEq] at hexit
        exact hexit.symm
    subst hexit'
    exact ⟨t, tf, cur, tbl, params, rt, body, s1, s2, ht, htf, hkf, hcur, htbl, hfind, rfl,
      f1, hb, rfl⟩

theorem TopFrame.top_refl (s : Parser) : TopFrame s s :=
  ⟨rfl, rfl, rfl, Nat.le_refl _, fun _ _ => rfl⟩

theorem TopFrame.next {a b c : Parser} (h1 : TopFrame a b) (h2 : TopFrame b c) :
    TopFrame a c :=
  ⟨h2.current_scope.trans h1.current_scope, h2.stream.trans h1.stream,
    h2.global_scope.trans h1.global_scope, Nat.le_trans h1.length h2.length,
    fun i hi => (h2.parent i (Nat.lt_of_lt_of_le hi h1.length)).trans (h1.parent i hi)⟩

theorem Frame.top {s s' : Parser} (h : Frame s s') : TopFrame s s' :=
  ⟨h.current_scope, h.stream, h.global_scope, Nat.le_of_eq h.length.symm,
    fun i _ => h.parent i⟩

theorem find_update_ne {t : SymbolTable} {n x : String} (g : Symbol → Symbol)
    (hg : ∀ sym, (g sym).name = sym.name) (hx : x ≠ n) :
    (t.update n g).find x = t.find x := by
  simp only [SymbolTable.find, SymbolTable.update]
  induction t.symbols with
  | nil => rfl
  | cons a l ih =>
    simp only [List.map_cons, List.find?_cons]
    by_cases ha : a.name = n
    · subst ha
      have hax : a.name ≠ x := fun h => hx h.symm
      simp [hg, hax, ih]
    · simp only [ha, if_false]
      by_cases hax : a.name = x
      · simp [hax]
      · simp [hax, ih]

/-- The table of the enclosing scope after a function declaration. -/
theorem parse_function_declaration_enclosing {fuel : Nat} {s s' : Parser} {node : Node}
    (h : parse_function_declaration fuel s = .ok (node, s')) :
    ∃ (tf : Token) (cur : Nat) (tbl : SymbolTable) (rt : Ty) (params body : List Node),
      tok s.advance = .ok tf ∧
      node.data = .func_decl tf.str rt params body ∧
      s.current_scope = some cur ∧ s.scopes[cur]? = some tbl ∧ tbl.find tf.str = none ∧
      s'.current_scope = some cur ∧
      s'.scopes[cur]? = some (SymbolTable.update
        { tbl.extend (Symbol.fresh tf.str .SYMBOL_FUNCTION) with
          children := tbl.children ++ [s.scopes.length] }
        tf.str (fun sym => { sym with node := some node })) ∧
      TopFrame s s' := by
  obtain ⟨t, tf, cur, tbl, params, rt, body, s1, s2, ht, htf, hkf, hcur, htbl, hfind, hnode,
    f1, hb, hs'⟩ := parse_function_declaration_inv h
  have f2 := f1.step (parse_block_frame hb)
  have hlt := lt_length_of_getElem? htbl
  have hne : (enter_scope s.scopes.length (s.advance.advance.setScopes
      (function_entry_scopes s.scopes cur tbl tf.str))).current_scope ≠ some cur := by
    simp only [enter_scope, Parser.current_scope_setCurrent, ne_eq, Option.some.injEq]
    omega
  have h2cur : s2.scopes[cur]? = some
      { tbl.extend (Symbol.fresh tf.str .SYMBOL_FUNCTION) with
        children := tbl.children ++ [s.scopes.length] } := by
    rw [f2.other cur hne]
    exact function_entry_scopes_enclosing tf.str htbl
  refine ⟨tf, cur, tbl, rt, params, body, htf, by rw [hnode]; simp, hcur, htbl, hfind,
    by rw [hs']; rfl, ?_, ?_⟩
  · rw [hs']
    simp only [write_symbol, Parser.scopes_setScopes, Parser.scopes_setCurrent,
      List.getElem?_modify_eq, h2cur]
    rfl
  · refine ⟨by rw [hs']; simpa using hcur.symm, ?_, ?_, ?_, ?_⟩
    · rw [hs']; simpa [enter_scope] using f2.stream
    · rw [hs']; simpa [enter_scope] using f2.global_scope
    · rw [hs']
      have := f2.length
      simp only [write_symbol, Parser.scopes_setScopes, Parser.scopes_setCurrent,
        List.length_modify, enter_scope, function_entry_scopes_length] at this ⊢
      omega
    · intro i hi
      rw [hs']
      simp only [write_symbol, Parser.scopes_setScopes, Parser.scopes_setCurrent]
      have hp := f2.parent i
      simp only [enter_scope, Parser.scopes_setCurrent, Parser.scopes_setScopes] at hp
      have hmod : ((s2.scopes.modify
          (fun t => t.update tf.str (fun sym => { sym with node := some node })) cur)[i]?).map
            SymbolTable.parent = (s2.scopes[i]?).map SymbolTable.parent := by
        by_cases hic : cur = i
        · subst hic
          rw [List.getElem?_modify_eq]
          cases s2.scopes[cur]? <;> rfl
        · rw [List.getElem?_modify_ne _ _ hic]
      rw [hmod, hp]
      by_cases hic : i = cur
      · subst hic
        rw [function_entry_scopes_enclosing tf.str htbl, htbl]
        rfl
      · rw [function_entry_scopes_other tf.str hic hi]

/-- A function declaration binds a name that was not bound in the enclosing
scope and leaves every other name of that scope as it was. -/
theorem parse_function_declaration_local {fuel : Nat} {s s' : Parser} {node : Node}
    (h : parse_function_declaration fuel s = .ok (node, s')) :
    ∃ (f : String) (rt : Ty) (params body : List Node),
      node.data = .func_decl f rt params body ∧ local_symbol s f = none ∧
      s'.current_scope = s.current_scope ∧
      ∀ x, x ≠ f → local_symbol s' x = local_symbol s x := by
  obtain ⟨tf, cur, tbl, rt, params, body, -, hd, hcur, htbl, hfind, hcur', htbl', -⟩ :=
    parse_function_declaration_enclosing h
  refine ⟨tf.str, rt, params, body, hd, by simp [local_symbol, hcur, htbl, hfind],
    by rw [hcur, hcur'], ?_⟩
  intro x hx
  simp only [local_symbol, hcur, hcur', htbl, htbl']
  rw [find_update_ne (fun sym => { sym with node := some node }) (fun _ => rfl) hx]
  have := @find_extend_ne tbl (Symbol.fresh tf.str .SYMBOL_FUNCTION) x
    (fun h => hx h.symm)
  simpa [SymbolTable.find] using this

/-! ### Evaluating concrete runs -/

theorem exists_ok_of_check {ε α : Type} {x : Except ε α} (p : α → Bool)
    (h : (match x with
      | .ok a => p a
      | .error _ => false) = true) : ∃ a, x = .ok a ∧ p a = true := by
  cases x with
  | error e => simp at h
  | ok a => exact ⟨a, rfl, h⟩

theorem exists_of_isSome {α : Type} {x : Option α} (h : x.isSome = true) : ∃ a, x = some a := by
  cases x with
  | none => simp at h
  | some a => exact ⟨a, rfl⟩

/-! ### Lookup -/

/-- Lookup returns the innermost match: a name the active scope binds
directly is found there, whatever the enclosing scopes bind. -/
theorem lookup_of_local {s : Parser} {x : String} {sym : Symbol}
    (h : local_symbol s x = some sym) :
    symbol_table_lookup s.scopes s.current_scope x = some sym := by
  unfold local_symbol at h
  split at h
  · simp at h
  · rename_i cur hcur
    split at h
    · simp at h
    · rename_i t ht
      have hlt := lt_length_of_getElem? ht
      obtain ⟨n, hn⟩ : ∃ n, s.scopes.length = n + 1 := ⟨s.scopes.length - 1, by omega⟩
      simp [symbol_table_lookup, hn, hcur, symbol_table_lookup_from, ht, h]

/-- Lookup from a root scope is the scope's own mapping. -/
theorem lookup_of_root {scopes : List SymbolTable} {g : Nat} {t : SymbolTable} (x : String)
    (ht : scopes[g]? = some t) (hroot : t.parent = none) :
    symbol_table_lookup scopes (some g) x = t.find x := by
  have hlt := lt_length_of_getElem? ht
  obtain ⟨n, hn⟩ : ∃ n, scopes.length = n + 1 := ⟨scopes.length - 1, by omega⟩
  simp only [symbol_table_lookup, hn, symbol_table_lookup_from, ht, hroot]
  cases t.find x with
  | some sym => rfl
  | none => cases n <;> rfl

theorem parse_factor_ref {s : Parser} {t : Token} {sym : Symbol} (ht : tok s = .ok t)
    (hk : t.kind = .TOKEN_IDENTIFIER)
    (hs : symbol_table_lookup s.scopes s.current_scope t.str = some sym) :
    parse_factor s = .ok (push_expr_node
      ((((make_node .NODE_LITERAL_EXPR).setKind .NODE_REF_EXPR).setType sym.type).setData
        (.ref t.str)) s.advance) := by
  simp [parse_factor, consume_of_tok ht, hk, hs]

theorem parse_loop_top (fuel : Nat) :
    ∀ (s : Parser) (ast ast' : List Node) (s' : Parser),
    parse_loop fuel s ast = .ok (ast', s') → TopFrame s s' := by
  induction fuel with
  | zero => intro s ast ast' s' h; simp [parse_loop] at h
  | succ fuel ih =>
    intro s ast ast' s' h
    simp only [parse_loop, bind_ok] at h
    obtain ⟨t, ht, h⟩ := h
    split at h
    · simp only [pure_ok, Prod.mk.injEq] at h
      rw [← h.2]; exact TopFrame.top_refl _
    · simp only [bind_ok] at h
      obtain ⟨⟨decl, s1⟩, hd, h⟩ := h
      have h1 : TopFrame s s1 := by
        split at hd
        · obtain ⟨_, _, _, _, _, _, -, -, -, -, -, -, -, htop⟩ :=
            parse_function_declaration_enclosing hd
          exact htop
        · exact (parse_variable_declaration_frame hd).top
        · simp only [bind_ok] at hd
          obtain ⟨⟨id, sa⟩, hc, hd⟩ := hd
          exact (consume_same hc).frame.top.next (parse_variable_declaration_frame hd).top
        · simp at hd
      exact h1.next (ih _ _ _ _ h)

theorem eq_error_of_failure {α : Type} {x : Except Fatal α} {e : Fatal}
    (h : failure x = some e) : x = .error e := by
  cases x with
  | ok a => simp [failure] at h
  | error e' =>
    simp only [failure, Option.some.injEq] at h
    rw [h]

/-! ### Forward runs -/

theorem tok_of_drop {s s' : Parser} {l rest : List Token} {t : Token} (k : Nat)
    (hd : s.stream.drop s.stream_pos = l ++ rest) (hs : s'.stream = s.stream)
    (hp : s'.stream_pos = s.stream_pos + k) (hk : l[k]? = some t) : tok s' = .ok t := by
  have : s.stream[s.stream_pos + k]? = some t := by
    rw [← List.getElem?_drop, hd, List.getElem?_append_left (lt_length_of_getElem? hk), hk]
  simp [tok, hs, hp, this]

theorem tok_congr {s s' : Parser} (hs : s'.stream = s.stream)
    (hp : s'.stream_pos = s.stream_pos) : tok s' = tok s := by
  simp [tok, hs, hp]

/-- An expression that is one number, followed by a token that is no binary
operator, parses to the literal. -/
theorem parse_expression_number {fuel : Nat} {s : Parser} {t t2 : Token}
    (ht : tok s = .ok t) (hk : t.kind = .TOKEN_NUMBER) (ht2 : tok s.advance = .ok t2)
    (h2a : term_op t2.kind = .BIN_UNKNOWN) (h2b : expr_op t2.kind = .BIN_UNKNOWN) :
    ∃ s4, parse_expression (fuel + 2) s = .ok (int_literal t.i_val, s4) ∧
      SameScopes s s4 ∧ s4.stream_pos = s.stream_pos + 1 := by
  have hf : parse_factor s = .ok (push_expr_node (int_literal t.i_val) s.advance) := by
    simp [parse_factor, consume_of_tok ht, hk, int_literal]
  have htl : parse_term_loop (fuel + 1) (push_expr_node (int_literal t.i_val) s.advance) =
      .ok (push_expr_node (int_literal t.i_val) s.advance) := by
    have : tok (push_expr_node (int_literal t.i_val) s.advance) = .ok t2 := by
      rw [← ht2]; rfl
    simp [parse_term_loop, this, h2a]
  have htm : parse_term (fuel + 2) s =
      .ok (push_expr_node (int_literal t.i_val) s.advance) := by
    simp [parse_term, hf, htl]
  have hel : parse_expression_loop (fuel + 2)
      (push_expr_node (int_literal t.i_val) s.advance) =
      .ok (push_expr_node (int_literal t.i_val) s.advance) := by
    have : tok (push_expr_node (int_literal t.i_val) s.advance) = .ok t2 := by
      rw [← ht2]; rfl
    simp [parse_expression_loop, this, h2b]
  have hu : unary_op t.kind = .UN_UNKNOWN := by rw [hk]; rfl
  have hrun : parse_expression (fuel + 2) s =
      pop_expr_node (push_expr_node (int_literal t.i_val) s.advance) := by
    simp [parse_expression, ht, hu, htm, hel, bind, Except.bind]
  cases hp : pop_expr_node (push_expr_node (int_literal t.i_val) s.advance) with
  | error e =>
    simp only [pop_expr_node, push_expr_node, Parser.stack_top_setStack] at hp
    split at hp
    · rename_i heq
      simp at heq
    · simp at hp
    · simp at hp
  | ok r =>
    obtain ⟨n, s4⟩ := r
    have hsame := pop_same hp
    have hn : n = int_literal t.i_val ∧ s4.stream_pos = s.stream_pos + 1 := by
      simp only [pop_expr_node, push_expr_node, Parser.stack_top_setStack] at hp
      split at hp
      · simp at hp
      · rename_i ret heq
        simp only [List.cons.injEq, Except.ok.injEq, Prod.mk.injEq] at heq hp
        obtain ⟨rfl, -⟩ := heq
        obtain ⟨rfl, rfl⟩ := hp
        exact ⟨rfl, rfl⟩
      · rename_i ret top rest heq
        simp only [List.cons.injEq, Except.ok.injEq, Prod.mk.injEq] at heq hp
        obtain ⟨rfl, -⟩ := heq
        obtain ⟨rfl, rfl⟩ := hp
        exact ⟨rfl, rfl⟩
    obtain ⟨rfl, hpos⟩ := hn
    exact ⟨s4, by rw [hrun]; exact hp, ((SameScopes.advance s).seq (push_same _ _)).seq hsame, hpos⟩

/-- The form `x := e;` parses when `x` is not bound in the active scope, the
initializer parses and the terminator follows. -/
theorem parse_variable_declaration_walrus {fuel : Nat} {x : String} {s s4 : Parser}
    {cur : Nat} {tbl : SymbolTable} {t ts : Token} {e : Node}
    (ht : tok s = .ok t) (hk : t.kind = .TOKEN_WALRUS)
    (hcur : s.current_scope = some cur) (htbl : s.scopes[cur]? = some tbl)
    (hfresh : tbl.find x = none)
    (he : parse_expression fuel (declaring s cur tbl x false).advance = .ok (e, s4))
    (hts : tok s4 = .ok ts) (hsemi : ts.kind = .TOKEN_SEMICOLON) :
    ∃ node s', parse_variable_declaration fuel (some x) s = .ok (node, s') ∧
      s'.stream_pos = s4.stream_pos + 1 := by
  have hm : match_ .TOKEN_WALRUS (declaring s cur tbl x false) =
      .ok (true, (declaring s cur tbl x false).advance) := match_of_tok (by simpa using ht) hk
  have hx : expect .TOKEN_SEMICOLON (write_symbol cur x
      (fun sym => { sym with type := e.type, is_initialized := true }) s4) = .ok (ts, _) :=
    expect_of_tok (by simpa using hts) hsemi
  refine ⟨((make_node .NODE_VAR_DECL).setPos t.line t.col).setData
      (.var_decl x e.type (some e)),
    write_symbol cur x (fun sym => { sym with
      node := some (((make_node .NODE_VAR_DECL).setPos t.line t.col).setData
        (.var_decl x e.type (some e))) })
      (write_symbol cur x
        (fun sym => { sym with type := e.type, is_initialized := true }) s4).advance, ?_, ?_⟩
  · simp only [parse_variable_declaration, ht, hcur, scope_insert_fresh _ htbl hfresh, bind,
      Except.bind, Option.getD_some, write_constant_declaring _ _ _ _ _ hfresh, hm, he, hx,
      if_true, pure, Except.pure]
  · simp
@[simp] theorem str_ident (name : String) : (ident name).str = name := rfl

/-- A function `f` whose body declares `x` parses in every state whose active
scope does not bind `f` yet, whatever that scope binds to `x`. -/
theorem function_body_shadows (fuel : Nat) (f x : String) (s : Parser) (cur : Nat)
    (tbl : SymbolTable) (rest : List Token) (hxf : x ≠ f)
    (hcur : s.current_scope = some cur) (htbl : s.scopes[cur]? = some tbl)
    (hfresh : tbl.find f = none)
    (hstream : s.stream.drop s.stream_pos = func_with_local f x ++ rest) :
    ∃ node s', parse_function_declaration (fuel + 4) s = .ok (node, s') := by
  have hlt := lt_length_of_getElem? htbl
  have t0 : tok s = .ok (tk .TOKEN_FUNC) := tok_of_drop 0 hstream rfl rfl rfl
  have t1 : tok s.advance = .ok (ident f) := tok_of_drop 1 hstream rfl rfl rfl
  have hown := own_scope_insert
    (s.scopes.set cur (tbl.extend (Symbol.fresh f .SYMBOL_FUNCTION))) f
  have hlen : (s.scopes.set cur (tbl.extend (Symbol.fresh f .SYMBOL_FUNCTION))).length =
      s.scopes.length := by simp
  rw [hlen] at hown
  -- the state on entry to the scope of the function
  obtain ⟨sE, hsE⟩ : ∃ sE, sE = enter_scope s.scopes.length
    (s.advance.advance.setScopes (function_entry_scopes s.scopes cur tbl f)) := ⟨_, rfl⟩
  have hEs : sE.stream = s.stream := by rw [hsE]; rfl
  have hEp : sE.stream_pos = s.stream_pos + 2 := by rw [hsE]; rfl
  have hEc : sE.current_scope = some s.scopes.length := by rw [hsE]; rfl
  have hEn : sE.scopes[s.scopes.length]? =
      some ⟨f, [Symbol.fresh f .SYMBOL_FUNCTION], some cur, []⟩ := by
    rw [hsE]; exact function_entry_scopes_new f hlt
  have t2 : tok sE = .ok (tk .TOKEN_LPAREN) := tok_of_drop 2 hstream hEs hEp rfl
  have t3 : tok sE.advance = .ok (tk .TOKEN_RPAREN) :=
    tok_of_drop 3 hstream hEs (by simp [hEp]) rfl
  have t4 : tok sE.advance.advance = .ok (tk .TOKEN_LBRACE) :=
    tok_of_drop 4 hstream hEs (by simp [hEp]) rfl
  have t5 : tok sE.advance.advance.advance = .ok (ident x) :=
    tok_of_drop 5 hstream hEs (by simp [hEp]) rfl
  have t6 : tok sE.advance.advance.advance.advance = .ok (tk .TOKEN_WALRUS) :=
    tok_of_drop 6 hstream hEs (by simp [hEp]) rfl
  -- the declaration in the body
  obtain ⟨sV, hsV⟩ : ∃ sV, sV = sE.advance.advance.advance.advance := ⟨_, rfl⟩
  have hfx : (⟨f, [Symbol.fresh f .SYMBOL_FUNCTION], some cur, []⟩ : SymbolTable).find x =
      none := by
    simp [SymbolTable.find, Symbol.fresh, Ne.symm hxf]
  have hVc : sV.current_scope = some s.scopes.length := by rw [hsV]; exact hEc
  have hVn : sV.scopes[s.scopes.length]? =
      some ⟨f, [Symbol.fresh f .SYMBOL_FUNCTION], some cur, []⟩ := by rw [hsV]; exact hEn
  have t7 : tok (declaring sV s.scopes.length
      ⟨f, [Symbol.fresh f .SYMBOL_FUNCTION], some cur, []⟩ x false).advance = .ok (num 2) :=
    tok_of_drop 7 hstream (by rw [hsV]; exact hEs) (by rw [hsV]; simp [declaring, hEp]) rfl
  have t8 : tok (declaring sV s.scopes.length
      ⟨f, [Symbol.fresh f .SYMBOL_FUNCTION], some cur, []⟩ x false).advance.advance =
      .ok (tk .TOKEN_SEMICOLON) :=
    tok_of_drop 8 hstream (by rw [hsV]; exact hEs) (by rw [hsV]; simp [declaring, hEp]) rfl
  obtain ⟨s4, he, hsame4, hpos4⟩ := @parse_expression_number fuel _ _ _ t7 rfl t8 rfl rfl
  have t8' : tok s4 = .ok (tk .TOKEN_SEMICOLON) :=
    tok_of_drop 8 hstream (by rw [hsame4.stream, hsV]; exact hEs)
      (by rw [hpos4, hsV]; simp [declaring, hEp]) rfl
  obtain ⟨vnode, sD, hdecl, hposD⟩ := parse_variable_declaration_walrus
    (by rw [hsV]; exact t6) rfl hVc hVn hfx he t8' rfl
  have hfr := parse_variable_declaration_frame hdecl
  have t9 : tok sD = .ok (tk .TOKEN_RBRACE) :=
    tok_of_drop 9 hstream (by rw [hfr.stream, hsV]; exact hEs)
      (by rw [hposD, hpos4, hsV]; simp [declaring, hEp]) rfl
  -- the statement, the block, and the way out
  have hstmt : parse_identifier_stmt (fuel + 2) sE.advance.advance.advance =
      .ok (some vnode, sD) := by
    rw [hsV] at hdecl
    simp [parse_identifier_stmt, consume_of_tok t5, t6, tk, hdecl, bind, Except.bind,
      Except.map, ident]
  have hloop2 : parse_block_loop (fuel + 2) sD [vnode] (some vnode) =
      .ok ([vnode], some vnode, sD) := by
    simp [parse_block_loop, t9, tk, bind, Except.bind, pure, Except.pure]
  have hloop : parse_block_loop (fuel + 3) sE.advance.advance.advance [] none =
      .ok ([vnode], some vnode, sD) := by
    simp [parse_block_loop, t5, ident, hstmt, t9, tk, bind, Except.bind, pure, Except.pure]
  have hblock : ∃ body, parse_block (fuel + 4) true sE.advance.advance =
      .ok (body, sD.advance) := by
    have hbf : parse_block (fuel + 4) false sE.advance.advance = .ok ([vnode], sD.advance) := by
      simp [parse_block, expect_of_tok (k := .TOKEN_LBRACE) t4 rfl, hloop,
        expect_of_tok (k := .TOKEN_RBRACE) t9 rfl, bind, Except.bind, pure,
        Except.pure]
    exact ⟨return_terminated [vnode], by rw [parse_block_true, hbf]; rfl⟩
  obtain ⟨body, hblock⟩ := hblock
  have hpar : parse_params_loop (fuel + 4) s.scopes.length sE.advance [] =
      .ok ([], sE.advance) := by
    simp [parse_params_loop, t3, tk, bind, Except.bind, pure, Except.pure]
  have harrow : match_ .TOKEN_ARROW sE.advance.advance = .ok (false, sE.advance.advance) :=
    match_of_tok_ne t4 (by decide)
  have hexit : ∃ sX, exit_scope sD.advance = .ok sX := by
    have hc : sD.current_scope = some s.scopes.length := by
      simp [hfr.current_scope, hVc]
    have hp := hfr.parent s.scopes.length
    rw [hVn] at hp
    cases hn : sD.scopes[s.scopes.length]? with
    | none => simp [hn] at hp
    | some tn => exact ⟨sD.advance.setCurrent tn.parent, by simp [exit_scope, hc, hn]⟩
  obtain ⟨sX, hexit⟩ := hexit
  have hsE' : enter_scope s.scopes.length (s.advance.advance.setScopes
      (symbol_table_add_child
        (s.scopes.set cur (tbl.extend (Symbol.fresh f .SYMBOL_FUNCTION)) ++
          [(symbol_table_create f).extend (Symbol.fresh f .SYMBOL_FUNCTION)])
        cur s.scopes.length)) = sE := by rw [hsE]; rfl
  cases hres : parse_function_declaration (fuel + 4) s with
  | ok r => exact ⟨r.1, r.2, rfl⟩
  | error e =>
    exfalso
    simp only [parse_function_declaration, t0, consume_of_tok t0,
      expect_of_tok (k := .TOKEN_IDENTIFIER) t1 rfl, bind, Except.bind, str_ident,
      Parser.scopes_advance, Parser.current_scope_advance, hcur,
      scope_insert_fresh _ htbl hfresh, Option.getD_some, hlen, hown] at hres
    simp only [hsE', expect_of_tok (k := .TOKEN_LPAREN) t2 rfl, hpar,
      expect_of_tok (k := .TOKEN_RPAREN) t3 rfl, harrow, Bool.false_eq_true,
      if_false, hblock, hexit, pure, Except.pure] at hres
    simp at hres
/-- A declaration of a name the active scope binds is a Redeclaration. -/
theorem parse_variable_declaration_redeclared {fuel : Nat} {s : Parser} {n : String}
    {cur : Nat} {scope : SymbolTable} {sym : Symbol} {t : Token}
    (hcur : s.current_scope = some cur) (hscope : s.scopes[cur]? = some scope)
    (hmem : sym ∈ scope.symbols) (hn : sym.name = n) (ht : tok s = .ok t) :
    parse_variable_declaration fuel (some n) s = .error .Redeclaration := by
  simp [parse_variable_declaration, ht, hcur, scope_insert_declared _ hscope hmem hn, bind,
    Except.bind]

/-- A block that starts with a declaration of a name the active scope binds
fails with Redeclaration: a block opens no scope. -/
theorem parse_block_redeclared {fuel : Nat} {b : Bool} {s : Parser} {x : String} {cur : Nat}
    {tbl : SymbolTable} {sym : Symbol} {t0 t1 t2 : Token}
    (hcur : s.current_scope = some cur) (htbl : s.scopes[cur]? = some tbl)
    (hmem : sym ∈ tbl.symbols) (hn : sym.name = x)
    (h0 : tok s = .ok t0) (hk0 : t0.kind = .TOKEN_LBRACE)
    (h1 : tok s.advance = .ok t1) (hk1 : t1.kind = .TOKEN_IDENTIFIER) (hx : t1.str = x)
    (h2 : tok s.advance.advance = .ok t2)
    (hk2 : t2.kind = .TOKEN_WALRUS ∨ t2.kind = .TOKEN_COLON) :
    parse_block (fuel + 2) b s = .error .Redeclaration := by
  have hd : parse_variable_declaration fuel (some x) s.advance.advance =
      .error .Redeclaration :=
    parse_variable_declaration_redeclared (s := s.advance.advance) hcur htbl hmem hn h2
  have hs : parse_identifier_stmt fuel s.advance = .error .Redeclaration := by
    rcases hk2 with hk2 | hk2 <;>
      simp [parse_identifier_stmt, consume_of_tok h1, h2, hk2, hx, hd, bind, Except.bind,
        Except.map]
  simp [parse_block, expect_of_tok h0 hk0, parse_block_loop, h1, hk1, hs, bind, Except.bind]

/-! ### The expression stack -/

theorem consume_stack {s s' : Parser} {t : Token} (h : consume s = .ok (t, s')) :
    s'.stack_top = s.stack_top := by
  rw [(consume_inv h).2]; rfl

theorem expect_stack {s s' : Parser} {t : Token} {k : TokenKind}
    (h : expect k s = .ok (t, s')) : s'.stack_top = s.stack_top := by
  rw [(expect_inv h).2.2]; rfl

theorem match_stack {s s' : Parser} {b : Bool} {k : TokenKind}
    (h : match_ k s = .ok (b, s')) : s'.stack_top = s.stack_top := by
  obtain ⟨t, -, h | h⟩ := match_inv h
  · rw [h.2.2]; rfl
  · rw [h.2.2]

theorem parse_type_stack {s s' : Parser} {T : Ty} (h : parse_type s = .ok (T, s')) :
    s'.stack_top = s.stack_top := by
  simp only [parse_type] at h
  split at h
  · simp at h
  · rename_i tn sn hn
    split at h
    · simp at h
    · simp only [Except.ok.injEq, Prod.mk.injEq] at h
      rw [← h.2]; exact expect_stack hn

theorem pop_singleton {s : Parser} {n : Node} (h : s.stack_top = [n]) :
    pop_expr_node s = .ok (n, s.setStack []) := by
  simp [pop_expr_node, h]

theorem parse_factor_stack {s s' : Parser} (h : parse_factor s = .ok s') :
    ∃ n, s'.stack_top = n :: s.stack_top := by
  unfold parse_factor at h
  split at h
  · simp at h
  · rename_i token s1 hc
    have h1 := consume_stack hc
    split at h
    · dsimp only at h
      split at h
      · simp at h
      · simp only [Except.ok.injEq] at h
        rw [← h, ← h1]; exact ⟨_, rfl⟩
    · simp only [Except.ok.injEq] at h
      rw [← h, ← h1]; exact ⟨_, rfl⟩
    · simp only [Except.ok.injEq] at h
      rw [← h, ← h1]; exact ⟨_, rfl⟩
    · simp only [Except.ok.injEq] at h
      rw [← h, ← h1]; exact ⟨_, rfl⟩
    · simp at h

/-- The stack depth at the boundaries of the term rule: a term is parsed on
an empty stack and leaves one node; the loop and `parse_binary_expr` are
entered with one node, which `parse_binary_expr` takes off before it parses
its right operand. -/
theorem parse_term_group_stack (fuel : Nat) :
    (∀ op l c s n s' lhs, parse_binary_expr fuel op l c s = .ok (n, s') →
      s.stack_top = [lhs] → s'.stack_top = []) ∧
    (∀ s s', parse_term fuel s = .ok s' → s.stack_top = [] → ∃ n, s'.stack_top = [n]) ∧
    (∀ s s' a, parse_term_loop fuel s = .ok s' → s.stack_top = [a] →
      ∃ n, s'.stack_top = [n]) := by
  induction fuel with
  | zero =>
    refine ⟨?_, ?_, ?_⟩
    · intro op l c s n s' lhs h; simp [parse_binary_expr] at h
    · intro s s' h; simp [parse_term] at h
    · intro s s' a h; simp [parse_term_loop] at h
  | succ fuel ih =>
    obtain ⟨ihb, iht, ihl⟩ := ih
    refine ⟨?_, ?_, ?_⟩
    · intro op l c s n s' lhs h hs
      simp only [parse_binary_expr, pop_singleton hs] at h
      split at h
      · simp at h
      · rename_i s2 h2
        obtain ⟨rhs, hr⟩ := iht _ _ h2 rfl
        simp only [pop_singleton hr] at h
        split at h
        · simp at h
        · simp only [Except.ok.injEq, Prod.mk.injEq] at h
          rw [← h.2]; rfl
    · intro s s' h hs
      simp only [parse_term] at h
      split at h
      · simp at h
      · rename_i s1 h1
        obtain ⟨n, hn⟩ := parse_factor_stack h1
        rw [hs] at hn
        exact ihl _ _ _ h hn
    · intro s s' a h hs
      simp only [parse_term_loop] at h
      split at h
      · simp at h
      · rename_i t ht
        split at h
        · simp only [Except.ok.injEq] at h
          rw [← h]; exact ⟨a, hs⟩
        · split at h
          · simp at h
          · rename_i tk s1 hc
            split at h
            · simp at h
            · rename_i node s2 hb
              have h2 := ihb _ _ _ _ _ _ a hb (by rw [consume_stack hc]; exact hs)
              exact ihl _ _ node h (by simp [push_expr_node, h2])

theorem parse_expression_loop_stack (fuel : Nat) :
    ∀ s s' a, parse_expression_loop fuel s = .ok s' → s.stack_top = [a] →
      ∃ n, s'.stack_top = [n] := by
  induction fuel with
  | zero => intro s s' a h; simp [parse_expression_loop] at h
  | succ fuel ih =>
    intro s s' a h hs
    simp only [parse_expression_loop] at h
    split at h
    · simp at h
    · rename_i t ht
      split at h
      · simp only [Except.ok.injEq] at h
        rw [← h]; exact ⟨a, hs⟩
      · split at h
        · simp at h
        · rename_i tk s1 hc
          split at h
          · simp at h
          · rename_i node s2 hb
            have h2 := (parse_term_group_stack fuel).1 _ _ _ _ _ _ a hb
              (by rw [consume_stack hc]; exact hs)
            exact ih _ _ node h (by simp [push_expr_node, h2])

/-- An expression parsed on an empty stack: before the final pop the stack
holds exactly the node that is returned, and afterwards it is empty. -/
theorem parse_expression_stack {fuel : Nat} {s s' : Parser} {n : Node}
    (h : parse_expression fuel s = .ok (n, s')) (hs : s.stack_top = []) :
    s'.stack_top = [] ∧ ∃ s4, s4.stack_top = [n] ∧ pop_expr_node s4 = .ok (n, s') := by
  simp only [parse_expression, bind_ok] at h
  obtain ⟨t, -, s1, h1, s2, h2, s3, h3, s4, h4, h⟩ := h
  have e1 : s1.stack_top = [] := by
    split at h1
    · simp only [Except.ok.injEq] at h1
      rw [← h1]; exact hs
    · rw [map_ok] at h1
      obtain ⟨⟨tk, sa⟩, hc, rfl⟩ := h1
      rw [consume_stack hc]; exact hs
  obtain ⟨a, ha⟩ := (parse_term_group_stack fuel).2.1 _ _ h2 e1
  have e3 : ∃ b, s3.stack_top = [b] := by
    split at h3
    · rw [map_ok] at h3
      obtain ⟨⟨nd, sa⟩, hu, rfl⟩ := h3
      simp only [parse_unary_expr, pop_singleton ha, Except.ok.injEq, Prod.mk.injEq] at hu
      exact ⟨nd, by rw [← hu.2]; rfl⟩
    · simp only [Except.ok.injEq] at h3
      rw [← h3]; exact ⟨a, ha⟩
  obtain ⟨b, hb⟩ := e3
  obtain ⟨c, hc⟩ := parse_expression_loop_stack fuel _ _ b h4 hb
  rw [pop_singleton hc] at h
  simp only [Except.ok.injEq, Prod.mk.injEq] at h
  obtain ⟨rfl, rfl⟩ := h
  exact ⟨rfl, s4, hc, pop_singleton hc⟩

theorem pop_only_singleton {s : Parser} {n : Node} (h : s.stack_top = [n]) :
    pop_only s = .ok (n, s.setStack []) := by
  simp [pop_only, h]

theorem push_on_empty_eq {s : Parser} (n : Node) (h : s.stack_top = []) :
    push_on_empty n s = .ok (push_expr_node n s) := by
  simp [push_on_empty, push_expr_node, h]

theorem factor_single_eq {s : Parser} (h : s.stack_top = []) :
    factor_single s = parse_factor s := by
  simp [factor_single, h]

/-- On the stack depths of `parse_term_group_stack` the guarded rules and the
rules of the source are the same functions, failures included. -/
theorem term_group_single (fuel : Nat) :
    (∀ op l c s lhs, s.stack_top = [lhs] →
      binary_expr_single fuel op l c s = parse_binary_expr fuel op l c s) ∧
    (∀ s, s.stack_top = [] → term_single fuel s = parse_term fuel s) ∧
    (∀ s a, s.stack_top = [a] → term_loop_single fuel s = parse_term_loop fuel s) := by
  induction fuel with
  | zero =>
    refine ⟨?_, ?_, ?_⟩
    · intro op l c s lhs _; simp [parse_binary_expr, binary_expr_single]
    · intro s _; simp [parse_term, term_single]
    · intro s a _; simp [parse_term_loop, term_loop_single]
  | succ fuel ih =>
    obtain ⟨ihb, iht, ihl⟩ := ih
    refine ⟨?_, ?_, ?_⟩
    · intro op l c s lhs hs
      simp only [parse_binary_expr, binary_expr_single, pop_singleton hs, pop_only_singleton hs]
      rw [iht (s.setStack []) rfl]
      cases h2 : parse_term fuel (s.setStack []) with
      | error e => rfl
      | ok s2 =>
        obtain ⟨rhs, hr⟩ := (parse_term_group_stack fuel).2.1 _ _ h2 rfl
        simp only [pop_singleton hr, pop_only_singleton hr]
    · intro s hs
      simp only [parse_term, term_single, factor_single_eq hs]
      cases h1 : parse_factor s with
      | error e => rfl
      | ok s1 =>
        obtain ⟨n, hn⟩ := parse_factor_stack h1
        rw [hs] at hn
        exact ihl _ _ hn
    · intro s a hs
      simp only [parse_term_loop, term_loop_single]
      cases ht : tok s with
      | error e => rfl
      | ok t =>
        dsimp only
        split
        · rfl
        · cases hc : consume s with
          | error e => rfl
          | ok r =>
            obtain ⟨tk, s1⟩ := r
            have h1 : s1.stack_top = [a] := by rw [consume_stack hc]; exact hs
            dsimp only
            rw [ihb _ _ _ _ _ h1]
            cases hb : parse_binary_expr fuel (term_op t.kind) t.line t.col s1 with
            | error e => rfl
            | ok r2 =>
              obtain ⟨node, s2⟩ := r2
              have h2 := (parse_term_group_stack fuel).1 _ _ _ _ _ _ a hb h1
              dsimp only
              rw [push_on_empty_eq node h2]
              exact ihl _ node (by simp [push_expr_node, h2])

theorem expression_loop_single_eq (fuel : Nat) :
    ∀ s a, s.stack_top = [a] →
      expression_loop_single fuel s = parse_expression_loop fuel s := by
  induction fuel with
  | zero => intro s a _; simp [parse_expression_loop, expression_loop_single]
  | succ fuel ih =>
    intro s a hs
    simp only [parse_expression_loop, expression_loop_single]
    cases ht : tok s with
    | error e => rfl
    | ok t =>
      dsimp only
      split
      · rfl
      · cases hc : consume s with
        | error e => rfl
        | ok r =>
          obtain ⟨tk, s1⟩ := r
          have h1 : s1.stack_top = [a] := by rw [consume_stack hc]; exact hs
          dsimp only
          rw [(term_group_single fuel).1 _ _ _ _ _ h1]
          cases hb : parse_binary_expr fuel (expr_op t.kind) t.line t.col s1 with
          | error e => rfl
          | ok r2 =>
            obtain ⟨node, s2⟩ := r2
            have h2 := (parse_term_group_stack fuel).1 _ _ _ _ _ _ a hb h1
            dsimp only
            rw [push_on_empty_eq node h2]
            exact ih _ node (by simp [push_expr_node, h2])

theorem expression_single_eq {fuel : Nat} {s : Parser} (hs : s.stack_top = []) :
    expression_single fuel s = parse_expression fuel s := by
  simp only [parse_expression, expression_single]
  cases ht : tok s with
  | error e => rfl
  | ok t =>
    simp only [bind, Except.bind]
    cases h1 : (if unary_op t.kind = .UN_UNKNOWN then .ok s
        else (consume s).map Prod.snd : Except Fatal Parser) with
    | error e => rfl
    | ok s1 =>
      have e1 : s1.stack_top = [] := by
        split at h1
        · simp only [Except.ok.injEq] at h1
          rw [← h1]; exact hs
        · rw [map_ok] at h1
          obtain ⟨⟨tk, sa⟩, hc, rfl⟩ := h1
          rw [consume_stack hc]; exact hs
      simp only [(term_group_single fuel).2.1 _ e1]
      cases h2 : parse_term fuel s1 with
      | error e => rfl
      | ok s2 =>
        obtain ⟨a, ha⟩ := (parse_term_group_stack fuel).2.1 _ _ h2 e1
        by_cases hu : unary_op t.kind = .UN_UNKNOWN
        · simp only [hu, ne_eq, not_true_eq_false, if_false]
          simp only [expression_loop_single_eq fuel _ a ha]
          cases h4 : parse_expression_loop fuel s2 with
          | error e => rfl
          | ok s4 =>
            obtain ⟨c, hc⟩ := parse_expression_loop_stack fuel _ _ _ h4 ha
            simp only [pop_singleton hc, pop_only_singleton hc]
        · simp only [ne_eq, hu, not_false_eq_true, if_true, unary_expr_single, parse_unary_expr,
            pop_only_singleton ha, pop_singleton ha, Except.map]
          have hb : (push_expr_node ((((make_node .NODE_UNARY_EXPR).setPos t.line t.col).setData
              (.unary (unary_op t.kind) (some a))).setType a.type) (s2.setStack [])).stack_top
              = [(((make_node .NODE_UNARY_EXPR).setPos t.line t.col).setData
              (.unary (unary_op t.kind) (some a))).setType a.type] := rfl
          rw [push_on_empty_eq _ (rfl : (s2.setStack []).stack_top = [])]
          simp only [expression_loop_single_eq fuel _ _ hb]
          cases h4 : parse_expression_loop fuel _ with
          | error e => rfl
          | ok s4 =>
            obtain ⟨c, hc⟩ := parse_expression_loop_stack fuel _ _ _ h4 hb
            simp only [pop_singleton hc, pop_only_singleton hc]

/-! ### The stack between statements -/

theorem parse_expression_empty {fuel : Nat} {s s' : Parser} {n : Node}
    (h : parse_expression fuel s = .ok (n, s')) (hs : s.stack_top = []) :
    s'.stack_top = [] :=
  (parse_expression_stack h hs).1

theorem parse_variable_declaration_empty {fuel : Nat} {var_name : Option String}
    {s s' : Parser} {node : Node}
    (h : parse_variable_declaration fuel var_name s = .ok (node, s'))
    (hs : s.stack_top = []) : s'.stack_top = [] := by
  obtain ⟨t, x, c, s0, cur, tbl, ty, init, s5, tw, -, h0, -, -, -, -, -, hw, -, -, -, -, -,
    -, hst, -⟩ := parse_variable_declaration_inv h
  rw [hst]
  have e0 : s0.stack_top = [] := by
    rcases h0 with ⟨-, -, rfl⟩ | ⟨-, -, -, ti, -, -, -, rfl⟩
    · exact hs
    · exact hs
  have eA : (declaring s0 cur tbl x c).advance.stack_top = [] := e0
  rcases hw with ⟨-, i, s4, he, -, -, rfl⟩ | ⟨-, s2, te, hty, -, hq⟩
  · exact parse_expression_empty he eA
  · have e2 : s2.stack_top = [] := by rw [parse_type_stack hty]; exact eA
    rcases hq with ⟨-, i, s4, he, -, -, rfl⟩ | ⟨-, -, rfl⟩
    · exact parse_expression_empty he e2
    · exact e2

theorem parse_variable_assignment_empty {fuel : Nat} {x : String} {s s' : Parser}
    {r : Option Node} (h : parse_variable_assignment fuel x s = .ok (r, s'))
    (hs : s.stack_top = []) : s'.stack_top = [] := by
  simp only [parse_variable_assignment, bind_ok] at h
  obtain ⟨t, -, ⟨tk, s1⟩, h1, h⟩ := h
  dsimp only at h
  split at h
  · simp at h
  · simp only [bind_ok, pure_ok, Prod.mk.injEq] at h
    obtain ⟨⟨v, s2⟩, h2, ⟨ts, s3⟩, h3, -, rfl⟩ := h
    rw [expect_stack h3]
    exact parse_expression_empty h2 (by rw [consume_stack h1]; exact hs)

theorem parse_return_empty {fuel : Nat} {s s' : Parser} {r : Option Node}
    (h : parse_return fuel s = .ok (r, s')) (hs : s.stack_top = []) :
    s'.stack_top = [] := by
  simp only [parse_return, bind_ok, pure_ok, Prod.mk.injEq] at h
  obtain ⟨⟨tk, s1⟩, h1, ⟨v, s2⟩, h2, ⟨ts, s3⟩, h3, -, rfl⟩ := h
  rw [expect_stack h3]
  exact parse_expression_empty h2 (by rw [consume_stack h1]; exact hs)

theorem parse_identifier_stmt_empty {fuel : Nat} {s s' : Parser} {r : Option Node}
    (h : parse_identifier_stmt fuel s = .ok (r, s')) (hs : s.stack_top = []) :
    s'.stack_top = [] := by
  simp only [parse_identifier_stmt, bind_ok] at h
  obtain ⟨⟨id, s1⟩, h1, t, -, h⟩ := h
  have e1 : s1.stack_top = [] := by rw [consume_stack h1]; exact hs
  dsimp only at h
  split at h
  · simp only [parse_function_call, bind_ok, pure_ok, Prod.mk.injEq] at h
    obtain ⟨⟨ts, s2⟩, h2, -, rfl⟩ := h
    rw [expect_stack h2]; exact e1
  · simp only [map_ok, Prod.mk.injEq] at h
    obtain ⟨⟨n, sa⟩, hd, -, rfl⟩ := h
    exact parse_variable_declaration_empty hd e1
  · simp only [map_ok, Prod.mk.injEq] at h
    obtain ⟨⟨n, sa⟩, hd, -, rfl⟩ := h
    exact parse_variable_declaration_empty hd e1
  · exact parse_variable_assignment_empty h e1
  · simp at h

theorem parse_block_group_empty (fuel : Nat) :
    (∀ s r s', parse_conditional fuel s = .ok (r, s') → s.stack_top = [] →
      s'.stack_top = []) ∧
    (∀ s body stmt body' stmt' s',
      parse_block_loop fuel s body stmt = .ok (body', stmt', s') → s.stack_top = [] →
      s'.stack_top = []) ∧
    (∀ b s body s', parse_block fuel b s = .ok (body, s') → s.stack_top = [] →
      s'.stack_top = []) := by
  induction fuel with
  | zero =>
    refine ⟨?_, ?_, ?_⟩
    · intro s r s' h; simp [parse_conditional] at h
    · intro s body stmt body' stmt' s' h; simp [parse_block_loop] at h
    · intro b s body s' h; simp [parse_block] at h
  | succ fuel ih =>
    obtain ⟨ihc, ihl, ihb⟩ := ih
    refine ⟨?_, ?_, ?_⟩
    · intro s r s' h hs
      simp only [parse_conditional, bind_ok, pure_ok, Prod.mk.injEq] at h
      obtain ⟨⟨c, s1⟩, hc, ⟨e, s2⟩, he, ⟨body, s3⟩, hb, -, rfl⟩ := h
      have e1 : s1.stack_top = [] := by rw [consume_stack hc]; exact hs
      have e2 : s2.stack_top = [] := by
        split at he
        · simp only [map_ok, Prod.mk.injEq] at he
          obtain ⟨⟨n, sa⟩, hx, -, rfl⟩ := he
          exact parse_expression_empty hx e1
        · simp only [map_ok, Prod.mk.injEq] at he
          obtain ⟨⟨n, sa⟩, hx, -, rfl⟩ := he
          exact parse_expression_empty hx e1
        · simp only [Except.ok.injEq, Prod.mk.injEq] at he
          rw [← he.2]; exact e1
        · simp at he
      exact ihb _ _ _ _ hb e2
    · intro s body stmt body' stmt' s' h hs
      simp only [parse_block_loop, bind_ok] at h
      obtain ⟨t, ht, h⟩ := h
      split at h
      · simp only [pure_ok, Prod.mk.injEq] at h
        rw [← h.2.2]; exact hs
      · simp only [bind_ok] at h
        obtain ⟨⟨r, s1⟩, hr, h⟩ := h
        have e1 : s1.stack_top = [] := by
          split at hr
          · simp only [map_ok, Prod.mk.injEq] at hr
            obtain ⟨⟨n, sa⟩, hd, -, rfl⟩ := hr
            exact parse_variable_declaration_empty hd hs
          · exact parse_identifier_stmt_empty hr hs
          · exact ihc _ _ _ hr hs
          · exact ihc _ _ _ hr hs
          · exact ihc _ _ _ hr hs
          · exact parse_return_empty hr hs
          · simp at hr
        cases r with
        | none =>
          simp only [pure_ok, Prod.mk.injEq] at h
          rw [← h.2.2]; exact e1
        | some n => exact ihl _ _ _ _ _ _ h e1
    · intro b s body s' h hs
      simp only [parse_block, bind_ok] at h
      obtain ⟨⟨_, s1⟩, h1, ⟨body1, stmt1, s2⟩, h2, ⟨_, s3⟩, h3, h⟩ := h
      have : s' = s3 := by
        split at h <;> simp only [pure_ok, Prod.mk.injEq] at h <;> exact h.2.symm
      rw [this, expect_stack h3]
      exact ihl _ _ _ _ _ _ h2 (by rw [expect_stack h1]; exact hs)

/-! ### Conditionals -/

theorem parse_conditional_if {fuel : Nat} {s a s' : Parser} {t : Token} {c : Node}
    {B : List Node} (h : tok s = .ok t) (k : t.kind = .TOKEN_IF ∨ t.kind = .TOKEN_ELIF)
    (e : parse_expression fuel s.advance = .ok (c, a))
    (b : parse_block fuel false a = .ok (B, s')) :
    parse_conditional (fuel + 1) s = .ok (some (cond_node (some c) B), s') := by
  rcases k with k | k <;>
    simp [parse_conditional, consume_of_tok h, k, e, b, bind, Except.bind, Except.map,
      cond_node, pure, Except.pure]

theorem parse_conditional_else {fuel : Nat} {s s' : Parser} {t : Token}
    {B : List Node} (h : tok s = .ok t) (k : t.kind = .TOKEN_ELSE)
    (b : parse_block fuel false s.advance = .ok (B, s')) :
    parse_conditional (fuel + 1) s = .ok (some (cond_node none B), s') := by
  simp [parse_conditional, consume_of_tok h, k, b, bind, Except.bind,
    cond_node, pure, Except.pure]

/-- One conditional at the head of the loop of `parse_block`: its node is
appended to the list, whatever the list and the last statement are. -/
theorem parse_block_loop_conditional {fuel : Nat} {s s' : Parser} {t : Token} {n : Node}
    (body : List Node) (stmt : Option Node) (h : tok s = .ok t)
    (k : t.kind = .TOKEN_IF ∨ t.kind = .TOKEN_ELIF ∨ t.kind = .TOKEN_ELSE)
    (c : parse_conditional fuel s = .ok (some n, s')) :
    parse_block_loop (fuel + 1) s body stmt = parse_block_loop fuel s' (body ++ [n]) (some n) := by
  rcases k with k | k | k <;>
    simp [parse_block_loop, h, k, c, bind, Except.bind]

/-- The loop of `parse_block` only appends to the list it is given. -/
theorem parse_block_loop_extends (fuel : Nat) :
    ∀ s body stmt body' stmt' s',
      parse_block_loop fuel s body stmt = .ok (body', stmt', s') →
      ∃ rest, body' = body ++ rest := by
  induction fuel with
  | zero => intro s body stmt body' stmt' s' h; simp [parse_block_loop] at h
  | succ fuel ih =>
    intro s body stmt body' stmt' s' h
    simp only [parse_block_loop, bind_ok] at h
    obtain ⟨t, ht, h⟩ := h
    split at h
    · simp only [pure_ok, Prod.mk.injEq] at h
      exact ⟨[], by rw [← h.1]; simp⟩
    · simp only [bind_ok] at h
      obtain ⟨⟨r, s1⟩, hr, h⟩ := h
      cases r with
      | none =>
        simp only [pure_ok, Prod.mk.injEq] at h
        exact ⟨[], by rw [← h.1]; simp⟩
      | some n =>
        obtain ⟨rest, hrest⟩ := ih _ _ _ _ _ _ h
        exact ⟨n :: rest, by rw [hrest]; simp⟩

theorem parse_conditional_inv {fuel : Nat} {s s' : Parser} {r : Option Node}
    (h : parse_conditional fuel s = .ok (r, s')) :
    ∃ (t : Token) (e : Option Node) (B : List Node), tok s = .ok t ∧
      r = some (cond_node e B) ∧ (e = none ↔ t.kind = .TOKEN_ELSE) := by
  cases fuel with
  | zero => simp [parse_conditional] at h
  | succ fuel =>
    simp only [parse_conditional, bind_ok, pure_ok, Prod.mk.injEq] at h
    obtain ⟨⟨c, s1⟩, hc, ⟨e, s2⟩, he, ⟨body, s3⟩, hb, hr, -⟩ := h
    refine ⟨c, e, body, (consume_inv hc).1, hr.symm, ?_⟩
    split at he
    · rename_i hk
      simp only [map_ok, Prod.mk.injEq] at he
      obtain ⟨⟨n, sa⟩, -, rfl, -⟩ := he
      dsimp only at hk
      simp [hk]
    · rename_i hk
      simp only [map_ok, Prod.mk.injEq] at he
      obtain ⟨⟨n, sa⟩, -, rfl, -⟩ := he
      dsimp only at hk
      simp [hk]
    · rename_i hk
      simp only [Except.ok.injEq, Prod.mk.injEq] at he
      dsimp only at hk
      simp [hk, ← he.1]
    · simp at he

/-! ### Loose operators -/

theorem setStack_of_empty {s : Parser} (h : s.stack_top = []) : s.setStack [] = s := by
  cases s
  simp only [Parser.setStack] at *
  simp [h]

theorem loose_terms_stack (fuel : Nat) :
    ∀ s l s', loose_terms fuel s = .ok (l, s') → s.stack_top = [] → s'.stack_top = [] := by
  induction fuel with
  | zero => intro s l s' h; simp [loose_terms] at h
  | succ fuel ih =>
    intro s l s' h hs
    simp only [loose_terms] at h
    split at h
    · simp at h
    · rename_i t ht
      split at h
      · simp only [Except.ok.injEq, Prod.mk.injEq] at h
        rw [← h.2]; exact hs
      · split at h
        · simp at h
        · rename_i s2 h2
          obtain ⟨rhs, hr⟩ := (parse_term_group_stack _).2.1 _ _ h2 hs
          rw [pop_singleton hr] at h
          dsimp only at h
          split at h
          · simp at h
          · rename_i l1 s4 h4
            simp only [Except.ok.injEq, Prod.mk.injEq] at h
            rw [← h.2]
            exact ih _ _ _ h4 rfl

/-- The loop of `parse_expression` over a well-typed operand sequence: with
the first operand `acc` on the stack it ends with the left fold on the stack. -/
theorem parse_expression_loop_fold (fuel : Nat) :
    ∀ (s : Parser) (acc : Node) (l : List (Token × Node)) (s' : Parser),
      s.stack_top = [] → loose_terms fuel s = .ok (l, s') →
      (∀ p ∈ l, p.2.type.id = acc.type.id) →
      parse_expression_loop fuel (s.setStack [acc]) = .ok (s'.setStack [left_fold acc l]) := by
  induction fuel with
  | zero => intro s acc l s' _ h; simp [loose_terms] at h
  | succ fuel ih =>
    intro s acc l s' hs h hty
    simp only [loose_terms] at h
    split at h
    · simp at h
    · rename_i t ht
      split at h
      · rename_i hop
        simp only [Except.ok.injEq, Prod.mk.injEq] at h
        obtain ⟨rfl, rfl⟩ := h
        simp [parse_expression_loop, ht, hop, left_fold]
      · rename_i hop
        split at h
        · simp at h
        · rename_i s2 h2
          obtain ⟨rhs, hr⟩ := (parse_term_group_stack _).2.1 _ _ h2 hs
          rw [pop_singleton hr] at h
          dsimp only at h
          split at h
          · simp at h
          · rename_i l1 s4 h4
            simp only [Except.ok.injEq, Prod.mk.injEq] at h
            obtain ⟨rfl, rfl⟩ := h
            cases fuel with
            | zero => simp [parse_term] at h2
            | succ f =>
              have hrt : acc.type.id = rhs.type.id :=
                (hty (t, rhs) (List.mem_cons_self _ _)).symm
              have hc : consume (s.setStack [acc]) = .ok (t, (s.setStack [acc]).advance) :=
                consume_of_tok (by rw [tok_setStack]; exact ht)
              have e1 : ((s.setStack [acc]).advance).setStack [] = s.advance := by
                have := setStack_of_empty hs
                cases s
                simp only [Parser.setStack, Parser.advance] at *
                simp_all
              have hb : parse_binary_expr (f + 1) (expr_op t.kind) t.line t.col
                  (s.setStack [acc]).advance =
                  .ok (binary_node (expr_op t.kind) t.line t.col acc rhs, s2.setStack []) := by
                have hp : pop_expr_node (s.setStack [acc]).advance =
                    .ok (acc, ((s.setStack [acc]).advance).setStack []) :=
                  pop_singleton rfl
                simp only [parse_binary_expr, hp, e1]
                simp only [Nat.add_sub_cancel] at h2
                simp [h2, pop_singleton hr, hrt, binary_node]
              have hih := ih (s2.setStack []) (binary_node (expr_op t.kind) t.line t.col acc rhs)
                l1 s4 rfl h4 (fun p hp => by
                  rw [hty p (List.mem_cons_of_mem _ hp)]; rfl)
              simp only [parse_expression_loop, tok_setStack, ht]
              simp only [hop, if_false, hc, hb]
              simpa [push_expr_node, left_fold] using hih

theorem parse_term_loop_stops (fuel : Nat) :
    ∀ s s', parse_term_loop fuel s = .ok s' →
      ∃ t, tok s' = .ok t ∧ term_op t.kind = .BIN_UNKNOWN := by
  induction fuel with
  | zero => intro s s' h; simp [parse_term_loop] at h
  | succ fuel ih =>
    intro s s' h
    simp only [parse_term_loop] at h
    split at h
    · simp at h
    · rename_i t ht
      split at h
      · rename_i hop
        simp only [Except.ok.injEq] at h
        exact ⟨t, by rw [← h]; exact ht, hop⟩
      · split at h
        · simp at h
        · split at h
          · simp at h
          · exact ih _ _ h

/-- A term that parses ends before a token that is neither `*` nor `/`. -/
theorem parse_term_stops {fuel : Nat} {s s' : Parser} (h : parse_term fuel s = .ok s') :
    ∃ t, tok s' = .ok t ∧ t.kind ≠ .TOKEN_STAR ∧ t.kind ≠ .TOKEN_SLASH := by
  cases fuel with
  | zero => simp [parse_term] at h
  | succ fuel =>
    simp only [parse_term] at h
    split at h
    · simp at h
    · obtain ⟨t, ht, hop⟩ := parse_term_loop_stops fuel _ _ h
      refine ⟨t, ht, ?_, ?_⟩
      · intro hk; simp [term_op, hk] at hop
      · intro hk; simp [term_op, hk] at hop

/-- A term starts with a token that is no prefix operator. -/
theorem parse_term_first {fuel : Nat} {s s' : Parser} {t : Token}
    (h : parse_term fuel s = .ok s') (ht : tok s = .ok t) :
    unary_op t.kind = .UN_UNKNOWN := by
  cases fuel with
  | zero => simp [parse_term] at h
  | succ fuel =>
    simp only [parse_term] at h
    split at h
    · simp at h
    · rename_i s1 h1
      simp only [parse_factor, consume_of_tok ht] at h1
      split at h1
      all_goals first | (simp at h1; done) | (rename_i hk; simp [unary_op, hk])

/-! ### Products -/

@[simp] theorem Parser.setStack_setStack (s : Parser) (a b : List Node) :
    (s.setStack a).setStack b = s.setStack b := rfl

theorem right_fold_type (f0 : Node) (l : List (Token × Node)) :
    (right_fold f0 l).type = f0.type := by
  cases l with
  | nil => rfl
  | cons p rest => rfl

theorem tight_factors_stack (fuel : Nat) :
    ∀ s l s', tight_factors fuel s = .ok (l, s') → s.stack_top = [] → s'.stack_top = [] := by
  induction fuel with
  | zero => intro s l s' h; simp [tight_factors] at h
  | succ fuel ih =>
    intro s l s' h hs
    simp only [tight_factors] at h
    split at h
    · simp at h
    · rename_i t ht
      split at h
      · simp only [Except.ok.injEq, Prod.mk.injEq] at h
        rw [← h.2]; exact hs
      · split at h
        · simp at h
        · rename_i s2 h2
          obtain ⟨rhs, hr⟩ := parse_factor_stack h2
          rw [show s.advance.stack_top = [] from hs] at hr
          rw [pop_singleton hr] at h
          dsimp only at h
          split at h
          · simp at h
          · rename_i l1 s4 h4
            simp only [Except.ok.injEq, Prod.mk.injEq] at h
            rw [← h.2]
            exact ih _ _ _ h4 rfl

theorem tight_factors_stops (fuel : Nat) :
    ∀ s l s', tight_factors fuel s = .ok (l, s') →
      ∃ t, tok s' = .ok t ∧ term_op t.kind = .BIN_UNKNOWN := by
  induction fuel with
  | zero => intro s l s' h; simp [tight_factors] at h
  | succ fuel ih =>
    intro s l s' h
    simp only [tight_factors] at h
    split at h
    · simp at h
    · rename_i t ht
      split at h
      · rename_i hop
        simp only [Except.ok.injEq, Prod.mk.injEq] at h
        exact ⟨t, by rw [← h.2]; exact ht, hop⟩
      · split at h
        · simp at h
        · split at h
          · simp at h
          · rename_i rhs s3 hp
            split at h
            · simp at h
            · rename_i l1 s4 h4
              simp only [Except.ok.injEq, Prod.mk.injEq] at h
              rw [← h.2]
              exact ih _ _ _ h4

/-- The loop of `parse_term` over a well-typed factor sequence: with the first
factor `f0` on the stack it ends with the right fold on the stack. -/
theorem parse_term_loop_fold (n : Nat) :
    ∀ (fuel : Nat) (s : Parser) (f0 : Node) (l : List (Token × Node)) (s' : Parser),
      s.stack_top = [] → tight_factors n s = .ok (l, s') →
      (∀ p ∈ l, p.2.type.id = f0.type.id) → 3 * l.length + 1 ≤ fuel →
      parse_term_loop fuel (s.setStack [f0]) = .ok (s'.setStack [right_fold f0 l]) := by
  induction n with
  | zero => intro fuel s f0 l s' _ h; simp [tight_factors] at h
  | succ n ih =>
    intro fuel s f0 l s' hs h hty hfuel
    simp only [tight_factors] at h
    split at h
    · simp at h
    · rename_i t ht
      split at h
      · rename_i hop
        simp only [Except.ok.injEq, Prod.mk.injEq] at h
        obtain ⟨rfl, rfl⟩ := h
        obtain ⟨f, rfl⟩ : ∃ f, fuel = f + 1 := ⟨fuel - 1, by omega⟩
        simp [parse_term_loop, ht, hop, right_fold]
      · rename_i hop
        split at h
        · simp at h
        · rename_i s2 h2
          obtain ⟨rhs, hr⟩ := parse_factor_stack h2
          rw [show s.advance.stack_top = [] from hs] at hr
          rw [pop_singleton hr] at h
          dsimp only at h
          split at h
          · simp at h
          · rename_i l1 s4 h4
            simp only [Except.ok.injEq, Prod.mk.injEq] at h
            obtain ⟨rfl, rfl⟩ := h
            simp only [List.length_cons] at hfuel
            obtain ⟨f, rfl⟩ : ∃ f, fuel = f + 3 := ⟨fuel - 3, by omega⟩
            have hrt : f0.type.id = rhs.type.id :=
              (hty (t, rhs) (List.mem_cons_self _ _)).symm
            have hc : consume (s.setStack [f0]) = .ok (t, (s.setStack [f0]).advance) :=
              consume_of_tok (by rw [tok_setStack]; exact ht)
            have e1 : ((s.setStack [f0]).advance).setStack [] = s.advance := by
              cases s
              simp only [Parser.setStack, Parser.advance] at *
              simp_all
            have e2 : s2 = (s2.setStack []).setStack [rhs] := by
              cases s2
              simp only [Parser.setStack] at *
              simp [hr]
            have hinner := ih f (s2.setStack []) rhs l1 s4 rfl h4
              (fun p hp => by
                rw [hty p (List.mem_cons_of_mem _ hp)]; exact hrt)
              (by omega)
            rw [← e2] at hinner
            have hterm : parse_term (f + 1) s.advance =
                .ok (s4.setStack [right_fold rhs l1]) := by
              simp only [parse_term, h2]
              exact hinner
            have hb : parse_binary_expr (f + 2) (term_op t.kind) t.line t.col
                (s.setStack [f0]).advance =
                .ok (binary_node (term_op t.kind) t.line t.col f0 (right_fold rhs l1),
                  s4.setStack []) := by
              have hp : pop_expr_node (s.setStack [f0]).advance =
                  .ok (f0, ((s.setStack [f0]).advance).setStack []) :=
                pop_singleton rfl
              simp only [parse_binary_expr, hp, e1, hterm]
              simp [pop_singleton (rfl : (s4.setStack [right_fold rhs l1]).stack_top = [_]),
                right_fold_type, hrt, binary_node]
            obtain ⟨te, hte, hteop⟩ := tight_factors_stops n _ _ _ h4
            have h4s := tight_factors_stack n _ _ _ h4 rfl
            simp only [parse_term_loop, tok_setStack, ht]
            simp only [hop, if_false, hc, hb]
            simp [parse_term_loop, push_expr_node, hte, hteop, right_fold]

/-! ### The name of a function in its own scope -/

/-- The first steps of `parse_function_declaration` for a name `f` that the
active scope does not bind: if what follows, from the state on entry to the
scope of the function, fails, the declaration fails in the same way. -/
theorem parse_function_declaration_fails {fuel : Nat} {f : String} {s : Parser} {cur : Nat}
    {tbl : SymbolTable} {t0 : Token} {e : Fatal}
    (hcur : s.current_scope = some cur) (htbl : s.scopes[cur]? = some tbl)
    (hfresh : tbl.find f = none)
    (h0 : tok s = .ok t0) (h1 : tok s.advance = .ok (ident f))
    (h2 : tok s.advance.advance = .ok (tk .TOKEN_LPAREN))
    (hrest : (do
      let (_, s) ← parse_params_loop fuel s.scopes.length
        (enter_scope s.scopes.length
          (s.advance.advance.setScopes (function_entry_scopes s.scopes cur tbl f))).advance []
      let (_, s) ← expect .TOKEN_RPAREN s
      let (arrow, s) ← match_ .TOKEN_ARROW s
      let (_, s) ←
        (if arrow then parse_type s
          else .ok (primitive_types TYPE_VOID, s) : Except Fatal (Ty × Parser))
      parse_block fuel true s : Except Fatal (List Node × Parser)) = .error e) :
    parse_function_declaration fuel s = .error e := by
  have hown := own_scope_insert
    (s.scopes.set cur (tbl.extend (Symbol.fresh f .SYMBOL_FUNCTION))) f
  have hlen : (s.scopes.set cur (tbl.extend (Symbol.fresh f .SYMBOL_FUNCTION))).length =
      s.scopes.length := by simp
  rw [hlen] at hown
  have t2 : tok (enter_scope s.scopes.length
      (s.advance.advance.setScopes (function_entry_scopes s.scopes cur tbl f))) =
      .ok (tk .TOKEN_LPAREN) := h2
  have hsE' : enter_scope s.scopes.length (s.advance.advance.setScopes
      (symbol_table_add_child
        (s.scopes.set cur (tbl.extend (Symbol.fresh f .SYMBOL_FUNCTION)) ++
          [(symbol_table_create f).extend (Symbol.fresh f .SYMBOL_FUNCTION)])
        cur s.scopes.length)) = enter_scope s.scopes.length
      (s.advance.advance.setScopes (function_entry_scopes s.scopes cur tbl f)) := rfl
  simp only [bind, Except.bind] at hrest
  simp only [parse_function_declaration, h0, consume_of_tok h0,
    expect_of_tok (k := .TOKEN_IDENTIFIER) h1 rfl, bind, Except.bind, str_ident,
    Parser.scopes_advance, Parser.current_scope_advance, hcur,
    scope_insert_fresh _ htbl hfresh, Option.getD_some, hlen, hown]
  simp only [hsE', expect_of_tok (k := .TOKEN_LPAREN) t2 rfl]
  revert hrest
  cases parse_params_loop fuel s.scopes.length
      (enter_scope s.scopes.length
        (s.advance.advance.setScopes (function_entry_scopes s.scopes cur tbl f))).advance [] with
  | error e1 => intro hrest; simpa using hrest
  | ok r1 =>
    obtain ⟨params, s1⟩ := r1
    simp only []
    cases expect .TOKEN_RPAREN s1 with
    | error e2 => intro hrest; simpa using hrest
    | ok r2 =>
      obtain ⟨tr, s2⟩ := r2
      simp only []
      cases match_ .TOKEN_ARROW s2 with
      | error e3 => intro hrest; simpa using hrest
      | ok r3 =>
        obtain ⟨arrow, s3⟩ := r3
        simp only []
        cases (if arrow = true then parse_type s3
            else .ok (primitive_types TYPE_VOID, s3) : Except Fatal (Ty × Parser)) with
        | error e4 => intro hrest; simpa using hrest
        | ok r4 =>
          obtain ⟨rt, s4⟩ := r4
          simp only []
          cases parse_block fuel true s4 with
          | error e5 => intro hrest; simpa using hrest
          | ok r5 => intro hrest; simp at hrest

/-! ### Termination and the token cursor -/

@[simp] theorem outcome_ok {α : Type} (P : α → Prop) (a : α) :
    Outcome P (.ok a : Except Fatal α) ↔ P a := Iff.rfl

@[simp] theorem outcome_error {α : Type} (P : α → Prop) (e : Fatal) :
    Outcome P (.error e : Except Fatal α) ↔ (e ≠ .Crash ∧ e ≠ .OutOfFuel) := Iff.rfl

theorem Outcome.imp {α : Type} {P Q : α → Prop} {x : Except Fatal α}
    (h : Outcome P x) (hpq : ∀ a, x = .ok a → P a → Q a) : Outcome Q x := by
  cases x with
  | error e => exact h
  | ok a => exact hpq a rfl h

theorem Outcome.bind {α β : Type} {P : α → Prop} {Q : β → Prop} {x : Except Fatal α}
    {f : α → Except Fatal β} (hx : Outcome P x)
    (hf : ∀ a, x = .ok a → P a → Outcome Q (f a)) : Outcome Q (x >>= f) := by
  cases x with
  | error e => exact hx
  | ok a => exact hf a rfl hx

theorem Outcome.map {α β : Type} {P : α → Prop} {Q : β → Prop} {x : Except Fatal α}
    {f : α → β} (hx : Outcome P x)
    (hf : ∀ a, x = .ok a → P a → Q (f a)) : Outcome Q (x.map f) := by
  cases x with
  | error e => exact hx
  | ok a => exact hf a rfl hx

theorem ok_bind {α β : Type} (a : α) (f : α → Except Fatal β) :
    ((.ok a : Except Fatal α) >>= f) = f a := rfl

theorem tok_get_of_ok {s : Parser} {t : Token} (ht : tok s = .ok t) :
    s.stream[s.stream_pos]? = some t := by
  unfold tok at ht
  split at ht
  · rename_i t1 h1
    simp only [Except.ok.injEq] at ht
    rw [h1, ht]
  · simp at ht

theorem InStream.has_token {s : Parser} (h : InStream s) : ∃ t, tok s = .ok t := by
  have hin := h.inside
  cases hg : s.stream[s.stream_pos]? with
  | none =>
    rw [List.getElem?_eq_none_iff] at hg
    omega
  | some t => exact ⟨t, tok_of_get hg⟩

theorem InStream.next_inside {s : Parser} {t : Token} (h : InStream s) (ht : tok s = .ok t)
    (hk : t.kind ≠ .TOKEN_EOF) : s.stream_pos + 1 < s.stream.length := by
  obtain ⟨e, he, hek⟩ := h.eof
  have hin := h.inside
  by_contra hc
  have hp : s.stream_pos = s.stream.length - 1 := by omega
  have h1 := tok_get_of_ok ht
  rw [List.getLast?_eq_getElem?, ← hp, h1] at he
  simp only [Option.some.injEq] at he
  rw [he] at hk
  exact hk hek

theorem Step.stay {s : Parser} (h : InStream s) : Step 0 s s :=
  ⟨rfl, Nat.le_refl _, h.inside⟩

theorem Step.chain {j k : Nat} {a b c : Parser} (h1 : Step j a b) (h2 : Step k b c) :
    Step (j + k) a c :=
  ⟨h2.stream.trans h1.stream, by have := h1.pos; have := h2.pos; omega, h2.inside⟩

theorem Step.mono {j k : Nat} {a b : Parser} (h : Step k a b) (hjk : j ≤ k) : Step j a b :=
  ⟨h.stream, by have := h.pos; omega, h.inside⟩

theorem Step.to_zero {k : Nat} {a b : Parser} (h : Step k a b) : Step 0 a b :=
  h.mono (Nat.zero_le _)

theorem Step.to_one {k : Nat} {a b : Parser} (h : Step (k + 1) a b) : Step 1 a b :=
  h.mono (by omega)

/-- The step to a state with the same vector and cursor. -/
theorem Step.same_cursor {k : Nat} {a b : Parser} (b' : Parser) (h : Step k a b)
    (hs : b'.stream = b.stream) (hp : b'.stream_pos = b.stream_pos) : Step k a b' :=
  ⟨by rw [hs]; exact h.stream, by rw [hp]; exact h.pos, by rw [hs, hp]; exact h.inside⟩

theorem Step.instream {k : Nat} {a b : Parser} (h : Step k a b) (ha : InStream a) :
    InStream b :=
  ⟨by rw [h.stream]; exact ha.eof, h.inside⟩

/-- A step only looks at the vector and the cursor. -/
theorem Step.recast {k : Nat} {a a' b b' : Parser} (h : Step k a b)
    (ha : a'.stream = a.stream) (ha' : a'.stream_pos = a.stream_pos)
    (hb : b'.stream = b.stream) (hb' : b'.stream_pos = b.stream_pos) : Step k a' b' :=
  ⟨by rw [hb, ha, h.stream], by rw [hb', ha']; exact h.pos, by rw [hb, hb']; exact h.inside⟩

theorem InStream.moved {a b : Parser} (h : InStream a) (hs : b.stream = a.stream)
    (hp : b.stream_pos = a.stream_pos) : InStream b :=
  ⟨by rw [hs]; exact h.eof, by rw [hs, hp]; exact h.inside⟩

theorem Step.one_token {s : Parser} {t : Token} (h : InStream s) (ht : tok s = .ok t)
    (hk : t.kind ≠ .TOKEN_EOF) : Step 1 s s.advance :=
  ⟨rfl, Nat.le_refl _, h.next_inside ht hk⟩

/-- What is left of the vector from the cursor on. -/
theorem Step.remaining {k : Nat} {a b : Parser} (h : Step k a b) :
    b.stream.length - b.stream_pos + k ≤ a.stream.length - a.stream_pos := by
  have h1 := h.pos
  have h2 := h.inside
  rw [h.stream] at h2 ⊢
  omega

theorem parse_factor_total {s : Parser} (h : InStream s) :
    Outcome (fun s' => Step 1 s s') (parse_factor s) := by
  obtain ⟨t, ht⟩ := h.has_token
  simp only [parse_factor, consume_of_tok ht]
  split
  · rename_i hk
    have h1 := Step.one_token h ht (by rw [hk]; decide)
    split
    · simp
    · exact h1.recast rfl rfl rfl rfl
  · rename_i hk
    exact (Step.one_token h ht (by rw [hk]; decide)).recast rfl rfl rfl rfl
  · rename_i hk
    exact (Step.one_token h ht (by rw [hk]; decide)).recast rfl rfl rfl rfl
  · rename_i hk
    exact (Step.one_token h ht (by rw [hk]; decide)).recast rfl rfl rfl rfl
  · simp
theorem term_op_eof {t : Token} (h : term_op t.kind ≠ .BIN_UNKNOWN) : t.kind ≠ .TOKEN_EOF := by
  intro hk; rw [hk] at h; exact h rfl

theorem expr_op_eof {t : Token} (h : expr_op t.kind ≠ .BIN_UNKNOWN) : t.kind ≠ .TOKEN_EOF := by
  intro hk; rw [hk] at h; exact h rfl

theorem unary_op_eof {t : Token} (h : unary_op t.kind ≠ .UN_UNKNOWN) : t.kind ≠ .TOKEN_EOF := by
  intro hk; rw [hk] at h; exact h rfl

/-- The term rules come back when the fuel is twice what is left of the
vector: with a term that took at least one token, or with a diagnostic. -/
theorem term_group_total (fuel : Nat) :
    (∀ op l c s a, InStream s → s.stack_top = [a] →
      2 * (s.stream.length - s.stream_pos) + 1 ≤ fuel →
      Outcome (fun r => Step 1 s r.2) (parse_binary_expr fuel op l c s)) ∧
    (∀ s, InStream s → s.stack_top = [] →
      2 * (s.stream.length - s.stream_pos) ≤ fuel →
      Outcome (fun s' => Step 1 s s') (parse_term fuel s)) ∧
    (∀ s a, InStream s → s.stack_top = [a] →
      2 * (s.stream.length - s.stream_pos) + 1 ≤ fuel →
      Outcome (fun s' => Step 0 s s') (parse_term_loop fuel s)) := by
  induction fuel with
  | zero =>
    refine ⟨?_, ?_, ?_⟩
    · intro op l c s a _ _ hf; omega
    · intro s hin _ hf
      have := hin.inside
      omega
    · intro s a _ _ hf; omega
  | succ fuel ih =>
    obtain ⟨ihb, iht, ihl⟩ := ih
    refine ⟨?_, ?_, ?_⟩
    · intro op l c s a hin hs hf
      simp only [parse_binary_expr, pop_singleton hs]
      have ht := iht (s.setStack []) (hin.moved rfl rfl) rfl
        (by simp only [Parser.stream_setStack, Parser.stream_pos_setStack]; omega)
      cases h2 : parse_term fuel (s.setStack []) with
      | error e =>
        rw [h2] at ht
        exact ht
      | ok s2 =>
        rw [h2] at ht
        obtain ⟨rhs, hr⟩ := (parse_term_group_stack fuel).2.1 _ _ h2 rfl
        simp only [pop_singleton hr]
        split
        · simp
        · exact (outcome_ok _ _).1 ht |>.recast rfl rfl rfl rfl
    · intro s hin hs hf
      simp only [parse_term]
      have hfac := parse_factor_total hin
      cases h1 : parse_factor s with
      | error e =>
        rw [h1] at hfac
        exact hfac
      | ok s1 =>
        rw [h1] at hfac
        have hstep : Step 1 s s1 := hfac
        obtain ⟨n, hn⟩ := parse_factor_stack h1
        rw [hs] at hn
        have hrem := hstep.remaining
        have hl := ihl s1 n (hstep.instream hin) hn (by omega)
        exact hl.imp (fun s' _ h => (hstep.chain h).mono (by omega))
    · intro s a hin hs hf
      obtain ⟨t, ht⟩ := hin.has_token
      simp only [parse_term_loop, ht]
      split
      · exact Step.stay hin
      · rename_i hop
        have hadv := Step.one_token hin ht (term_op_eof hop)
        have hrem := hadv.remaining
        simp only [consume_of_tok ht]
        have hb := ihb (term_op t.kind) t.line t.col s.advance a (hadv.instream hin) hs
          (by omega)
        cases hbe : parse_binary_expr fuel (term_op t.kind) t.line t.col s.advance with
        | error e =>
          rw [hbe] at hb
          exact hb
        | ok r =>
          obtain ⟨node, s2⟩ := r
          rw [hbe] at hb
          have hstep : Step 1 s.advance s2 := hb
          have h2 := (parse_term_group_stack fuel).1 _ _ _ _ _ _ a hbe hs
          have hrem2 := hstep.remaining
          have hl := ihl (push_expr_node node s2) node
            ((hstep.instream (hadv.instream hin)).moved rfl rfl)
            (by simp [push_expr_node, h2])
            (by
              simp only [push_expr_node, Parser.stream_setStack, Parser.stream_pos_setStack]
              omega)
          exact hl.imp (fun s' _ h =>
            ((hadv.chain hstep).chain (h.recast rfl rfl rfl rfl)).mono (by omega))
theorem parse_expression_loop_total (fuel : Nat) :
    ∀ s a, InStream s → s.stack_top = [a] →
      2 * (s.stream.length - s.stream_pos) + 1 ≤ fuel →
      Outcome (fun s' => Step 0 s s') (parse_expression_loop fuel s) := by
  induction fuel with
  | zero => intro s a _ _ hf; omega
  | succ fuel ih =>
    intro s a hin hs hf
    obtain ⟨t, ht⟩ := hin.has_token
    simp only [parse_expression_loop, ht]
    split
    · exact Step.stay hin
    · rename_i hop
      have hadv := Step.one_token hin ht (expr_op_eof hop)
      have hrem := hadv.remaining
      simp only [consume_of_tok ht]
      have hb := (term_group_total fuel).1 (expr_op t.kind) t.line t.col s.advance a
        (hadv.instream hin) hs (by omega)
      cases hbe : parse_binary_expr fuel (expr_op t.kind) t.line t.col s.advance with
      | error e =>
        rw [hbe] at hb
        exact hb
      | ok r =>
        obtain ⟨node, s2⟩ := r
        rw [hbe] at hb
        have hstep : Step 1 s.advance s2 := hb
        have h2 := (parse_term_group_stack fuel).1 _ _ _ _ _ _ a hbe hs
        have hrem2 := hstep.remaining
        have hl := ih (push_expr_node node s2) node
          ((hstep.instream (hadv.instream hin)).moved rfl rfl)
          (by simp [push_expr_node, h2])
          (by
            simp only [push_expr_node, Parser.stream_setStack, Parser.stream_pos_setStack]
            omega)
        exact hl.imp (fun s' _ h =>
          ((hadv.chain hstep).chain (h.recast rfl rfl rfl rfl)).mono (by omega))

/-- The end of `parse_expression`, from the state after the first term and
the prefix operator. -/
theorem parse_expression_tail_total {fuel : Nat} {s0 s3 : Parser} {b : Node}
    (hin : InStream s0) (hstep : Step 1 s0 s3) (hb : s3.stack_top = [b])
    (hf : 2 * (s0.stream.length - s0.stream_pos) ≤ fuel) :
    Outcome (fun r => Step 1 s0 r.2)
      (parse_expression_loop fuel s3 >>= fun s => pop_expr_node s) := by
  have hrem := hstep.remaining
  refine (parse_expression_loop_total fuel s3 b (hstep.instream hin) hb (by omega)).bind ?_
  intro s4 h4 hstep4
  obtain ⟨c, hc⟩ := parse_expression_loop_stack fuel _ _ b h4 hb
  simp only [pop_singleton hc]
  have h5 := hstep.chain hstep4
  exact ⟨h5.stream, h5.pos, h5.inside⟩

theorem parse_expression_total {fuel : Nat} {s : Parser} (hin : InStream s)
    (hs : s.stack_top = []) (hf : 2 * (s.stream.length - s.stream_pos) ≤ fuel) :
    Outcome (fun r => Step 1 s r.2) (parse_expression fuel s) := by
  obtain ⟨t, ht⟩ := hin.has_token
  simp only [parse_expression, ht, ok_bind]
  by_cases hu : unary_op t.kind = .UN_UNKNOWN
  · simp only [hu, ne_eq, not_true_eq_false, if_false, if_true, ok_bind]
    refine ((term_group_total fuel).2.1 s hin hs hf).bind ?_
    intro s2 h2 htm
    obtain ⟨a, ha⟩ := (parse_term_group_stack fuel).2.1 _ _ h2 hs
    exact parse_expression_tail_total hin htm ha hf
  · have hadv := Step.one_token hin ht (unary_op_eof hu)
    have hrem := hadv.remaining
    simp only [hu, ne_eq, not_false_eq_true, if_false, if_true, consume_of_tok ht, Except.map,
      ok_bind]
    refine ((term_group_total fuel).2.1 s.advance (hadv.instream hin) hs (by omega)).bind ?_
    intro s2 h2 hstep2
    obtain ⟨a, ha⟩ := (parse_term_group_stack fuel).2.1 _ _ h2 hs
    simp only [parse_unary_expr, pop_singleton ha, ok_bind]
    have h5 := hadv.chain hstep2
    exact @parse_expression_tail_total fuel s (push_expr_node _ (s2.setStack [])) _ hin
      ⟨h5.stream, by show s.stream_pos + 1 ≤ s2.stream_pos; have := h5.pos; omega, h5.inside⟩
      rfl hf
theorem expect_total {s : Parser} (k : TokenKind) (hin : InStream s)
    (hk : k ≠ .TOKEN_EOF) :
    Outcome (fun r => r.2 = s.advance ∧ Step 1 s s.advance) (expect k s) := by
  obtain ⟨t, ht⟩ := hin.has_token
  by_cases h : t.kind = k
  · rw [expect_of_tok ht h]
    exact ⟨rfl, Step.one_token hin ht (by rw [h]; exact hk)⟩
  · rw [expect_of_tok_ne ht h]
    simp

theorem match_total {s : Parser} (k : TokenKind) (hin : InStream s)
    (hk : k ≠ .TOKEN_EOF) :
    (match_ k s = .ok (true, s.advance) ∧ Step 1 s s.advance) ∨
      match_ k s = .ok (false, s) := by
  obtain ⟨t, ht⟩ := hin.has_token
  by_cases h : t.kind = k
  · exact Or.inl ⟨match_of_tok ht h, Step.one_token hin ht (by rw [h]; exact hk)⟩
  · exact Or.inr (match_of_tok_ne ht h)

theorem parse_type_total {s : Parser} (hin : InStream s) :
    Outcome (fun r => r.2 = s.advance ∧ Step 1 s s.advance) (parse_type s) := by
  have he := expect_total .TOKEN_IDENTIFIER hin (by decide)
  simp only [parse_type]
  cases hx : expect .TOKEN_IDENTIFIER s with
  | error e =>
    rw [hx] at he
    exact he
  | ok r =>
    obtain ⟨t, s1⟩ := r
    rw [hx] at he
    obtain ⟨rfl, hstep⟩ := he
    dsimp only
    split
    · simp
    · exact ⟨rfl, hstep⟩

theorem scope_insert_total {s : Parser} (hsc : ScopeOK s) (name : String) (k : SymbolKind) :
    ∃ r, scope_insert s.scopes s.current_scope name k = .ok r := by
  obtain ⟨i, hi, hlt⟩ := hsc
  simp only [scope_insert, hi, List.getElem?_eq_getElem hlt]
  split
  · exact ⟨_, rfl⟩
  · exact ⟨_, rfl⟩

theorem pure_bind_ok {α β : Type} (a : α) (f : α → Except Fatal β) :
    ((pure a : Except Fatal α) >>= f) = f a := rfl

@[simp] theorem outcome_pure {α : Type} (P : α → Prop) (a : α) :
    Outcome P (pure a : Except Fatal α) ↔ P a := Iff.rfl

/-- The end of a declaration or statement: the token that must follow, and a
write to a symbol. -/
theorem expect_end_total {α : Type} {s s5 : Parser} {j : Nat} (k : TokenKind)
    (hk : k ≠ .TOKEN_EOF) (hin : InStream s) (hstep : Step j s s5)
    (g : Token × Parser → α × Parser)
    (hg : ∀ d, (g d).2.stream = d.2.stream ∧ (g d).2.stream_pos = d.2.stream_pos) :
    Outcome (fun r => Step 1 s r.2) (expect k s5 >>= fun d => pure (g d)) := by
  refine (expect_total k (hstep.instream hin) hk).bind ?_
  intro d _ hd
  obtain ⟨hd1, hd2⟩ := hd
  have h5 := hstep.chain hd2
  rw [outcome_pure]
  refine ⟨?_, ?_, ?_⟩
  · rw [(hg d).1, hd1]; exact h5.stream
  · rw [(hg d).2, hd1]; have := h5.pos; omega
  · rw [(hg d).1, (hg d).2, hd1]; exact h5.inside

theorem parse_variable_declaration_total {fuel : Nat} {var_name : Option String} {s : Parser}
    (hin : InStream s) (hs : s.stack_top = []) (hsc : ScopeOK s)
    (hf : 2 * (s.stream.length - s.stream_pos) ≤ fuel) :
    Outcome (fun r => Step 1 s r.2) (parse_variable_declaration fuel var_name s) := by
  obtain ⟨t, ht⟩ := hin.has_token
  simp only [parse_variable_declaration, ht, ok_bind]
  refine Outcome.bind (P := fun d => Step 0 s d.2.2 ∧ d.2.2.stack_top = [] ∧
    d.2.2.scopes = s.scopes ∧ d.2.2.current_scope = s.current_scope) ?_ ?_
  · cases var_name with
    | some n => exact ⟨Step.stay hin, hs, rfl, rfl⟩
    | none =>
      dsimp only
      refine (expect_total .TOKEN_CONST hin (by decide)).bind ?_
      intro d1 _ h1
      obtain ⟨h1a, h1b⟩ := h1
      refine (expect_total .TOKEN_IDENTIFIER (s := d1.2) (by rw [h1a]; exact h1b.instream hin)
        (by decide)).bind ?_
      intro d2 _ h2
      obtain ⟨h2a, h2b⟩ := h2
      rw [outcome_pure]
      dsimp only
      rw [h2a, h1a]
      rw [h1a] at h2b
      exact ⟨(h1b.chain h2b).mono (by omega), hs, rfl, rfl⟩
  · intro d0 _ h0
    obtain ⟨x0, n0, s0⟩ := d0
    obtain ⟨hstep0, hs0, hsc0, hcur0⟩ := h0
    dsimp only at hstep0 hs0 hsc0 hcur0 ⊢
    have hin0 := hstep0.instream hin
    have hrem0 := hstep0.remaining
    obtain ⟨r, hr⟩ := scope_insert_total (s := s0)
      (by obtain ⟨i, hi, hlt⟩ := hsc; exact ⟨i, by rw [hcur0, hi], by rw [hsc0]; exact hlt⟩)
      n0 .SYMBOL_VARIABLE
    rw [hr, ok_bind]
    cases r with
    | none => simp
    | some scopes =>
      dsimp only
      obtain ⟨sW, hsW⟩ : ∃ sW, sW = write_symbol (s0.current_scope.getD 0) n0
        (fun sym => { sym with is_constant := x0 }) (s0.setScopes scopes) := ⟨_, rfl⟩
      have hinW : InStream sW := by rw [hsW]; exact hin0.moved rfl rfl
      have hstepW : Step 0 s sW := by rw [hsW]; exact hstep0.recast rfl rfl rfl rfl
      have hsWs : sW.stack_top = [] := by rw [hsW]; exact hs0
      rw [← hsW]
      refine Outcome.bind (P := fun d => Step 0 s d.2 ∧ d.2.stack_top = []) ?_ ?_
      · rcases match_total .TOKEN_WALRUS hinW (by decide) with ⟨hm, hst⟩ | hm
        · rw [hm]; exact ⟨(hstepW.chain hst).mono (by omega), hsWs⟩
        · rw [hm]; exact ⟨hstepW, hsWs⟩
      · intro d1 _ h1
        obtain ⟨w, s1⟩ := d1
        obtain ⟨hstep1, hs1⟩ := h1
        dsimp only at hstep1 hs1 ⊢
        have hin1 := hstep1.instream hin
        have hrem1 := hstep1.remaining
        refine Outcome.bind (P := fun d => Step 0 s d.2) ?_ ?_
        · split
          · refine (parse_expression_total hin1 hs1 (by omega)).bind ?_
            intro d2 _ h2
            rw [outcome_pure]
            exact (hstep1.chain h2).to_zero.same_cursor _ rfl rfl
          · refine (expect_total .TOKEN_COLON hin1 (by decide)).bind ?_
            intro d2 _ h2
            obtain ⟨h2a, h2b⟩ := h2
            have hstep2 := hstep1.chain h2b
            refine (parse_type_total (s := d2.2) (by rw [h2a]; exact hstep2.instream hin)).bind ?_
            intro d3 _ h3
            obtain ⟨h3a, h3b⟩ := h3
            rw [h2a] at h3a h3b
            have hstep3 := hstep2.chain h3b
            have hin3 : InStream d3.2 := by rw [h3a]; exact hstep3.instream hin
            have hs3 : d3.2.stack_top = [] := by rw [h3a]; exact hs1
            have hstep3' : Step 0 s d3.2 := by rw [h3a]; exact hstep3.mono (by omega)
            have hrem3 := hstep3'.remaining
            rcases match_total .TOKEN_EQUAL hin3 (by decide) with ⟨hm, hst⟩ | hm
            · rw [hm, ok_bind]
              simp only [if_true]
              refine (parse_expression_total (hst.instream hin3) hs3
                (by have := hst.remaining; omega)).bind ?_
              intro d5 _ h5
              split
              · simp
              · rw [outcome_pure]
                exact ((hstep3'.chain hst).chain h5).to_zero.same_cursor _ rfl rfl
            · rw [hm, ok_bind]
              simp only [Bool.false_eq_true, if_false]
              rw [outcome_pure]
              exact hstep3'.same_cursor _ rfl rfl
        · intro d2 _ h2
          exact expect_end_total .TOKEN_SEMICOLON (by decide) hin h2 _ (fun d => ⟨rfl, rfl⟩)
theorem ScopeOK.of_same {s s' : Parser} (h : ScopeOK s) (hf : SameScopes s s') : ScopeOK s' := by
  obtain ⟨i, hi, hlt⟩ := h
  exact ⟨i, by rw [hf.current_scope, hi], by rw [hf.scopes]; exact hlt⟩

theorem ScopeOK.of_frame {s s' : Parser} (h : ScopeOK s) (hf : Frame s s') : ScopeOK s' := by
  obtain ⟨i, hi, hlt⟩ := h
  exact ⟨i, by rw [hf.current_scope, hi], by rw [hf.length]; exact hlt⟩

theorem parse_variable_assignment_total {fuel : Nat} {name : String} {s : Parser} {t : Token}
    (hin : InStream s) (ht : tok s = .ok t) (hk : t.kind ≠ .TOKEN_EOF)
    (hs : s.stack_top = []) (hf : 2 * (s.stream.length - s.stream_pos) ≤ fuel) :
    Outcome (fun r => Step 1 s r.2) (parse_variable_assignment fuel name s) := by
  have hadv := Step.one_token hin ht hk
  have hrem := hadv.remaining
  simp only [parse_variable_assignment, ht, consume_of_tok ht, ok_bind]
  split
  · simp
  · refine (parse_expression_total (hadv.instream hin) hs (by omega)).bind ?_
    intro d _ hd
    exact expect_end_total .TOKEN_SEMICOLON (by decide) hin (hadv.chain hd) _
      (fun d => ⟨rfl, rfl⟩)

theorem parse_return_total {fuel : Nat} {s : Parser} {t : Token}
    (hin : InStream s) (ht : tok s = .ok t) (hk : t.kind ≠ .TOKEN_EOF)
    (hs : s.stack_top = []) (hf : 2 * (s.stream.length - s.stream_pos) ≤ fuel) :
    Outcome (fun r => Step 1 s r.2) (parse_return fuel s) := by
  have hadv := Step.one_token hin ht hk
  have hrem := hadv.remaining
  simp only [parse_return, consume_of_tok ht, ok_bind]
  refine (parse_expression_total (hadv.instream hin) hs (by omega)).bind ?_
  intro d _ hd
  exact expect_end_total .TOKEN_SEMICOLON (by decide) hin (hadv.chain hd) _
    (fun d => ⟨rfl, rfl⟩)

theorem parse_identifier_stmt_total {fuel : Nat} {s : Parser} {t : Token}
    (hin : InStream s) (ht : tok s = .ok t) (hk : t.kind ≠ .TOKEN_EOF)
    (hs : s.stack_top = []) (hsc : ScopeOK s)
    (hf : 2 * (s.stream.length - s.stream_pos) ≤ fuel) :
    Outcome (fun r => Step 1 s r.2) (parse_identifier_stmt fuel s) := by
  have hadv := Step.one_token hin ht hk
  have hrem := hadv.remaining
  have hin1 := hadv.instream hin
  obtain ⟨t2, ht2⟩ := hin1.has_token
  simp only [parse_identifier_stmt, consume_of_tok ht, ht2, ok_bind]
  split
  · simp only [parse_function_call]
    exact expect_end_total .TOKEN_SEMICOLON (by decide) hin hadv _ (fun d => ⟨rfl, rfl⟩)
  · refine Outcome.map (parse_variable_declaration_total hin1 hs
      (hsc.of_same (SameScopes.advance s)) (by omega)) ?_
    intro d _ hd
    exact (hadv.chain hd).to_one
  · refine Outcome.map (parse_variable_declaration_total hin1 hs
      (hsc.of_same (SameScopes.advance s)) (by omega)) ?_
    intro d _ hd
    exact (hadv.chain hd).to_one
  · rename_i hk2
    refine (parse_variable_assignment_total hin1 ht2 (by rw [hk2]; decide) hs (by omega)).imp ?_
    intro d _ hd
    exact (hadv.chain hd).to_one
  · simp
/-- The block rules come back when the fuel is twice what is left of the
vector: with a step over at least one token (the loop: any step), or with a
diagnostic. -/
theorem block_group_total (fuel : Nat) :
    (∀ s, InStream s → s.stack_top = [] → ScopeOK s →
      2 * (s.stream.length - s.stream_pos) ≤ fuel →
      Outcome (fun r => Step 1 s r.2) (parse_conditional fuel s)) ∧
    (∀ s body stmt, InStream s → s.stack_top = [] → ScopeOK s →
      2 * (s.stream.length - s.stream_pos) + 1 ≤ fuel →
      Outcome (fun r => Step 0 s r.2.2) (parse_block_loop fuel s body stmt)) ∧
    (∀ b s, InStream s → s.stack_top = [] → ScopeOK s →
      2 * (s.stream.length - s.stream_pos) ≤ fuel →
      Outcome (fun r => Step 1 s r.2) (parse_block fuel b s)) := by
  induction fuel with
  | zero =>
    refine ⟨?_, ?_, ?_⟩
    · intro s hin _ _ hf
      have := hin.inside
      omega
    · intro s body stmt _ _ _ hf; omega
    · intro b s hin _ _ hf
      have := hin.inside
      omega
  | succ fuel ih =>
    obtain ⟨ihc, ihl, ihb⟩ := ih
    refine ⟨?_, ?_, ?_⟩
    · intro s hin hs hsc hf
      obtain ⟨t, ht⟩ := hin.has_token
      simp only [parse_conditional, consume_of_tok ht, ok_bind]
      refine Outcome.bind (P := fun d => Step 1 s d.2 ∧ d.2.stack_top = [] ∧ ScopeOK d.2) ?_ ?_
      · split
        · rename_i hk
          have hadv := Step.one_token hin ht (by rw [hk]; decide)
          have hrem := hadv.remaining
          refine Outcome.map (parse_expression_total (hadv.instream hin) hs (by omega)) ?_
          intro d hd hstep
          exact ⟨(hadv.chain hstep).to_one, parse_expression_empty hd hs,
            hsc.of_same ((SameScopes.advance s).seq (parse_expression_same hd))⟩
        · rename_i hk
          have hadv := Step.one_token hin ht (by rw [hk]; decide)
          have hrem := hadv.remaining
          refine Outcome.map (parse_expression_total (hadv.instream hin) hs (by omega)) ?_
          intro d hd hstep
          exact ⟨(hadv.chain hstep).to_one, parse_expression_empty hd hs,
            hsc.of_same ((SameScopes.advance s).seq (parse_expression_same hd))⟩
        · rename_i hk
          exact ⟨Step.one_token hin ht (by rw [hk]; decide), hs, hsc.of_same (SameScopes.advance s)⟩
        · simp
      · intro d _ hd
        obtain ⟨e, s1⟩ := d
        obtain ⟨hstep1, hs1, hsc1⟩ := hd
        dsimp only at hstep1 hs1 hsc1 ⊢
        have hrem := hstep1.remaining
        refine (ihb false s1 (hstep1.instream hin) hs1 hsc1 (by omega)).bind ?_
        intro d2 _ hstep2
        rw [outcome_pure]
        exact (hstep1.chain hstep2).to_one
    · intro s body stmt hin hs hsc hf
      obtain ⟨t, ht⟩ := hin.has_token
      simp only [parse_block_loop, ht, ok_bind]
      split
      · rw [outcome_pure]
        exact Step.stay hin
      · refine Outcome.bind (P := fun d => Step 1 s d.2 ∧ d.2.stack_top = [] ∧ ScopeOK d.2)
          ?_ ?_
        · split
          · refine Outcome.map (parse_variable_declaration_total hin hs hsc (by omega)) ?_
            intro d hd hstep
            exact ⟨hstep, parse_variable_declaration_empty hd hs,
              hsc.of_frame (parse_variable_declaration_frame hd)⟩
          · rename_i hk
            refine (parse_identifier_stmt_total hin ht (by rw [hk]; decide) hs hsc
              (by omega)).imp ?_
            intro d hd hstep
            exact ⟨hstep, parse_identifier_stmt_empty hd hs,
              hsc.of_frame (parse_identifier_stmt_frame hd)⟩
          · refine (ihc s hin hs hsc (by omega)).imp ?_
            intro d hd hstep
            exact ⟨hstep, (parse_block_group_empty fuel).1 _ _ _ hd hs,
              hsc.of_frame ((parse_block_group_frame fuel).1 _ _ _ hd)⟩
          · refine (ihc s hin hs hsc (by omega)).imp ?_
            intro d hd hstep
            exact ⟨hstep, (parse_block_group_empty fuel).1 _ _ _ hd hs,
              hsc.of_frame ((parse_block_group_frame fuel).1 _ _ _ hd)⟩
          · refine (ihc s hin hs hsc (by omega)).imp ?_
            intro d hd hstep
            exact ⟨hstep, (parse_block_group_empty fuel).1 _ _ _ hd hs,
              hsc.of_frame ((parse_block_group_frame fuel).1 _ _ _ hd)⟩
          · rename_i hk
            refine (parse_return_total hin ht (by rw [hk]; decide) hs (by omega)).imp ?_
            intro d hd hstep
            exact ⟨hstep, parse_return_empty hd hs, hsc.of_same (parse_return_same hd)⟩
          · simp
        · intro d _ hd
          obtain ⟨r, s1⟩ := d
          obtain ⟨hstep1, hs1, hsc1⟩ := hd
          dsimp only at hstep1 hs1 hsc1 ⊢
          have hrem := hstep1.remaining
          cases r with
          | none =>
            dsimp only
            rw [outcome_pure]
            exact hstep1.to_zero
          | some n =>
            dsimp only
            refine (ihl s1 _ _ (hstep1.instream hin) hs1 hsc1 (by omega)).imp ?_
            intro d2 _ hstep2
            exact (hstep1.chain hstep2).to_zero
    · intro b s hin hs hsc hf
      simp only [parse_block]
      refine (expect_total .TOKEN_LBRACE hin (by decide)).bind ?_
      intro d1 h1 hd1
      obtain ⟨h1a, h1b⟩ := hd1
      have hrem := h1b.remaining
      have hs1 : d1.2.stack_top = [] := by rw [h1a]; exact hs
      have hsc1 : ScopeOK d1.2 := by rw [h1a]; exact hsc.of_same (SameScopes.advance s)
      have hstep1 : Step 1 s d1.2 := by rw [h1a]; exact h1b
      refine (ihl d1.2 [] none (hstep1.instream hin) hs1 hsc1
        (by rw [h1a]; omega)).bind ?_
      intro d2 _ hstep2
      refine (expect_total .TOKEN_RBRACE ((hstep1.chain hstep2).instream hin) (by decide)).bind ?_
      intro d3 _ hd3
      obtain ⟨h3a, h3b⟩ := hd3
      have h4 := ((hstep1.chain hstep2).chain h3b).to_one
      split
      · rw [outcome_pure]
        show Step 1 s d3.2
        rw [h3a]; exact h4
      · rw [outcome_pure]
        show Step 1 s d3.2
        rw [h3a]; exact h4
theorem parse_params_loop_stack (fuel : Nat) :
    ∀ (fs : Nat) (s : Parser) (params params' : List Node) (s' : Parser),
      parse_params_loop fuel fs s params = .ok (params', s') → s'.stack_top = s.stack_top := by
  induction fuel with
  | zero => intro fs s params params' s' h; simp [parse_params_loop] at h
  | succ fuel ih =>
    intro fs s params params' s' h
    simp only [parse_params_loop, bind_ok] at h
    obtain ⟨t, ht, h⟩ := h
    split at h
    · simp only [pure_ok, Prod.mk.injEq] at h
      rw [← h.2]
    · simp only [bind_ok] at h
      obtain ⟨⟨p, s1⟩, h1, ins, hins, h⟩ := h
      have e1 := expect_stack h1
      cases ins with
      | none => simp [bind, Except.bind] at h; split at h <;> simp at h
      | some scopes =>
        simp only [bind_ok] at h
        obtain ⟨⟨tc, s2⟩, h2, ⟨ty, s3⟩, h3, t4, ht4, h⟩ := h
        have e2 := expect_stack h2
        have e3 := parse_type_stack h3
        split at h
        · simp only [pure_ok, Prod.mk.injEq] at h
          rw [← h.2, e3, e2]
          exact e1
        · simp only [bind_ok] at h
          obtain ⟨⟨tk, s5⟩, h5, h⟩ := h
          rw [ih _ _ _ _ _ h, consume_stack h5, e3, e2]
          exact e1

theorem parse_params_loop_total (fuel : Nat) :
    ∀ (fs : Nat) (s : Parser) (params : List Node), InStream s → fs < s.scopes.length →
      2 * (s.stream.length - s.stream_pos) ≤ fuel →
      Outcome (fun r => Step 0 s r.2) (parse_params_loop fuel fs s params) := by
  induction fuel with
  | zero =>
    intro fs s params hin _ hf
    have := hin.inside
    omega
  | succ fuel ih =>
    intro fs s params hin hfs hf
    obtain ⟨t, ht⟩ := hin.has_token
    simp only [parse_params_loop, ht, ok_bind]
    split
    · rw [outcome_pure]
      exact Step.stay hin
    · refine (expect_total .TOKEN_IDENTIFIER hin (by decide)).bind ?_
      intro d1 _ hd1
      obtain ⟨p, s1⟩ := d1
      obtain ⟨h1a, h1b⟩ := hd1
      dsimp only at h1a ⊢
      subst h1a
      have hin1 := h1b.instream hin
      have hrem1 := h1b.remaining
      obtain ⟨r, hr⟩ : ∃ r, scope_insert s.advance.scopes (some fs) p.str .SYMBOL_VARIABLE =
          .ok r := by
        simp only [scope_insert, Parser.scopes_advance, List.getElem?_eq_getElem hfs]
        split
        · exact ⟨_, rfl⟩
        · exact ⟨_, rfl⟩
      rw [hr, ok_bind]
      cases r with
      | none =>
        obtain ⟨t1, ht1⟩ := hin1.has_token
        simp [ht1, ok_bind]
      | some scopes =>
        dsimp only
        obtain ⟨cur, tbl, -, -, -, hsc⟩ := scope_insert_inv hr
        have hlen : scopes.length = s.scopes.length := by rw [hsc]; simp
        have hin2 : InStream (s.advance.setScopes scopes) := hin1.moved rfl rfl
        refine (expect_total .TOKEN_COLON hin2 (by decide)).bind ?_
        intro d2 _ hd2
        obtain ⟨h2a, h2b⟩ := hd2
        have hstep2 := h1b.chain (h2b.recast rfl rfl rfl rfl)
        have hin3 : InStream d2.2 := by rw [h2a]; exact h2b.instream hin2
        refine (parse_type_total hin3).bind ?_
        intro d3 _ hd3
        obtain ⟨h3a, h3b⟩ := hd3
        rw [h2a] at h3a h3b
        have hstep3 : Step 3 s d3.2 := by
          rw [h3a]
          exact (hstep2.chain (h3b.recast rfl rfl rfl rfl)).same_cursor _ rfl rfl
        have hin4 := hstep3.instream hin
        have hrem4 := hstep3.remaining
        obtain ⟨t4, ht4⟩ := hin4.has_token
        rw [ht4, ok_bind]
        split
        · rw [outcome_pure]
          exact hstep3.to_zero
        · rename_i hk4
          have hk4' : t4.kind = .TOKEN_COMMA := by
            by_contra hc
            exact hk4 hc
          have hadv := Step.one_token hin4 ht4 (by rw [hk4']; decide)
          rw [consume_of_tok ht4, ok_bind]
          have hfs5 : fs < d3.2.advance.scopes.length := by
            rw [h3a]
            show fs < scopes.length
            omega
          have hrem5 := hadv.remaining
          refine (ih fs d3.2.advance _ (hadv.instream hin4) hfs5 (by omega)).imp ?_
          intro d6 _ hd6
          exact ((hstep3.chain hadv).chain hd6).to_zero
theorem parse_function_declaration_total {fuel : Nat} {s : Parser} {t : Token}
    (hin : InStream s) (ht : tok s = .ok t) (hk : t.kind ≠ .TOKEN_EOF)
    (hs : s.stack_top = []) (hsc : ScopeOK s)
    (hf : 2 * (s.stream.length - s.stream_pos) ≤ fuel) :
    Outcome (fun r => Step 1 s r.2) (parse_function_declaration fuel s) := by
  have hadv := Step.one_token hin ht hk
  have hrem := hadv.remaining
  simp only [parse_function_declaration, ht, consume_of_tok ht, ok_bind]
  refine (expect_total .TOKEN_IDENTIFIER (hadv.instream hin) (by decide)).bind ?_
  intro d1 _ hd1
  obtain ⟨h1a, h1b⟩ := hd1
  obtain ⟨r, hr⟩ := scope_insert_total (s := d1.2)
    (by rw [h1a]; exact (hsc.of_same (SameScopes.advance s)).of_same (SameScopes.advance _))
    d1.1.str .SYMBOL_FUNCTION
  rw [hr, ok_bind]
  cases r with
  | none => simp
  | some scopes =>
    dsimp only
    rw [own_scope_insert]
    dsimp only
    have hLlen : scopes.length < (symbol_table_add_child
        (scopes ++ [(symbol_table_create d1.1.str).extend
          (Symbol.fresh d1.1.str .SYMBOL_FUNCTION)])
        (d1.2.current_scope.getD 0) scopes.length).length := by
      simp [symbol_table_add_child]
    generalize symbol_table_add_child
        (scopes ++ [(symbol_table_create d1.1.str).extend
          (Symbol.fresh d1.1.str .SYMBOL_FUNCTION)])
        (d1.2.current_scope.getD 0) scopes.length = L at hLlen ⊢
    obtain ⟨sE, hsE⟩ : ∃ sE, sE = enter_scope scopes.length (d1.2.setScopes L) := ⟨_, rfl⟩
    rw [← hsE]
    have hstepE : Step 2 s sE := by
      rw [hsE, h1a]
      exact (hadv.chain h1b).same_cursor _ rfl rfl
    have hsEs : sE.stack_top = [] := by rw [hsE, h1a]; exact hs
    have hsEc : sE.current_scope = some scopes.length := by rw [hsE]; rfl
    have hsEl : scopes.length < sE.scopes.length := by rw [hsE]; exact hLlen
    have hinE := hstepE.instream hin
    have hremE := hstepE.remaining
    refine (expect_total .TOKEN_LPAREN hinE (by decide)).bind ?_
    intro d2 _ hd2
    obtain ⟨h2a, h2b⟩ := hd2
    have hstep2 : Step 3 s d2.2 := by rw [h2a]; exact hstepE.chain h2b
    have hrem2 := hstep2.remaining
    refine (parse_params_loop_total fuel scopes.length d2.2 [] (hstep2.instream hin)
      (by rw [h2a]; exact hsEl) (by omega)).bind ?_
    intro d3 hp hd3
    have hfr3 := parse_params_loop_frame fuel _ _ _ _ _ hp (by rw [h2a]; exact hsEc)
    have hst3 := parse_params_loop_stack fuel _ _ _ _ _ hp
    have hstep3 := hstep2.chain hd3
    refine (expect_total .TOKEN_RPAREN (hstep3.instream hin) (by decide)).bind ?_
    intro d4 _ hd4
    obtain ⟨h4a, h4b⟩ := hd4
    have hstep4 : Step 1 s d4.2 := by rw [h4a]; exact (hstep3.chain h4b).to_one
    have hs4 : d4.2.stack_top = [] := by rw [h4a]; show d3.2.stack_top = []; rw [hst3, h2a]; exact hsEs
    have hc4 : d4.2.current_scope = some scopes.length := by
      rw [h4a]; show d3.2.current_scope = _; rw [hfr3.current_scope, h2a]; exact hsEc
    have hl4 : scopes.length < d4.2.scopes.length := by
      rw [h4a]; show _ < d3.2.scopes.length; rw [hfr3.length, h2a]; exact hsEl
    have hin4 := hstep4.instream hin
    refine Outcome.bind (P := fun d => Step 1 s d.2 ∧ d.2.stack_top = [] ∧
      d.2.current_scope = some scopes.length ∧ scopes.length < d.2.scopes.length) ?_ ?_
    · rcases match_total .TOKEN_ARROW hin4 (by decide) with ⟨hm, hst⟩ | hm
      · rw [hm]; exact ⟨(hstep4.chain hst).to_one, hs4, hc4, hl4⟩
      · rw [hm]; exact ⟨hstep4, hs4, hc4, hl4⟩
    · intro d5 _ hd5
      obtain ⟨hstep5, hs5, hc5, hl5⟩ := hd5
      refine Outcome.bind (P := fun d => Step 1 s d.2 ∧ d.2.stack_top = [] ∧
        d.2.current_scope = some scopes.length ∧ scopes.length < d.2.scopes.length) ?_ ?_
      · split
        · refine (parse_type_total (hstep5.instream hin)).imp ?_
          intro d6 _ hd6
          obtain ⟨h6a, h6b⟩ := hd6
          rw [h6a]
          exact ⟨(hstep5.chain h6b).to_one, hs5, hc5, hl5⟩
        · exact ⟨hstep5, hs5, hc5, hl5⟩
      · intro d6 _ hd6
        obtain ⟨hstep6, hs6, hc6, hl6⟩ := hd6
        have hrem6 := hstep6.remaining
        refine ((block_group_total fuel).2.2 true d6.2 (hstep6.instream hin) hs6
          ⟨_, hc6, hl6⟩ (by omega)).bind ?_
        intro d7 hb hd7
        have hfr7 := parse_block_frame hb
        have hc7 : d7.2.current_scope = some scopes.length := by rw [hfr7.current_scope, hc6]
        have hl7 : scopes.length < d7.2.scopes.length := by rw [hfr7.length]; exact hl6
        have hexit : ∃ p, exit_scope d7.2 = .ok (d7.2.setCurrent p) := by
          cases hn : d7.2.scopes[scopes.length]? with
          | none =>
            rw [List.getElem?_eq_none_iff] at hn
            omega
          | some tn => exact ⟨tn.parent, by simp [exit_scope, hc7, hn]⟩
        obtain ⟨p, hexit⟩ := hexit
        rw [hexit, ok_bind, outcome_pure]
        exact ((hstep6.chain hd7).to_one).same_cursor _ rfl rfl
theorem ScopeOK.of_top {s s' : Parser} (h : ScopeOK s) (hf : TopFrame s s') : ScopeOK s' := by
  obtain ⟨i, hi, hlt⟩ := h
  exact ⟨i, by rw [hf.current_scope, hi], Nat.lt_of_lt_of_le hlt hf.length⟩

theorem exit_scope_stack {s s' : Parser} (h : exit_scope s = .ok s') :
    s'.stack_top = s.stack_top := by
  unfold exit_scope at h
  split at h
  · simp at h
  · split at h
    · simp at h
    · simp only [Except.ok.injEq] at h
      rw [← h]; rfl

theorem parse_function_declaration_empty {fuel : Nat} {s s' : Parser} {node : Node}
    (h : parse_function_declaration fuel s = .ok (node, s')) (hs : s.stack_top = []) :
    s'.stack_top = [] := by
  simp only [parse_function_declaration, bind_ok] at h
  obtain ⟨t, ht, ⟨_, sa⟩, hc, ⟨tf, sb⟩, hi, ins, hins, h⟩ := h
  split at h
  · simp at h
  · rename_i scopes1
    simp only [bind_ok, pure_ok, Prod.mk.injEq] at h
    obtain ⟨⟨_, sc⟩, hlp, ⟨params, sd⟩, hps, ⟨_, se⟩, hrp, ⟨arrow, sf⟩, har, ⟨rt, s1⟩, hrt,
      ⟨body, s2⟩, hb, sg, hexit, -, rfl⟩ := h
    have e1 : s1.stack_top = [] := by
      have hT : s1.stack_top = sf.stack_top := by
        split at hrt
        · exact parse_type_stack hrt
        · simp only [Except.ok.injEq, Prod.mk.injEq] at hrt
          rw [← hrt.2]
      rw [hT, match_stack har, expect_stack hrp, parse_params_loop_stack fuel _ _ _ _ _ hps,
        expect_stack hlp]
      show sb.stack_top = []
      rw [expect_stack hi, consume_stack hc]
      exact hs
    have e2 := (parse_block_group_empty fuel).2.2 _ _ _ _ hb e1
    show sg.stack_top = []
    rw [exit_scope_stack hexit]
    exact e2

/-- The loop of `parse` comes back, on the end-of-stream token or with a
diagnostic, when the fuel is twice what is left of the vector. -/
theorem parse_loop_total (fuel : Nat) :
    ∀ (s : Parser) (ast : List Node), InStream s → s.stack_top = [] → ScopeOK s →
      2 * (s.stream.length - s.stream_pos) + 1 ≤ fuel →
      Outcome (fun r => Step 0 s r.2 ∧ ∃ t, tok r.2 = .ok t ∧ t.kind = .TOKEN_EOF)
        (parse_loop fuel s ast) := by
  induction fuel with
  | zero => intro s ast _ _ _ hf; omega
  | succ fuel ih =>
    intro s ast hin hs hsc hf
    obtain ⟨t, ht⟩ := hin.has_token
    simp only [parse_loop, ht, ok_bind]
    split
    · rename_i hk
      rw [outcome_pure]
      exact ⟨Step.stay hin, t, ht, hk⟩
    · rename_i hk
      refine Outcome.bind (P := fun d => Step 1 s d.2 ∧ d.2.stack_top = [] ∧ ScopeOK d.2) ?_ ?_
      · split
        · refine (parse_function_declaration_total hin ht hk hs hsc (by omega)).imp ?_
          intro d hd hstep
          obtain ⟨_, _, _, _, _, _, -, -, -, -, -, -, -, htop⟩ :=
            parse_function_declaration_enclosing hd
          exact ⟨hstep, parse_function_declaration_empty hd hs, hsc.of_top htop⟩
        · refine (parse_variable_declaration_total hin hs hsc (by omega)).imp ?_
          intro d hd hstep
          exact ⟨hstep, parse_variable_declaration_empty hd hs,
            hsc.of_frame (parse_variable_declaration_frame hd)⟩
        · have hadv := Step.one_token hin ht hk
          have hrem := hadv.remaining
          rw [consume_of_tok ht, ok_bind]
          refine (parse_variable_declaration_total (hadv.instream hin) hs
            (hsc.of_same (SameScopes.advance s)) (by omega)).imp ?_
          intro d hd hstep
          exact ⟨(hadv.chain hstep).to_one, parse_variable_declaration_empty hd hs,
            (hsc.of_same (SameScopes.advance s)).of_frame (parse_variable_declaration_frame hd)⟩
        · simp
      · intro d _ hd
        obtain ⟨decl, s1⟩ := d
        obtain ⟨hstep1, hs1, hsc1⟩ := hd
        dsimp only at hstep1 hs1 hsc1 ⊢
        have hrem := hstep1.remaining
        refine (ih s1 _ (hstep1.instream hin) hs1 hsc1 (by omega)).imp ?_
        intro d2 _ hd2
        exact ⟨(hstep1.chain hd2.1).to_zero, hd2.2⟩

/-- Totality of `parse`: on a vector that ends with the end-of-stream token,
from a cursor inside it, an empty stack and a global scope of the heap, with
fuel of twice the length of the vector plus one. -/
theorem parse_total {fuel : Nat} {tokens : List Token} {s : Parser}
    (heof : eof_terminated tokens) (hpos : s.stream_pos < tokens.length)
    (hs : s.stack_top = []) (hg : s.global_scope < s.scopes.length)
    (hf : 2 * tokens.length + 1 ≤ fuel) :
    Outcome (fun r => r.2.stream = tokens ∧ s.stream_pos ≤ r.2.stream_pos ∧
        ∃ t, tok r.2 = .ok t ∧ t.kind = .TOKEN_EOF)
      (parse fuel tokens s) := by
  have hin : InStream (s.load tokens) := ⟨heof, hpos⟩
  simp only [parse]
  refine (parse_loop_total fuel (s.load tokens) [] hin hs ⟨_, rfl, hg⟩
    (by show 2 * (tokens.length - s.stream_pos) + 1 ≤ fuel; omega)).bind ?_
  intro d _ hd
  obtain ⟨hstep, heofd⟩ := hd
  split
  · simp
  · rw [outcome_pure]
    exact ⟨hstep.stream, by have := hstep.pos; exact Nat.le_trans (Nat.le_add_right _ _) this,
      heofd⟩
/-- One iteration of the parameter loop that does not fail: the cursor moves
over the name, the colon and the type, to a state `s1`, where the loop ends or
goes on after a comma. -/
theorem parse_params_loop_iteration {fuel : Nat} {fs : Nat} {s s' : Parser} {t : Token}
    {params ps : List Node} (ht : tok s = .ok t) (hk : t.kind ≠ .TOKEN_RPAREN)
    (h : parse_params_loop (fuel + 1) fs s params = .ok (ps, s')) :
    ∃ s1, s1.stream_pos = s.stream_pos + 3 ∧
      (s' = s1 ∨ ∃ node, parse_params_loop fuel fs s1.advance (params ++ [node]) =
        .ok (ps, s')) := by
  simp only [parse_params_loop, ht, ok_bind, hk, if_false, bind_ok] at h
  obtain ⟨⟨p, s1⟩, h1, ins, hins, h⟩ := h
  obtain ⟨-, -, rfl⟩ := expect_inv h1
  cases ins with
  | none =>
    simp only [bind, Except.bind] at h
    split at h <;> simp at h
  | some scopes =>
    simp only [bind_ok] at h
    obtain ⟨⟨tc, s2⟩, h2, ⟨ty, s3⟩, h3, t4, ht4, h⟩ := h
    obtain ⟨-, -, rfl⟩ := expect_inv h2
    have h3p : s3.stream_pos = s.stream_pos + 3 := by
      simp only [parse_type] at h3
      split at h3
      · simp at h3
      · rename_i tn sn hn
        obtain ⟨-, -, rfl⟩ := expect_inv hn
        split at h3
        · simp at h3
        · simp only [Except.ok.injEq, Prod.mk.injEq] at h3
          rw [← h3.2]; rfl
    refine ⟨s3, h3p, ?_⟩
    split at h
    · simp only [pure_ok, Prod.mk.injEq] at h
      exact Or.inl h.2.symm
    · simp only [bind_ok] at h
      obtain ⟨⟨tk, s5⟩, h5, h⟩ := h
      obtain ⟨-, rfl⟩ := consume_inv h5
      exact Or.inr ⟨_, h⟩

/-! ### Where a Redeclaration can come from -/

theorem not_redeclaration_bind {α β : Type} {x : Except Fatal α} {f : α → Except Fatal β}
    (hx : x ≠ .error .Redeclaration) (hf : ∀ a, x = .ok a → f a ≠ .error .Redeclaration) :
    (x >>= f) ≠ .error .Redeclaration := by
  cases x with
  | error e => exact fun h => hx (by simpa [bind, Except.bind] using h)
  | ok a => exact hf a rfl

theorem tok_not_redeclaration (s : Parser) : tok s ≠ .error .Redeclaration := by
  unfold tok
  split <;> simp

theorem consume_not_redeclaration (s : Parser) : consume s ≠ .error .Redeclaration := by
  have := tok_not_redeclaration s
  unfold consume
  split
  · rename_i e he
    intro h
    simp only [Except.error.injEq] at h
    rw [h] at he
    exact this he
  · simp

theorem expect_not_redeclaration (k : TokenKind) (s : Parser) :
    expect k s ≠ .error .Redeclaration := by
  have := consume_not_redeclaration s
  unfold expect
  split
  · rename_i e he
    intro h
    simp only [Except.error.injEq] at h
    rw [h] at he
    exact this he
  · split <;> simp

theorem match_not_redeclaration (k : TokenKind) (s : Parser) :
    match_ k s ≠ .error .Redeclaration := by
  have h1 := tok_not_redeclaration s
  have h2 := consume_not_redeclaration s
  unfold match_
  split
  · rename_i e he
    intro h
    simp only [Except.error.injEq] at h
    rw [h] at he
    exact h1 he
  · split
    · split
      · rename_i e he
        intro h
        simp only [Except.error.injEq] at h
        rw [h] at he
        exact h2 he
      · simp
    · simp

theorem pop_not_redeclaration (s : Parser) : pop_expr_node s ≠ .error .Redeclaration := by
  unfold pop_expr_node
  split <;> simp

theorem parse_type_not_redeclaration (s : Parser) : parse_type s ≠ .error .Redeclaration := by
  intro h
  simp only [parse_type] at h
  split at h
  · rename_i e he
    simp only [Except.error.injEq] at h
    rw [h] at he
    exact expect_not_redeclaration _ _ he
  · split at h <;> simp at h

theorem parse_factor_not_redeclaration (s : Parser) :
    parse_factor s ≠ .error .Redeclaration := by
  intro h
  simp only [parse_factor] at h
  split at h
  · rename_i e he
    simp only [Except.error.injEq] at h
    rw [h] at he
    exact consume_not_redeclaration _ he
  · split at h
    · split at h <;> simp at h
    all_goals simp at h

theorem term_group_not_redeclaration (fuel : Nat) :
    (∀ op l c s, parse_binary_expr fuel op l c s ≠ .error .Redeclaration) ∧
    (∀ s, parse_term fuel s ≠ .error .Redeclaration) ∧
    (∀ s, parse_term_loop fuel s ≠ .error .Redeclaration) := by
  induction fuel with
  | zero =>
    refine ⟨?_, ?_, ?_⟩
    · intro op l c s; simp [parse_binary_expr]
    · intro s; simp [parse_term]
    · intro s; simp [parse_term_loop]
  | succ fuel ih =>
    obtain ⟨ihb, iht, ihl⟩ := ih
    refine ⟨?_, ?_, ?_⟩
    · intro op l c s h
      simp only [parse_binary_expr] at h
      split at h
      · rename_i e he
        simp only [Except.error.injEq] at h
        rw [h] at he
        exact pop_not_redeclaration _ he
      · split at h
        · rename_i e he
          simp only [Except.error.injEq] at h
          rw [h] at he
          exact iht _ he
        · split at h
          · rename_i e he
            simp only [Except.error.injEq] at h
            rw [h] at he
            exact pop_not_redeclaration _ he
          · split at h <;> simp at h
    · intro s h
      simp only [parse_term] at h
      split at h
      · rename_i e he
        simp only [Except.error.injEq] at h
        rw [h] at he
        exact parse_factor_not_redeclaration _ he
      · exact ihl _ h
    · intro s h
      simp only [parse_term_loop] at h
      split at h
      · rename_i e he
        simp only [Except.error.injEq] at h
        rw [h] at he
        exact tok_not_redeclaration _ he
      · split at h
        · simp at h
        · split at h
          · rename_i e he
            simp only [Except.error.injEq] at h
            rw [h] at he
            exact consume_not_redeclaration _ he
          · split at h
            · rename_i e he
              simp only [Except.error.injEq] at h
              rw [h] at he
              exact ihb _ _ _ _ he
            · exact ihl _ h

theorem parse_expression_loop_not_redeclaration (fuel : Nat) :
    ∀ s, parse_expression_loop fuel s ≠ .error .Redeclaration := by
  induction fuel with
  | zero => intro s; simp [parse_expression_loop]
  | succ fuel ih =>
    intro s h
    simp only [parse_expression_loop] at h
    split at h
    · rename_i e he
      simp only [Except.error.injEq] at h
      rw [h] at he
      exact tok_not_redeclaration _ he
    · split at h
      · simp at h
      · split at h
        · rename_i e he
          simp only [Except.error.injEq] at h
          rw [h] at he
          exact consume_not_redeclaration _ he
        · split at h
          · rename_i e he
            simp only [Except.error.injEq] at h
            rw [h] at he
            exact (term_group_not_redeclaration fuel).1 _ _ _ _ he
          · exact ih _ h

/-- No expression fails with Redeclaration. -/
theorem parse_expression_not_redeclaration (fuel : Nat) (s : Parser) :
    parse_expression fuel s ≠ .error .Redeclaration := by
  simp only [parse_expression]
  refine not_redeclaration_bind (tok_not_redeclaration s) ?_
  intro t _
  refine not_redeclaration_bind ?_ ?_
  · split
    · simp
    · intro h
      cases hc : consume s with
      | error e =>
        rw [hc] at h
        simp only [Except.map, Except.error.injEq] at h
        rw [h] at hc
        exact consume_not_redeclaration s hc
      | ok r =>
        rw [hc] at h
        simp [Except.map] at h
  · intro s1 _
    refine not_redeclaration_bind ((term_group_not_redeclaration fuel).2.1 s1) ?_
    intro s2 _
    refine not_redeclaration_bind ?_ ?_
    · split
      · intro h
        simp only [parse_unary_expr] at h
        cases hp : pop_expr_node s2 with
        | error e =>
          rw [hp] at h
          simp only [Except.map, Except.error.injEq] at h
          rw [h] at hp
          exact pop_not_redeclaration s2 hp
        | ok r =>
          rw [hp] at h
          simp [Except.map] at h
      · simp
    · intro s3 _
      refine not_redeclaration_bind (parse_expression_loop_not_redeclaration fuel s3) ?_
      intro s4 _
      exact pop_not_redeclaration s4

theorem scope_insert_bound {scopes : List SymbolTable} {cur : Nat} {tbl : SymbolTable}
    {x : String} {sym : Symbol} (k : SymbolKind) (htbl : scopes[cur]? = some tbl)
    (hfind : tbl.find x = some sym) : scope_insert scopes (some cur) x k = .ok none := by
  simp [scope_insert, htbl, SymbolTable.insert, hfind]

/-- A variable declaration of `x` (of either form) fails with Redeclaration
exactly when the active scope itself binds `x`: the scopes around it are not
looked at, and nothing after the insertion fails in this way. -/
theorem declaration_redeclared_iff {fuel : Nat} {var_name : Option String} {s : Parser}
    {t : Token} {x : String} {cur : Nat} {tbl : SymbolTable} (ht : tok s = .ok t)
    (hform : var_name = some x ∨ (var_name = none ∧ t.kind = .TOKEN_CONST ∧
      ∃ ti, tok s.advance = .ok ti ∧ ti.kind = .TOKEN_IDENTIFIER ∧ ti.str = x))
    (hcur : s.current_scope = some cur) (htbl : s.scopes[cur]? = some tbl) :
    parse_variable_declaration fuel var_name s = .error .Redeclaration ↔
      (tbl.find x).isSome = true := by
  cases hfind : tbl.find x with
  | some sym =>
    simp only [Option.isSome_some, iff_true]
    rcases hform with rfl | ⟨rfl, hk, ti, hti, hki, rfl⟩
    · simp [parse_variable_declaration, ht, hcur, scope_insert_bound _ htbl hfind, bind,
        Except.bind]
    · simp [parse_variable_declaration, ht, expect_of_tok ht hk, expect_of_tok hti hki, hcur,
        scope_insert_bound _ htbl hfind, bind, Except.bind, pure, Except.pure]
  | none =>
    simp only [Option.isSome_none, Bool.false_eq_true, iff_false]
    rcases hform with rfl | ⟨rfl, hk, ti, hti, hki, rfl⟩
    · simp only [parse_variable_declaration, ht, ok_bind, hcur,
        scope_insert_fresh _ htbl hfind]
      repeat' first
        | exact match_not_redeclaration _ _
        | exact expect_not_redeclaration _ _
        | exact parse_type_not_redeclaration _
        | exact parse_expression_not_redeclaration _ _
        | refine not_redeclaration_bind ?_ ?_
        | intro _ _
        | split
        | simp [pure, Except.pure]
    · simp only [parse_variable_declaration, ht, ok_bind, expect_of_tok ht hk,
        expect_of_tok hti hki, pure_bind_ok, Parser.scopes_advance,
        Parser.current_scope_advance, hcur, scope_insert_fresh _ htbl hfind]
      repeat' first
        | exact match_not_redeclaration _ _
        | exact expect_not_redeclaration _ _
        | exact parse_type_not_redeclaration _
        | exact parse_expression_not_redeclaration _ _
        | refine not_redeclaration_bind ?_ ?_
        | intro _ _
        | split
        | simp [pure, Except.pure]

/-! ### The scope of a function at the start of its body -/

theorem find_extend_isSome (t : SymbolTable) (sym : Symbol) (x : String) :
    ((t.extend sym).find x).isSome = true ↔ ((t.find x).isSome = true ∨ sym.name = x) := by
  simp only [SymbolTable.find, SymbolTable.extend, List.find?_append]
  cases h : t.symbols.find? (fun sym => decide (sym.name = x)) with
  | some a => simp
  | none =>
    by_cases hx : sym.name = x
    · simp [hx]
    · simp [hx]

/-- The parameter loop adds to the scope of the function the names of the
parameters it appends, and no other name. -/
theorem parse_params_loop_symbols (fuel : Nat) :
    ∀ (fs : Nat) (s : Parser) (params params' : List Node) (s' : Parser) (tbl : SymbolTable),
      parse_params_loop fuel fs s params = .ok (params', s') → s.scopes[fs]? = some tbl →
      ∃ tbl' new, s'.scopes[fs]? = some tbl' ∧ params' = params ++ new ∧
        ∀ x, (tbl'.find x).isSome = true ↔
          ((tbl.find x).isSome = true ∨ x ∈ new.filterMap decl_name) := by
  induction fuel with
  | zero => intro fs s params params' s' tbl h; simp [parse_params_loop] at h
  | succ fuel ih =>
    intro fs s params params' s' tbl h htbl
    simp only [parse_params_loop, bind_ok] at h
    obtain ⟨t, ht, h⟩ := h
    split at h
    · simp only [pure_ok, Prod.mk.injEq] at h
      obtain ⟨rfl, rfl⟩ := h
      exact ⟨tbl, [], htbl, by simp, by simp⟩
    · simp only [bind_ok] at h
      obtain ⟨⟨p, s1⟩, h1, ins, hins, h⟩ := h
      obtain ⟨-, -, rfl⟩ := expect_inv h1
      cases ins with
      | none => simp [bind, Except.bind] at h; split at h <;> simp at h
      | some scopes =>
        simp only [bind_ok] at h
        obtain ⟨⟨tc, s2⟩, h2, ⟨ty, s3⟩, h3, t4, ht4, h⟩ := h
        obtain ⟨-, -, rfl⟩ := expect_inv h2
        obtain ⟨cur, tbl0, hc, htbl0, hfind, rfl⟩ := scope_insert_inv hins
        simp only [Option.some.injEq] at hc
        subst hc
        simp only [Parser.scopes_advance] at htbl0
        rw [htbl] at htbl0
        simp only [Option.some.injEq] at htbl0
        subst htbl0
        have h3s := parse_type_same h3
        have hsc3 : s3.scopes[fs]? =
            some (tbl.extend (Symbol.fresh p.str .SYMBOL_VARIABLE)) := by
          rw [h3s.scopes]
          exact getElem?_set_self_of_some htbl
        have hname : decl_name ((make_node .NODE_VAR_DECL).setData
            (.var_decl p.str ty none)) = some p.str := rfl
        split at h
        · simp only [pure_ok, Prod.mk.injEq] at h
          obtain ⟨rfl, rfl⟩ := h
          refine ⟨_, [(make_node .NODE_VAR_DECL).setData (.var_decl p.str ty none)], hsc3,
            rfl, ?_⟩
          intro x
          rw [find_extend_isSome, List.filterMap_cons_some hname, List.filterMap_nil,
            List.mem_singleton]
          exact or_congr Iff.rfl ⟨fun h => h.symm, fun h => h.symm⟩
        · simp only [bind_ok] at h
          obtain ⟨⟨tk, s5⟩, h5, h⟩ := h
          obtain ⟨-, rfl⟩ := consume_inv h5
          obtain ⟨tbl', new, h1', h2', h3'⟩ := ih _ _ _ _ _ _ h hsc3
          refine ⟨tbl', (make_node .NODE_VAR_DECL).setData (.var_decl p.str ty none) :: new,
            h1', by rw [h2']; simp, ?_⟩
          intro x
          rw [h3' x, find_extend_isSome, List.filterMap_cons_some hname, List.mem_cons,
            or_assoc]
          exact or_congr Iff.rfl (or_congr ⟨fun h => h.symm, fun h => h.symm⟩ Iff.rfl)

/-! ### Function declarations, as a chain of steps -/

/-- Every successful run of `parse_function_declaration`, step by step: from
the state on entry to the new scope, the parameter list, the return type and
the body are parsed by the calls below, `exit_scope` then goes back to the
enclosing scope `cur`, and the symbol of the function gets the node. -/
theorem parse_function_declaration_steps {fuel : Nat} {s s' : Parser} {node : Node}
    (h : parse_function_declaration fuel s = .ok (node, s')) :
    ∃ (t tf tl tr : Token) (cur : Nat) (tbl : SymbolTable) (params : List Node) (rt : Ty)
      (body : List Node) (arrow : Bool) (sa sb sc sd s1 s2 : Parser),
      tok s = .ok t ∧ tok s.advance = .ok tf ∧ tf.kind = .TOKEN_IDENTIFIER ∧
      s.current_scope = some cur ∧ s.scopes[cur]? = some tbl ∧ tbl.find tf.str = none ∧
      node = ((make_node .NODE_FUNC_DECL).setPos t.line t.col).setData
        (.func_decl tf.str rt params body) ∧
      expect .TOKEN_LPAREN (enter_scope s.scopes.length
        (s.advance.advance.setScopes (function_entry_scopes s.scopes cur tbl tf.str))) =
          .ok (tl, sa) ∧
      parse_params_loop fuel s.scopes.length sa [] = .ok (params, sb) ∧
      expect .TOKEN_RPAREN sb = .ok (tr, sc) ∧
      match_ .TOKEN_ARROW sc = .ok (arrow, sd) ∧
      (if arrow then parse_type sd
        else .ok (primitive_types TYPE_VOID, sd) : Except Fatal (Ty × Parser)) = .ok (rt, s1) ∧
      parse_block fuel true s1 = .ok (body, s2) ∧
      exit_scope s2 = .ok (s2.setCurrent (some cur)) ∧
      s' = write_symbol cur tf.str (fun sym => { sym with node := some node })
        (s2.setCurrent (some cur)) := by
  simp only [parse_function_declaration, bind_ok] at h
  obtain ⟨t, ht, ⟨_, sa⟩, hc, ⟨tf, sb⟩, hi, ins, hins, h⟩ := h
  obtain ⟨-, rfl⟩ := consume_inv hc
  obtain ⟨htf, hkf, rfl⟩ := expect_inv hi
  split at h
  · simp at h
  · rename_i scopes1
    dsimp only at hins
    simp only [Parser.scopes_advance, Parser.current_scope_advance] at hins
    obtain ⟨cur, tbl, hcur, htbl, hfind, rfl⟩ := scope_insert_inv hins
    have hlen : (s.scopes.set cur (tbl.extend (Symbol.fresh tf.str .SYMBOL_FUNCTION))).length =
        s.scopes.length := by simp
    have hown := own_scope_insert
      (s.scopes.set cur (tbl.extend (Symbol.fresh tf.str .SYMBOL_FUNCTION))) tf.str
    rw [hlen] at hown
    simp only [Parser.current_scope_advance, hcur, Option.getD_some, hlen, hown, bind_ok,
      pure_ok, Prod.mk.injEq] at h
    obtain ⟨⟨tl, sc⟩, hlp, ⟨params, sd⟩, hps, ⟨tr, se⟩, hrp, ⟨arrow, sf⟩, har, ⟨rt, s1⟩, hrt,
      ⟨body, s2⟩, hb, sg, hexit, rfl, rfl⟩ := h
    have fE := (expect_same hlp).frame
    have fP := parse_params_loop_frame fuel _ _ _ _ _ hps
      (by rw [fE.current_scope]; rfl)
    have fR := (expect_same hrp).frame
    have fA := (match_same har).frame
    have fT : Frame sf s1 := by
      split at hrt
      · exact (parse_type_same hrt).frame
      · simp only [Except.ok.injEq, Prod.mk.injEq] at hrt
        rw [← hrt.2]; exact Frame.frame_refl _
    have f1 := (((fE.step fP).step fR).step fA).step fT
    have f2 := f1.step (parse_block_frame hb)
    have hlt := lt_length_of_getElem? htbl
    have hexit' : sg = s2.setCurrent (some cur) := by
      have hc2 : s2.current_scope = some s.scopes.length := by rw [f2.current_scope]; rfl
      have hp2 := f2.parent s.scopes.length
      simp only [enter_scope, Parser.scopes_setCurrent, Parser.scopes_setScopes] at hp2
      have hnew := @function_entry_scopes_new _ _ tbl tf.str hlt
      unfold function_entry_scopes at hnew
      rw [hnew] at hp2
      cases hn : s2.scopes[s.scopes.length]? with
      | none => simp [hn] at hp2
      | some tn =>
        simp only [hn, Option.map_some', Option.some.injEq] at hp2
        simp only [exit_scope, hc2, hn, hp2, Except.ok.injEq] at hexit
        exact hexit.symm
    subst hexit'
    exact ⟨t, tf, tl, tr, cur, tbl, params, rt, body, arrow, sc, sd, se, sf, s1, s2, ht, htf,
      hkf, hcur, htbl, hfind, rfl, hlp, hps, hrp, har, hrt, hb, hexit, rfl⟩

theorem function_run_of_ok {fuel : Nat} {s s' : Parser} {node : Node}
    (h : parse_function_declaration fuel s = .ok (node, s')) :
    ∃ cur tbl f rt params body s1 s2,
      FunctionRun fuel s node s' cur tbl f rt params body s1 s2 := by
  obtain ⟨t, tf, tl, tr, cur, tbl, params, rt, body, arrow, sa, sb, sc, sd, s1, s2, ht, htf,
    hkf, hcur, htbl, hfind, hnode, hlp, hps, hrp, har, hrt, hb, hexit, hs'⟩ :=
    parse_function_declaration_steps h
  exact ⟨cur, tbl, tf.str, rt, params, body, s1, s2, hcur, htbl, hfind, ⟨tf, htf, hkf, rfl⟩,
    by rw [hnode]; simp, ⟨tl, tr, arrow, sa, sb, sc, sd, hlp, hps, hrp, har, hrt⟩, hb, hexit,
    hs'⟩

/-- At the start of the body the scope of the function is active and binds
the name of the function and the names of the parameters, no other name. -/
theorem FunctionRun.body_scope {fuel : Nat} {s s' : Parser} {node : Node} {cur : Nat}
    {tbl : SymbolTable} {f : String} {rt : Ty} {params body : List Node} {s1 s2 : Parser}
    (h : FunctionRun fuel s node s' cur tbl f rt params body s1 s2) :
    s1.current_scope = some s.scopes.length ∧
    ∃ tbl1, s1.scopes[s.scopes.length]? = some tbl1 ∧
      ∀ x, (tbl1.find x).isSome = true ↔ (x = f ∨ x ∈ params.filterMap decl_name) := by
  obtain ⟨tl, tr, arrow, sa, sb, sc, sd, hlp, hps, hrp, har, hrt⟩ := h.header
  have hlt := lt_length_of_getElem? h.table
  have sE := expect_same hlp
  have cA : sa.current_scope = some s.scopes.length := by rw [sE.current_scope]; rfl
  have fP := parse_params_loop_frame fuel _ _ _ _ _ hps cA
  have sR := expect_same hrp
  have sA := match_same har
  have sT : SameScopes sd s1 := by
    split at hrt
    · exact parse_type_same hrt
    · simp only [Except.ok.injEq, Prod.mk.injEq] at hrt
      rw [← hrt.2]; exact SameScopes.same_refl _
  have hsame := (sR.seq sA).seq sT
  have hEn : sa.scopes[s.scopes.length]? =
      some ⟨f, [Symbol.fresh f .SYMBOL_FUNCTION], some cur, []⟩ := by
    rw [sE.scopes]; exact function_entry_scopes_new f hlt
  obtain ⟨tbl', new, h1, h2, h3⟩ := parse_params_loop_symbols fuel _ _ _ _ _ _ hps hEn
  refine ⟨by rw [hsame.current_scope, fP.current_scope]; exact cA, tbl',
    by rw [hsame.scopes]; exact h1, ?_⟩
  intro x
  simp only [List.nil_append] at h2
  rw [h3 x, h2]
  refine or_congr ?_ Iff.rfl
  by_cases hx : f = x
  · simp [SymbolTable.find, Symbol.fresh, hx]
  · simp [SymbolTable.find, Symbol.fresh, hx, Ne.symm hx]

/-- When the body has been parsed the scope of the function is still the
active one; it has the enclosing scope as parent, and the state returned keeps
it as it then is. -/
theorem FunctionRun.function_scope {fuel : Nat} {s s' : Parser} {node : Node} {cur : Nat}
    {tbl : SymbolTable} {f : String} {rt : Ty} {params body : List Node} {s1 s2 : Parser}
    (h : FunctionRun fuel s node s' cur tbl f rt params body s1 s2) :
    s2.current_scope = some s.scopes.length ∧ s.scopes[s.scopes.length]? = none ∧
    ∃ fscope, s2.scopes[s.scopes.length]? = some fscope ∧ fscope.parent = some cur ∧
      s'.scopes[s.scopes.length]? = some fscope := by
  obtain ⟨tl, tr, arrow, sa, sb, sc, sd, hlp, hps, hrp, har, hrt⟩ := h.header
  have fE := (expect_same hlp).frame
  have cA : sa.current_scope = some s.scopes.length := by rw [fE.current_scope]; rfl
  have fP := parse_params_loop_frame fuel _ _ _ _ _ hps cA
  have fR := (expect_same hrp).frame
  have fA := (match_same har).frame
  have fT : Frame sd s1 := by
    split at hrt
    · exact (parse_type_same hrt).frame
    · simp only [Except.ok.injEq, Prod.mk.injEq] at hrt
      rw [← hrt.2]; exact Frame.frame_refl _
  have f2 := ((((fE.step fP).step fR).step fA).step fT).step (parse_block_frame h.body_run)
  have c2 : s2.current_scope = some s.scopes.length := by rw [f2.current_scope]; rfl
  have hlt := lt_length_of_getElem? h.table
  have hne : cur ≠ s.scopes.length := by omega
  have hp := f2.parent s.scopes.length
  simp only [enter_scope, Parser.scopes_setCurrent, Parser.scopes_setScopes,
    @function_entry_scopes_new _ _ tbl f hlt, Option.map_some'] at hp
  cases hn : s2.scopes[s.scopes.length]? with
  | none => simp [hn] at hp
  | some fscope =>
    simp only [hn, Option.map_some', Option.some.injEq] at hp
    refine ⟨c2, List.getElem?_eq_none (Nat.le_refl _), fscope, rfl, hp, ?_⟩
    rw [h.result]
    simp only [write_symbol, Parser.scopes_setScopes, Parser.scopes_setCurrent]
    rw [List.getElem?_modify_ne _ _ hne]
    exact hn

/-! ### The types of references -/

theorem refsTyped_ref {x y : String} {T : Ty} {n : Node} (hn : n.data = .ref y)
    (ht : y = x → n.type = T) : RefsTyped x T n := by
  intro T' h
  rw [hasRef_iff] at h
  simp [hn] at h
  rw [← h.2, ht h.1]

theorem refsTyped_literal {x : String} {T : Ty} {n : Node} {v : Value}
    (hn : n.data = .literal v) : RefsTyped x T n := by
  intro T' h
  rw [hasRef_iff] at h
  simp [hn] at h

theorem refsTyped_unary {x : String} {T : Ty} {n e : Node} {op : UnaryOp}
    (hn : n.data = .unary op (some e)) (he : RefsTyped x T e) : RefsTyped x T n := by
  intro T' h
  rw [hasRef_iff] at h
  simp [hn] at h
  obtain ⟨_, _, ⟨-, rfl⟩, h⟩ := h
  exact he _ h

theorem refsTyped_binary {x : String} {T : Ty} {n l r : Node} {op : BinaryOp}
    (hn : n.data = .binary op (some l) (some r)) (hl : RefsTyped x T l)
    (hr : RefsTyped x T r) : RefsTyped x T n := by
  intro T' h
  rw [hasRef_iff] at h
  simp [hn] at h
  rcases h with ⟨_, _, ⟨-, rfl⟩, h⟩ | ⟨_, _, _, ⟨-, -, rfl⟩, h⟩
  · exact hl _ h
  · exact hr _ h

theorem refsTyped_var_decl {x y : String} {T ty : Ty} {n : Node} {init : Option Node}
    (hn : n.data = .var_decl y ty init) (hi : ∀ i, init = some i → RefsTyped x T i) :
    RefsTyped x T n := by
  intro T' h
  rw [hasRef_iff] at h
  simp [hn] at h
  obtain ⟨_, _, i, ⟨-, -, hi1⟩, hi2⟩ := h
  exact hi i hi1 _ hi2

theorem refsTyped_assign {x y : String} {T : Ty} {n v : Node}
    (hn : n.data = .assign y (some v)) (hv : RefsTyped x T v) : RefsTyped x T n := by
  intro T' h
  rw [hasRef_iff] at h
  simp [hn] at h
  obtain ⟨_, _, ⟨-, rfl⟩, h⟩ := h
  exact hv _ h

theorem refsTyped_ret {x : String} {T : Ty} {n : Node} {v : Option Node}
    (hn : n.data = .ret_stmt v) (hv : ∀ i, v = some i → RefsTyped x T i) :
    RefsTyped x T n := by
  intro T' h
  rw [hasRef_iff] at h
  simp [hn] at h
  obtain ⟨i, hi1, hi2⟩ := h
  exact hv i hi1 _ hi2

theorem refsTyped_cond {x : String} {T : Ty} {n : Node} {e : Option Node} {body : List Node}
    (hn : n.data = .cond_stmt e body) (he : ∀ i, e = some i → RefsTyped x T i)
    (hb : ∀ m ∈ body, RefsTyped x T m) : RefsTyped x T n := by
  intro T' h
  rw [hasRef_iff] at h
  simp [hn] at h
  rcases h with ⟨i, hi1, hi2⟩ | h
  · exact he i hi1 _ hi2
  · obtain ⟨_, _, ⟨-, rfl⟩, m, hm, hh⟩ := h
    exact hb m hm _ hh

theorem pop_top {s s' : Parser} {n : Node} (h : pop_expr_node s = .ok (n, s')) :
    ∃ rest, s.stack_top = n :: rest := by
  unfold pop_expr_node at h
  split at h
  · simp at h
  · rename_i ret hs
    simp only [Except.ok.injEq, Prod.mk.injEq] at h
    exact ⟨[], by rw [hs, h.1]⟩
  · rename_i ret top rest hs
    simp only [Except.ok.injEq, Prod.mk.injEq] at h
    exact ⟨top :: rest, by rw [hs, h.1]⟩

theorem pop_typed {x : String} {T : Ty} {s s' : Parser} {n : Node}
    (h : pop_expr_node s = .ok (n, s')) (htop : TopTyped x T s) : RefsTyped x T n := by
  obtain ⟨rest, hs⟩ := pop_top h
  exact htop n rest hs

theorem push_typed {x : String} {T : Ty} {n : Node} (s : Parser) (hn : RefsTyped x T n) :
    TopTyped x T (push_expr_node n s) := by
  intro a rest h
  simp only [push_expr_node, Parser.setStack, List.cons.injEq] at h
  rw [← h.1]; exact hn

theorem lookup_same {s s' : Parser} (h : SameScopes s s') (x : String) :
    symbol_table_lookup s'.scopes s'.current_scope x =
      symbol_table_lookup s.scopes s.current_scope x := by
  rw [h.scopes, h.current_scope]

theorem parse_factor_typed {x : String} {sym : Symbol} {s s' : Parser}
    (h : parse_factor s = .ok s')
    (hx : symbol_table_lookup s.scopes s.current_scope x = some sym) :
    TopTyped x sym.type s' := by
  unfold parse_factor at h
  split at h
  · simp at h
  · rename_i token s1 hc
    have h1 := lookup_same (consume_same hc) x
    rw [hx] at h1
    split at h
    · dsimp only at h
      split at h
      · simp at h
      · rename_i var_sym hl
        simp only [Except.ok.injEq] at h
        rw [← h]
        refine push_typed _ (refsTyped_ref (Node.data_setData _ _) ?_)
        intro hy
        rw [hy, h1] at hl
        simp only [Option.some.injEq] at hl
        simp [hl]
    · simp only [Except.ok.injEq] at h
      rw [← h]
      exact push_typed _ (refsTyped_literal (Node.data_setData _ _))
    · simp only [Except.ok.injEq] at h
      rw [← h]
      exact push_typed _ (refsTyped_literal (Node.data_setData _ _))
    · simp only [Except.ok.injEq] at h
      rw [← h]
      exact push_typed _ (refsTyped_literal (Node.data_setData _ _))
    · simp at h

theorem parse_unary_expr_typed {x : String} {T : Ty} {op : UnaryOp} {l c : Nat}
    {s s' : Parser} {n : Node} (h : parse_unary_expr op l c s = .ok (n, s'))
    (htop : TopTyped x T s) : RefsTyped x T n := by
  unfold parse_unary_expr at h
  split at h
  · simp at h
  · rename_i e s1 hp
    simp only [Except.ok.injEq, Prod.mk.injEq] at h
    rw [← h.1]
    exact @refsTyped_unary x T _ e op (by simp) (pop_typed hp htop)

theorem parse_term_group_typed (x : String) (sym : Symbol) (fuel : Nat) :
    (∀ op l c s n s', parse_binary_expr fuel op l c s = .ok (n, s') →
      symbol_table_lookup s.scopes s.current_scope x = some sym →
      TopTyped x sym.type s → RefsTyped x sym.type n) ∧
    (∀ s s', parse_term fuel s = .ok s' →
      symbol_table_lookup s.scopes s.current_scope x = some sym → TopTyped x sym.type s') ∧
    (∀ s s', parse_term_loop fuel s = .ok s' →
      symbol_table_lookup s.scopes s.current_scope x = some sym →
      TopTyped x sym.type s → TopTyped x sym.type s') := by
  induction fuel with
  | zero =>
    refine ⟨?_, ?_, ?_⟩
    · intro op l c s n s' h; simp [parse_binary_expr] at h
    · intro s s' h; simp [parse_term] at h
    · intro s s' h; simp [parse_term_loop] at h
  | succ fuel ih =>
    obtain ⟨ihb, iht, ihl⟩ := ih
    refine ⟨?_, ?_, ?_⟩
    · intro op l c s n s' h hx htop
      unfold parse_binary_expr at h
      split at h
      · simp at h
      · rename_i lhs s1 hp1
        split at h
        · simp at h
        · rename_i s2 hterm
          split at h
          · simp at h
          · rename_i rhs s3 hp2
            split at h
            · simp at h
            · simp only [Except.ok.injEq, Prod.mk.injEq] at h
              rw [← h.1]
              have hx1 : symbol_table_lookup s1.scopes s1.current_scope x = some sym := by
                rw [lookup_same (pop_same hp1)]; exact hx
              exact @refsTyped_binary x sym.type _ lhs rhs op (by simp) (pop_typed hp1 htop)
                (pop_typed hp2 (iht s1 s2 hterm hx1))
    · intro s s' h hx
      unfold parse_term at h
      split at h
      · simp at h
      · rename_i s1 hf
        have hx1 : symbol_table_lookup s1.scopes s1.current_scope x = some sym := by
          rw [lookup_same (parse_factor_same hf)]; exact hx
        exact ihl s1 s' h hx1 (parse_factor_typed hf hx)
    · intro s s' h hx htop
      simp only [parse_term_loop] at h
      split at h
      · simp at h
      · rename_i t ht
        split at h
        · simp only [Except.ok.injEq] at h
          rw [← h]; exact htop
        · split at h
          · simp at h
          · rename_i tc s1 hc
            split at h
            · simp at h
            · rename_i node s2 hb
              have e1 := consume_same hc
              have hx1 : symbol_table_lookup s1.scopes s1.current_scope x = some sym := by
                rw [lookup_same e1]; exact hx
              have htop1 : TopTyped x sym.type s1 := by
                intro a rest hs
                rw [consume_stack hc] at hs
                exact htop a rest hs
              have e2 := (parse_term_group_same fuel).1 _ _ _ _ _ _ hb
              have hx2 : symbol_table_lookup (push_expr_node node s2).scopes
                  (push_expr_node node s2).current_scope x = some sym := by
                rw [lookup_same (push_same node s2), lookup_same e2]; exact hx1
              exact ihl _ s' h hx2 (push_typed _ (ihb _ _ _ _ _ _ hb hx1 htop1))

theorem parse_expression_loop_typed (x : String) (sym : Symbol) (fuel : Nat) :
    ∀ s s', parse_expression_loop fuel s = .ok s' →
      symbol_table_lookup s.scopes s.current_scope x = some sym →
      TopTyped x sym.type s → TopTyped x sym.type s' := by
  induction fuel with
  | zero => intro s s' h; simp [parse_expression_loop] at h
  | succ fuel ih =>
    intro s s' h hx htop
    simp only [parse_expression_loop] at h
    split at h
    · simp at h
    · rename_i t ht
      split at h
      · simp only [Except.ok.injEq] at h
        rw [← h]; exact htop
      · split at h
        · simp at h
        · rename_i tc s1 hc
          split at h
          · simp at h
          · rename_i node s2 hb
            have e1 := consume_same hc
            have hx1 : symbol_table_lookup s1.scopes s1.current_scope x = some sym := by
              rw [lookup_same e1]; exact hx
            have htop1 : TopTyped x sym.type s1 := by
              intro a rest hs
              rw [consume_stack hc] at hs
              exact htop a rest hs
            have e2 := (parse_term_group_same fuel).1 _ _ _ _ _ _ hb
            have hx2 : symbol_table_lookup (push_expr_node node s2).scopes
                (push_expr_node node s2).current_scope x = some sym := by
              rw [lookup_same (push_same node s2), lookup_same e2]; exact hx1
            exact ih _ s' h hx2
              (push_typed _ ((parse_term_group_typed x sym fuel).1 _ _ _ _ _ _ hb hx1 htop1))

/-- Every reference to `x` in an expression gets the type of the symbol that
lookup from the active scope finds for `x`. -/
theorem parse_expression_typed {x : String} {sym : Symbol} {fuel : Nat} {s s' : Parser}
    {n : Node} (h : parse_expression fuel s = .ok (n, s'))
    (hx : symbol_table_lookup s.scopes s.current_scope x = some sym) :
    RefsTyped x sym.type n := by
  simp only [parse_expression, bind_ok] at h
  obtain ⟨t, -, s1, h1, s2, h2, s3, h3, s4, h4, h⟩ := h
  have e1 : SameScopes s s1 := by
    split at h1
    · simp only [Except.ok.injEq] at h1
      rw [← h1]; exact SameScopes.same_refl _
    · simp only [map_ok] at h1
      obtain ⟨⟨tc, sa⟩, hc, rfl⟩ := h1
      exact consume_same hc
  have hx1 : symbol_table_lookup s1.scopes s1.current_scope x = some sym := by
    rw [lookup_same e1]; exact hx
  have t2 := (parse_term_group_typed x sym fuel).2.1 s1 s2 h2 hx1
  have e2 := (parse_term_group_same fuel).2.1 s1 s2 h2
  have hx2 : symbol_table_lookup s2.scopes s2.current_scope x = some sym := by
    rw [lookup_same e2]; exact hx1
  have t3 : TopTyped x sym.type s3 ∧ SameScopes s2 s3 := by
    split at h3
    · simp only [map_ok] at h3
      obtain ⟨⟨u, sa⟩, hu, rfl⟩ := h3
      exact ⟨push_typed _ (parse_unary_expr_typed hu t2),
        (parse_unary_expr_same hu).seq (push_same _ _)⟩
    · simp only [Except.ok.injEq] at h3
      rw [← h3]; exact ⟨t2, SameScopes.same_refl _⟩
  have hx3 : symbol_table_lookup s3.scopes s3.current_scope x = some sym := by
    rw [lookup_same t3.2]; exact hx2
  exact pop_typed h (parse_expression_loop_typed x sym fuel s3 s4 h4 hx3 t3.1)

theorem local_same {s s' : Parser} (h : SameScopes s s') (x : String) :
    local_symbol s' x = local_symbol s x := by
  simp only [local_symbol, h.scopes, h.current_scope]

/-- A declaration parsed where the active scope binds `x` to `sym`: its
references to `x` have the type of `sym`, and `x` stays bound to `sym`. -/
theorem parse_variable_declaration_typed {x : String} {sym : Symbol} {fuel : Nat}
    {var_name : Option String} {s s' : Parser} {node : Node}
    (h : parse_variable_declaration fuel var_name s = .ok (node, s'))
    (hx : local_symbol s x = some sym) :
    RefsTyped x sym.type node ∧ local_symbol s' x = some sym := by
  obtain ⟨t, y, c, s0, cur, tbl, ty, init, s5, tw, ht, hform, hcur, htbl, hfind, hnode, htw,
    hcases, -, hsc, hc, -⟩ := parse_variable_declaration_inv h
  have hfx : tbl.find x = some sym := by simpa [local_symbol, hcur, htbl] using hx
  have hne : y ≠ x := by
    intro e
    rw [e, hfx] at hfind
    simp at hfind
  have hs0 : SameScopes s s0 := by
    rcases hform with ⟨-, -, rfl⟩ | ⟨-, -, -, ti, -, -, -, rfl⟩
    · exact SameScopes.same_refl _
    · exact (SameScopes.advance _).seq (SameScopes.advance _)
  have hd : local_symbol (declaring s0 cur tbl y c).advance x = some sym := by
    have e1 : (declaring s0 cur tbl y c).advance.current_scope = some cur := by
      simp [declaring, hs0.current_scope, hcur]
    have e2 : (declaring s0 cur tbl y c).advance.scopes = s.scopes.set cur
        (tbl.extend ⟨y, .SYMBOL_VARIABLE, primitive_types TYPE_VOID, c, false, none⟩) := by
      simp [declaring, hs0.scopes]
    simp only [local_symbol, e1, e2, getElem?_set_self_of_some htbl]
    rw [find_extend_ne (by exact hne)]
    exact hfx
  have hinit : ∀ i, init = some i → RefsTyped x sym.type i := by
    intro i hi
    rcases hcases with ⟨-, i1, s4, he, hi1, -, -⟩ | ⟨-, s2, te, hty, -, hc2⟩
    · rw [hi1] at hi
      simp only [Option.some.injEq] at hi
      rw [← hi]
      exact parse_expression_typed he (lookup_of_local hd)
    · rcases hc2 with ⟨-, i1, s4, he, hi1, -, -⟩ | ⟨-, hi1, -⟩
      · rw [hi1] at hi
        simp only [Option.some.injEq] at hi
        rw [← hi]
        refine parse_expression_typed he (lookup_of_local ?_)
        rw [local_same (SameScopes.advance s2), local_same (parse_type_same hty)]
        exact hd
      · rw [hi1] at hi
        simp at hi
  refine ⟨refsTyped_var_decl (by rw [hnode]; exact Node.data_setData _ _) hinit, ?_⟩
  simp only [local_symbol, hc, hcur, hsc, getElem?_set_self_of_some htbl]
  rw [find_extend_ne (by exact hne)]
  exact hfx

theorem parse_variable_assignment_typed {x : String} {sym : Symbol} {fuel : Nat}
    {name : String} {s s' : Parser} {r : Option Node}
    (h : parse_variable_assignment fuel name s = .ok (r, s'))
    (hx : local_symbol s x = some sym) :
    (∀ n, r = some n → RefsTyped x sym.type n) ∧ local_symbol s' x = some sym := by
  refine ⟨?_, by rw [local_same (parse_variable_assignment_same h)]; exact hx⟩
  simp only [parse_variable_assignment, bind_ok] at h
  obtain ⟨t, -, ⟨_, s1⟩, hc, h⟩ := h
  split at h
  · simp at h
  · simp only [bind_ok, pure_ok, Prod.mk.injEq] at h
    obtain ⟨⟨v, s2⟩, he, ⟨_, s3⟩, -, hr, -⟩ := h
    intro n hn
    rw [← hr] at hn
    simp only [Option.some.injEq] at hn
    rw [← hn]
    refine refsTyped_assign (Node.data_setData _ _) (parse_expression_typed he
      (lookup_of_local ?_))
    rw [local_same (consume_same hc)]
    exact hx

theorem parse_return_typed {x : String} {sym : Symbol} {fuel : Nat} {s s' : Parser}
    {r : Option Node} (h : parse_return fuel s = .ok (r, s'))
    (hx : local_symbol s x = some sym) :
    (∀ n, r = some n → RefsTyped x sym.type n) ∧ local_symbol s' x = some sym := by
  refine ⟨?_, by rw [local_same (parse_return_same h)]; exact hx⟩
  simp only [parse_return, bind_ok, pure_ok, Prod.mk.injEq] at h
  obtain ⟨⟨_, s1⟩, hc, ⟨v, s2⟩, he, ⟨_, s3⟩, -, hr, -⟩ := h
  intro n hn
  rw [← hr] at hn
  simp only [Option.some.injEq] at hn
  rw [← hn]
  refine refsTyped_ret (Node.data_setData _ _) ?_
  intro i hi
  simp only [Option.some.injEq] at hi
  rw [← hi]
  refine parse_expression_typed he (lookup_of_local ?_)
  rw [local_same (consume_same hc)]
  exact hx

theorem parse_identifier_stmt_typed {x : String} {sym : Symbol} {fuel : Nat}
    {s s' : Parser} {r : Option Node} (h : parse_identifier_stmt fuel s = .ok (r, s'))
    (hx : local_symbol s x = some sym) :
    (∀ n, r = some n → RefsTyped x sym.type n) ∧ local_symbol s' x = some sym := by
  simp only [parse_identifier_stmt, bind_ok] at h
  obtain ⟨⟨ident, s1⟩, hc, t, ht, h⟩ := h
  have hx1 : local_symbol s1 x = some sym := by
    rw [local_same (consume_same hc)]; exact hx
  split at h
  · rename_i hk
    rw [parse_function_call_fails _ ht hk] at h
    simp at h
  · simp only [map_ok, Prod.mk.injEq] at h
    obtain ⟨⟨n, s2⟩, hd, rfl, rfl⟩ := h
    obtain ⟨h1, h2⟩ := parse_variable_declaration_typed hd hx1
    refine ⟨?_, h2⟩
    intro m hm
    simp only [Option.some.injEq] at hm
    rw [← hm]; exact h1
  · simp only [map_ok, Prod.mk.injEq] at h
    obtain ⟨⟨n, s2⟩, hd, rfl, rfl⟩ := h
    obtain ⟨h1, h2⟩ := parse_variable_declaration_typed hd hx1
    refine ⟨?_, h2⟩
    intro m hm
    simp only [Option.some.injEq] at hm
    rw [← hm]; exact h1
  · exact parse_variable_assignment_typed h hx1
  · simp at h

theorem refsTyped_implicit_return (x : String) (T : Ty) : RefsTyped x T implicit_return := by
  refine refsTyped_ret (v := none) rfl ?_
  intro i hi
  simp at hi

/-- Statements parsed where the active scope binds `x` to `sym`: all their
references to `x` have the type of `sym`, and `x` stays bound to `sym`. -/
theorem parse_block_group_typed (x : String) (sym : Symbol) (fuel : Nat) :
    (∀ s r s', parse_conditional fuel s = .ok (r, s') → local_symbol s x = some sym →
      (∀ n, r = some n → RefsTyped x sym.type n) ∧ local_symbol s' x = some sym) ∧
    (∀ s body stmt body' stmt' s',
      parse_block_loop fuel s body stmt = .ok (body', stmt', s') →
      local_symbol s x = some sym →
      ∃ new, body' = body ++ new ∧ (∀ n ∈ new, RefsTyped x sym.type n) ∧
        local_symbol s' x = some sym) ∧
    (∀ b s body s', parse_block fuel b s = .ok (body, s') → local_symbol s x = some sym →
      (∀ n ∈ body, RefsTyped x sym.type n) ∧ local_symbol s' x = some sym) := by
  induction fuel with
  | zero =>
    refine ⟨?_, ?_, ?_⟩
    · intro s r s' h; simp [parse_conditional] at h
    · intro s body stmt body' stmt' s' h; simp [parse_block_loop] at h
    · intro b s body s' h; simp [parse_block] at h
  | succ fuel ih =>
    obtain ⟨ihc, ihl, ihb⟩ := ih
    refine ⟨?_, ?_, ?_⟩
    · intro s r s' h hx
      simp only [parse_conditional, bind_ok, pure_ok, Prod.mk.injEq] at h
      obtain ⟨⟨c, s1⟩, hc, ⟨e, s2⟩, he, ⟨body, s3⟩, hb, hr, rfl⟩ := h
      have hx1 : local_symbol s1 x = some sym := by
        rw [local_same (consume_same hc)]; exact hx
      have h2 : (∀ i, e = some i → RefsTyped x sym.type i) ∧
          local_symbol s2 x = some sym := by
        split at he
        · simp only [map_ok, Prod.mk.injEq] at he
          obtain ⟨⟨n, sa⟩, hn, rfl, rfl⟩ := he
          refine ⟨?_, by rw [local_same (parse_expression_same hn)]; exact hx1⟩
          intro i hi
          simp only [Option.some.injEq] at hi
          rw [← hi]
          exact parse_expression_typed hn (lookup_of_local hx1)
        · simp only [map_ok, Prod.mk.injEq] at he
          obtain ⟨⟨n, sa⟩, hn, rfl, rfl⟩ := he
          refine ⟨?_, by rw [local_same (parse_expression_same hn)]; exact hx1⟩
          intro i hi
          simp only [Option.some.injEq] at hi
          rw [← hi]
          exact parse_expression_typed hn (lookup_of_local hx1)
        · simp only [Except.ok.injEq, Prod.mk.injEq] at he
          obtain ⟨rfl, rfl⟩ := he
          exact ⟨fun i hi => by simp at hi, hx1⟩
        · simp at he
      obtain ⟨h3, h4⟩ := ihb _ _ _ _ hb h2.2
      refine ⟨?_, h4⟩
      intro n hn
      rw [← hr] at hn
      simp only [Option.some.injEq] at hn
      rw [← hn]
      exact refsTyped_cond (Node.data_setData _ _) h2.1 h3
    · intro s body stmt body' stmt' s' h hx
      simp only [parse_block_loop, bind_ok] at h
      obtain ⟨t, ht, h⟩ := h
      split at h
      · simp only [pure_ok, Prod.mk.injEq] at h
        obtain ⟨rfl, -, rfl⟩ := h
        exact ⟨[], by simp, by simp, hx⟩
      · simp only [bind_ok] at h
        obtain ⟨⟨r, s1⟩, hr, h⟩ := h
        have h1 : (∀ n, r = some n → RefsTyped x sym.type n) ∧
            local_symbol s1 x = some sym := by
          split at hr
          · simp only [map_ok, Prod.mk.injEq] at hr
            obtain ⟨⟨n, sa⟩, hd, rfl, rfl⟩ := hr
            obtain ⟨h1, h2⟩ := parse_variable_declaration_typed hd hx
            refine ⟨?_, h2⟩
            intro m hm
            simp only [Option.some.injEq] at hm
            rw [← hm]; exact h1
          · exact parse_identifier_stmt_typed hr hx
          · exact ihc _ _ _ hr hx
          · exact ihc _ _ _ hr hx
          · exact ihc _ _ _ hr hx
          · exact parse_return_typed hr hx
          · simp at hr
        cases r with
        | none =>
          simp only [pure_ok, Prod.mk.injEq] at h
          obtain ⟨rfl, -, rfl⟩ := h
          exact ⟨[], by simp, by simp, h1.2⟩
        | some n =>
          dsimp only at h
          obtain ⟨new, hnew, hall, hloc⟩ := ihl _ _ _ _ _ _ h h1.2
          refine ⟨n :: new, by rw [hnew]; simp, ?_, hloc⟩
          intro m hm
          rcases List.mem_cons.1 hm with rfl | hm
          · exact h1.1 _ rfl
          · exact hall m hm
    · intro b s body s' h hx
      simp only [parse_block, bind_ok] at h
      obtain ⟨⟨_, s1⟩, hl, ⟨body0, stmt, s2⟩, hloop, ⟨_, s3⟩, hrb, h⟩ := h
      have hx1 : local_symbol s1 x = some sym := by
        rw [local_same (expect_same hl)]; exact hx
      obtain ⟨new, hnew, hall, hloc⟩ := ihl _ _ _ _ _ _ hloop hx1
      simp only [List.nil_append] at hnew
      subst hnew
      have hx3 : local_symbol s3 x = some sym := by
        rw [local_same (expect_same hrb)]; exact hloc
      split at h
      · simp only [pure_ok, Prod.mk.injEq] at h
        obtain ⟨rfl, rfl⟩ := h
        refine ⟨?_, hx3⟩
        intro m hm
        rcases List.mem_append.1 hm with hm | hm
        · exact hall m hm
        · simp only [List.mem_singleton] at hm
          rw [hm]; exact refsTyped_implicit_return x _
      · simp only [pure_ok, Prod.mk.injEq] at h
        obtain ⟨rfl, rfl⟩ := h
        exact ⟨hall, hx3⟩

/-- A variable declaration leaves its name bound, in the active scope, to the
symbol `declared_symbol` of the node it returns. -/
theorem parse_variable_declaration_binds {fuel : Nat} {var_name : Option String}
    {s s' : Parser} {node : Node} {x : String} {T : Ty} {init : Option Node}
    (h : parse_variable_declaration fuel var_name s = .ok (node, s'))
    (hd : node.data = .var_decl x T init) :
    ∃ c, local_symbol s' x = some (declared_symbol x c init node) := by
  obtain ⟨t, y, c, s0, cur, tbl, ty, init1, s5, tw, -, -, hcur, htbl, hfind, hnode, -, -, -,
    hsc, hc, -⟩ := parse_variable_declaration_inv h
  have hd1 : node.data = .var_decl y ty init1 := by rw [hnode]; exact Node.data_setData _ _
  rw [hd] at hd1
  simp only [NodeData.var_decl.injEq] at hd1
  obtain ⟨rfl, -, rfl⟩ := hd1
  exact ⟨c, local_symbol_declared hcur htbl hfind rfl hsc hc⟩

/-- The only statement of a block whose node is a variable declaration is a
variable declaration: it leaves the name bound in the active scope. -/
theorem parse_identifier_stmt_binds {fuel : Nat} {s s' : Parser} {n : Node} {x : String}
    {T : Ty} {init : Option Node} (h : parse_identifier_stmt fuel s = .ok (some n, s'))
    (hd : n.data = .var_decl x T init) :
    ∃ c, local_symbol s' x = some (declared_symbol x c init n) := by
  simp only [parse_identifier_stmt, bind_ok] at h
  obtain ⟨⟨ident, s1⟩, hc, t, ht, h⟩ := h
  split at h
  · rename_i hk
    rw [parse_function_call_fails _ ht hk] at h
    simp at h
  · simp only [map_ok, Prod.mk.injEq, Option.some.injEq] at h
    obtain ⟨⟨m, s2⟩, hm, rfl, rfl⟩ := h
    exact parse_variable_declaration_binds hm hd
  · simp only [map_ok, Prod.mk.injEq, Option.some.injEq] at h
    obtain ⟨⟨m, s2⟩, hm, rfl, rfl⟩ := h
    exact parse_variable_declaration_binds hm hd
  · simp only [parse_variable_assignment, bind_ok] at h
    obtain ⟨t1, -, ⟨_, s2⟩, -, h⟩ := h
    split at h
    · simp at h
    · simp only [bind_ok, pure_ok, Prod.mk.injEq, Option.some.injEq] at h
      obtain ⟨⟨v, s3⟩, -, ⟨_, s4⟩, -, hr, -⟩ := h
      rw [← hr] at hd
      simp at hd
  · simp at h

theorem parse_return_data {fuel : Nat} {s s' : Parser} {n : Node}
    (h : parse_return fuel s = .ok (some n, s')) : ∃ v, n.data = .ret_stmt v := by
  simp only [parse_return, bind_ok, pure_ok, Prod.mk.injEq, Option.some.injEq] at h
  obtain ⟨⟨_, s1⟩, -, ⟨v, s2⟩, -, ⟨_, s3⟩, -, hr, -⟩ := h
  exact ⟨some v, by rw [← hr]; exact Node.data_setData _ _⟩

/-- Top-level declarations parsed where the active scope binds `x` to `sym`:
the references to `x` in every variable declaration among them have the type
of `sym`, and `x` stays bound to `sym`. -/
theorem parse_loop_typed (x : String) (sym : Symbol) (fuel : Nat) :
    ∀ s ast ast' s', parse_loop fuel s ast = .ok (ast', s') →
      local_symbol s x = some sym →
      ∃ new, ast' = ast ++ new ∧
        (∀ n ∈ new, n.kind = .NODE_VAR_DECL → RefsTyped x sym.type n) ∧
        local_symbol s' x = some sym := by
  induction fuel with
  | zero => intro s ast ast' s' h; simp [parse_loop] at h
  | succ fuel ih =>
    intro s ast ast' s' h hx
    simp only [parse_loop, bind_ok] at h
    obtain ⟨t, ht, h⟩ := h
    split at h
    · simp only [pure_ok, Prod.mk.injEq] at h
      obtain ⟨rfl, rfl⟩ := h
      exact ⟨[], by simp, by simp, hx⟩
    · simp only [bind_ok] at h
      obtain ⟨⟨decl, s1⟩, hd, h⟩ := h
      have h1 : (decl.kind = .NODE_VAR_DECL → RefsTyped x sym.type decl) ∧
          local_symbol s1 x = some sym := by
        split at hd
        · obtain ⟨f, rt, params, body, hdata, hnone, -, hlocal⟩ :=
            parse_function_declaration_local hd
          have hxf : x ≠ f := by
            intro e
            rw [e, hnone] at hx
            simp at hx
          obtain ⟨t0, tf, cur, tbl, params1, rt1, body1, sa, sb, -, -, -, -, -, -, hnode, -⟩ :=
            parse_function_declaration_inv hd
          refine ⟨?_, by rw [hlocal x hxf]; exact hx⟩
          intro hk
          rw [hnode] at hk
          simp at hk
        · obtain ⟨h1, h2⟩ := parse_variable_declaration_typed hd hx
          exact ⟨fun _ => h1, h2⟩
        · simp only [bind_ok] at hd
          obtain ⟨⟨ident, sa⟩, hc, hd⟩ := hd
          have hxa : local_symbol sa x = some sym := by
            rw [local_same (consume_same hc)]; exact hx
          obtain ⟨h1, h2⟩ := parse_variable_declaration_typed hd hxa
          exact ⟨fun _ => h1, h2⟩
        · simp at hd
      obtain ⟨new, hnew, hall, hloc⟩ := ih _ _ _ _ h h1.2
      refine ⟨decl :: new, by rw [hnew]; simp, ?_, hloc⟩
      intro m hm hk
      rcases List.mem_cons.1 hm with rfl | hm
      · exact h1.1 hk
      · exact hall m hm hk

/-! ### Declarations inside conditionals -/

theorem StatementOf.eq_of_data {d n : Node} (h : StatementOf d n)
    (hn : ∀ e B, n.data ≠ .cond_stmt e B) : d = n := by
  cases h with
  | self => rfl
  | nested _ e B m hd _ _ => exact absurd hd (hn e B)

theorem parse_variable_declaration_statement {fuel : Nat} {var_name : Option String}
    {s s' : Parser} {n d : Node} {y : String} {T : Ty} {init : Option Node}
    (h : parse_variable_declaration fuel var_name s = .ok (n, s'))
    (hs : StatementOf d n) (hd : d.data = .var_decl y T init) :
    ∃ c, local_symbol s' y = some (declared_symbol y c init d) := by
  have hn : ∀ e B, n.data ≠ .cond_stmt e B := by
    obtain ⟨t, x, c, s0, cur, tbl, ty, i, s5, tw, -, -, -, -, -, hnode, -⟩ :=
      parse_variable_declaration_inv h
    intro e B
    rw [hnode]
    simp
  have := hs.eq_of_data hn
  subst this
  exact parse_variable_declaration_binds h hd

theorem parse_identifier_stmt_statement {fuel : Nat} {s s' : Parser} {n d : Node}
    {y : String} {T : Ty} {init : Option Node}
    (h : parse_identifier_stmt fuel s = .ok (some n, s'))
    (hs : StatementOf d n) (hd : d.data = .var_decl y T init) :
    ∃ c, local_symbol s' y = some (declared_symbol y c init d) := by
  have hcopy := h
  simp only [parse_identifier_stmt, bind_ok] at h
  obtain ⟨⟨ident, s1⟩, hc, t, ht, h⟩ := h
  split at h
  · rename_i hk
    rw [parse_function_call_fails _ ht hk] at h
    simp at h
  · simp only [map_ok, Prod.mk.injEq, Option.some.injEq] at h
    obtain ⟨⟨m, s2⟩, hm, rfl, rfl⟩ := h
    exact parse_variable_declaration_statement hm hs hd
  · simp only [map_ok, Prod.mk.injEq, Option.some.injEq] at h
    obtain ⟨⟨m, s2⟩, hm, rfl, rfl⟩ := h
    exact parse_variable_declaration_statement hm hs hd
  · have hn : ∀ e B, n.data ≠ .cond_stmt e B := by
      simp only [parse_variable_assignment, bind_ok] at h
      obtain ⟨t1, -, ⟨_, s2⟩, -, h⟩ := h
      split at h
      · simp at h
      · simp only [bind_ok, pure_ok, Prod.mk.injEq, Option.some.injEq] at h
        obtain ⟨⟨v, s3⟩, -, ⟨_, s4⟩, -, hr, -⟩ := h
        intro e B
        rw [← hr]
        simp
    have := hs.eq_of_data hn
    subst this
    exact parse_identifier_stmt_binds hcopy hd
  · simp at h

theorem parse_return_statement {fuel : Nat} {s s' : Parser} {n d : Node} {y : String}
    {T : Ty} {init : Option Node} (h : parse_return fuel s = .ok (some n, s'))
    (hs : StatementOf d n) (hd : d.data = .var_decl y T init) : False := by
  obtain ⟨v, hv⟩ := parse_return_data h
  have := hs.eq_of_data (by intro e B; rw [hv]; simp)
  subst this
  rw [hd] at hv
  simp at hv

theorem implicit_return_statement {d : Node} {y : String} {T : Ty} {init : Option Node}
    (hs : StatementOf d implicit_return) (hd : d.data = .var_decl y T init) : False := by
  have := hs.eq_of_data (by intro e B; simp [implicit_return])
  subst this
  simp [implicit_return] at hd

/-- A declaration statement, at any depth in the conditionals of a block,
binds its name in the active scope, and the name stays bound to that symbol up
to the end of the block. -/
theorem parse_block_group_binds (fuel : Nat) :
    (∀ s n s', parse_conditional fuel s = .ok (some n, s') →
      ∀ (d : Node) (y : String) (T : Ty) (init : Option Node),
        StatementOf d n → d.data = .var_decl y T init →
        ∃ c, local_symbol s' y = some (declared_symbol y c init d)) ∧
    (∀ s body stmt body' stmt' s',
      parse_block_loop fuel s body stmt = .ok (body', stmt', s') →
      ∃ new, body' = body ++ new ∧
        ∀ m ∈ new, ∀ (d : Node) (y : String) (T : Ty) (init : Option Node),
          StatementOf d m → d.data = .var_decl y T init →
          ∃ c, local_symbol s' y = some (declared_symbol y c init d)) ∧
    (∀ b s body s', parse_block fuel b s = .ok (body, s') →
      ∀ m ∈ body, ∀ (d : Node) (y : String) (T : Ty) (init : Option Node),
        StatementOf d m → d.data = .var_decl y T init →
        ∃ c, local_symbol s' y = some (declared_symbol y c init d)) := by
  induction fuel with
  | zero =>
    refine ⟨?_, ?_, ?_⟩
    · intro s n s' h; simp [parse_conditional] at h
    · intro s body stmt body' stmt' s' h; simp [parse_block_loop] at h
    · intro b s body s' h; simp [parse_block] at h
  | succ fuel ih =>
    obtain ⟨ihc, ihl, ihb⟩ := ih
    refine ⟨?_, ?_, ?_⟩
    · intro s n s' h d y T init hs hd
      simp only [parse_conditional, bind_ok, pure_ok, Prod.mk.injEq, Option.some.injEq] at h
      obtain ⟨⟨c, s1⟩, hc, ⟨e, s2⟩, he, ⟨body, s3⟩, hb, hr, rfl⟩ := h
      have hdata : n.data = .cond_stmt e body := by rw [← hr]; exact Node.data_setData _ _
      cases hs with
      | self =>
        rw [hd] at hdata
        simp at hdata
      | nested _ e1 B1 m hn hm hsm =>
        rw [hdata] at hn
        simp only [NodeData.cond_stmt.injEq] at hn
        obtain ⟨-, rfl⟩ := hn
        exact ihb _ _ _ _ hb m hm d y T init hsm hd
    · intro s body stmt body' stmt' s' h
      simp only [parse_block_loop, bind_ok] at h
      obtain ⟨t, ht, h⟩ := h
      split at h
      · simp only [pure_ok, Prod.mk.injEq] at h
        obtain ⟨rfl, -, rfl⟩ := h
        exact ⟨[], by simp, by simp⟩
      · simp only [bind_ok] at h
        obtain ⟨⟨r, s1⟩, hr, h⟩ := h
        cases r with
        | none =>
          simp only [pure_ok, Prod.mk.injEq] at h
          obtain ⟨rfl, -, rfl⟩ := h
          exact ⟨[], by simp, by simp⟩
        | some n =>
          dsimp only at h
          obtain ⟨new, hnew, hprop⟩ := ihl _ _ _ _ _ _ h
          refine ⟨n :: new, by rw [hnew]; simp, ?_⟩
          intro m hm d y T init hs hd
          rcases List.mem_cons.1 hm with rfl | hm
          · have hb : ∃ c, local_symbol s1 y = some (declared_symbol y c init d) := by
              split at hr
              · simp only [map_ok, Prod.mk.injEq, Option.some.injEq] at hr
                obtain ⟨⟨m1, sa⟩, hm1, rfl, rfl⟩ := hr
                exact parse_variable_declaration_statement hm1 hs hd
              · exact parse_identifier_stmt_statement hr hs hd
              · exact ihc _ _ _ hr d y T init hs hd
              · exact ihc _ _ _ hr d y T init hs hd
              · exact ihc _ _ _ hr d y T init hs hd
              · exact (parse_return_statement hr hs hd).elim
              · simp at hr
            obtain ⟨c, hc⟩ := hb
            obtain ⟨new1, -, -, hloc⟩ :=
              (parse_block_group_typed y (declared_symbol y c init d) fuel).2.1 _ _ _ _ _ _ h hc
            exact ⟨c, hloc⟩
          · exact hprop m hm d y T init hs hd
    · intro b s body s' h m hm d y T init hs hd
      simp only [parse_block, bind_ok] at h
      obtain ⟨⟨_, s1⟩, hl, ⟨body0, stmt, s2⟩, hloop, ⟨_, s3⟩, hrb, h⟩ := h
      obtain ⟨new, hnew, hprop⟩ := ihl _ _ _ _ _ _ hloop
      simp only [List.nil_append] at hnew
      subst hnew
      have hloc : ∀ sym, local_symbol s2 y = some sym → local_symbol s3 y = some sym := by
        intro sym hsym
        rw [local_same (expect_same hrb)]; exact hsym
      have hmem : m ∈ body0 := by
        split at h
        · simp only [pure_ok, Prod.mk.injEq] at h
          obtain ⟨rfl, rfl⟩ := h
          rcases List.mem_append.1 hm with hm | hm
          · exact hm
          · simp only [List.mem_singleton] at hm
            subst hm
            exact (implicit_return_statement hs hd).elim
        · simp only [pure_ok, Prod.mk.injEq] at h
          obtain ⟨rfl, rfl⟩ := h
          exact hm
      have hs3 : s' = s3 := by
        split at h
        · simp only [pure_ok, Prod.mk.injEq] at h
          exact h.2.symm
        · simp only [pure_ok, Prod.mk.injEq] at h
          exact h.2.symm
      obtain ⟨c, hc⟩ := hprop m hmem d y T init hs hd
      exact ⟨c, by rw [hs3]; exact hloc _ hc⟩

/-- A statement of a block of `body` is a statement of one of the statements
of `body`. -/
theorem BlockOf.statement {body B : List Node} {m d : Node} (hB : BlockOf body B)
    (hm : m ∈ B) (hs : StatementOf d m) : ∃ m0 ∈ body, StatementOf d m0 := by
  induction hB with
  | whole => exact ⟨m, hm, hs⟩
  | inside body n e B1 B hn hdata _ ih =>
    obtain ⟨m1, hm1, hs1⟩ := ih hm
    exact ⟨n, hn, StatementOf.nested n e B1 m1 hdata hm1 hs1⟩

theorem Shadowing.nil : Shadowing [] := by
  intro B pre m post d y T init hB
  cases hB with
  | whole =>
    intro hsplit
    simp at hsplit
  | inside _ n e B1 _ hn _ _ => simp at hn

/-- In every block of the statements that a block of the source is parsed
into, the references to a variable after its declaration have the type of
the declared symbol. -/
theorem parse_block_group_shadowing (fuel : Nat) :
    (∀ s n s', parse_conditional fuel s = .ok (some n, s') →
      ∀ e B1, n.data = .cond_stmt e B1 → Shadowing B1) ∧
    (∀ s body stmt body' stmt' s',
      parse_block_loop fuel s body stmt = .ok (body', stmt', s') →
      ∃ new, body' = body ++ new ∧ Shadowing new) ∧
    (∀ b s body s', parse_block fuel b s = .ok (body, s') → Shadowing body) := by
  induction fuel with
  | zero =>
    refine ⟨?_, ?_, ?_⟩
    · intro s n s' h; simp [parse_conditional] at h
    · intro s body stmt body' stmt' s' h; simp [parse_block_loop] at h
    · intro b s body s' h; simp [parse_block] at h
  | succ fuel ih =>
    obtain ⟨ihc, ihl, ihb⟩ := ih
    refine ⟨?_, ?_, ?_⟩
    · intro s n s' h e B1 hdata
      simp only [parse_conditional, bind_ok, pure_ok, Prod.mk.injEq, Option.some.injEq] at h
      obtain ⟨⟨c, s1⟩, hc, ⟨e0, s2⟩, he, ⟨body, s3⟩, hb, hr, rfl⟩ := h
      have hd0 : n.data = .cond_stmt e0 body := by rw [← hr]; exact Node.data_setData _ _
      rw [hd0] at hdata
      simp only [NodeData.cond_stmt.injEq] at hdata
      obtain ⟨-, rfl⟩ := hdata
      exact ihb _ _ _ _ hb
    · intro s body stmt body' stmt' s' h
      simp only [parse_block_loop, bind_ok] at h
      obtain ⟨t, ht, h⟩ := h
      split at h
      · simp only [pure_ok, Prod.mk.injEq] at h
        obtain ⟨rfl, -, rfl⟩ := h
        exact ⟨[], by simp, Shadowing.nil⟩
      · simp only [bind_ok] at h
        obtain ⟨⟨r, s1⟩, hr, h⟩ := h
        cases r with
        | none =>
          simp only [pure_ok, Prod.mk.injEq] at h
          obtain ⟨rfl, -, rfl⟩ := h
          exact ⟨[], by simp, Shadowing.nil⟩
        | some n =>
          dsimp only at h
          obtain ⟨new, hnew, hprop⟩ := ihl _ _ _ _ _ _ h
          refine ⟨n :: new, by rw [hnew]; simp, ?_⟩
          -- the statement `n`: what it binds, and the blocks inside it
          have hn : (∀ (d : Node) (y : String) (T : Ty) (init : Option Node),
                StatementOf d n → d.data = .var_decl y T init →
                ∃ c, local_symbol s1 y = some (declared_symbol y c init d)) ∧
              (∀ e B1, n.data = .cond_stmt e B1 → Shadowing B1) := by
            split at hr
            · simp only [map_ok, Prod.mk.injEq, Option.some.injEq] at hr
              obtain ⟨⟨m1, sa⟩, hm1, rfl, rfl⟩ := hr
              refine ⟨fun d y T init hs hd => parse_variable_declaration_statement hm1 hs hd,
                ?_⟩
              obtain ⟨t0, x, c, s0, cur, tbl, ty, i, s5, tw, -, -, -, -, -, hnode, -⟩ :=
                parse_variable_declaration_inv hm1
              intro e B1 hdata
              rw [hnode] at hdata
              simp at hdata
            · refine ⟨fun d y T init hs hd => parse_identifier_stmt_statement hr hs hd, ?_⟩
              intro e B1 hdata
              have hs : StatementOf n n := StatementOf.self
              by_contra
              simp only [parse_identifier_stmt, bind_ok] at hr
              obtain ⟨⟨ident, sa⟩, hc, t1, ht1, hr⟩ := hr
              split at hr
              · rename_i hk
                rw [parse_function_call_fails _ ht1 hk] at hr
                simp at hr
              · simp only [map_ok, Prod.mk.injEq, Option.some.injEq] at hr
                obtain ⟨⟨m, s2⟩, hm, rfl, rfl⟩ := hr
                obtain ⟨t0, x, c, s0, cur, tbl, ty, i, s5, tw, -, -, -, -, -, hnode, -⟩ :=
                  parse_variable_declaration_inv hm
                rw [hnode] at hdata
                simp at hdata
              · simp only [map_ok, Prod.mk.injEq, Option.some.injEq] at hr
                obtain ⟨⟨m, s2⟩, hm, rfl, rfl⟩ := hr
                obtain ⟨t0, x, c, s0, cur, tbl, ty, i, s5, tw, -, -, -, -, -, hnode, -⟩ :=
                  parse_variable_declaration_inv hm
                rw [hnode] at hdata
                simp at hdata
              · simp only [parse_variable_assignment, bind_ok] at hr
                obtain ⟨t2, -, ⟨_, s2⟩, -, hr⟩ := hr
                split at hr
                · simp at hr
                · simp only [bind_ok, pure_ok, Prod.mk.injEq, Option.some.injEq] at hr
                  obtain ⟨⟨v, s3⟩, -, ⟨_, s4⟩, -, hr, -⟩ := hr
                  rw [← hr] at hdata
                  simp at hdata
              · simp at hr
            · exact ⟨(parse_block_group_binds fuel).1 _ _ _ hr, ihc _ _ _ hr⟩
            · exact ⟨(parse_block_group_binds fuel).1 _ _ _ hr, ihc _ _ _ hr⟩
            · exact ⟨(parse_block_group_binds fuel).1 _ _ _ hr, ihc _ _ _ hr⟩
            · refine ⟨fun d y T init hs hd => (parse_return_statement hr hs hd).elim, ?_⟩
              obtain ⟨v, hv⟩ := parse_return_data hr
              intro e B1 hdata
              rw [hv] at hdata
              simp at hdata
            · simp at hr
          intro B pre m post d y T init hB hsplit hs hd c k hk
          cases hB with
          | whole =>
            -- the block is the list of statements itself
            cases pre with
            | cons p pre1 =>
              simp only [List.cons_append, List.cons.injEq] at hsplit
              exact hprop new pre1 m post d y T init (BlockOf.whole _) hsplit.2 hs hd c k hk
            | nil =>
              simp only [List.nil_append, List.cons.injEq] at hsplit
              obtain ⟨rfl, rfl⟩ := hsplit
              obtain ⟨c0, hc0⟩ := hn.1 d y T init hs hd
              obtain ⟨new1, hnew1, hall, -⟩ :=
                (parse_block_group_typed y (declared_symbol y c0 init d) fuel).2.1
                  _ _ _ _ _ _ h hc0
              have : new1 = new := List.append_cancel_left (hnew1.symm.trans hnew)
              subst this
              exact hall k hk
          | inside _ n0 e B1 _ hn0 hdata hB1 =>
            -- the block is inside a conditional among the statements
            rcases List.mem_cons.1 hn0 with rfl | hn0
            · exact hn.2 e B1 hdata B pre m post d y T init hB1 hsplit hs hd c k hk
            · exact hprop B pre m post d y T init (BlockOf.inside _ n0 e B1 B hn0 hdata hB1)
                hsplit hs hd c k hk
    · intro b s body s' h
      simp only [parse_block, bind_ok] at h
      obtain ⟨⟨_, s1⟩, hl, ⟨body0, stmt, s2⟩, hloop, ⟨_, s3⟩, hrb, h⟩ := h
      obtain ⟨new, hnew, hprop⟩ := ihl _ _ _ _ _ _ hloop
      simp only [List.nil_append] at hnew
      subst hnew
      split at h
      · simp only [pure_ok, Prod.mk.injEq] at h
        obtain ⟨rfl, rfl⟩ := h
        intro B pre m post d y T init hB hsplit hs hd c k hk
        cases hB with
        | whole =>
          rcases List.eq_nil_or_concat post with rfl | ⟨post0, last, rfl⟩
          · simp at hk
          · have e1 : body0 ++ [implicit_return] = (pre ++ m :: post0) ++ [last] := by
              rw [hsplit]; simp
            have := List.append_inj' e1 rfl
            simp only [List.cons.injEq, and_true] at this
            rw [List.concat_eq_append] at hk
            rcases List.mem_append.1 hk with hk | hk
            · exact hprop body0 pre m post0 d y T init (BlockOf.whole _) this.1 hs hd c k hk
            · simp only [List.mem_singleton] at hk
              rw [hk, ← this.2]; exact refsTyped_implicit_return y _
        | inside _ n0 e B1 _ hn0 hdata hB1 =>
          rcases List.mem_append.1 hn0 with hn0 | hn0
          · exact hprop B pre m post d y T init (BlockOf.inside _ n0 e B1 B hn0 hdata hB1)
              hsplit hs hd c k hk
          · simp only [List.mem_singleton] at hn0
            rw [hn0] at hdata
            simp [implicit_return] at hdata
      · simp only [pure_ok, Prod.mk.injEq] at h
        obtain ⟨rfl, rfl⟩ := h
        exact hprop

/-! ## The claims -/

/-- C2: a variable declaration of a name that the active scope already binds
directly is a fatal Redeclaration, for the form that starts at the token after
the name (`:= e;` or `: T ...`, whatever that token is) and for the form that
starts with `const`. -/
theorem redeclaration_is_fatal (fuel : Nat) (s : Parser) (n : String) (cur : Nat)
    (scope : SymbolTable) (sym : Symbol)
    (hcur : s.current_scope = some cur) (hscope : s.scopes[cur]? = some scope)
    (hmem : sym ∈ scope.symbols) (hn : sym.name = n) :
    (∀ t, tok s = .ok t → parse_variable_declaration fuel (some n) s = .error .Redeclaration) ∧
    (∀ t1 t2, s.stream[s.stream_pos]? = some t1 → t1.kind = .TOKEN_CONST →
      s.stream[s.stream_pos + 1]? = some t2 → t2.kind = .TOKEN_IDENTIFIER → t2.str = n →
      parse_variable_declaration fuel none s = .error .Redeclaration) := by
  constructor
  · intro t ht
    simp [parse_variable_declaration, ht, hcur, scope_insert_declared _ hscope hmem hn, bind,
      Except.bind]
  · intro t1 t2 h1 hk1 h2 hk2 hstr
    have e1 := expect_of_tok (tok_of_get h1) hk1
    have e2 : expect .TOKEN_IDENTIFIER s.advance = .ok (t2, s.advance.advance) :=
      expect_of_tok (tok_of_get (by simpa using h2)) hk2
    simp [parse_variable_declaration, tok_of_get h1, e1, e2, hstr, hcur,
      scope_insert_declared _ hscope hmem hn, bind, Except.bind, pure, Except.pure]

theorem redeclaration_is_fatal_witness :
    parse_variable_declaration 8 (some "x") state_x_declared = .error .Redeclaration ∧
    parse_variable_declaration 8 none state_x_declared_const = .error .Redeclaration ∧
    parse 8 prog_x_twice start = .error .Redeclaration :=
  ⟨(redeclaration_is_fatal 8 state_x_declared "x" 0 _ _ rfl rfl
      (List.mem_singleton.2 rfl) rfl).1 _ rfl,
    (redeclaration_is_fatal 8 state_x_declared_const "x" 0 _ _ rfl rfl
      (List.mem_singleton.2 rfl) rfl).2 _ _ rfl rfl rfl rfl rfl,
    rfl⟩


/-- C5: a declaration that parses yields a variable-declaration node and a
symbol in the active scope; in the form `x := e;` the node's declared type and
the symbol's type are both the type `e` parsed with; in the form `x : T = e;`
the symbol's type is the type of `e` and the node's declared type `T` has the
same identity (`id`, by which types are compared). -/
theorem declaration_type_round_trip (fuel : Nat) (x : String) (s s' : Parser) (node : Node)
    (h : parse_variable_declaration fuel (some x) s = .ok (node, s')) :
    ∃ t, tok s = .ok t ∧ node.kind = .NODE_VAR_DECL ∧
      (t.kind = .TOKEN_WALRUS →
        ∃ e s1 s2 sym, parse_expression fuel s1 = .ok (e, s2) ∧
          node.data = .var_decl x e.type (some e) ∧
          local_symbol s' x = some sym ∧ sym.type = e.type) ∧
      (t.kind = .TOKEN_COLON → ∀ T init, node.data = .var_decl x T (some init) →
        ∃ e s1 s2 s3 s4 sym, init = e ∧ parse_type s1 = .ok (T, s2) ∧
          parse_expression fuel s3 = .ok (e, s4) ∧
          local_symbol s' x = some sym ∧ sym.type = e.type ∧ T.id = sym.type.id) := by
  obtain ⟨t, x', c, s0, cur, tbl, ty, init, s5, tw, ht, hform, hcur, htbl, hfind, hnode, htw,
    hcases, -, hsc, hc, -⟩ := parse_variable_declaration_inv h
  rcases hform with ⟨hx, rfl, rfl⟩ | ⟨hx, -⟩
  swap
  · simp at hx
  simp only [Option.some.injEq] at hx
  subst hx
  have hsym := local_symbol_declared hcur htbl hfind rfl hsc hc
  simp only [tok_declaring, ht, Except.ok.injEq] at htw
  subst htw
  refine ⟨t, ht, by rw [hnode]; simp, ?_, ?_⟩
  · intro hk
    rcases hcases with ⟨-, i, s4, he, rfl, rfl, -⟩ | ⟨hk', -⟩
    · exact ⟨i, _, s4, _, he, by rw [hnode]; simp, hsym, rfl⟩
    · rw [hk] at hk'; simp at hk'
  · intro hk T e hd
    rw [hnode] at hd
    simp only [Node.data_setData, NodeData.var_decl.injEq, true_and] at hd
    obtain ⟨rfl, rfl⟩ := hd
    rcases hcases with ⟨hk', -⟩ | ⟨-, s2, te, hty, -, hcase⟩
    · rw [hk] at hk'; simp at hk'
    · rcases hcase with ⟨-, i, s4, he, hi, hid, -⟩ | ⟨-, hn, -⟩
      · simp only [Option.some.injEq] at hi
        subst hi
        exact ⟨e, _, s2, _, s4, _, rfl, hty, he, hsym, rfl, hid⟩
      · simp at hn

theorem declaration_type_round_trip_witness :
    (∃ node s', parse_variable_declaration 8 (some "x") (start.load decl_walrus_5) =
        .ok (node, s') ∧
      (local_symbol s' "x").map Symbol.type = some (primitive_types TYPE_INT) ∧
      ∃ t, tok (start.load decl_walrus_5) = .ok t ∧ node.kind = .NODE_VAR_DECL ∧
        (t.kind = .TOKEN_WALRUS →
          ∃ e s1 s2 sym, parse_expression 8 s1 = .ok (e, s2) ∧
            node.data = .var_decl "x" e.type (some e) ∧
            local_symbol s' "x" = some sym ∧ sym.type = e.type) ∧
        (t.kind = .TOKEN_COLON → ∀ T init, node.data = .var_decl "x" T (some init) →
          ∃ e s1 s2 s3 s4 sym, init = e ∧ parse_type s1 = .ok (T, s2) ∧
            parse_expression 8 s3 = .ok (e, s4) ∧
            local_symbol s' "x" = some sym ∧ sym.type = e.type ∧ T.id = sym.type.id)) ∧
    (∃ node s', parse_variable_declaration 8 (some "x") (start.load decl_int_5) =
        .ok (node, s') ∧
      (local_symbol s' "x").map Symbol.type = some (primitive_types TYPE_INT) ∧
      node.data = .var_decl "x" (primitive_types TYPE_INT) (some (int_literal 5))) :=
  ⟨⟨_, _, rfl, rfl,
      declaration_type_round_trip 8 "x" (start.load decl_walrus_5) _ _ rfl⟩,
    ⟨_, _, rfl, rfl, rfl⟩⟩

/-- C6: in a declaration `x : T = e;` whose type name resolves to `T` and whose
initializer parses to `e`, the declaration fails with TypeMismatch exactly
when the identity of `T` differs from the identity of the type of `e`. -/
theorem declared_type_mismatch_iff (fuel : Nat) (x : String) (s : Parser) (cur : Nat)
    (tbl : SymbolTable) (t te : Token) (T : Ty) (e : Node) (s2 s4 : Parser)
    (ht : tok s = .ok t) (hk : t.kind = .TOKEN_COLON)
    (hcur : s.current_scope = some cur) (htbl : s.scopes[cur]? = some tbl)
    (hfresh : tbl.find x = none)
    (hT : parse_type (declaring s cur tbl x false).advance = .ok (T, s2))
    (hte : tok s2 = .ok te) (hek : te.kind = .TOKEN_EQUAL)
    (he : parse_expression fuel s2.advance = .ok (e, s4)) :
    parse_variable_declaration fuel (some x) s = .error .TypeMismatch ↔ T.id ≠ e.type.id := by
  rw [parse_variable_declaration_explicit ht hk hcur htbl hfresh hT hte hek he]
  by_cases hid : T.id = e.type.id
  · simp only [hid, ne_eq, not_true_eq_false, if_false, iff_false]
    cases hx : expect .TOKEN_SEMICOLON (write_symbol cur x
        (fun sym => { sym with type := e.type, is_initialized := true }) s4) with
    | error err =>
      rcases expect_error hx with rfl | rfl <;> simp [Except.bind]
    | ok r => simp [Except.bind]
  · simp [hid]

theorem declared_type_mismatch_iff_witness :
    parse_variable_declaration 8 (some "x") (start.load decl_int_true) = .error .TypeMismatch ∧
    parse_variable_declaration 8 (some "x") (start.load decl_int_5) ≠ .error .TypeMismatch :=
  ⟨(declared_type_mismatch_iff 8 "x" (start.load decl_int_true) 0 global_types _ _ _ _ _ _
      rfl rfl rfl rfl rfl rfl rfl rfl rfl).2 (by decide),
    fun h => (declared_type_mismatch_iff 8 "x" (start.load decl_int_5) 0 global_types _ _ _ _ _ _
      rfl rfl rfl rfl rfl rfl rfl rfl rfl).1 h rfl⟩

/-- C7: `parse_binary_expr`, for any operator, with the left operand `lhs` on
the stack and a right operand that parses to `rhs`: it fails with TypeMismatch
exactly when the identities of the operand types differ, and otherwise returns
the binary node over the two operands, whose type is the type of `lhs`. -/
theorem binary_type_rule (fuel : Nat) (bin_op : BinaryOp) (line col : Nat)
    (s s1 s2 s3 : Parser) (lhs rhs : Node)
    (hl : pop_expr_node s = .ok (lhs, s1)) (hr : parse_term fuel s1 = .ok s2)
    (hp : pop_expr_node s2 = .ok (rhs, s3)) :
    (parse_binary_expr (fuel + 1) bin_op line col s = .error .TypeMismatch ↔
      lhs.type.id ≠ rhs.type.id) ∧
    (lhs.type.id = rhs.type.id →
      ∃ node, parse_binary_expr (fuel + 1) bin_op line col s = .ok (node, s3) ∧
        node.kind = .NODE_BINARY_EXPR ∧ node.type = lhs.type ∧
        node.data = .binary bin_op (some lhs) (some rhs)) := by
  by_cases hid : lhs.type.id = rhs.type.id
  · simp [parse_binary_expr, hl, hr, hp, hid]
  · simp [parse_binary_expr, hl, hr, hp, hid]

theorem binary_type_rule_witness :
    ((parse_binary_expr 4 .BIN_ADD 1 1 state_after_lhs = .error .TypeMismatch ↔
        (int_literal 1).type.id ≠ (int_literal 2).type.id) ∧
      ((int_literal 1).type.id = (int_literal 2).type.id →
        ∃ node, parse_binary_expr 4 .BIN_ADD 1 1 state_after_lhs =
            .ok (node, (start.load [num 2, tk .TOKEN_SEMICOLON, tk .TOKEN_EOF]).advance) ∧
          node.kind = .NODE_BINARY_EXPR ∧ node.type = (int_literal 1).type ∧
          node.data = .binary .BIN_ADD (some (int_literal 1)) (some (int_literal 2)))) ∧
    (∃ node s', parse_expression 8
        (start.load [num 1, tk .TOKEN_PLUS, num 2, tk .TOKEN_SEMICOLON, tk .TOKEN_EOF]) =
          .ok (node, s') ∧ node.type = primitive_types TYPE_INT) ∧
    parse_expression 8
        (start_with_b.load [ident "b", tk .TOKEN_PLUS, num 1, tk .TOKEN_SEMICOLON,
          tk .TOKEN_EOF]) = .error .TypeMismatch ∧
    (∃ node s', parse_expression 8
        (start.load [num 1, tk .TOKEN_LANGLE, num 2, tk .TOKEN_SEMICOLON, tk .TOKEN_EOF]) =
          .ok (node, s') ∧ node.type = primitive_types TYPE_INT) :=
  ⟨binary_type_rule 3 .BIN_ADD 1 1 state_after_lhs _ _ _ (int_literal 1) (int_literal 2)
      rfl rfl rfl,
    ⟨_, _, rfl, rfl⟩, rfl, ⟨_, _, rfl, rfl⟩⟩

/-- C10: after a variable declaration that parses, the symbol's
`is_initialized` flag is true exactly when the node has an initializer; and a
declaration `x : T;` whose type name resolves parses, with any fuel: it
returns a variable-declaration node without initializer, leaves the flag
false and logs one warning. -/
theorem initialized_iff_initializer :
    (∀ (fuel : Nat) (var_name : Option String) (s s' : Parser) (node : Node),
      parse_variable_declaration fuel var_name s = .ok (node, s') →
      ∃ x T init sym, node.kind = .NODE_VAR_DECL ∧ node.data = .var_decl x T init ∧
        local_symbol s' x = some sym ∧ (sym.is_initialized = true ↔ init.isSome = true)) ∧
    (∀ (fuel : Nat) (x : String) (s s2 : Parser) (cur : Nat) (tbl : SymbolTable)
      (t te : Token) (T : Ty),
      tok s = .ok t → t.kind = .TOKEN_COLON →
      s.current_scope = some cur → s.scopes[cur]? = some tbl → tbl.find x = none →
      parse_type (declaring s cur tbl x false).advance = .ok (T, s2) →
      tok s2 = .ok te → te.kind = .TOKEN_SEMICOLON →
      ∃ node s' sym, parse_variable_declaration fuel (some x) s = .ok (node, s') ∧
        node.kind = .NODE_VAR_DECL ∧ node.data = .var_decl x T none ∧
        local_symbol s' x = some sym ∧ sym.is_initialized = false ∧
        s'.warnings = s2.warnings ++ [x]) := by
  have part1 : ∀ (fuel : Nat) (var_name : Option String) (s s' : Parser) (node : Node),
      parse_variable_declaration fuel var_name s = .ok (node, s') →
      ∃ x T init sym, node.kind = .NODE_VAR_DECL ∧ node.data = .var_decl x T init ∧
        local_symbol s' x = some sym ∧ (sym.is_initialized = true ↔ init.isSome = true) := by
    intro fuel var_name s s' node h
    obtain ⟨t, x, c, s0, cur, tbl, ty, init, s5, tw, ht, hform, hcur, htbl, hfind, hnode, htw,
      hcases, -, hsc, hc, -⟩ := parse_variable_declaration_inv h
    exact ⟨x, ty, init, _, by rw [hnode]; simp, by rw [hnode]; simp,
      local_symbol_declared hcur htbl hfind rfl hsc hc, by simp [declared_symbol]⟩
  refine ⟨part1, ?_⟩
  intro fuel x s s2 cur tbl t te T ht hk hcur htbl hfresh hT hte hek
  have hw : t.kind ≠ .TOKEN_WALRUS := by rw [hk]; decide
  have hne : te.kind ≠ .TOKEN_EQUAL := by rw [hek]; decide
  have hm : match_ .TOKEN_WALRUS (declaring s cur tbl x false) =
      .ok (false, declaring s cur tbl x false) := match_of_tok_ne (by simpa using ht) hw
  have hc : expect .TOKEN_COLON (declaring s cur tbl x false) =
      .ok (t, (declaring s cur tbl x false).advance) := expect_of_tok (by simpa using ht) hk
  have hq : match_ .TOKEN_EQUAL s2 = .ok (false, s2) := match_of_tok_ne hte hne
  have hs : expect .TOKEN_SEMICOLON (s2.warn x) = .ok (te, (s2.warn x).advance) :=
    expect_of_tok (by simpa using hte) hek
  have hrun : ∃ node s', parse_variable_declaration fuel (some x) s = .ok (node, s') ∧
      node.data = .var_decl x T none ∧ s'.warnings = s2.warnings ++ [x] := by
    refine ⟨((make_node .NODE_VAR_DECL).setPos t.line t.col).setData (.var_decl x T none),
      write_symbol cur x (fun sym => { sym with
        node := some (((make_node .NODE_VAR_DECL).setPos t.line t.col).setData
          (.var_decl x T none)) })
        (s2.warn x).advance, ?_, ?_, ?_⟩
    · simp only [parse_variable_declaration, ht, hcur, scope_insert_fresh _ htbl hfresh, bind,
        Except.bind, Option.getD_some, write_constant_declaring _ _ _ _ _ hfresh, hm, hc, hT, hq,
        hs, Bool.false_eq_true, if_false, pure, Except.pure]
    · simp
    · simp
  obtain ⟨node, s', hrun, hdata, hwarn⟩ := hrun
  obtain ⟨x', T', init, sym, hkind, hd, hsym, hinit⟩ := part1 _ _ _ _ _ hrun
  rw [hdata] at hd
  simp only [NodeData.var_decl.injEq] at hd
  obtain ⟨rfl, rfl, rfl⟩ := hd
  refine ⟨node, s', sym, hrun, hkind, hdata, hsym, ?_, hwarn⟩
  cases hb : sym.is_initialized
  · rfl
  · simp [hb] at hinit

theorem initialized_iff_initializer_witness :
    (∃ node s' sym,
      parse_variable_declaration 0 (some "x") (start.load decl_int_uninitialized) =
        .ok (node, s') ∧
      node.kind = .NODE_VAR_DECL ∧ node.data = .var_decl "x" (primitive_types TYPE_INT) none ∧
      local_symbol s' "x" = some sym ∧ sym.is_initialized = false ∧
      s'.warnings = [] ++ ["x"]) ∧
    (∃ node s' sym,
      parse_variable_declaration 8 (some "x") (start.load decl_int_5) = .ok (node, s') ∧
      local_symbol s' "x" = some sym ∧ sym.is_initialized = true) :=
  ⟨initialized_iff_initializer.2 0 "x" (start.load decl_int_uninitialized) _ 0 global_types _ _ _
      rfl rfl rfl rfl rfl rfl rfl rfl,
    ⟨_, _, _, rfl, rfl, rfl⟩⟩

/-- C4: with `x` bound to `gsym` in the scope that is active at the call (the
global scope), a function declaration that parses has parsed its body in a new
scope, which the state returned keeps and which has the enclosing scope as
parent. Take any block `B` of the body (the body itself or the body of a
conditional in it, at any depth) and any statement `m` of `B` that is, or as a
conditional contains, a variable declaration `d` of a name `y` (`x` or any
other): `d` has bound `y` in the scope of the function to the symbol of `d`,
whatever the enclosing scope binds, and every reference to `y` in the
statements of `B` after `m` has the type of that function-local symbol. After
the declaration of the function the enclosing scope is active again and still
binds `x` to `gsym`, and in every top-level variable declaration that the
parser goes on to parse from there, every reference to `x` has the type of
`gsym`. -/
theorem scope_shadowing (fuel : Nat) (s s' : Parser) (node : Node) (x : String)
    (gsym : Symbol) (hglobal : local_symbol s x = some gsym)
    (hdecl : parse_function_declaration fuel s = .ok (node, s')) :
    ∃ (cur : Nat) (f : String) (rt : Ty) (params body : List Node) (fscope : SymbolTable),
      s.current_scope = some cur ∧ node.data = .func_decl f rt params body ∧
      s.scopes[s.scopes.length]? = none ∧
      s'.scopes[s.scopes.length]? = some fscope ∧ fscope.parent = some cur ∧
      (∀ (B pre : List Node) (m : Node) (post : List Node) (d : Node) (y : String) (T : Ty)
        (init : Option Node),
        BlockOf body B → B = pre ++ m :: post → StatementOf d m →
        d.data = .var_decl y T init →
        ∃ c, fscope.find y = some (declared_symbol y c init d) ∧
          ∀ n ∈ post, RefsTyped y (declared_symbol y c init d).type n) ∧
      s'.current_scope = some cur ∧ local_symbol s' x = some gsym ∧
      (∀ (fuel1 : Nat) (ast ast1 : List Node) (s1 : Parser),
        parse_loop fuel1 s' ast = .ok (ast1, s1) →
        ∃ new, ast1 = ast ++ new ∧
          (∀ n ∈ new, n.kind = .NODE_VAR_DECL → RefsTyped x gsym.type n) ∧
          local_symbol s1 x = some gsym) := by
  obtain ⟨cur, tbl, f, rt, params, body, s1, s2, hrun⟩ := function_run_of_ok hdecl
  obtain ⟨c2, hnone, fscope, hf2, hparent, hf'⟩ := hrun.function_scope
  obtain ⟨f', rt', params', body', -, hfnone, hcur', hlocal⟩ :=
    parse_function_declaration_local hdecl
  have hd' := hrun.data
  have hxf : x ≠ f' := by
    intro e
    rw [e, hfnone] at hglobal
    simp at hglobal
  have hg' : local_symbol s' x = some gsym := by
    rw [hlocal x hxf]; exact hglobal
  refine ⟨cur, f, rt, params, body, fscope, hrun.current, hd', hnone, hf', hparent, ?_,
    by rw [hcur', hrun.current], hg', ?_⟩
  · intro B pre m post d y T init hB hsplit hs hd
    obtain ⟨m0, hm0, hs0⟩ := hB.statement (by rw [hsplit]; simp) hs
    obtain ⟨c, h1⟩ := (parse_block_group_binds fuel).2.2 _ _ _ _ hrun.body_run m0 hm0 d y T
      init hs0 hd
    refine ⟨c, ?_, (parse_block_group_shadowing fuel).2.2 _ _ _ _ hrun.body_run B pre m post
      d y T init hB hsplit hs hd c⟩
    simpa [local_symbol, c2, hf2] using h1
  · intro fuel1 ast ast1 sx hloop
    exact parse_loop_typed x gsym fuel1 _ _ _ _ hloop hg'

theorem scope_shadowing_witness :
    ∃ gsym node s', local_symbol state_global_x "x" = some gsym ∧
      gsym.type = primitive_types TYPE_INT ∧
      parse_function_declaration 16 state_global_x = .ok (node, s') ∧
      (∃ (cur : Nat) (f : String) (rt : Ty) (params body : List Node) (fscope : SymbolTable),
        state_global_x.current_scope = some cur ∧ node.data = .func_decl f rt params body ∧
        state_global_x.scopes[state_global_x.scopes.length]? = none ∧
        s'.scopes[state_global_x.scopes.length]? = some fscope ∧ fscope.parent = some cur ∧
        (∀ (B pre : List Node) (m : Node) (post : List Node) (d : Node) (y : String)
          (T : Ty) (init : Option Node),
          BlockOf body B → B = pre ++ m :: post → StatementOf d m →
          d.data = .var_decl y T init →
          ∃ c, fscope.find y = some (declared_symbol y c init d) ∧
            ∀ n ∈ post, RefsTyped y (declared_symbol y c init d).type n) ∧
        s'.current_scope = some cur ∧ local_symbol s' "x" = some gsym ∧
        (∀ (fuel1 : Nat) (ast ast1 : List Node) (s1 : Parser),
          parse_loop fuel1 s' ast = .ok (ast1, s1) →
          ∃ new, ast1 = ast ++ new ∧
            (∀ n ∈ new, n.kind = .NODE_VAR_DECL → RefsTyped "x" gsym.type n) ∧
            local_symbol s1 "x" = some gsym)) ∧
      (parse_loop 32 (start.load prog_shadowing) []).toOption.map
        (fun r => (r.1.map declaration_refs,
          (symbol_table_lookup r.2.scopes (some 1) "x").map Symbol.type,
          (symbol_table_lookup r.2.scopes (some 0) "x").map Symbol.type)) =
        some ([[none],
            [none, some ("x", primitive_types TYPE_BOOL), none],
            [some ("x", primitive_types TYPE_INT)]],
          some (primitive_types TYPE_BOOL), some (primitive_types TYPE_INT)) := by
  have h1 : ((local_symbol state_global_x "x").map Symbol.type) =
      some (primitive_types TYPE_INT) := by decide!
  obtain ⟨gsym, hg⟩ := exists_of_isSome
    (x := local_symbol state_global_x "x") (by decide!)
  obtain ⟨⟨node, s'⟩, hd, -⟩ := exists_ok_of_check
    (x := parse_function_declaration 16 state_global_x) (fun _ => true) (by decide!)
  refine ⟨gsym, node, s', hg, ?_, hd,
    scope_shadowing 16 state_global_x s' node "x" gsym hg hd, by decide!⟩
  rw [hg] at h1
  simpa using h1

/-- C9: when every top-level declaration of the stream parses (the loop of
`parse` returns), and the global scope is the root of the scope tree, `parse`
returns the AST exactly when the global scope then binds `main` to a symbol of
kind Function, and fails with MissingEntryPoint otherwise. -/
theorem entry_point_required (fuel : Nat) (tokens : List Token) (s0 s1 : Parser)
    (ast : List Node) (g0 : SymbolTable)
    (hg : s0.scopes[s0.global_scope]? = some g0) (hroot : g0.parent = none)
    (hloop : parse_loop fuel (s0.load tokens) [] = .ok (ast, s1)) :
    ∃ g1, s1.scopes[s1.global_scope]? = some g1 ∧
      ((∃ sym, g1.find "main" = some sym ∧ sym.kind = .SYMBOL_FUNCTION) →
        parse fuel tokens s0 = .ok (ast, s1)) ∧
      ((¬ ∃ sym, g1.find "main" = some sym ∧ sym.kind = .SYMBOL_FUNCTION) →
        parse fuel tokens s0 = .error .MissingEntryPoint) := by
  have htop := parse_loop_top fuel _ _ _ _ hloop
  have hlt := lt_length_of_getElem? hg
  have hp := htop.parent s0.global_scope (by simpa using hlt)
  have hgs : s1.global_scope = s0.global_scope := by simpa using htop.global_scope
  simp only [Parser.scopes_load, hg, Option.map_some', hroot] at hp
  cases h1 : s1.scopes[s0.global_scope]? with
  | none => simp [h1] at hp
  | some g1 =>
    simp only [h1, Option.map_some', Option.some.injEq] at hp
    have hlook : symbol_table_lookup s1.scopes (some s1.global_scope) "main" =
        g1.find "main" := by
      rw [hgs]; exact lookup_of_root "main" h1 hp
    refine ⟨g1, by rw [hgs]; exact h1, ?_, ?_⟩
    · rintro ⟨sym, hs, hk⟩
      simp [parse, hloop, has_entry_point, hlook, hs, hk, bind, Except.bind, pure, Except.pure]
    · intro hno
      cases hf : g1.find "main" with
      | none =>
        simp [parse, hloop, has_entry_point, hlook, hf, bind, Except.bind]
      | some sym =>
        have hk : sym.kind ≠ .SYMBOL_FUNCTION := fun hk => hno ⟨sym, hf, hk⟩
        simp [parse, hloop, has_entry_point, hlook, hf, hk, bind, Except.bind]

theorem entry_point_required_witness :
    (∃ ast s1 g1, parse_loop 8 (start.load prog_main_empty) [] = .ok (ast, s1) ∧
      s1.scopes[s1.global_scope]? = some g1 ∧
      ((∃ sym, g1.find "main" = some sym ∧ sym.kind = .SYMBOL_FUNCTION) →
        parse 8 prog_main_empty start = .ok (ast, s1)) ∧
      ((¬ ∃ sym, g1.find "main" = some sym ∧ sym.kind = .SYMBOL_FUNCTION) →
        parse 8 prog_main_empty start = .error .MissingEntryPoint)) ∧
    (parse 8 prog_main_empty start).toBool = true ∧
    ((parse_loop 8 (start.load prog_main_variable) []).toBool = true ∧
      parse 8 prog_main_variable start = .error .MissingEntryPoint) ∧
    ((parse_loop 8 (start.load [tk .TOKEN_EOF]) []).toBool = true ∧
      parse 8 [tk .TOKEN_EOF] start = .error .MissingEntryPoint) ∧
    ((parse_loop 8 (start.load (prog_recursive "f")) []).toBool = false) := by
  obtain ⟨⟨ast, s1⟩, hl, -⟩ := exists_ok_of_check
    (x := parse_loop 8 (start.load prog_main_empty) []) (fun _ => true) (by decide!)
  obtain ⟨g1, h1, h2, h3⟩ := entry_point_required 8 prog_main_empty start s1 ast global_types
    rfl rfl hl
  exact ⟨⟨ast, s1, g1, hl, h1, h2, h3⟩, by decide!,
    ⟨by decide!, eq_error_of_failure (by decide!)⟩,
    ⟨by decide!, eq_error_of_failure (by decide!)⟩, by decide!⟩

/-- C3 (as stated, refuted): `func main() { x := 1; if x { x := 2; } }` does
not parse; the declaration in the `if` body is a Redeclaration. -/
theorem if_body_redeclaration_fails :
    parse 16 prog_if_shadow start = .error .Redeclaration :=
  eq_error_of_failure (by decide!)

/-- C3 (amended): a variable declaration of `x`, of either form, fails with
Redeclaration exactly when the active scope itself binds `x`, whatever the
scopes around it bind, and a declaration that parses leaves its name bound in
the active scope. A function declaration that parses has parsed its body from
a state whose active scope is the new scope of the function, which then binds
the name of the function and the names of the parameters and no other name. So
`x := 1; func main() { x := 2; }` and `x := 1; func main(a: int) { x := 2; }`
parse, and `x := 1; func main(x: int) { x := 2; }` is a Redeclaration. The
body of an `if`, `elif` or `else` opens no scope: a declaration of `x` at the
start of such a body is a Redeclaration when the active scope binds `x`. -/
theorem nested_scope_redeclaration :
    (∀ (fuel : Nat) (var_name : Option String) (s : Parser) (t : Token) (x : String)
      (cur : Nat) (tbl : SymbolTable), tok s = .ok t →
      (var_name = some x ∨ (var_name = none ∧ t.kind = .TOKEN_CONST ∧
        ∃ ti, tok s.advance = .ok ti ∧ ti.kind = .TOKEN_IDENTIFIER ∧ ti.str = x)) →
      s.current_scope = some cur → s.scopes[cur]? = some tbl →
      (parse_variable_declaration fuel var_name s = .error .Redeclaration ↔
        (tbl.find x).isSome = true)) ∧
    (∀ (fuel : Nat) (var_name : Option String) (s s' : Parser) (node : Node),
      parse_variable_declaration fuel var_name s = .ok (node, s') →
      ∃ x, decl_name node = some x ∧ (local_symbol s' x).isSome = true) ∧
    (∀ (fuel : Nat) (s s' : Parser) (node : Node),
      parse_function_declaration fuel s = .ok (node, s') →
      ∃ cur tbl f rt params body s1 s2 tbl1,
        FunctionRun fuel s node s' cur tbl f rt params body s1 s2 ∧
        s1.current_scope = some s.scopes.length ∧
        s1.scopes[s.scopes.length]? = some tbl1 ∧
        ∀ x, (tbl1.find x).isSome = true ↔ (x = f ∨ x ∈ params.filterMap decl_name)) ∧
    (∀ (fuel : Nat) (f x : String) (s : Parser) (cur : Nat) (tbl : SymbolTable)
      (rest : List Token),
      x ≠ f → s.current_scope = some cur → s.scopes[cur]? = some tbl → tbl.find f = none →
      s.stream.drop s.stream_pos = func_with_local f x ++ rest →
      ∃ node s', parse_function_declaration (fuel + 4) s = .ok (node, s')) ∧
    (∀ (fuel : Nat) (x : String) (s s1 : Parser) (cur : Nat) (tbl : SymbolTable)
      (sym : Symbol) (tc t0 t1 t2 : Token),
      s.current_scope = some cur → s.scopes[cur]? = some tbl →
      sym ∈ tbl.symbols → sym.name = x → tok s = .ok tc →
      ((tc.kind = .TOKEN_ELSE ∧ s1 = s.advance) ∨
        ((tc.kind = .TOKEN_IF ∨ tc.kind = .TOKEN_ELIF) ∧
          ∃ e, parse_expression (fuel + 2) s.advance = .ok (e, s1))) →
      tok s1 = .ok t0 → t0.kind = .TOKEN_LBRACE →
      tok s1.advance = .ok t1 → t1.kind = .TOKEN_IDENTIFIER → t1.str = x →
      tok s1.advance.advance = .ok t2 →
      (t2.kind = .TOKEN_WALRUS ∨ t2.kind = .TOKEN_COLON) →
      parse_conditional (fuel + 3) s = .error .Redeclaration) ∧
    (parse 24 prog_function_shadow start).toBool = true ∧
    (parse 24 prog_param_other start).toBool = true ∧
    parse 24 prog_param_shadow start = .error .Redeclaration := by
  refine ⟨fun fuel var_name s t x cur tbl ht hform hcur htbl =>
      declaration_redeclared_iff ht hform hcur htbl, ?_, ?_,
    fun fuel f x s cur tbl rest hxf hcur htbl hfresh hstream =>
      function_body_shadows fuel f x s cur tbl rest hxf hcur htbl hfresh hstream, ?_,
    by decide!, by decide!, eq_error_of_failure (by decide!)⟩
  · intro fuel var_name s s' node h
    obtain ⟨t, x, c, s0, cur, tbl, ty, init, s5, tw, -, -, hcur, htbl, hfind, hnode, -, -, -,
      hsc, hc, -⟩ := parse_variable_declaration_inv h
    refine ⟨x, by rw [hnode]; rfl, ?_⟩
    rw [local_symbol_declared hcur htbl hfind rfl hsc hc]
    rfl
  · intro fuel s s' node h
    obtain ⟨cur, tbl, f, rt, params, body, s1, s2, hrun⟩ := function_run_of_ok h
    obtain ⟨h1, tbl1, h2, h3⟩ := hrun.body_scope
    exact ⟨cur, tbl, f, rt, params, body, s1, s2, tbl1, hrun, h1, h2, h3⟩
  · intro fuel x s s1 cur tbl sym tc t0 t1 t2 hcur htbl hmem hn htc hcond h0 hk0 h1 hk1 hx h2
      hk2
    rcases hcond with ⟨hk, rfl⟩ | ⟨hk, e, he⟩
    · have hb : parse_block (fuel + 2) false s.advance = .error .Redeclaration :=
        parse_block_redeclared (s := s.advance) hcur htbl hmem hn h0 hk0 h1 hk1 hx h2 hk2
      simp [parse_conditional, consume_of_tok htc, hk, hb, bind, Except.bind]
    · have hsame := parse_expression_same he
      have hb : parse_block (fuel + 2) false s1 = .error .Redeclaration :=
        parse_block_redeclared (s := s1) (by rw [hsame.current_scope]; exact hcur)
          (by rw [hsame.scopes]; exact htbl) hmem hn h0 hk0 h1 hk1 hx h2 hk2
      rcases hk with hk | hk <;>
        simp [parse_conditional, consume_of_tok htc, hk, he, hb, bind, Except.bind, Except.map]

theorem nested_scope_redeclaration_witness :
    (∃ node s', parse_function_declaration 4 state_x_before_function = .ok (node, s')) ∧
    parse_conditional 3 state_x_before_else = .error .Redeclaration ∧
    (parse_variable_declaration 4 (some "x")
        (state_x_before_else.advance.advance.advance) = .error .Redeclaration ↔
      ((⟨"f", [Symbol.fresh "x" .SYMBOL_VARIABLE], none, []⟩ : SymbolTable).find "x").isSome
        = true) :=
  ⟨nested_scope_redeclaration.2.2.2.1 0 "main" "x" state_x_before_function 0 _
      [tk .TOKEN_EOF] (by decide) rfl rfl rfl rfl,
    nested_scope_redeclaration.2.2.2.2.1 0 "x" state_x_before_else _ 0 _ _ _ _ _ _ rfl rfl
      (List.mem_singleton.2 rfl) rfl rfl (Or.inl ⟨rfl, rfl⟩) rfl rfl rfl rfl rfl rfl
      (Or.inl rfl),
    nested_scope_redeclaration.1 4 (some "x") state_x_before_else.advance.advance.advance
      (tk .TOKEN_WALRUS) "x" 0 _ rfl (Or.inl rfl) rfl rfl⟩

/-- C8 (the code fails it): inside any block, a statement that starts with an
identifier followed by `(` is a fatal syntax error, because
`parse_function_call` expects `;` at the `(`; so `func main() { main(); }`
does not parse, although `func main() { }` does. -/
theorem recursive_call_is_fatal :
    (∀ (fuel : Nat) (s : Parser) (t1 t2 : Token) (body : List Node) (stmt : Option Node),
      tok s = .ok t1 → t1.kind = .TOKEN_IDENTIFIER →
      tok s.advance = .ok t2 → t2.kind = .TOKEN_LPAREN →
      parse_block_loop (fuel + 1) s body stmt = .error .SyntaxError) ∧
    parse 16 (prog_recursive "main") start = .error .SyntaxError ∧
    parse 16 (prog_recursive "f") start = .error .SyntaxError ∧
    (parse 16 prog_main_empty start).toBool = true := by
  refine ⟨?_, eq_error_of_failure (by decide!), eq_error_of_failure (by decide!), by decide!⟩
  intro fuel s t1 t2 body stmt h1 hk1 h2 hk2
  have hc : parse_identifier_stmt fuel s = .error .SyntaxError := by
    simp [parse_identifier_stmt, consume_of_tok h1, h2, hk2,
      parse_function_call_fails _ h2 hk2, bind, Except.bind]
  simp [parse_block_loop, h1, hk1, hc, bind, Except.bind]

/-- C11: a function declaration that parses does so by this chain of steps:
from the state that `enter_scope` makes, whose active scope is the new scope of
the function (not a scope of the heap before), the parameter list, the return
type and the body are parsed, each step from the state the step before it
returned, with the scope of the function active in each of those states;
`exit_scope` then makes the scope that was active at the call active again,
and that is the active scope of the state returned. The scope of the function
is a child of that scope (in its list of children, with it as parent). No
block, and no statement of a block, changes the active scope. -/
theorem active_scope_restored (fuel : Nat) (s s' : Parser) (node : Node)
    (h : parse_function_declaration fuel s = .ok (node, s')) :
    ∃ (cur : Nat) (tbl : SymbolTable) (tf tl tr : Token) (return_type : Ty)
      (params body : List Node) (arrow : Bool) (sa sb sc sd s1 s2 : Parser)
      (enclosing fscope : SymbolTable),
      s.current_scope = some cur ∧ s.scopes[cur]? = some tbl ∧ tok s.advance = .ok tf ∧
      node.data = .func_decl tf.str return_type params body ∧
      s.scopes[s.scopes.length]? = none ∧
      expect .TOKEN_LPAREN (enter_scope s.scopes.length
        (s.advance.advance.setScopes (function_entry_scopes s.scopes cur tbl tf.str))) =
          .ok (tl, sa) ∧
      parse_params_loop fuel s.scopes.length sa [] = .ok (params, sb) ∧
      expect .TOKEN_RPAREN sb = .ok (tr, sc) ∧
      match_ .TOKEN_ARROW sc = .ok (arrow, sd) ∧
      (if arrow then parse_type sd
        else .ok (primitive_types TYPE_VOID, sd) : Except Fatal (Ty × Parser)) =
          .ok (return_type, s1) ∧
      parse_block fuel true s1 = .ok (body, s2) ∧
      exit_scope s2 = .ok (s2.setCurrent (some cur)) ∧
      s' = write_symbol cur tf.str (fun sym => { sym with node := some node })
        (s2.setCurrent (some cur)) ∧
      sa.current_scope = some s.scopes.length ∧ sb.current_scope = some s.scopes.length ∧
      sc.current_scope = some s.scopes.length ∧ sd.current_scope = some s.scopes.length ∧
      s1.current_scope = some s.scopes.length ∧ s2.current_scope = some s.scopes.length ∧
      s'.current_scope = s.current_scope ∧
      s'.scopes[cur]? = some enclosing ∧ s.scopes.length ∈ enclosing.children ∧
      s'.scopes[s.scopes.length]? = some fscope ∧ fscope.parent = some cur ∧
      (∀ (fuel1 : Nat) (b : Bool) (sx sy : Parser) (stmts : List Node),
        parse_block fuel1 b sx = .ok (stmts, sy) → sy.current_scope = sx.current_scope) ∧
      (∀ (fuel1 : Nat) (sx sy : Parser) (stmts0 stmts1 : List Node) (last0 last1 : Option Node),
        parse_block_loop fuel1 sx stmts0 last0 = .ok (stmts1, last1, sy) →
        sy.current_scope = sx.current_scope) ∧
      (∀ (fuel1 : Nat) (sx sy : Parser) (r : Option Node),
        (parse_conditional fuel1 sx = .ok (r, sy) ∨ parse_identifier_stmt fuel1 sx = .ok (r, sy) ∨
          parse_return fuel1 sx = .ok (r, sy)) → sy.current_scope = sx.current_scope) ∧
      (∀ (fuel1 : Nat) (var_name : Option String) (sx sy : Parser) (n : Node),
        parse_variable_declaration fuel1 var_name sx = .ok (n, sy) →
        sy.current_scope = sx.current_scope) := by
  obtain ⟨t, tf, tl, tr, cur, tbl, params, rt, body, arrow, sa, sb, sc, sd, s1, s2, ht, htf,
    hkf, hcur, htbl, hfind, hnode, hlp, hps, hrp, har, hrt, hb, hexit, hs'⟩ :=
    parse_function_declaration_steps h
  obtain ⟨tf', cur', tbl', rt', params', body', htf', hd', hcur', htbl', -, hc', henc, -⟩ :=
    parse_function_declaration_enclosing h
  have hcc : cur' = cur := by
    rw [hcur] at hcur'
    exact (Option.some.inj hcur').symm
  subst hcc
  have fE := (expect_same hlp).frame
  have cA : sa.current_scope = some s.scopes.length := by rw [fE.current_scope]; rfl
  have fP := parse_params_loop_frame fuel _ _ _ _ _ hps cA
  have fR := (expect_same hrp).frame
  have fA := (match_same har).frame
  have fT : Frame sd s1 := by
    split at hrt
    · exact (parse_type_same hrt).frame
    · simp only [Except.ok.injEq, Prod.mk.injEq] at hrt
      rw [← hrt.2]; exact Frame.frame_refl _
  have cB : sb.current_scope = some s.scopes.length := by rw [fP.current_scope]; exact cA
  have cC : sc.current_scope = some s.scopes.length := by rw [fR.current_scope]; exact cB
  have cD : sd.current_scope = some s.scopes.length := by rw [fA.current_scope]; exact cC
  have c1 : s1.current_scope = some s.scopes.length := by rw [fT.current_scope]; exact cD
  have c2 : s2.current_scope = some s.scopes.length := by
    rw [(parse_block_frame hb).current_scope]; exact c1
  have f2 := ((((fE.step fP).step fR).step fA).step fT).step (parse_block_frame hb)
  have hlt := lt_length_of_getElem? htbl
  have hne : cur' ≠ s.scopes.length := by omega
  have hp := f2.parent s.scopes.length
  simp only [enter_scope, Parser.scopes_setCurrent, Parser.scopes_setScopes,
    @function_entry_scopes_new _ _ tbl tf.str hlt, Option.map_some'] at hp
  cases hn : s2.scopes[s.scopes.length]? with
  | none => simp [hn] at hp
  | some fscope =>
    simp only [hn, Option.map_some', Option.some.injEq] at hp
    refine ⟨cur', tbl, tf, tl, tr, rt, params, body, arrow, sa, sb, sc, sd, s1, s2, _, fscope,
      hcur, htbl, htf, by rw [hnode]; simp, List.getElem?_eq_none (Nat.le_refl _), hlp, hps,
      hrp, har, hrt, hb, hexit, hs', cA, cB, cC, cD, c1, c2, by rw [hc', hcur], henc, ?_, ?_,
      hp, fun fuel1 b sx sy stmts hblk => (parse_block_frame hblk).current_scope,
      fun fuel1 sx sy stmts0 stmts1 last0 last1 hl =>
        ((parse_block_group_frame fuel1).2.1 _ _ _ _ _ _ hl).current_scope, ?_,
      fun fuel1 var_name sx sy n hv => (parse_variable_declaration_frame hv).current_scope⟩
    · simp [SymbolTable.update, SymbolTable.extend]
    · rw [hs']
      simp only [write_symbol, Parser.scopes_setScopes, Parser.scopes_setCurrent]
      rw [List.getElem?_modify_ne _ _ hne]
      exact hn
    · intro fuel1 sx sy r hr
      rcases hr with hr | hr | hr
      · exact ((parse_block_group_frame fuel1).1 _ _ _ hr).current_scope
      · exact (parse_identifier_stmt_frame hr).current_scope
      · exact (parse_return_same hr).current_scope

theorem active_scope_restored_witness :
    ∃ node s', parse_function_declaration 8 (start.load prog_main_empty) = .ok (node, s') ∧
      s'.current_scope = (start.load prog_main_empty).current_scope ∧
      ∃ (s1 s2 : Parser) (body : List Node), parse_block 8 true s1 = .ok (body, s2) ∧
        s1.current_scope = some (start.load prog_main_empty).scopes.length ∧
        s2.current_scope = some (start.load prog_main_empty).scopes.length ∧
        s' = write_symbol 0 "main" (fun sym => { sym with node := some node })
          (s2.setCurrent (some 0)) := by
  obtain ⟨⟨node, s'⟩, hd, -⟩ := exists_ok_of_check
    (x := parse_function_declaration 8 (start.load prog_main_empty)) (fun _ => true)
    (by decide!)
  obtain ⟨cur, tbl, tf, tl, tr, rt, params, body, arrow, sa, sb, sc, sd, s1, s2, enc, fsc,
    hcur, htbl, htf, hnode, hnone, hlp, hps, hrp, har, hrt, hb, hexit, hs', cA, cB, cC, cD, c1,
    c2, hc', -⟩ := active_scope_restored 8 _ s' node hd
  have e1 : cur = 0 := by
    have : (start.load prog_main_empty).current_scope = some 0 := rfl
    rw [this] at hcur
    exact (Option.some.inj hcur).symm
  have e2 : tf.str = "main" := by
    have : tok (start.load prog_main_empty).advance = .ok (ident "main") := rfl
    rw [this] at htf
    simp only [Except.ok.injEq] at htf
    rw [← htf]; rfl
  subst e1
  rw [e2] at hs'
  exact ⟨node, s', hd, hc', s1, s2, body, hb, c1, c2, hs'⟩

/-- C12: for an assignment `n = e;` whose value `e` and terminator parse, the
statement fails with UnknownSymbol exactly when lookup of `n` from the active
scope finds no symbol; when it finds one the statement returns the assignment
node over `e`, whatever the type of `e` and of the symbol. -/
theorem assignment_requires_known_symbol (fuel : Nat) (n : String) (s s2 : Parser) (t ts : Token)
    (e : Node) (ht : tok s = .ok t)
    (he : parse_expression fuel s.advance = .ok (e, s2))
    (hts : tok s2 = .ok ts) (hsemi : ts.kind = .TOKEN_SEMICOLON) :
    (parse_variable_assignment fuel n s = .error .UnknownSymbol ↔
      symbol_table_lookup s.scopes s.current_scope n = none) ∧
    (∀ sym, symbol_table_lookup s.scopes s.current_scope n = some sym →
      parse_variable_assignment fuel n s =
        .ok (some (((make_node .NODE_ASSIGN_STMT).setPos t.line t.col).setData
          (.assign n (some e))), s2.advance)) := by
  have hx := expect_of_tok hts hsemi
  cases hl : symbol_table_lookup s.scopes s.current_scope n with
  | none =>
    simp [parse_variable_assignment, ht, consume_of_tok ht, hl, bind, Except.bind]
  | some sym =>
    simp [parse_variable_assignment, ht, consume_of_tok ht, hl, he, hx, bind, Except.bind,
      pure, Except.pure]

theorem assignment_requires_known_symbol_witness :
    ((parse_variable_assignment 8 "b" state_assign_b = .error .UnknownSymbol ↔
        symbol_table_lookup state_assign_b.scopes state_assign_b.current_scope "b" = none) ∧
      (∀ sym, symbol_table_lookup state_assign_b.scopes state_assign_b.current_scope "b" =
          some sym →
        parse_variable_assignment 8 "b" state_assign_b =
          .ok (some (((make_node .NODE_ASSIGN_STMT).setPos 1 1).setData
            (.assign "b" (some (int_literal 1)))), state_assign_b.advance.advance.advance))) ∧
    (parse_variable_assignment 8 "b" state_assign_b).toBool = true ∧
    (parse 16 prog_assign_bool_to_int start).toBool = true ∧
    parse 16 prog_assign_unknown start = .error .UnknownSymbol :=
  ⟨assignment_requires_known_symbol 8 "b" state_assign_b state_assign_b.advance.advance
      (tk .TOKEN_EQUAL) (tk .TOKEN_SEMICOLON) (int_literal 1) rfl rfl rfl rfl,
    by decide!, by decide!, eq_error_of_failure (by decide!)⟩
/-- C13 (as stated, refuted): `x := 5; y : x = 3;` parses; the name of the
variable `x` is accepted in the type position and `y` gets the type `int`. -/
theorem variable_name_accepted_as_type :
    (parse_loop 16 (start.load prog_variable_as_type) []).toOption.map
      (fun r => (r.1.length, (local_symbol r.2 "y").map Symbol.type)) =
      some (2, some (primitive_types TYPE_INT)) := by
  decide!

/-- C13 (amended): a type name is resolved by `symbol_table_lookup` from the
active scope: `parse_type` on an identifier fails with UnknownType exactly
when no symbol of that name is found, and otherwise yields the type recorded
in the symbol that is found. -/
theorem type_name_resolved_by_lookup (s : Parser) (t : Token) (ht : tok s = .ok t)
    (hk : t.kind = .TOKEN_IDENTIFIER) :
    (parse_type s = .error .UnknownType ↔
      symbol_table_lookup s.scopes s.current_scope t.str = none) ∧
    (∀ sym, symbol_table_lookup s.scopes s.current_scope t.str = some sym →
      parse_type s = .ok (sym.type, s.advance)) := by
  have hx := expect_of_tok ht hk
  cases hl : symbol_table_lookup s.scopes s.current_scope t.str with
  | none => simp [parse_type, hx, hl]
  | some sym => simp [parse_type, hx, hl]

theorem type_name_resolved_by_lookup_witness :
    ((parse_type (start.load [ident "int", tk .TOKEN_EOF]) = .error .UnknownType ↔
        symbol_table_lookup (start.load [ident "int", tk .TOKEN_EOF]).scopes
          (start.load [ident "int", tk .TOKEN_EOF]).current_scope (ident "int").str = none) ∧
      (∀ sym, symbol_table_lookup (start.load [ident "int", tk .TOKEN_EOF]).scopes
          (start.load [ident "int", tk .TOKEN_EOF]).current_scope (ident "int").str = some sym →
        parse_type (start.load [ident "int", tk .TOKEN_EOF]) =
          .ok (sym.type, (start.load [ident "int", tk .TOKEN_EOF]).advance))) ∧
    (parse_type (start.load [ident "int", tk .TOKEN_EOF])).toOption.map Prod.fst =
      some (primitive_types TYPE_INT) ∧
    parse_type (start_empty.load [ident "int", tk .TOKEN_EOF]) = .error .UnknownType ∧
    (parse_type (start_with_b.load [ident "b", tk .TOKEN_EOF])).toOption.map Prod.fst =
      some (primitive_types TYPE_BOOL) :=
  ⟨type_name_resolved_by_lookup (start.load [ident "int", tk .TOKEN_EOF]) (ident "int") rfl rfl,
    by decide!, eq_error_of_failure (by decide!), by decide!⟩
/-- C15 (the code fails it): `parse_function_call` is entered with the cursor
on `(` and expects `;` there, so it always ends in a fatal syntax error and the
statements after a call are never parsed: `func main() { x := 1; main(); y := 2; }`
fails, while the same body without the call parses. -/
theorem call_statement_not_consumed :
    (∀ (name : String) (s : Parser) (t : Token), tok s = .ok t → t.kind = .TOKEN_LPAREN →
      parse_function_call name s = .error .SyntaxError) ∧
    parse 16 prog_call_between start = .error .SyntaxError ∧
    (parse 16 prog_without_call start).toBool = true :=
  ⟨fun name _ _ ht hk => parse_function_call_fails name ht hk,
    eq_error_of_failure (by decide!), by decide!⟩

/-- C18 (the code fails it): the symbol of a parameter keeps the type `void`
it was inserted with, while the parameter's node records the declared type;
so in `func f(a: int) -> int { return a + 1; }` the reference `a` has type
`void` and `a + 1` is a TypeMismatch. -/
theorem parameter_symbol_keeps_void :
    failure (parse_function_declaration 16 (start.load prog_param_add)) =
      some .TypeMismatch ∧
    (parse_function_declaration 16 (start.load prog_param_return)).toOption.map
      (fun r => (param_types r.1,
        (symbol_table_lookup r.2.scopes (some 1) "a").map Symbol.type)) =
      some ([some ("a", primitive_types TYPE_INT)], some (primitive_types TYPE_VOID)) := by
  constructor <;> decide!

/-- C19 (the code fails it): after a declaration without initializer that
parses, whatever the declared type `T` on the node, the symbol has the type
`void` it was inserted with; so `x : int; y : int = x;` is a TypeMismatch. -/
theorem uninitialized_symbol_keeps_void :
    (∀ (fuel : Nat) (var_name : Option String) (s s' : Parser) (node : Node) (x : String)
      (T : Ty), parse_variable_declaration fuel var_name s = .ok (node, s') →
      node.data = .var_decl x T none →
      ∃ sym, local_symbol s' x = some sym ∧ sym.type = primitive_types TYPE_VOID) ∧
    (parse_loop 16 (start.load prog_uninitialized) []).toOption.map
      (fun r => (local_symbol r.2 "x").map Symbol.type) =
      some (some (primitive_types TYPE_VOID)) ∧
    failure (parse_loop 16 (start.load prog_uninitialized_then_used) []) =
      some .TypeMismatch := by
  refine ⟨?_, by decide!, by decide!⟩
  intro fuel var_name s s' node x T h hd
  obtain ⟨t, x', c, s0, cur, tbl, ty, init, s5, tw, ht, hform, hcur, htbl, hfind, hnode, htw,
    hcases, -, hsc, hc, -⟩ := parse_variable_declaration_inv h
  rw [hnode] at hd
  simp only [Node.data_setData, NodeData.var_decl.injEq] at hd
  obtain ⟨rfl, rfl, rfl⟩ := hd
  exact ⟨_, local_symbol_declared hcur htbl hfind rfl hsc hc, rfl⟩

/-- C20: expression-stack discipline. From a state whose expression stack is
empty, `parse_expression` is the same function, failures included, as the
single-slot rules `expression_single` (every push lands on an empty stack,
every pop finds exactly one node), so no run holds two nodes, takes the
type-propagating branch of `pop_expr_node`, or links a pushed node to another
one; when it returns, the stack is empty again and the node returned was the
only node on the stack before the final pop. Every statement of a block, and
every declaration, that starts on an empty stack ends on an empty stack. -/
theorem expression_stack_discipline (fuel : Nat) (s : Parser) (hs : s.stack_top = []) :
    parse_expression fuel s = expression_single fuel s ∧
    (∀ node s', parse_expression fuel s = .ok (node, s') →
      s'.stack_top = [] ∧
      ∃ s4, s4.stack_top = [node] ∧ pop_expr_node s4 = .ok (node, s')) ∧
    (∀ var_name node s', parse_variable_declaration fuel var_name s = .ok (node, s') →
      s'.stack_top = []) ∧
    (∀ r s', parse_identifier_stmt fuel s = .ok (r, s') → s'.stack_top = []) ∧
    (∀ r s', parse_conditional fuel s = .ok (r, s') → s'.stack_top = []) ∧
    (∀ r s', parse_return fuel s = .ok (r, s') → s'.stack_top = []) ∧
    (∀ body stmt body' stmt' s',
      parse_block_loop fuel s body stmt = .ok (body', stmt', s') → s'.stack_top = []) :=
  ⟨(expression_single_eq hs).symm,
    fun _ _ h => parse_expression_stack h hs,
    fun _ _ _ h => parse_variable_declaration_empty h hs,
    fun _ _ h => parse_identifier_stmt_empty h hs,
    fun _ _ h => (parse_block_group_empty fuel).1 _ _ _ h hs,
    fun _ _ h => parse_return_empty h hs,
    fun _ _ _ _ _ h => (parse_block_group_empty fuel).2.1 _ _ _ _ _ _ h hs⟩

theorem expression_stack_discipline_witness :
    (start.load expr_add_mul).stack_top = [] ∧
    (parse_expression 8 (start.load expr_add_mul)).toBool = true ∧
    (parse_expression 8 (start.load expr_add_mul) =
        expression_single 8 (start.load expr_add_mul) ∧
      (∀ node s', parse_expression 8 (start.load expr_add_mul) = .ok (node, s') →
        s'.stack_top = [] ∧
        ∃ s4, s4.stack_top = [node] ∧ pop_expr_node s4 = .ok (node, s')) ∧
      (∀ var_name node s',
        parse_variable_declaration 8 var_name (start.load expr_add_mul) = .ok (node, s') →
        s'.stack_top = []) ∧
      (∀ r s', parse_identifier_stmt 8 (start.load expr_add_mul) = .ok (r, s') →
        s'.stack_top = []) ∧
      (∀ r s', parse_conditional 8 (start.load expr_add_mul) = .ok (r, s') →
        s'.stack_top = []) ∧
      (∀ r s', parse_return 8 (start.load expr_add_mul) = .ok (r, s') → s'.stack_top = []) ∧
      (∀ body stmt body' stmt' s',
        parse_block_loop 8 (start.load expr_add_mul) body stmt = .ok (body', stmt', s') →
        s'.stack_top = [])) :=
  ⟨rfl, by decide!, expression_stack_discipline 8 (start.load expr_add_mul) rfl⟩

/-- C16: flat conditional chain. When the pieces of a chain
`if c1 {B1} elif c2 {B2} else {B3}` parse, the loop of `parse_block` appends
three conditional nodes to the list of the block, in source order and next to
each other: the node of `if` with `c1` and `B1`, the node of `elif` with `c2`
and `B2`, the node of `else` with no condition and `B3`, and what follows is
appended after them. Every conditional is appended whatever the list and the
last statement so far are, a node returned by `parse_conditional` has no
condition exactly for `else`, and a block that holds only an `elif` or only an
`else` parses to one conditional node. -/
theorem conditional_chain_flat (fuel : Nat) (s0 a1 s1 a2 s2 s3 : Parser) (t1 t2 t3 : Token)
    (c1 c2 : Node) (B1 B2 B3 body : List Node) (stmt : Option Node)
    (h1 : tok s0 = .ok t1) (k1 : t1.kind = .TOKEN_IF)
    (e1 : parse_expression (fuel + 2) s0.advance = .ok (c1, a1))
    (b1 : parse_block (fuel + 2) false a1 = .ok (B1, s1))
    (h2 : tok s1 = .ok t2) (k2 : t2.kind = .TOKEN_ELIF)
    (e2 : parse_expression (fuel + 1) s1.advance = .ok (c2, a2))
    (b2 : parse_block (fuel + 1) false a2 = .ok (B2, s2))
    (h3 : tok s2 = .ok t3) (k3 : t3.kind = .TOKEN_ELSE)
    (b3 : parse_block fuel false s2.advance = .ok (B3, s3)) :
    parse_block_loop (fuel + 4) s0 body stmt =
      parse_block_loop (fuel + 1) s3
        (body ++ [cond_node (some c1) B1, cond_node (some c2) B2, cond_node none B3])
        (some (cond_node none B3)) ∧
    (∀ body' stmt' s', parse_block_loop (fuel + 4) s0 body stmt = .ok (body', stmt', s') →
      ∃ rest, body' =
        body ++ [cond_node (some c1) B1, cond_node (some c2) B2, cond_node none B3] ++ rest) ∧
    (∀ (f : Nat) (s s' : Parser) (t : Token) (n : Node) (l : List Node) (last : Option Node),
      tok s = .ok t →
      t.kind = .TOKEN_IF ∨ t.kind = .TOKEN_ELIF ∨ t.kind = .TOKEN_ELSE →
      parse_conditional f s = .ok (some n, s') →
      parse_block_loop (f + 1) s l last = parse_block_loop f s' (l ++ [n]) (some n)) ∧
    (∀ (f : Nat) (s s' : Parser) (r : Option Node), parse_conditional f s = .ok (r, s') →
      ∃ (t : Token) (e : Option Node) (B : List Node), tok s = .ok t ∧
        r = some (cond_node e B) ∧ (e = none ↔ t.kind = .TOKEN_ELSE)) ∧
    (parse_block 6 false (start.load prog_lone_elif)).toOption.map
        (fun r => stmt_shapes r.1) = some [(.NODE_COND_STMT, some (true, 0))] ∧
    (parse_block 6 false (start.load prog_lone_else)).toOption.map
        (fun r => stmt_shapes r.1) = some [(.NODE_COND_STMT, some (false, 0))] := by
  have hchain : parse_block_loop (fuel + 4) s0 body stmt =
      parse_block_loop (fuel + 1) s3
        (body ++ [cond_node (some c1) B1, cond_node (some c2) B2, cond_node none B3])
        (some (cond_node none B3)) := by
    rw [parse_block_loop_conditional body stmt h1 (Or.inl k1)
        (parse_conditional_if h1 (Or.inl k1) e1 b1),
      parse_block_loop_conditional _ _ h2 (Or.inr (Or.inl k2))
        (parse_conditional_if h2 (Or.inr k2) e2 b2),
      parse_block_loop_conditional _ _ h3 (Or.inr (Or.inr k3))
        (parse_conditional_else h3 k3 b3)]
    simp
  refine ⟨hchain, ?_, ?_, ?_, by decide!, by decide!⟩
  · intro body' stmt' s' h
    rw [hchain] at h
    exact parse_block_loop_extends _ _ _ _ _ _ _ h
  · intro f s s' t n l last ht hk hc
    exact parse_block_loop_conditional l last ht hk hc
  · intro f s s' r h
    exact parse_conditional_inv h

theorem conditional_chain_flat_witness :
    parse_expression 4 (chain_at 0).advance = .ok (true_literal, chain_at 2) ∧
    parse_block 4 false (chain_at 2) = .ok ([], chain_at 4) ∧
    parse_expression 3 (chain_at 4).advance = .ok (true_literal, chain_at 6) ∧
    parse_block 3 false (chain_at 6) = .ok ([], chain_at 8) ∧
    parse_block 2 false (chain_at 8).advance = .ok ([], chain_at 11) ∧
    parse_block_loop 6 (chain_at 0) [] none =
      parse_block_loop 3 (chain_at 11)
        ([] ++ [cond_node (some true_literal) [], cond_node (some true_literal) [],
          cond_node none []])
        (some (cond_node none [])) ∧
    (parse_block_loop 6 (chain_at 0) [] none).toOption.map (fun r => stmt_shapes r.1) =
      some [(.NODE_COND_STMT, some (true, 0)), (.NODE_COND_STMT, some (true, 0)),
        (.NODE_COND_STMT, some (false, 0))] :=
  ⟨rfl, rfl, rfl, rfl, rfl,
    (conditional_chain_flat 2 (chain_at 0) (chain_at 2) (chain_at 4) (chain_at 6) (chain_at 8)
      (chain_at 11) (tk .TOKEN_IF) (tk .TOKEN_ELIF) (tk .TOKEN_ELSE) true_literal true_literal
      [] [] [] [] none rfl rfl rfl rfl rfl rfl rfl rfl rfl rfl rfl).1,
    by decide!⟩

/-- C14: precedence and associativity. When a first term `t0` parses, the
operand sequence after it (each loose operator `+`, `-`, `==`, `!=`, `<`, `>`,
`<=`, `>=` with the term parsed after it) is `l`, and every operand has the
type identity of `t0`, then `parse_expression` returns the left fold
`((t0 op1 t1) op2 t2) ... opn tn`; a term that parses extends up to a token
that is neither `*` nor `/`, so these bind tighter; and `1 + 2 * 3` parses as
`1 + (2 * 3)`, `1 * 2 + 3` as `(1 * 2) + 3`, `1 - 2 - 3` as `(1 - 2) - 3` and
`1 < 2 + 3` as `(1 < 2) + 3`. -/
theorem loose_operators_left_fold (fuel : Nat) (s s1 s' : Parser) (t0 : Node)
    (l : List (Token × Node))
    (h0 : parse_term fuel s = .ok s1) (h1 : s1.stack_top = [t0])
    (hl : loose_terms fuel (s1.setStack []) = .ok (l, s'))
    (hty : ∀ p ∈ l, p.2.type.id = t0.type.id) :
    parse_expression fuel s = .ok (left_fold t0 l, s') ∧
    (∀ (f : Nat) (a b : Parser), parse_term f a = .ok b →
      ∃ t, tok b = .ok t ∧ t.kind ≠ .TOKEN_STAR ∧ t.kind ≠ .TOKEN_SLASH) ∧
    parse_expression 8 (start.load expr_add_mul) =
      .ok (binary_node .BIN_ADD 1 1 (int_literal 1)
        (binary_node .BIN_MUL 1 1 (int_literal 2) (int_literal 3)), expr_at expr_add_mul 5) ∧
    parse_expression 8 (start.load expr_mul_add) =
      .ok (binary_node .BIN_ADD 1 1
        (binary_node .BIN_MUL 1 1 (int_literal 1) (int_literal 2)) (int_literal 3),
        expr_at expr_mul_add 5) ∧
    parse_expression 8 (start.load expr_sub_sub) =
      .ok (binary_node .BIN_SUB 1 1
        (binary_node .BIN_SUB 1 1 (int_literal 1) (int_literal 2)) (int_literal 3),
        expr_at expr_sub_sub 5) ∧
    parse_expression 8 (start.load expr_lt_add) =
      .ok (binary_node .BIN_ADD 1 1
        (binary_node .BIN_CMP_LT 1 1 (int_literal 1) (int_literal 2)) (int_literal 3),
        expr_at expr_lt_add 5) := by
  refine ⟨?_, fun f a b h => parse_term_stops h, rfl, rfl, rfl, rfl⟩
  cases ht : tok s with
  | error e =>
    cases fuel with
    | zero => simp [parse_term] at h0
    | succ f => simp [parse_term, parse_factor, consume, ht] at h0
  | ok t =>
    have hu := parse_term_first h0 ht
    have hloop := parse_expression_loop_fold fuel (s1.setStack []) t0 l s' rfl hl hty
    have e1 : (s1.setStack []).setStack [t0] = s1 := by
      cases s1
      simp only [Parser.setStack] at *
      simp [h1]
    rw [e1] at hloop
    have e2 : (s'.setStack [left_fold t0 l]).setStack [] = s' := by
      have h3 := loose_terms_stack fuel _ _ _ hl rfl
      cases s'
      simp only [Parser.setStack] at *
      simp [h3]
    simp [parse_expression, ht, hu, h0, hloop, bind, Except.bind,
      pop_singleton (rfl : (s'.setStack [left_fold t0 l]).stack_top = [left_fold t0 l]), e2]

theorem loose_operators_left_fold_witness :
    parse_term 8 (expr_at expr_add_mul 0) =
      .ok (push_expr_node (int_literal 1) (expr_at expr_add_mul 1)) ∧
    loose_terms 8 (expr_at expr_add_mul 1) =
      .ok ([(tk .TOKEN_PLUS, binary_node .BIN_MUL 1 1 (int_literal 2) (int_literal 3))],
        expr_at expr_add_mul 5) ∧
    parse_expression 8 (expr_at expr_add_mul 0) =
      .ok (left_fold (int_literal 1)
        [(tk .TOKEN_PLUS, binary_node .BIN_MUL 1 1 (int_literal 2) (int_literal 3))],
        expr_at expr_add_mul 5) :=
  ⟨rfl, rfl,
    (loose_operators_left_fold 8 (expr_at expr_add_mul 0)
      (push_expr_node (int_literal 1) (expr_at expr_add_mul 1)) (expr_at expr_add_mul 5)
      (int_literal 1)
      [(tk .TOKEN_PLUS, binary_node .BIN_MUL 1 1 (int_literal 2) (int_literal 3))]
      rfl rfl rfl
      (by intro p hp; rw [List.mem_singleton] at hp; rw [hp]; rfl)).1⟩

/-- C21: unary prefix operators. When the token at the cursor is `-`, `!` or
`*`, the term after it parses to `term`, and the loose operands after that
term are `l` (all of the type identity of `term`), then `parse_unary_expr`
does not fail on the state after the term, its node is `unary_node` over the
whole term and has the type of `term`, whatever that type is, and
`parse_expression` returns the left fold of `l` from that unary node. `! 5`
has type `int`, `- true` has type `bool`, `- 1 * 2` is the negation of
`1 * 2`, and `- 1 + 2` is `(- 1) + 2`. -/
theorem unary_keeps_operand_type (fuel : Nat) (s s1 s' : Parser) (t : Token) (term : Node)
    (l : List (Token × Node)) (ht : tok s = .ok t) (hu : unary_op t.kind ≠ .UN_UNKNOWN)
    (h0 : parse_term fuel s.advance = .ok s1) (h1 : s1.stack_top = [term])
    (hl : loose_terms fuel (s1.setStack []) = .ok (l, s'))
    (hty : ∀ p ∈ l, p.2.type.id = term.type.id) :
    parse_unary_expr (unary_op t.kind) t.line t.col s1 =
      .ok (unary_node (unary_op t.kind) t.line t.col term, s1.setStack []) ∧
    (unary_node (unary_op t.kind) t.line t.col term).type = term.type ∧
    parse_expression fuel s =
      .ok (left_fold (unary_node (unary_op t.kind) t.line t.col term) l, s') ∧
    parse_expression 8 (start.load expr_not_5) =
      .ok (unary_node .UN_NOT 1 1 (int_literal 5), expr_at expr_not_5 2) ∧
    (unary_node .UN_NOT 1 1 (int_literal 5)).type = primitive_types TYPE_INT ∧
    parse_expression 8 (start.load expr_neg_true) =
      .ok (unary_node .UN_NEG 1 1 true_literal, expr_at expr_neg_true 2) ∧
    (unary_node .UN_NEG 1 1 true_literal).type = primitive_types TYPE_BOOL ∧
    parse_expression 8 (start.load expr_neg_mul) =
      .ok (unary_node .UN_NEG 1 1 (binary_node .BIN_MUL 1 1 (int_literal 1) (int_literal 2)),
        expr_at expr_neg_mul 4) ∧
    parse_expression 8 (start.load expr_neg_add) =
      .ok (binary_node .BIN_ADD 1 1 (unary_node .UN_NEG 1 1 (int_literal 1)) (int_literal 2),
        expr_at expr_neg_add 4) := by
  have hun : parse_unary_expr (unary_op t.kind) t.line t.col s1 =
      .ok (unary_node (unary_op t.kind) t.line t.col term, s1.setStack []) := by
    simp [parse_unary_expr, pop_singleton h1, unary_node]
  refine ⟨hun, rfl, ?_, rfl, rfl, rfl, rfl, rfl, rfl⟩
  have hloop := parse_expression_loop_fold fuel (s1.setStack [])
    (unary_node (unary_op t.kind) t.line t.col term) l s' rfl hl hty
  have e2 : (s'.setStack [left_fold (unary_node (unary_op t.kind) t.line t.col term) l]).setStack []
      = s' := by
    have h3 := loose_terms_stack fuel _ _ _ hl rfl
    cases s'
    simp only [Parser.setStack] at *
    simp [h3]
  have hpush : push_expr_node (unary_node (unary_op t.kind) t.line t.col term) (s1.setStack []) =
      (s1.setStack []).setStack [unary_node (unary_op t.kind) t.line t.col term] := rfl
  simp only [Parser.setStack_setStack] at hloop e2 hpush
  simp [parse_expression, ht, hu, consume_of_tok ht, h0, hun, hpush, hloop, bind, Except.bind,
    Except.map, pop_singleton (rfl : (s'.setStack
      [left_fold (unary_node (unary_op t.kind) t.line t.col term) l]).stack_top = [_]), e2]

theorem unary_keeps_operand_type_witness :
    tok (expr_at expr_neg_add 0) = .ok (tk .TOKEN_MINUS) ∧
    parse_term 8 (expr_at expr_neg_add 0).advance =
      .ok (push_expr_node (int_literal 1) (expr_at expr_neg_add 2)) ∧
    loose_terms 8 (expr_at expr_neg_add 2) =
      .ok ([(tk .TOKEN_PLUS, int_literal 2)], expr_at expr_neg_add 4) ∧
    parse_expression 8 (expr_at expr_neg_add 0) =
      .ok (left_fold (unary_node .UN_NEG 1 1 (int_literal 1)) [(tk .TOKEN_PLUS, int_literal 2)],
        expr_at expr_neg_add 4) :=
  ⟨rfl, rfl, rfl,
    (unary_keeps_operand_type 8 (expr_at expr_neg_add 0)
      (push_expr_node (int_literal 1) (expr_at expr_neg_add 2)) (expr_at expr_neg_add 4)
      (tk .TOKEN_MINUS) (int_literal 1) [(tk .TOKEN_PLUS, int_literal 2)]
      rfl (by decide) rfl rfl rfl
      (by intro p hp; rw [List.mem_singleton] at hp; rw [hp]; rfl)).2.2.1⟩

/-- C22: chains of `*` and `/` nest to the right. When a first factor `f0`
parses, the factor sequence after it (each `*` or `/` with the factor parsed
after it) is `l`, and every factor has the type identity of `f0`, then
`parse_term` leaves the right fold `f0 op1 (f1 op2 (... opn fn))` on the
stack; `8 / 4 / 2` parses as `8 / (4 / 2)` and `8 * 4 / 2` as `8 * (4 / 2)`. -/
theorem products_nest_right (n fuel : Nat) (s s1 s' : Parser) (f0 : Node)
    (l : List (Token × Node))
    (h0 : parse_factor s = .ok s1) (h1 : s1.stack_top = [f0])
    (hl : tight_factors n (s1.setStack []) = .ok (l, s'))
    (hty : ∀ p ∈ l, p.2.type.id = f0.type.id) (hfuel : 3 * l.length + 2 ≤ fuel) :
    parse_term fuel s = .ok (s'.setStack [right_fold f0 l]) ∧
    parse_expression 10 (start.load expr_div_div) =
      .ok (binary_node .BIN_DIV 1 1 (int_literal 8)
        (binary_node .BIN_DIV 1 1 (int_literal 4) (int_literal 2)), expr_at expr_div_div 5) ∧
    parse_expression 10 (start.load expr_mul_div) =
      .ok (binary_node .BIN_MUL 1 1 (int_literal 8)
        (binary_node .BIN_DIV 1 1 (int_literal 4) (int_literal 2)), expr_at expr_mul_div 5) := by
  refine ⟨?_, rfl, rfl⟩
  obtain ⟨f, rfl⟩ : ∃ f, fuel = f + 1 := ⟨fuel - 1, by omega⟩
  have e : s1 = (s1.setStack []).setStack [f0] := by
    cases s1
    simp only [Parser.setStack] at *
    simp [h1]
  have hloop := parse_term_loop_fold n f (s1.setStack []) f0 l s' rfl hl hty (by omega)
  rw [← e] at hloop
  simp only [parse_term, h0]
  exact hloop

theorem products_nest_right_witness :
    parse_factor (expr_at expr_div_div 0) =
      .ok (push_expr_node (int_literal 8) (expr_at expr_div_div 1)) ∧
    tight_factors 3 (expr_at expr_div_div 1) =
      .ok ([(tk .TOKEN_SLASH, int_literal 4), (tk .TOKEN_SLASH, int_literal 2)],
        expr_at expr_div_div 5) ∧
    parse_term 8 (expr_at expr_div_div 0) =
      .ok ((expr_at expr_div_div 5).setStack [right_fold (int_literal 8)
        [(tk .TOKEN_SLASH, int_literal 4), (tk .TOKEN_SLASH, int_literal 2)]]) :=
  ⟨rfl, rfl,
    (products_nest_right 3 8 (expr_at expr_div_div 0)
      (push_expr_node (int_literal 8) (expr_at expr_div_div 1)) (expr_at expr_div_div 5)
      (int_literal 8) [(tk .TOKEN_SLASH, int_literal 4), (tk .TOKEN_SLASH, int_literal 2)]
      rfl rfl rfl
      (by
        intro p hp
        simp only [List.mem_cons, List.mem_singleton, List.not_mem_nil, or_false] at hp
        rcases hp with rfl | rfl <;> rfl)
      (by decide)).1⟩

/-- C23: an assignment `n = e;` that parses leaves the heap of scopes as it
was (every scope, every symbol and every field of it), the active and the
global scope too, so every lookup gives what it gave before; `const x := 1;
x = 2;` parses and `x` stays constant, and after `x : int; x = 2;` the flag
`is_initialized` of `x` is still false. -/
theorem assignment_keeps_symbols (fuel : Nat) (n : String) (s s' : Parser) (r : Option Node)
    (h : parse_variable_assignment fuel n s = .ok (r, s')) :
    s'.scopes = s.scopes ∧ s'.current_scope = s.current_scope ∧
    s'.global_scope = s.global_scope ∧
    (∀ (scope : Option Nat) (name : String),
      symbol_table_lookup s'.scopes scope name = symbol_table_lookup s.scopes scope name) ∧
    symbol_flags 1 "x" (parse 16 prog_assign_const start) = some (some (true, true)) ∧
    symbol_flags 1 "x" (parse 16 prog_assign_uninitialized start) =
      some (some (false, false)) := by
  have hs := parse_variable_assignment_same h
  refine ⟨hs.scopes, hs.current_scope, hs.global_scope, ?_, by decide!, by decide!⟩
  intro scope name
  rw [hs.scopes]

theorem assignment_keeps_symbols_witness :
    ∃ r s', parse_variable_assignment 8 "b" state_assign_b = .ok (r, s') ∧
      s'.scopes = state_assign_b.scopes ∧ s'.current_scope = state_assign_b.current_scope ∧
      s'.global_scope = state_assign_b.global_scope := by
  obtain ⟨⟨r, s'⟩, hd, -⟩ := exists_ok_of_check
    (x := parse_variable_assignment 8 "b" state_assign_b) (fun _ => true) (by decide!)
  have h := assignment_keeps_symbols 8 "b" state_assign_b s' r hd
  exact ⟨r, s', hd, h.1, h.2.1, h.2.2.1⟩

/-- C24: the name of a function is bound in the scope of the function before
its parameters and its body are parsed. In every state whose active scope does
not bind `f`, the declaration `func f(f: int) { }` and the declaration
`func f() { f := 2; }` both fail with Redeclaration; `func f(a: int) { }`
parses. -/
theorem own_name_is_redeclared (fuel : Nat) (f : String) (s : Parser) (cur : Nat)
    (tbl : SymbolTable) (rest : List Token)
    (hcur : s.current_scope = some cur) (htbl : s.scopes[cur]? = some tbl)
    (hfresh : tbl.find f = none) :
    (s.stream.drop s.stream_pos = func_with_param f f ++ rest →
      parse_function_declaration (fuel + 1) s = .error .Redeclaration) ∧
    (s.stream.drop s.stream_pos = func_with_local f f ++ rest →
      parse_function_declaration (fuel + 3) s = .error .Redeclaration) ∧
    (parse_function_declaration 8
      (start.load (func_with_param "f" "a" ++ [tk .TOKEN_EOF]))).toBool = true := by
  have hlt := lt_length_of_getElem? htbl
  obtain ⟨sE, hsE⟩ : ∃ sE, sE = enter_scope s.scopes.length
    (s.advance.advance.setScopes (function_entry_scopes s.scopes cur tbl f)) := ⟨_, rfl⟩
  have hEs : sE.stream = s.stream := by rw [hsE]; rfl
  have hEp : sE.stream_pos = s.stream_pos + 2 := by rw [hsE]; rfl
  have hEc : sE.current_scope = some s.scopes.length := by rw [hsE]; rfl
  have hEn : sE.scopes[s.scopes.length]? =
      some ⟨f, [Symbol.fresh f .SYMBOL_FUNCTION], some cur, []⟩ := by
    rw [hsE]; exact function_entry_scopes_new f hlt
  have hmem : Symbol.fresh f .SYMBOL_FUNCTION ∈
      (⟨f, [Symbol.fresh f .SYMBOL_FUNCTION], some cur, []⟩ : SymbolTable).symbols :=
    List.mem_singleton.2 rfl
  refine ⟨?_, ?_, by decide!⟩
  · intro hstream
    have t0 : tok s = .ok (tk .TOKEN_FUNC) := tok_of_drop 0 hstream rfl rfl rfl
    have t1 : tok s.advance = .ok (ident f) := tok_of_drop 1 hstream rfl rfl rfl
    have t2 : tok s.advance.advance = .ok (tk .TOKEN_LPAREN) :=
      tok_of_drop 2 hstream rfl rfl rfl
    have t3 : tok sE.advance = .ok (ident f) := tok_of_drop 3 hstream hEs (by simp [hEp]) rfl
    have t4 : tok sE.advance.advance = .ok (tk .TOKEN_COLON) :=
      tok_of_drop 4 hstream hEs (by simp [hEp]) rfl
    have hins : scope_insert sE.scopes (some s.scopes.length) f
        .SYMBOL_VARIABLE = .ok none :=
      scope_insert_declared _ hEn hmem rfl
    have hpar : parse_params_loop (fuel + 1) s.scopes.length sE.advance [] =
        .error .Redeclaration := by
      simp [parse_params_loop, t3, ident, expect_of_tok (k := .TOKEN_IDENTIFIER) t3 rfl, hins,
        t4, bind, Except.bind]
    refine parse_function_declaration_fails hcur htbl hfresh t0 t1 t2 ?_
    rw [← hsE, hpar]
    rfl
  · intro hstream
    have t0 : tok s = .ok (tk .TOKEN_FUNC) := tok_of_drop 0 hstream rfl rfl rfl
    have t1 : tok s.advance = .ok (ident f) := tok_of_drop 1 hstream rfl rfl rfl
    have t2 : tok s.advance.advance = .ok (tk .TOKEN_LPAREN) :=
      tok_of_drop 2 hstream rfl rfl rfl
    have t3 : tok sE.advance = .ok (tk .TOKEN_RPAREN) :=
      tok_of_drop 3 hstream hEs (by simp [hEp]) rfl
    have t4 : tok sE.advance.advance = .ok (tk .TOKEN_LBRACE) :=
      tok_of_drop 4 hstream hEs (by simp [hEp]) rfl
    have t5 : tok sE.advance.advance.advance = .ok (ident f) :=
      tok_of_drop 5 hstream hEs (by simp [hEp]) rfl
    have t6 : tok sE.advance.advance.advance.advance = .ok (tk .TOKEN_WALRUS) :=
      tok_of_drop 6 hstream hEs (by simp [hEp]) rfl
    have hpar : parse_params_loop (fuel + 3) s.scopes.length sE.advance [] =
        .ok ([], sE.advance) := by
      simp [parse_params_loop, t3, tk, bind, Except.bind, pure, Except.pure]
    have harrow : match_ .TOKEN_ARROW sE.advance.advance = .ok (false, sE.advance.advance) :=
      match_of_tok_ne t4 (by decide)
    have hblock : parse_block (fuel + 3) true sE.advance.advance = .error .Redeclaration :=
      @parse_block_redeclared (fuel + 1) true sE.advance.advance f s.scopes.length _ _ _ _ _
        hEc hEn hmem rfl t4 rfl t5 rfl rfl t6 (Or.inl rfl)
    refine parse_function_declaration_fails hcur htbl hfresh t0 t1 t2 ?_
    rw [← hsE, hpar]
    simp [expect_of_tok (k := .TOKEN_RPAREN) t3 rfl, harrow, hblock, bind, Except.bind]

theorem own_name_is_redeclared_witness :
    parse_function_declaration 1
        (start.load (func_with_param "f" "f" ++ [tk .TOKEN_EOF])) = .error .Redeclaration ∧
    parse_function_declaration 3
        (start.load (func_with_local "f" "f" ++ [tk .TOKEN_EOF])) = .error .Redeclaration :=
  ⟨(own_name_is_redeclared 0 "f" (start.load (func_with_param "f" "f" ++ [tk .TOKEN_EOF])) 0
      global_types [tk .TOKEN_EOF] rfl rfl rfl).1 rfl,
    (own_name_is_redeclared 0 "f" (start.load (func_with_local "f" "f" ++ [tk .TOKEN_EOF])) 0
      global_types [tk .TOKEN_EOF] rfl rfl rfl).2.1 rfl⟩

/-- C17: totality on end-of-stream terminated input. For a token vector whose
last token is the end-of-stream token, a cursor inside it, an empty expression
stack and a global scope of the heap, `parse` with fuel of at least twice the
length of the vector plus one comes back: with an AST, the cursor not before
where it was and on an end-of-stream token of the vector, or with a diagnostic
of `fatal`; never for lack of fuel and never by a read outside the vector
(`Fatal.Crash`). With fuel of twice what is left of the vector, every
iteration body that does not fail moves the cursor forward inside the vector:
a top-level declaration and a statement of a block by at least one token, one
parameter by three, an operator with its right operand (the iteration of the
loops of `parse_term` and `parse_expression`) by at least two. -/
theorem parse_terminates (fuel : Nat) (tokens : List Token) (s : Parser)
    (heof : eof_terminated tokens) (hpos : s.stream_pos < tokens.length)
    (hs : s.stack_top = []) (hg : s.global_scope < s.scopes.length)
    (hf : 2 * tokens.length + 1 ≤ fuel) :
    ((∃ ast s', parse fuel tokens s = .ok (ast, s') ∧ s'.stream = tokens ∧
        s.stream_pos ≤ s'.stream_pos ∧ ∃ t, tok s' = .ok t ∧ t.kind = .TOKEN_EOF) ∨
      (∃ e, parse fuel tokens s = .error e ∧ e ≠ .Crash ∧ e ≠ .OutOfFuel)) ∧
    (∀ (f : Nat) (a : Parser) (t : Token), InStream a → tok a = .ok t →
      t.kind ≠ .TOKEN_EOF → a.stack_top = [] → ScopeOK a →
      2 * (a.stream.length - a.stream_pos) ≤ f →
      Outcome (fun r => Step 1 a r.2) (parse_function_declaration f a) ∧
      Outcome (fun r => Step 1 a r.2) (parse_identifier_stmt f a) ∧
      Outcome (fun r => Step 1 a r.2) (parse_return f a)) ∧
    (∀ (f : Nat) (var_name : Option String) (a : Parser), InStream a →
      a.stack_top = [] → ScopeOK a → 2 * (a.stream.length - a.stream_pos) ≤ f →
      Outcome (fun r => Step 1 a r.2) (parse_variable_declaration f var_name a) ∧
      Outcome (fun r => Step 1 a r.2) (parse_conditional f a)) ∧
    (∀ (f fs : Nat) (a a' : Parser) (t : Token) (params ps : List Node),
      tok a = .ok t → t.kind ≠ .TOKEN_RPAREN →
      parse_params_loop (f + 1) fs a params = .ok (ps, a') →
      ∃ a1, a1.stream_pos = a.stream_pos + 3 ∧
        (a' = a1 ∨ ∃ node, parse_params_loop f fs a1.advance (params ++ [node]) =
          .ok (ps, a'))) ∧
    (∀ (f : Nat) (bin_op : BinaryOp) (line col : Nat) (a : Parser) (t : Token) (lhs : Node),
      InStream a → tok a = .ok t → t.kind ≠ .TOKEN_EOF → a.stack_top = [lhs] →
      2 * (a.stream.length - a.stream_pos) ≤ f + 1 →
      Outcome (fun r => Step 2 a r.2) (parse_binary_expr f bin_op line col a.advance)) := by
  refine ⟨?_, ?_, ?_, ?_, ?_⟩
  · have h := @parse_total fuel tokens s heof hpos hs hg hf
    cases hp : parse fuel tokens s with
    | error e =>
      rw [hp] at h
      exact Or.inr ⟨e, rfl, h⟩
    | ok r =>
      rw [hp] at h
      exact Or.inl ⟨r.1, r.2, rfl, h⟩
  · intro f a t hin ht hk hsa hsc hfa
    exact ⟨parse_function_declaration_total hin ht hk hsa hsc hfa,
      parse_identifier_stmt_total hin ht hk hsa hsc hfa,
      parse_return_total hin ht hk hsa hfa⟩
  · intro f var_name a hin hsa hsc hfa
    exact ⟨parse_variable_declaration_total hin hsa hsc hfa,
      (block_group_total f).1 a hin hsa hsc hfa⟩
  · intro f fs a a' t params ps ht hk h
    exact parse_params_loop_iteration ht hk h
  · intro f bin_op line col a t lhs hin ht hk hsa hfa
    have hadv := Step.one_token hin ht hk
    have hrem := hadv.remaining
    refine ((term_group_total f).1 bin_op line col a.advance lhs (hadv.instream hin) hsa
      (by omega)).imp ?_
    intro r _ hr
    exact hadv.chain hr

theorem parse_terminates_witness :
    eof_terminated prog_main_empty ∧
    (parse 15 prog_main_empty start).toBool = true ∧
    ((∃ ast s', parse 15 prog_main_empty start = .ok (ast, s') ∧ s'.stream = prog_main_empty ∧
        start.stream_pos ≤ s'.stream_pos ∧ ∃ t, tok s' = .ok t ∧ t.kind = .TOKEN_EOF) ∨
      (∃ e, parse 15 prog_main_empty start = .error e ∧ e ≠ .Crash ∧ e ≠ .OutOfFuel)) :=
  ⟨⟨tk .TOKEN_EOF, rfl, rfl⟩, by decide!,
    (parse_terminates 15 prog_main_empty start ⟨tk .TOKEN_EOF, rfl, rfl⟩ (by decide) rfl
      (by decide) (by decide)).1⟩

end Mini
